import Mathlib

/-!
# MultiLocus: the genotype matrix, its constrained shuffle and the distance statistics

A shallow embedding of `MultiLocusModel` (src/MultiLocusModel.h, src/MultiLocusModel.cpp).
Vectors are lists, `int`/`UInt` counters and indices are natural numbers or integers,
and the member data of the model is a structure that every operation passes on
explicitly.
-/

namespace MultiLocus

/-! ## Data model (MultiLocusModel.h) -/

/-- Type-safety for the haploid versus diploid question. -/
inductive ploidy_t where
  | kPloidy_None
  | kPloidy_Haploid
  | kPloidy_Diploid
  deriving DecidableEq, Repr

/-- Allow ambiguity in distances or not. -/
inductive distance_t where
  | kDistance_Strict
  | kDistance_Relaxed
  deriving DecidableEq, Repr

/-- Behaviour of missing alleles under shuffling. -/
inductive missing_t where
  | kMissing_Fixed
  | kMissing_Free
  deriving DecidableEq, Repr

/-- Haploid allele state: `typedef string tAllele`. -/
abbrev tAllele := String

/-- Diploid allele state. The field `transNumDTypes` is a `char` in the source; it is
kept as its character code. -/
structure tAllelePair where
  alleleA : String
  alleleB : String
  transNumDTypes : Nat
  deriving DecidableEq, Repr, Inhabited

/-- The source's `MATRIX(X)`, a vector of rows. -/
abbrev MATRIX (X : Type) := List (List X)

def kSymbol_Unknown : String := "?"

def kSymbol_Gap : String := "-"

/-! ## Primitives (MultiLocusModel.cpp, "PRIMITIVES") -/

/-- `std::string::c_str ()` as a C string is read: the characters before the first NUL
character of the string. -/
def c_str (s : String) : String := String.mk (s.data.takeWhile (fun c => c != Char.ofNat 0))

/-- `MultiLocusModel::IsMissing (const char*)` on the characters of a C string: the symbol
is one of the two missing markers. -/
def IsMissingCStr (ikSymbol : String) : Bool :=
  if kSymbol_Unknown = ikSymbol then true
  else if kSymbol_Gap = ikSymbol then true
  else false

/-- `MultiLocusModel::IsMissing (const string&)`: `IsMissing (ikSymbol.c_str ())`. The
test reads the allele up to its first NUL character. -/
def IsMissing (ikSymbol : String) : Bool := IsMissingCStr (c_str ikSymbol)

/-- `MultiLocusModel::Distance (tAllele, tAllele)`, the haploid relaxed distance. -/
def Distance (iChar1 iChar2 : tAllele) : Int :=
  if IsMissing iChar1 || IsMissing iChar2 || (iChar1 == iChar2) then 0 else 1

/-- `MultiLocusModel::Distance (tAllelePair, tAllelePair)`, the diploid relaxed
distance. -/
def DistancePair (iChar1 iChar2 : tAllelePair) : Int :=
  if ((IsMissing iChar1.alleleA || IsMissing iChar2.alleleA ||
        (iChar1.alleleA == iChar2.alleleA)) && (IsMissing iChar1.alleleB ||
        IsMissing iChar2.alleleB || (iChar1.alleleB == iChar2.alleleB)))
      || ((IsMissing iChar1.alleleA || IsMissing iChar2.alleleB ||
        (iChar1.alleleA == iChar2.alleleB)) && (IsMissing iChar1.alleleB ||
        IsMissing iChar2.alleleA || (iChar1.alleleB == iChar2.alleleA))) then
    0
  else if (!IsMissing iChar1.alleleA) && (!IsMissing iChar2.alleleA) &&
      (!IsMissing iChar1.alleleB) && (!IsMissing iChar2.alleleB) &&
      (iChar1.alleleA != iChar2.alleleA) &&
      (iChar1.alleleA != iChar2.alleleB) &&
      (iChar1.alleleB != iChar2.alleleA) &&
      (iChar1.alleleB != iChar2.alleleB) then
    2
  else
    1

/-- `MultiLocusModel::StrictDistance (tAllele, tAllele)`. -/
def StrictDistance (iChar1 iChar2 : tAllele) : Int :=
  if IsMissing iChar1 || IsMissing iChar2 then 1
  else if iChar1 == iChar2 then 0
  else 1

/-- `MultiLocusModel::StrictDistance (tAllelePair, tAllelePair)`. -/
def StrictDistancePair (iChar1 iChar2 : tAllelePair) : Int :=
  if StrictDistance iChar1.alleleA iChar2.alleleA = 0 then
    if StrictDistance iChar1.alleleB iChar2.alleleB = 0 then 0 else 1
  else if StrictDistance iChar1.alleleA iChar2.alleleB = 0 then
    if StrictDistance iChar1.alleleB iChar2.alleleA = 0 then 0 else 1
  else if StrictDistance iChar1.alleleB iChar2.alleleA = 0 then 1
  else if StrictDistance iChar1.alleleB iChar2.alleleB = 0 then 1
  else 2

/-! ## Collaborators: the partition and the random number service -/

/-- Modelled from the spec: the class `Partition` (Partition.h is not among the
sources). A partition is an ordered sequence of contiguous index ranges over
`[0, N)`; `mParts` lists the inclusive 0-based bounds `(start, end)` of its blocks in
order. -/
structure Partition where
  mNumElements : Nat := 0
  mParts : List (Nat × Nat) := []
  deriving DecidableEq, Repr

namespace Partition

/-- Modelled from the spec: `numParts()`, the number of blocks. -/
def GetNumParts (p : Partition) : Nat := p.mParts.length

/-- Modelled from the spec: `bounds(i) -> (start, end)`, the inclusive 0-based range of
block `i`. -/
def GetBounds (p : Partition) (i : Nat) : Nat × Nat := p.mParts.getD i (0, 0)

/-- Modelled from the spec: fixes the number `N` of partitioned elements. -/
def SetNumElements (p : Partition) (n : Nat) : Partition := { p with mNumElements := n }

/-- Modelled from the spec: `mergeAll`, a single range. -/
def MergeAll (p : Partition) : Partition :=
  { p with mParts := [(0, p.mNumElements - 1)] }

/-- Modelled from the spec: `splitAll`, `N` singleton ranges. -/
def SplitAll (p : Partition) : Partition :=
  { p with mParts := (List.range p.mNumElements).map (fun i => (i, i)) }

/-- The blocks `parts` are non-empty, contiguous and in order, starting at `start` and
ending just before `stop`. -/
def ChainFrom : Nat → List (Nat × Nat) → Nat → Prop
  | start, [], stop => start = stop
  | start, b :: rest, stop => b.1 = start ∧ b.1 ≤ b.2 ∧ ChainFrom (b.2 + 1) rest stop

instance instDecidableChainFrom :
    (start : Nat) → (parts : List (Nat × Nat)) → (stop : Nat) →
      Decidable (ChainFrom start parts stop)
  | start, [], stop => by unfold ChainFrom; exact inferInstance
  | start, b :: rest, stop => by
      unfold ChainFrom
      have := instDecidableChainFrom (b.2 + 1) rest stop
      exact inferInstance

/-- The partition invariant of the spec: the ranges partition `[0, N)` exactly. -/
def Valid (p : Partition) (n : Nat) : Prop := ChainFrom 0 p.mParts n

instance (p : Partition) (n : Nat) : Decidable (p.Valid n) := by
  unfold Valid; exact inferInstance

end Partition

/-- The random number service as the shuffling code sees it: `gen k n` stands for the
whole number `long (Generate () * double (n))` that `Uniform (long)` returns when it
makes the `k`-th call of `Generate`, and `calls` counts the calls made so far. The
generator itself (`SetSeed`, `Generate`) is embedded further down, where
`RandomService.ofSeed` gives the service of a seed. -/
structure RandomService where
  gen : Nat → Nat → Nat
  calls : Nat := 0

namespace RandomService

/-- `RandomService::Uniform (long iNumChoices)`. -/
def Uniform (r : RandomService) (iNumChoices : Nat) : Nat × RandomService :=
  (r.gen r.calls iNumChoices, { r with calls := r.calls + 1 })

/-- `RandomService::Uniform (long iFloor, long iCeiling)`. -/
def UniformRange (r : RandomService) (iFloor iCeiling : Nat) : Nat × RandomService :=
  ((r.Uniform (iCeiling - iFloor + 1)).1 + iFloor, (r.Uniform (iCeiling - iFloor + 1)).2)

/-- `RandomService::UniformWhole (long iFloor, long iCeiling)`. -/
def UniformWhole (r : RandomService) (iFloor iCeiling : Nat) : Nat × RandomService :=
  r.UniformRange iFloor iCeiling

/-- The documented contract of `Uniform (long)`: "Returns a long from the interval
0 -> (iNumChoices-1) inclusive". -/
def InRange (r : RandomService) : Prop := ∀ k n, 0 < n → r.gen k n < n

end RandomService

/-! ## The model -/

/-- Member data of `MultiLocusModel`. The data pointers are held as matrices, a null
pointer being the empty matrix; the defaults are the state the constructor leaves. -/
structure MultiLocusModel where
  mNumPairsIsolates : Nat := 0
  mNumPairsSites : Nat := 0
  mIsDataRankable : Bool := true
  mDiploTrans : List tAllelePair := []
  mStepMatrix : List (List Int) := []
  mLinkages : Partition := {}
  mPops : Partition := {}
  mExcludeLoci : Bool := false
  mExcludeIso : Bool := false
  mDoMissingShuffle : missing_t := missing_t.kMissing_Free
  mPloidy : ploidy_t := ploidy_t.kPloidy_None
  mHaploData : MATRIX tAllele := []
  mDiploData : MATRIX tAllelePair := []
  mBackupHaploData : MATRIX tAllele := []
  mBackupDiploData : MATRIX tAllelePair := []
  mOriginalHaploData : MATRIX tAllele := []
  mOriginalDiploData : MATRIX tAllelePair := []
  mRng : RandomService := { gen := fun _ _ => 0 }

/-- Reading `(*m)[i][k]`. -/
def cellAt {X : Type} [Inhabited X] (m : MATRIX X) (i k : Nat) : X :=
  (m.getD i []).getD k default

/-- Writing `(*m)[i][k] = v`. -/
def cellPut {X : Type} (m : MATRIX X) (i k : Nat) (v : X) : MATRIX X :=
  m.set i ((m.getD i []).set k v)

namespace MultiLocusModel

/-- `MultiLocusModel::GetPloidy`. -/
def GetPloidy (s : MultiLocusModel) : ploidy_t := s.mPloidy

/-- `MultiLocusModel::GetNumRows`. -/
def GetNumRows (s : MultiLocusModel) : Nat :=
  if s.GetPloidy = ploidy_t.kPloidy_Haploid then s.mHaploData.length
  else s.mDiploData.length

/-- `MultiLocusModel::GetNumCols`. -/
def GetNumCols (s : MultiLocusModel) : Nat :=
  if s.GetPloidy = ploidy_t.kPloidy_Haploid then (s.mHaploData.getD 0 []).length
  else (s.mDiploData.getD 0 []).length

/-- `MultiLocusModel::IsMissing (UInt iRowIndex, UInt iColIndex)`: is the allele (or
allele pair) at this location missing any data? -/
def IsMissingAt (s : MultiLocusModel) (iRowIndex iColIndex : Nat) : Bool :=
  if s.GetPloidy = ploidy_t.kPloidy_Haploid then
    if IsMissing (cellAt s.mHaploData iRowIndex iColIndex) then true else false
  else
    if IsMissing (cellAt s.mDiploData iRowIndex iColIndex).alleleA then true
    else if IsMissing (cellAt s.mDiploData iRowIndex iColIndex).alleleB then true
    else false

/-- `MultiLocusModel::BackupWorkingData`. -/
def BackupWorkingData (s : MultiLocusModel) : MultiLocusModel :=
  match s.GetPloidy with
  | ploidy_t.kPloidy_Haploid => { s with mBackupHaploData := s.mHaploData }
  | ploidy_t.kPloidy_Diploid => { s with mBackupDiploData := s.mDiploData }
  | ploidy_t.kPloidy_None => s

/-- `MultiLocusModel::RestoreWorkingData`. -/
def RestoreWorkingData (s : MultiLocusModel) : MultiLocusModel :=
  match s.GetPloidy with
  | ploidy_t.kPloidy_Haploid => { s with mHaploData := s.mBackupHaploData }
  | ploidy_t.kPloidy_Diploid => { s with mDiploData := s.mBackupDiploData }
  | ploidy_t.kPloidy_None => s

/-- `MultiLocusModel::DetermineDimensions`, without the rankability flag. -/
def DetermineDimensions (s : MultiLocusModel) : MultiLocusModel :=
  { s with
    mLinkages := (s.mLinkages.SetNumElements s.GetNumCols).SplitAll
    mPops := (s.mPops.SetNumElements s.GetNumRows).MergeAll
    mNumPairsSites := s.GetNumCols * (s.GetNumCols - 1) / 2
    mNumPairsIsolates := s.GetNumRows * (s.GetNumRows - 1) / 2 }

/-! ### Shuffling ("SHUFFLING OPS") -/

/-- `MultiLocusModel::SwapAllele`: exchange the alleles at `iAllelePosn` between the
isolates `iFromIso` and `iToIso`. -/
def SwapAllele (s : MultiLocusModel) (iAllelePosn iFromIso iToIso : Nat) :
    MultiLocusModel :=
  if s.mDoMissingShuffle = missing_t.kMissing_Fixed ∧
      (s.IsMissingAt iFromIso iAllelePosn ∨ s.IsMissingAt iToIso iAllelePosn) then
    s
  else if s.GetPloidy = ploidy_t.kPloidy_Diploid then
    { s with
      mDiploData :=
        cellPut (cellPut s.mDiploData iFromIso iAllelePosn
            (cellAt s.mDiploData iToIso iAllelePosn))
          iToIso iAllelePosn (cellAt s.mDiploData iFromIso iAllelePosn) }
  else
    { s with
      mHaploData :=
        cellPut (cellPut s.mHaploData iFromIso iAllelePosn
            (cellAt s.mHaploData iToIso iAllelePosn))
          iToIso iAllelePosn (cellAt s.mHaploData iFromIso iAllelePosn) }

/-- The body of the isolate loop of `ShuffleBlock`, for the isolate `i`. -/
def ShuffleBlockStep (iFromAllele iToAllele iFromIso iToIso : Nat)
    (s : MultiLocusModel) (i : Nat) : MultiLocusModel :=
  if (s.mRng.UniformWhole iFromIso iToIso).1 ≠ i then
    (List.range' iFromAllele (iToAllele + 1 - iFromAllele)).foldl
      (fun t j => t.SwapAllele j i (s.mRng.UniformWhole iFromIso iToIso).1)
      { s with mRng := (s.mRng.UniformWhole iFromIso iToIso).2 }
  else
    { s with mRng := (s.mRng.UniformWhole iFromIso iToIso).2 }

/-- `MultiLocusModel::ShuffleBlock`: shuffle the block of alleles within the range of
isolates given. -/
def ShuffleBlock (s : MultiLocusModel) (iFromAllele iToAllele iFromIso iToIso : Nat) :
    MultiLocusModel :=
  (List.range' iFromIso (iToIso + 1 - iFromIso)).foldl
    (ShuffleBlockStep iFromAllele iToAllele iFromIso iToIso) s

/-- `MultiLocusModel::ShufflePop`: a population of size 1 is left alone, otherwise each
linkage group is shuffled. -/
def ShufflePop (s : MultiLocusModel) (iFrom iTo : Nat) : MultiLocusModel :=
  if iFrom = iTo then s
  else
    (List.range s.mLinkages.GetNumParts).foldl
      (fun t i => t.ShuffleBlock (t.mLinkages.GetBounds i).1 (t.mLinkages.GetBounds i).2
        iFrom iTo) s

/-- `MultiLocusModel::ShuffleDataset`. -/
def ShuffleDataset (s : MultiLocusModel) : MultiLocusModel :=
  (List.range s.mPops.GetNumParts).foldl
    (fun t i => t.ShufflePop (t.mPops.GetBounds i).1 (t.mPops.GetBounds i).2) s

end MultiLocusModel

/-- The spec's "matches when a missing allele matches anything": the comparison of two
alleles with missing data as a wildcard. -/
def wildMatch (x y : String) : Prop := IsMissing x = true ∨ IsMissing y = true ∨ x = y

instance (x y : String) : Decidable (wildMatch x y) := by
  unfold wildMatch; exact inferInstance

/-- None of the four alleles of the two pairs tests as a missing symbol. -/
def noneMissing (p q : tAllelePair) : Prop :=
  IsMissing p.alleleA = false ∧ IsMissing p.alleleB = false ∧
    IsMissing q.alleleA = false ∧ IsMissing q.alleleB = false

instance (p q : tAllelePair) : Decidable (noneMissing p q) := by
  unfold noneMissing; exact inferInstance

/-- The pairing of the two alleles of `p` with those of `q` in either order matches with
missing data as a wildcard. -/
def pairingMatches (p q : tAllelePair) : Prop :=
  (wildMatch p.alleleA q.alleleA ∧ wildMatch p.alleleB q.alleleB) ∨
    (wildMatch p.alleleA q.alleleB ∧ wildMatch p.alleleB q.alleleA)

instance (p q : tAllelePair) : Decidable (pairingMatches p q) := by
  unfold pairingMatches; exact inferInstance

/-- Each allele of `p` differs from both alleles of `q`. -/
def allFourDiffer (p q : tAllelePair) : Prop :=
  p.alleleA ≠ q.alleleA ∧ p.alleleA ≠ q.alleleB ∧
    p.alleleB ≠ q.alleleA ∧ p.alleleB ≠ q.alleleB

instance (p q : tAllelePair) : Decidable (allFourDiffer p q) := by
  unfold allFourDiffer; exact inferInstance

/-- Equality of two diploid cells as unordered pairs of alleles. -/
def sameUnordered (p q : tAllelePair) : Prop :=
  (p.alleleA = q.alleleA ∧ p.alleleB = q.alleleB) ∨
    (p.alleleA = q.alleleB ∧ p.alleleB = q.alleleA)

instance (p q : tAllelePair) : Decidable (sameUnordered p q) := by
  unfold sameUnordered; exact inferInstance

/-! ## The shuffle seen on one matrix

The same loops as `SwapAllele`, `ShuffleBlock`, `ShufflePop` and `ShuffleDataset`, written
for one matrix of cells and the random number service alone. `fixed` says that the
missing-data policy is `kMissing_Fixed` and `miss` is the test of a cell for missing
data. The model's operations are shown below to act on the matrix of the current
ploidy exactly as these do. -/

/-- The missing-data test of a diploid cell: either allele tests as a missing symbol. -/
def IsMissingPair (p : tAllelePair) : Bool :=
  if IsMissing p.alleleA then true
  else if IsMissing p.alleleB then true
  else false

/-- The swap of `SwapAllele` takes place at locus `k` between isolates `i` and `j`. -/
def swapEnabled {X : Type} [Inhabited X] (fixed : Bool) (miss : X → Bool) (m : MATRIX X)
    (k i j : Nat) : Bool :=
  !(fixed && (miss (cellAt m i k) || miss (cellAt m j k)))

/-- `SwapAllele` on one matrix. -/
def gSwap {X : Type} [Inhabited X] (fixed : Bool) (miss : X → Bool) (m : MATRIX X)
    (k i j : Nat) : MATRIX X :=
  if swapEnabled fixed miss m k i j then
    cellPut (cellPut m i k (cellAt m j k)) j k (cellAt m i k)
  else m

/-- The locus loop of `ShuffleBlock` on one matrix. -/
def gInner {X : Type} [Inhabited X] (fixed : Bool) (miss : X → Bool) (lf lt i j : Nat)
    (m : MATRIX X) : MATRIX X :=
  (List.range' lf (lt + 1 - lf)).foldl (fun t k => gSwap fixed miss t k i j) m

/-- The body of the isolate loop of `ShuffleBlock` on one matrix. -/
def gStep {X : Type} [Inhabited X] (fixed : Bool) (miss : X → Bool) (lf lt f t : Nat)
    (p : MATRIX X × RandomService) (i : Nat) : MATRIX X × RandomService :=
  if (p.2.UniformWhole f t).1 ≠ i then
    (gInner fixed miss lf lt i (p.2.UniformWhole f t).1 p.1, (p.2.UniformWhole f t).2)
  else
    (p.1, (p.2.UniformWhole f t).2)

/-- `ShuffleBlock` on one matrix. -/
def gBlock {X : Type} [Inhabited X] (fixed : Bool) (miss : X → Bool) (lf lt f t : Nat)
    (p : MATRIX X × RandomService) : MATRIX X × RandomService :=
  (List.range' f (t + 1 - f)).foldl (gStep fixed miss lf lt f t) p

/-- `ShufflePop` on one matrix, for the linkage groups `links`. -/
def gPop {X : Type} [Inhabited X] (fixed : Bool) (miss : X → Bool)
    (links : List (Nat × Nat)) (f t : Nat) (p : MATRIX X × RandomService) :
    MATRIX X × RandomService :=
  if f = t then p
  else links.foldl (fun q g => gBlock fixed miss g.1 g.2 f t q) p

/-- `ShuffleDataset` on one matrix, for the populations `pops`. -/
def gDataset {X : Type} [Inhabited X] (fixed : Bool) (miss : X → Bool)
    (pops links : List (Nat × Nat)) (p : MATRIX X × RandomService) :
    MATRIX X × RandomService :=
  pops.foldl (fun q b => gPop fixed miss links b.1 b.2 q) p

/-- The matrix has `n` rows of `l` cells each. -/
def Rect {X : Type} (m : MATRIX X) (n l : Nat) : Prop :=
  m.length = n ∧ ∀ r, r < n → (m.getD r []).length = l

/-- The cells of isolate `r` over the loci `a .. b`. -/
def isolateTuple {X : Type} [Inhabited X] (m : MATRIX X) (a b r : Nat) : List X :=
  (List.range' a (b + 1 - a)).map (cellAt m r)

/-- The allele tuples over the loci `a .. b` of the isolates `f .. t`, in isolate
order. -/
def blockTuples {X : Type} [Inhabited X] (m : MATRIX X) (a b f t : Nat) : List (List X) :=
  (List.range' f (t + 1 - f)).map (isolateTuple m a b)

/-- No cell of the isolates `f .. t` at the loci `a .. b` is missing. -/
def regionComplete {X : Type} [Inhabited X] (miss : X → Bool) (m : MATRIX X)
    (a b f t : Nat) : Prop :=
  ∀ r c, f ≤ r → r ≤ t → a ≤ c → c ≤ b → miss (cellAt m r c) = false

/-! ## Notions used by the statements about the shuffle -/

/-- What every stage of the shuffle keeps, for the region of the loci `a .. b` and the
isolates `f .. t` of the starting matrix `m0`. -/
def Keeps {X : Type} [Inhabited X] (m0 : MATRIX X) (n l a b f t : Nat)
    (p : MATRIX X × RandomService) : Prop :=
  Rect p.1 n l ∧ (blockTuples p.1 a b f t).Perm (blockTuples m0 a b f t) ∧ p.2.InRange

/-- The policy flag of the model as a Boolean. -/
def fixedFlag (s : MultiLocusModel) : Bool :=
  decide (s.mDoMissingShuffle = missing_t.kMissing_Fixed)

/-- The model with its haploid matrix and random number service replaced. -/
def withHaplo (s : MultiLocusModel) (p : MATRIX tAllele × RandomService) : MultiLocusModel :=
  { s with mHaploData := p.1, mRng := p.2 }

/-- The model with its diploid matrix and random number service replaced. -/
def withDiplo (s : MultiLocusModel) (p : MATRIX tAllelePair × RandomService) :
    MultiLocusModel :=
  { s with mDiploData := p.1, mRng := p.2 }

/-- Every cell of `m0` that is missing is the same in `m`, and every cell of `m0` that
is not missing is not missing in `m`. -/
def HeldInPlace {X : Type} [Inhabited X] (miss : X → Bool) (m0 m : MATRIX X) : Prop :=
  ∀ r c, (miss (cellAt m0 r c) = true → cellAt m r c = cellAt m0 r c) ∧
    (miss (cellAt m0 r c) = false → miss (cellAt m r c) = false)

instance {X : Type} (m : MATRIX X) (n l : Nat) : Decidable (Rect m n l) := by
  unfold Rect; exact inferInstance

/-- The cells at locus `c` of the isolates `f .. t`, in isolate order. -/
def blockColumn {X : Type} [Inhabited X] (m : MATRIX X) (c f t : Nat) : List X :=
  (List.range' f (t + 1 - f)).map (fun r => cellAt m r c)

/-- The data of the model is well formed: the matrix of the current ploidy is
rectangular and the two partitions cover its isolates and its loci. -/
def DataWellFormed (s : MultiLocusModel) : Prop :=
  ((s.mPloidy = ploidy_t.kPloidy_Haploid ∧ Rect s.mHaploData s.GetNumRows s.GetNumCols) ∨
    (s.mPloidy = ploidy_t.kPloidy_Diploid ∧ Rect s.mDiploData s.GetNumRows s.GetNumCols)) ∧
  s.mPops.Valid s.GetNumRows ∧ s.mLinkages.Valid s.GetNumCols

instance (s : MultiLocusModel) : Decidable (DataWellFormed s) := by
  unfold DataWellFormed; exact inferInstance

/-- Two isolates, one linkage group of two loci, missing data held in place. -/
def c1Model : MultiLocusModel :=
  { mPloidy := ploidy_t.kPloidy_Haploid
    mHaploData := [["A", "?"], ["B", "C"]]
    mPops := { mNumElements := 2, mParts := [(0, 1)] }
    mLinkages := { mNumElements := 2, mParts := [(0, 1)] }
    mDoMissingShuffle := missing_t.kMissing_Fixed
    mRng := { gen := fun _ n => 1 % n } }

/-- Three isolates in one population, two linkage groups, missing data free to move. -/
def c1FreeModel : MultiLocusModel :=
  { mPloidy := ploidy_t.kPloidy_Haploid
    mHaploData := [["A", "?", "1"], ["B", "C", "2"], ["D", "E", "?"]]
    mPops := { mNumElements := 3, mParts := [(0, 2)] }
    mLinkages := { mNumElements := 3, mParts := [(0, 1), (2, 2)] }
    mDoMissingShuffle := missing_t.kMissing_Free
    mRng := { gen := fun k n => (k + 1) % n } }

/-! ## PAUP translations and the randomization loops

The statistics computed for each replicate (`CalcNumDiff`, `CalcPorpCompat`,
`CalcIndexAssocRBarD`, `CalcRBarS`, `CalcPairwiseStats`, `CalcTheta`, `CalcThetaChoice`,
`FindParts`) and the output written to the streams read the working matrix and never
write it. In the loops below they are the parameter `stats`, which says whether they
run to completion on a state of the model (`true`) or stop the call with a thrown
error or a failed assertion (`false`); a stopped call is the result `none`. -/

/-- A `for` loop over `l` whose body `f` may stop the call. -/
def loopOpt {σ α : Type} (f : σ → α → Option σ) : σ → List α → Option σ
  | s, [] => some s
  | s, x :: xs =>
    match f s x with
    | none => none
    | some s' => loopOpt f s' xs

namespace MultiLocusModel

/-- The body of the replicate loop of `CalcDiversity`, for the replicate `i`. -/
def CalcDiversityStep (stats : MultiLocusModel → Bool) (iNumRandomizations : Nat)
    (s : MultiLocusModel) (i : Nat) : Option MultiLocusModel :=
  if stats (if iNumRandomizations ≠ 0 then
      (if i = 0 then s.BackupWorkingData else s.ShuffleDataset) else s) = true then
    some (if iNumRandomizations ≠ 0 ∧ i ≠ 0 then
      (if iNumRandomizations ≠ 0 then
        (if i = 0 then s.BackupWorkingData else s.ShuffleDataset) else s).RestoreWorkingData
      else
        (if iNumRandomizations ≠ 0 then
          (if i = 0 then s.BackupWorkingData else s.ShuffleDataset) else s))
  else none

/-- The body of the isolate loop of `ShufflePops`, for the position `j` of the list of
the selected isolates. -/
def ShufflePopsStep (iFromLoci iToLoci : Nat) (theSelectedIsos : List Nat)
    (s : MultiLocusModel) (j : Nat) : MultiLocusModel :=
  if (s.mRng.Uniform theSelectedIsos.length).1 ≠ theSelectedIsos.getD j 0 then
    (List.range' iFromLoci (iToLoci + 1 - iFromLoci)).foldl
      (fun t k => t.SwapAllele k (s.mRng.Uniform theSelectedIsos.length).1
        (theSelectedIsos.getD j 0))
      { s with mRng := (s.mRng.Uniform theSelectedIsos.length).2 }
  else
    { s with mRng := (s.mRng.Uniform theSelectedIsos.length).2 }

/-- `MultiLocusModel::ShufflePops`; of the combination `iSelectedPops` the function
reads the size only. -/
def ShufflePops (s : MultiLocusModel) (iSelectedPops : List Nat) : MultiLocusModel :=
  (List.range s.mLinkages.GetNumParts).foldl
    (fun t i =>
      (List.range ((List.range iSelectedPops.length).flatMap (fun p =>
          List.range' (s.mPops.GetBounds p).1
            ((s.mPops.GetBounds p).2 + 1 - (s.mPops.GetBounds p).1))).length).foldl
        (ShufflePopsStep (t.mLinkages.GetBounds i).1 (t.mLinkages.GetBounds i).2
          ((List.range iSelectedPops.length).flatMap (fun p =>
            List.range' (s.mPops.GetBounds p).1
              ((s.mPops.GetBounds p).2 + 1 - (s.mPops.GetBounds p).1)))) t) s

end MultiLocusModel

/-- The state `t` has the ploidy and the backup of `s`, and the matrix that is not of
the current ploidy is that of `s`. -/
def Frame (s t : MultiLocusModel) : Prop :=
  t.mPloidy = s.mPloidy ∧ t.mBackupHaploData = s.mBackupHaploData ∧
    t.mBackupDiploData = s.mBackupDiploData ∧
    (s.mPloidy ≠ ploidy_t.kPloidy_Diploid → t.mDiploData = s.mDiploData) ∧
    (s.mPloidy = ploidy_t.kPloidy_Diploid → t.mHaploData = s.mHaploData)

/-- Two diploid isolates at two loci, as the parser leaves them (every PAUP symbol 0). -/
def c3Model : MultiLocusModel :=
  { mPloidy := ploidy_t.kPloidy_Diploid
    mDiploData := [[⟨"A", "B", 0⟩, ⟨"A", "A", 0⟩], [⟨"B", "A", 0⟩, ⟨"?", "A", 0⟩]]
    mPops := { mNumElements := 2, mParts := [(0, 1)] }
    mLinkages := { mNumElements := 2, mParts := [(0, 0), (1, 1)] }
    mRng := { gen := fun k n => (k + 1) % n } }

/-! ## Distances between isolates and the counts made from them -/

namespace MultiLocusModel

/-- The distance `theDist` that `CalcIsoDistArray` computes for the isolates `i` and `j`
at the site `k`. -/
def siteDist (s : MultiLocusModel) (iIsDistStrict : distance_t) (i j k : Nat) : Int :=
  if iIsDistStrict = distance_t.kDistance_Relaxed then
    (if s.GetPloidy = ploidy_t.kPloidy_Haploid then
      Distance (cellAt s.mHaploData i k) (cellAt s.mHaploData j k)
    else
      DistancePair (cellAt s.mDiploData i k) (cellAt s.mDiploData j k))
  else
    (if s.GetPloidy = ploidy_t.kPloidy_Haploid then
      StrictDistance (cellAt s.mHaploData i k) (cellAt s.mHaploData j k)
    else
      StrictDistancePair (cellAt s.mDiploData i k) (cellAt s.mDiploData j k))

/-- The site loop of `CalcIsoDistArray`: `oDistArray[thePairNum] += theDist` for every
site. -/
def addSiteDists (s : MultiLocusModel) (iIsDistStrict : distance_t) (i j : Nat)
    (oDistArray : List Int) (thePairNum : Nat) : List Int :=
  (List.range s.GetNumCols).foldl
    (fun arr k => arr.set thePairNum (arr.getD thePairNum 0 + s.siteDist iIsDistStrict i j k))
    oDistArray

/-- `MultiLocusModel::CalcIsoDistArray`: the array of the distances between the pairs of
isolates. The state of the two outer loops is the array and the counter
`thePairNum`. -/
def CalcIsoDistArray (s : MultiLocusModel)
    (iIsDistStrict : distance_t := distance_t.kDistance_Relaxed) : List Int :=
  ((List.range (s.GetNumRows - 1)).foldl
    (fun (st : List Int × Nat) i =>
      (List.range' (i + 1) (s.GetNumRows - (i + 1))).foldl
        (fun (st : List Int × Nat) j =>
          (s.addSiteDists iIsDistStrict i j st.1 st.2, st.2 + 1)) st)
    (List.replicate s.mNumPairsIsolates 0, 0)).1

/-- The body of the inner loop of `CountFreqsFromDist`, for the pair of isolates
`i < j`; the state is the array of frequencies and the counter `thePairNum`. -/
def CountFreqsStep (oDistArray : List Int) (i : Nat) (st : List Int × Nat) (j : Nat) :
    List Int × Nat :=
  if (st.1.getD i 0 ≠ 0 ∧ st.1.getD j 0 ≠ 0) ∧ oDistArray.getD st.2 0 = 0 then
    (((st.1.set j 0).set i ((st.1.set j 0).getD i 0 + 1)), st.2 + 1)
  else
    (st.1, st.2 + 1)

/-- `MultiLocusModel::CountFreqsFromDist` for `theNumIso` isolates. -/
def CountFreqsFromDistN (theNumIso : Nat) (oDistArray : List Int) : List Int :=
  ((List.range (theNumIso - 1)).foldl
    (fun (st : List Int × Nat) i =>
      (List.range' (i + 1) (theNumIso - (i + 1))).foldl (CountFreqsStep oDistArray i) st)
    (List.replicate theNumIso 1, 0)).1

/-- `MultiLocusModel::CountFreqsFromDist`. -/
def CountFreqsFromDist (s : MultiLocusModel) (oDistArray : List Int) : List Int :=
  CountFreqsFromDistN s.GetNumRows oDistArray

/-- `MultiLocusModel::CountGtypesFromDist`: the number of non-zero frequencies. -/
def CountGtypesFromDist (s : MultiLocusModel) (oDistArray : List Int) : Nat :=
  (s.CountFreqsFromDist oDistArray).foldl
    (fun theNumUniqueGtypes x => if x ≠ 0 then theNumUniqueGtypes + 1 else theNumUniqueGtypes)
    0

end MultiLocusModel

/-- `MultiLocusModel::CalcDivFromDist`: the share of the isolate pairs at a distance
above 0. The quotient of the two `double`s is taken in exact arithmetic; for an empty
array the source divides 0.0 by 0.0, which is not a number, and the result is `none`. -/
def CalcDivFromDist (oDistArray : List Int) : Option ℚ :=
  if oDistArray.length = 0 then none
  else
    some (((oDistArray.foldl
      (fun theTotalDiff x => if 0 < x then theTotalDiff + 1 else theTotalDiff) 0 : Nat) : ℚ) /
      (oDistArray.length : ℚ))

/-- `MultiLocusModel::CalcNumDiff`: the diversity, the number of distinct genotypes and
the greatest frequency, in this order; `none` when one of the two assertions that end the
function fails, `assert (0 < iMaxFreq)` or `assert (0 < iDiversity)`, a diversity that is
not a number not being above 0. -/
def MultiLocusModel.CalcNumDiff (s : MultiLocusModel) : Option (Option ℚ × Nat × Int) :=
  let theIsoDistArray := s.CalcIsoDistArray distance_t.kDistance_Relaxed
  let iNumDiff := s.CountGtypesFromDist theIsoDistArray
  let iMaxFreq := (s.CountFreqsFromDist theIsoDistArray).foldl
    (fun iMaxFreq x => if iMaxFreq < x then x else iMaxFreq) 0
  let iDiversity := CalcDivFromDist theIsoDistArray
  if ¬ (0 < iMaxFreq) then none
  else
    match iDiversity with
    | none => none
    | some d => if 0 < d then some (some d, iNumDiff, iMaxFreq) else none

/-- The index of the pair of isolates `i < j` among `n` isolates in row-major order. -/
def pairIndex (n i j : Nat) : Nat := i * n - i * (i + 1) / 2 + (j - i - 1)

/-- The sum over all the sites of the distance between the isolates `i` and `j`. -/
def sumSiteDist (s : MultiLocusModel) (mode : distance_t) (i j : Nat) : Int :=
  ((List.range s.GetNumCols).map (fun k => s.siteDist mode i j k)).sum

/-- The pairs of isolates `i < j` among `n` isolates, in row-major order. -/
def isoPairs (n : Nat) : List (Nat × Nat) :=
  (List.range (n - 1)).flatMap (fun i => (List.range' (i + 1) (n - (i + 1))).map (fun j => (i, j)))

/-- The number of elements of the lists `g 0`, ..., `g (i - 1)`. -/
def offsetOf {β : Type} (g : Nat → List β) (i : Nat) : Nat :=
  ((List.range i).map (fun x => (g x).length)).sum

/-- The pairs of the isolate `i` with the later isolates. -/
def isoPairsRow (n i : Nat) : List (Nat × Nat) :=
  (List.range' (i + 1) (n - (i + 1))).map (fun j => (i, j))

/-- The spec's "summed distance 0" between the isolates `i` and `j` of `n`, read from the
distance array `d`: an isolate is at distance 0 from itself, and two different isolates
are compared through the entry of their pair. -/
def sameGenotype (n : Nat) (d : List Int) (i j : Nat) : Bool :=
  (i == j) || (d.getD (pairIndex n (min i j) (max i j)) 0 == 0)

/-- No earlier isolate is at distance 0 from the isolate `i`: it is the first of its
class. -/
def isFirstOfClass (n : Nat) (d : List Int) (i : Nat) : Bool :=
  (List.range i).all (fun k => !sameGenotype n d k i)

/-- The number of isolates at distance 0 from the isolate `i`. -/
def classSize (n : Nat) (d : List Int) (i : Nat) : Nat :=
  ((List.range n).filter (fun j => sameGenotype n d i j)).length

/-- "Summed distance 0" is a transitive relation on the `n` isolates. -/
def distanceTransitive (n : Nat) (d : List Int) : Prop :=
  ∀ a, a < n → ∀ b, b < n → ∀ c, c < n →
    sameGenotype n d a b = true → sameGenotype n d b c = true → sameGenotype n d a c = true

instance (n : Nat) (d : List Int) : Decidable (distanceTransitive n d) := by
  unfold distanceTransitive; exact inferInstance

/-- The frequencies that the claim gives: the size of the class for its first isolate,
0 for the other members. -/
def classFreqs (n : Nat) (d : List Int) : List Int :=
  (List.range n).map (fun i => if isFirstOfClass n d i then (classSize n d i : Int) else 0)

/-- The model holds no missing cell. -/
def noMissingData (s : MultiLocusModel) : Prop :=
  ∀ r, r < s.GetNumRows → ∀ c, c < s.GetNumCols → s.IsMissingAt r c = false

instance (s : MultiLocusModel) : Decidable (noMissingData s) := by
  unfold noMissingData; exact inferInstance

/-- The rows A B C / A A C / B B C of the spec's end-to-end scenario, as loaded. -/
def abcModel : MultiLocusModel :=
  { mPloidy := ploidy_t.kPloidy_Haploid
    mHaploData := [["A", "B", "C"], ["A", "A", "C"], ["B", "B", "C"]] }

/-- A single isolate with a single locus, as loaded. -/
def oneIsolateModel : MultiLocusModel :=
  { mPloidy := ploidy_t.kPloidy_Haploid
    mHaploData := [["A"]] }

/-- Some isolate before `m` is at distance 0 from the isolate `r`. -/
def hasEarlier (n : Nat) (d : List Int) (m r : Nat) : Bool :=
  (List.range m).any (fun k => sameGenotype n d k r)

/-- The number of the isolates strictly between `i` and `j` at distance 0 from `i`. -/
def laterCount (n : Nat) (d : List Int) (i j : Nat) : Nat :=
  ((List.range' (i + 1) (j - (i + 1))).filter (fun j' => sameGenotype n d i j')).length

/-- The entry of the isolate `r` in the array of frequencies when the inner loop of
`CountFreqsFromDist` is about to compare the isolates `i < j`. -/
def freqAt (n : Nat) (d : List Int) (i j r : Nat) : Int :=
  if r < i then (if isFirstOfClass n d r then (classSize n d r : Int) else 0)
  else if r = i then (if isFirstOfClass n d i then (1 + laterCount n d i j : Int) else 0)
  else if r < j then (if hasEarlier n d (i + 1) r then 0 else 1)
  else (if hasEarlier n d i r then 0 else 1)

/-- The state of the loops of `CountFreqsFromDist` when the isolates `i < j` are about to
be compared. -/
def FreqInv (n : Nat) (d : List Int) (i j : Nat) (st : List Int × Nat) : Prop :=
  st.1.length = n ∧ st.2 = offsetOf (isoPairsRow n) i + (j - (i + 1)) ∧
    ∀ r, r < n → st.1.getD r 0 = freqAt n d i j r

/-- The relaxed distance of the isolates `i` and `j` is 0 at every site. -/
def rowsSame (s : MultiLocusModel) (i j : Nat) : Prop :=
  ∀ k, k < s.GetNumCols → s.siteDist distance_t.kDistance_Relaxed i j k = 0

/-- The genetic diversity as the comment of `CalcNumDiff` words it:
(1 - SUM(p_i^2)) (n / (n - 1)), where p_i = f_i / n is the proportion of the i-th
genotype and the f_i are the non-zero entries of the array of frequencies. -/
def diversityFormula (n : Nat) (freqs : List Int) : ℚ :=
  (1 - ((freqs.filter (fun f => f ≠ 0)).map (fun (f : Int) => ((f : ℚ) / (n : ℚ)) ^ 2)).sum) *
    ((n : ℚ) / ((n : ℚ) - 1))

/-- Five isolates of two genotypes: rows A B / A A / A B / A A / A B, as loaded. -/
def twoGenotypesModel : MultiLocusModel :=
  { mPloidy := ploidy_t.kPloidy_Haploid
    mHaploData := [["A", "B"], ["A", "A"], ["A", "B"], ["A", "A"], ["A", "B"]] }

/-- `MultiLocusModel::IsHomozygous`. -/
def MultiLocusModel.IsHomozygous (s : MultiLocusModel) (iRowIndex iColIndex : Nat) : Bool :=
  if (cellAt s.mDiploData iRowIndex iColIndex).alleleA =
      (cellAt s.mDiploData iRowIndex iColIndex).alleleB then true
  else false

/-- The genotypes that the isolate `k` brings to the pair of sites `i`, `j`
(`theNewGenotypes` of `CalcPorpCompat`), in the order in which they are pushed. -/
def MultiLocusModel.newGenotypes (s : MultiLocusModel) (i j k : Nat) :
    List (tAllele × tAllele) :=
  if !(s.IsMissingAt k i || s.IsMissingAt k j) then
    if s.GetPloidy = ploidy_t.kPloidy_Haploid then
      [(cellAt s.mHaploData k i, cellAt s.mHaploData k j)]
    else if s.IsHomozygous k i then
      [((cellAt s.mDiploData k i).alleleA, (cellAt s.mDiploData k j).alleleA),
        ((cellAt s.mDiploData k i).alleleA, (cellAt s.mDiploData k j).alleleB)]
    else if s.IsHomozygous k j then
      [((cellAt s.mDiploData k i).alleleA, (cellAt s.mDiploData k j).alleleA),
        ((cellAt s.mDiploData k i).alleleB, (cellAt s.mDiploData k j).alleleA)]
    else []
  else []

/-- One turn of the loop that empties `theNewGenotypes`: the pair is stored unless an
entry of `theGenotypes` holds the same two alleles. -/
def insertGenotype (theGenotypes : List (tAllele × tAllele))
    (theSitePair : tAllele × tAllele) : List (tAllele × tAllele) :=
  if theGenotypes.any (fun g => (theSitePair.1 == g.1) && (theSitePair.2 == g.2)) then
    theGenotypes
  else theGenotypes ++ [theSitePair]

/-- The list of the unique genotypes at the sites `i` and `j`, as `CalcPorpCompat`
builds it over the isolates; the new genotypes of an isolate are taken from the back. -/
def MultiLocusModel.pairGenotypes (s : MultiLocusModel) (i j : Nat) :
    List (tAllele × tAllele) :=
  (List.range s.GetNumRows).foldl
    (fun theGenotypes k => (s.newGenotypes i j k).reverse.foldl insertGenotype theGenotypes) []

/-- How a pass of the loop over the remaining genotypes ends: on a genotype that is
unique on neither axis, on the genotype at index `k` that is unique on exactly one
axis, or at the end of the list. -/
inductive ScanResult where
  | incompat
  | grow (k : Nat)
  | finished
  deriving DecidableEq, Repr
/-- `isGtype1Unique`: no entry of the graph is at distance 0 on the first axis. -/
def isGtype1Unique (theGraph : List (tAllele × tAllele)) (g : tAllele × tAllele) : Bool :=
  !(theGraph.any (fun m => Distance g.1 m.1 == 0))

/-- `isGtype2Unique`: no entry of the graph is at distance 0 on the second axis. -/
def isGtype2Unique (theGraph : List (tAllele × tAllele)) (g : tAllele × tAllele) : Bool :=
  !(theGraph.any (fun m => Distance g.2 m.2 == 0))

/-- A pass of the loop `for k` of the lattice growing, from the index `k` on, up to its
`break`, to the growth of the graph that restarts it, or to the end of the genotypes. -/
def scanGenotypes (theGraph : List (tAllele × tAllele)) :
    List (tAllele × tAllele) → Nat → ScanResult
  | [], _ => ScanResult.finished
  | g :: rest, k =>
    if (isGtype1Unique theGraph g == false) && (isGtype2Unique theGraph g == false) then
      ScanResult.incompat
    else if (isGtype1Unique theGraph g && !isGtype2Unique theGraph g) ||
        (!isGtype1Unique theGraph g && isGtype2Unique theGraph g) then
      ScanResult.grow k
    else scanGenotypes theGraph rest (k + 1)

/-- The loop `for k` with its restarts (`k = -1`): the flag `theGenotypeIsIncompat` and
the genotypes left over. Every restart follows the removal of a genotype; the first
argument bounds the number of restarts and is the number of genotypes at the call. -/
def growGraph : Nat → List (tAllele × tAllele) → List (tAllele × tAllele) →
    Bool × List (tAllele × tAllele)
  | 0, _, theGenotypes => (false, theGenotypes)
  | fuel + 1, theGraph, theGenotypes =>
    match scanGenotypes theGraph theGenotypes 0 with
    | ScanResult.incompat => (true, theGenotypes)
    | ScanResult.grow k =>
      growGraph fuel (theGraph ++ [theGenotypes.getD k ("", "")]) (theGenotypes.eraseIdx k)
    | ScanResult.finished => (false, theGenotypes)

/-- The loop `while ((theGenotypes.size() != 0) and (theGenotypeIsIncompat == false))`:
each turn seeds a graph with the last genotype, so the number of genotypes bounds the
number of turns (first argument). The result is `theGenotypeIsIncompat`. -/
def latticeLoop : Nat → List (tAllele × tAllele) → Bool
  | 0, _ => false
  | fuel + 1, theGenotypes =>
    match theGenotypes.getLast? with
    | none => false
    | some seed =>
      if (growGraph theGenotypes.dropLast.length [seed] theGenotypes.dropLast).1 then true
      else latticeLoop fuel
        (growGraph theGenotypes.dropLast.length [seed] theGenotypes.dropLast).2

/-- The flag `theGenotypeIsIncompat` of `CalcPorpCompat` for the pair of sites `i`, `j`. -/
def MultiLocusModel.sitePairIncompat (s : MultiLocusModel) (i j : Nat) : Bool :=
  latticeLoop (s.pairGenotypes i j).length (s.pairGenotypes i j)

/-- `theNumIncompat` of `CalcPorpCompat`: the pairs of sites `i < j` found
incompatible. -/
def MultiLocusModel.numIncompat (s : MultiLocusModel) : Nat :=
  ((isoPairs s.GetNumCols).filter (fun q => s.sitePairIncompat q.1 q.2)).length

/-- `MultiLocusModel::CalcPorpCompat`. The quotient of the two `double`s is taken in
exact arithmetic; with no pair of sites the source divides 0.0 by 0.0 and the result is
`none`. -/
def MultiLocusModel.CalcPorpCompat (s : MultiLocusModel) : Option ℚ :=
  if s.mNumPairsSites = 0 then none
  else some ((((s.mNumPairsSites : Int) - (s.numIncompat : Int) : Int) : ℚ) /
    (s.mNumPairsSites : ℚ))

/-- Two different genotypes of the list `l` share the first allele of `g`, resp. its
second allele: the genotype `g` is unique on neither axis. -/
def Clash (l : List (tAllele × tAllele)) : Prop :=
  ∃ g ∈ l, ∃ m1 ∈ l, ∃ m2 ∈ l, g ≠ m1 ∧ g ≠ m2 ∧
    Distance g.1 m1.1 = 0 ∧ Distance g.2 m2.2 = 0

/-- The rows 0 0 / 1 1: the only genotypes of the pair of loci are (0,0) and (1,1). -/
def diagonalModel : MultiLocusModel :=
  { mPloidy := ploidy_t.kPloidy_Haploid
    mHaploData := [["0", "0"], ["1", "1"]] }

/-- The rows 0 0 / 1 1 / 0 1 / 1 0: all four genotypes of two loci with two alleles. -/
def fourGametesModel : MultiLocusModel :=
  { mPloidy := ploidy_t.kPloidy_Haploid
    mHaploData := [["0", "0"], ["1", "1"], ["0", "1"], ["1", "0"]] }

/-- A renaming of the alleles of a pair of loci: the allele `a` of the first locus and
the allele `c` of the second become "0", every other allele "1". -/
def renameGenotype (a c : tAllele) (p : tAllele × tAllele) : tAllele × tAllele :=
  (if p.1 = a then "0" else "1", if p.2 = c then "0" else "1")

/-- The genotype `p` carries one of the alleles `a`, `b` at the first locus and one of
`c`, `d` at the second. -/
def InAlphabet (a b c d : tAllele) (p : tAllele × tAllele) : Prop :=
  (p.1 = a ∨ p.1 = b) ∧ (p.2 = c ∨ p.2 = d)

/-- The four genotypes of two loci whose alleles are named "0" and "1". -/
def binaryGenotypes : List (tAllele × tAllele) :=
  [("0", "0"), ("0", "1"), ("1", "0"), ("1", "1")]

/-- The isolates with no missing data at the locus `i` nor at the locus `j`. -/
def MultiLocusModel.completeIsolates (s : MultiLocusModel) (i j : Nat) : List Nat :=
  (List.range s.GetNumRows).filter (fun k => !(s.IsMissingAt k i || s.IsMissingAt k j))

/-- The different alleles that a haploid matrix shows at the locus `c` among the
isolates with no missing data at the loci `i` and `j`. -/
def MultiLocusModel.shownAlleles (s : MultiLocusModel) (i j c : Nat) : List tAllele :=
  ((s.completeIsolates i j).map (fun k => cellAt s.mHaploData k c)).dedup

/-- The different two-locus combinations of alleles that a haploid matrix shows at the
loci `i` and `j` among the isolates with no missing data at either. -/
def MultiLocusModel.shownGenotypes (s : MultiLocusModel) (i j : Nat) :
    List (tAllele × tAllele) :=
  ((s.completeIsolates i j).map
    (fun k => (cellAt s.mHaploData k i, cellAt s.mHaploData k j))).dedup

/-- The rows A B X / A C X / D B Y / D C Y: the first two loci show two alleles each and
all four of their combinations; the third locus is compatible with both. -/
def threeLociModel : MultiLocusModel :=
  { mPloidy := ploidy_t.kPloidy_Haploid
    mHaploData := [["A", "B", "X"], ["A", "C", "X"], ["D", "B", "Y"], ["D", "C", "Y"]] }

/-- The class `Frequency` (Frequency.h): keys with their counts. The vectors `mKeys` and
`mFreqs`, which the class always changes together, are one list of pairs. -/
abbrev Frequency := List (String × Nat)
/-- `Frequency::Value (string&)`: the count of the key, 0 if it is not stored. -/
def Frequency.ValueOf : Frequency → String → Nat
  | [], _ => 0
  | e :: rest, iKeyStr => if e.1 = iKeyStr then e.2 else Frequency.ValueOf rest iKeyStr

/-- `Frequency::Value ()`: the sum of the counts. -/
def Frequency.Value (f : Frequency) : Nat := (f.map Prod.snd).sum

/-- `Frequency::Size`: the number of keys. -/
def Frequency.Size (f : Frequency) : Nat := f.length

/-- `Frequency::Increment`: raise the count of the key, adding the key if it is not
stored. -/
def Frequency.Increment : Frequency → String → Nat → Frequency
  | [], iKeyStr, iNewVal => [(iKeyStr, iNewVal)]
  | e :: rest, iKeyStr, iNewVal =>
    if e.1 = iKeyStr then (e.1, e.2 + iNewVal) :: rest
    else e :: Frequency.Increment rest iKeyStr iNewVal

/-- `Frequency::Erase`: remove the entry of the key, if there is one. -/
def Frequency.Erase : Frequency → String → Frequency
  | [], _ => []
  | e :: rest, iKeyStr => if e.1 = iKeyStr then rest else e :: Frequency.Erase rest iKeyStr

/-- `Frequency::Add`: add the counts of another list. -/
def Frequency.Add (f iNewEntries : Frequency) : Frequency :=
  iNewEntries.foldl (fun acc e => Frequency.Increment acc e.1 e.2) f

/-- A division of two `double`s that keeps track of its divisor: `none` when the divisor
is zero, the exact quotient otherwise. -/
def divQ (a b : ℚ) : Option ℚ := if b = 0 then none else some (a / b)

namespace MultiLocusModel

/-- The alleles that the cell of the isolate `k` at the site `i` adds to the count of
its population: the allele of a haploid cell, both alleles of a diploid one. -/
def cellAlleles (s : MultiLocusModel) (k i : Nat) : List tAllele :=
  if s.GetPloidy = ploidy_t.kPloidy_Haploid then [cellAt s.mHaploData k i]
  else [(cellAt s.mDiploData k i).alleleA, (cellAt s.mDiploData k i).alleleB]

/-- The isolates of the population block `p`: `theStart`, ..., `theEnd`. -/
def popIsolates (s : MultiLocusModel) (p : Nat) : List Nat :=
  List.range' (s.mPops.GetBounds p).1 ((s.mPops.GetBounds p).2 + 1 - (s.mPops.GetBounds p).1)

/-- `theAlleleFreqs[j]` of `CalcTheta` after the counting loop, for the population block
`p` and the site `i`. -/
def popAlleleFreqs (s : MultiLocusModel) (p i : Nat) : Frequency :=
  ((s.popIsolates p).flatMap (fun k => s.cellAlleles k i)).foldl
    (fun f a => Frequency.Increment f a 1) []

/-- `theAlleleFreqs[j]` once the two missing symbols are erased. -/
def knownAlleleFreqs (s : MultiLocusModel) (p i : Nat) : Frequency :=
  Frequency.Erase (Frequency.Erase (s.popAlleleFreqs p i) kSymbol_Unknown) kSymbol_Gap

/-- `theTotalFreqs` of `CalcTheta` at the site `i`, over the populations `pops`. -/
def totalFreqs (s : MultiLocusModel) (pops : List Nat) (i : Nat) : Frequency :=
  pops.foldl (fun theTotalFreqs p => Frequency.Add theTotalFreqs (s.knownAlleleFreqs p i)) []

/-- `theSumArray` of `CalcTheta` at the site `i`. -/
def theSumArray (s : MultiLocusModel) (pops : List Nat) (i : Nat) : List Nat :=
  pops.map (fun p => (s.knownAlleleFreqs p i).Value)

/-- For every allele of `theTotalFreqs` and every population, the count of the allele in
the population (`thePopVal`) and the total of the population
(`theAlleleFreqs[m].Value()`). -/
def popVals (s : MultiLocusModel) (pops : List Nat) (i : Nat) : List (List (Nat × Nat)) :=
  (s.totalFreqs pops i).map (fun e =>
    pops.map (fun p => ((s.knownAlleleFreqs p i).ValueOf e.1, (s.knownAlleleFreqs p i).Value)))

end MultiLocusModel

/-- The term that a population adds to `theAlleleSum` in the loop of `the_X`. -/
def popTerm (v : Nat × Nat) : Option ℚ :=
  if v.1 ≠ 0 then divQ ((v.1 : ℚ) * (v.1 : ℚ)) (v.2 : ℚ) else some 0

/-- `the_X` of `CalcTheta`, from the counts of `popVals`. -/
def the_X (tbl : List (List (Nat × Nat))) : Option ℚ :=
  tbl.foldl (fun acc row => do
    let x ← acc
    let theAlleleSum ← row.foldl (fun acc2 v => do
      let a ← acc2
      let t ← popTerm v
      pure (a + t)) (some 0)
    pure (x + theAlleleSum)) (some 0)

/-- `the_Y` of `CalcTheta`, from the counts of `popVals`. -/
def the_Y (tbl : List (List (Nat × Nat))) : ℚ :=
  ((tbl.map (fun row => ((row.map Prod.fst).sum * (row.map Prod.fst).sum : Nat))).sum : Nat)

/-- `the_Q2` and `the_Q3` of `CalcTheta` at a sampled site, from the number of
populations, the number of samples, the sums of `theSumArray` and of its squares, and
`the_X`, `the_Y`. -/
def siteQ (theNumPops theNumSamples theSumFreq theSumSqFreq : Nat) (the_X the_Y : ℚ) :
    Option (ℚ × ℚ) := do
  let the_NBar ← divQ (theNumSamples : ℚ) (theNumPops : ℚ)
  let r1 ← divQ 1 ((theNumPops : ℚ) - 1)
  let r2 ← divQ (theSumSqFreq : ℚ) (theSumFreq : ℚ)
  let the_Nc := r1 * ((theSumFreq : ℚ) - r2)
  let the_Q2 ← divQ (the_X - (theNumPops : ℚ)) ((theNumPops : ℚ) * (the_NBar - 1))
  let r3 ← divQ 1 ((theNumPops : ℚ) * ((theNumPops : ℚ) - 1) * the_NBar * the_Nc)
  let r4 ← divQ (the_NBar * (the_Nc - 1)) (the_NBar - 1)
  let r5 ← divQ (the_NBar - the_Nc) (the_Nc * (the_NBar - 1))
  let r6 ← divQ the_X ((theNumPops : ℚ) - 1)
  pure (the_Q2, r3 * (the_Y - r4 * the_X) + r5 * (1 - r6))

namespace MultiLocusModel

/-- `the_Q2` and `the_Q3` of the site `i` over the populations `pops`. -/
def siteStats (s : MultiLocusModel) (pops : List Nat) (i : Nat) : Option (ℚ × ℚ) := do
  let x ← the_X (s.popVals pops i)
  siteQ pops.length (s.totalFreqs pops i).Value (s.theSumArray pops i).sum
    ((s.theSumArray pops i).map (fun v => v * v)).sum x (the_Y (s.popVals pops i))

/-- The body of the loop over the sites of `CalcTheta`: the state is
`theNumSitesSampled` and the sums `theSum_Q2`, `theSum_Q3`. -/
def thetaStep (s : MultiLocusModel) (pops : List Nat) (st : Nat × Option (ℚ × ℚ)) (i : Nat) :
    Nat × Option (ℚ × ℚ) :=
  if 2 ≤ (s.totalFreqs pops i).Size then
    (st.1 + 1, do
      let sums ← st.2
      let q ← s.siteStats pops i
      pure (sums.1 + q.1, sums.2 + q.2))
  else st

/-- The loop over the sites of `CalcTheta`: `theNumSitesSampled` and the sums
`theSum_Q2`, `theSum_Q3` (`none` once a division has met a zero divisor). -/
def thetaLoop (s : MultiLocusModel) (pops : List Nat) : Nat × Option (ℚ × ℚ) :=
  (List.range s.GetNumCols).foldl (s.thetaStep pops) (0, some (0, 0))

/-- The text of `CalcTheta` and of `CalcThetaChoice`, which differ in the populations they
go through (`j`, resp. `iSelectedPops[j]`) and in their number. The result is the thrown
`Error`, or theta: `none` when a division met a zero divisor. -/
def thetaOver (s : MultiLocusModel) (pops : List Nat) : Except String (Option ℚ) :=
  if 0 < (s.thetaLoop pops).1 then
    Except.ok (do
      let sums ← (s.thetaLoop pops).2
      divQ (sums.1 - sums.2) (((s.thetaLoop pops).1 : ℚ) - sums.2))
  else Except.error "Need to be able to sample at least 1 polymorphic locus"

/-- `MultiLocusModel::CalcTheta`. -/
def CalcTheta (s : MultiLocusModel) : Except String (Option ℚ) :=
  s.thetaOver (List.range s.mPops.GetNumParts)

/-- `MultiLocusModel::CalcThetaChoice`; the combination `iSelectedPops` is sorted
first. -/
def CalcThetaChoice (s : MultiLocusModel) (iSelectedPops : List Nat) :
    Except String (Option ℚ) :=
  s.thetaOver (iSelectedPops.insertionSort (fun a b => a ≤ b))

end MultiLocusModel

/-- The properties that the frequency lists of `CalcTheta` keep: every key is stored
once and every count is positive. -/
def Frequency.Tidy (f : Frequency) : Prop := (f.map Prod.fst).Nodup ∧ ∀ e ∈ f, 1 ≤ e.2

/-- The different alleles other than the two missing symbols "?" and "-" at the site `i`
when the alleles of the populations `pops` are pooled, both alleles of a diploid cell
being counted. -/
def MultiLocusModel.pooledAlleles (s : MultiLocusModel) (pops : List Nat) (i : Nat) :
    List tAllele :=
  (((pops.flatMap s.popIsolates).flatMap (fun k => s.cellAlleles k i)).filter
    (fun a => !(a == kSymbol_Unknown || a == kSymbol_Gap))).dedup

/-- Two populations of two haploid isolates, rows A / B / A / A. -/
def twoPopsModel : MultiLocusModel :=
  { mPloidy := ploidy_t.kPloidy_Haploid
    mHaploData := [["A"], ["B"], ["A"], ["A"]]
    mPops := { mNumElements := 4, mParts := [(0, 1), (2, 3)] } }

/-- Two populations, rows A / A / A / ?: no locus is polymorphic. -/
def monomorphicModel : MultiLocusModel :=
  { mPloidy := ploidy_t.kPloidy_Haploid
    mHaploData := [["A"], ["A"], ["A"], ["?"]]
    mPops := { mNumElements := 4, mParts := [(0, 2), (3, 3)] } }

/-- What a command of the application that computes theta comes to: an error reported
to the user with `ReportError`, after which the command returns, or the analysis with the
result of the model. -/
inductive PopDiffOutcome where
  | reported (iMsg : String)
  | analysed (theResult : Except String (Option ℚ))
/-- `MultiLocusApp::CalcPopDiff`, as far as its guard goes: the questions to the user,
the results file and the randomizations are left out, and `theResult` is what
`CalcThetaLoop` returns, the theta of the loaded data. -/
def MultiLocusApp.CalcPopDiff (mModel : MultiLocusModel) : PopDiffOutcome :=
  if mModel.mPops.GetNumParts < 2 then
    PopDiffOutcome.reported "Differentiation analysis requires 2 or more populations"
  else PopDiffOutcome.analysed mModel.CalcTheta

/-- `MultiLocusApp::CalcPopDiffChoice`, as far as its guard goes; `theUserChoice` is the
subset of populations that the user selects, `none` for all the populations. With two
populations the command does not ask. -/
def MultiLocusApp.CalcPopDiffChoice (mModel : MultiLocusModel)
    (theUserChoice : Option (List Nat)) : PopDiffOutcome :=
  if mModel.mPops.GetNumParts < 2 then
    PopDiffOutcome.reported "Differentiation analysis requires 2 or more populations"
  else
    PopDiffOutcome.analysed (mModel.CalcThetaChoice
      (if mModel.mPops.GetNumParts = 2 then List.range mModel.mPops.GetNumParts
        else match theUserChoice with
          | none => List.range mModel.mPops.GetNumParts
          | some theSelectedPops => theSelectedPops))

/-- A single population of four haploid isolates, rows A / B / A / A. -/
def onePopModel : MultiLocusModel :=
  { mPloidy := ploidy_t.kPloidy_Haploid
    mHaploData := [["A"], ["B"], ["A"], ["A"]]
    mPops := { mNumElements := 4, mParts := [(0, 3)] } }

/-- Two populations of a single haploid isolate each, rows A / B. -/
def singletonPopsModel : MultiLocusModel :=
  { mPloidy := ploidy_t.kPloidy_Haploid
    mHaploData := [["A"], ["B"]]
    mPops := { mNumElements := 2, mParts := [(0, 0), (1, 1)] } }

def kPval_NumDiff : Nat := 0

def kPval_MaxFreq : Nat := 1

def kPval_Diversity : Nat := 2

def kPval_PorpCompat : Nat := 3

def kPval_IndexAssoc : Nat := 4

def kPval_RBarD : Nat := 5

def kPval_RBarS : Nat := 6

def kPval_Size : Nat := 7

/-- The statistics that a pass of the loop of `CalcDiversity` computes. A `double` is an
exact rational, or `none` when it is not a number. -/
structure DiversityStats where
  theNumDiff : Int
  theMaxFreq : Int
  theDiversity : Option ℚ
  thePorpCompat : Option ℚ
  theIndexAssoc : Option ℚ
  theRBarD : Option ℚ
  theRBarS : Option ℚ
/-- The comparison `a <= b` of two `double`s: false when one of them is not a number. -/
def dblLe (a b : Option ℚ) : Bool :=
  match a, b with
  | some x, some y => decide (x ≤ y)
  | _, _ => false

/-- The comparison `a < b` of two `double`s: false when one of them is not a number. -/
def dblLt (a b : Option ℚ) : Bool :=
  match a, b with
  | some x, some y => decide (x < y)
  | _, _ => false

/-- The test that the loop of `CalcDiversity` makes on a replicate before it raises the
counter `i` of `thePVals`. -/
def meetsCriterion (mIsDataRankable : Bool) (orig rep : DiversityStats) (i : Nat) : Bool :=
  if i = kPval_NumDiff then decide (rep.theNumDiff ≤ orig.theNumDiff)
  else if i = kPval_MaxFreq then decide (rep.theMaxFreq ≥ orig.theMaxFreq)
  else if i = kPval_Diversity then dblLe rep.theDiversity orig.theDiversity
  else if i = kPval_PorpCompat then dblLe orig.thePorpCompat rep.thePorpCompat
  else if i = kPval_IndexAssoc then dblLe orig.theIndexAssoc rep.theIndexAssoc
  else if i = kPval_RBarD then dblLe orig.theRBarD rep.theRBarD
  else if i = kPval_RBarS then
    mIsDataRankable &&
      ((dblLt orig.theRBarS (some 0) && dblLe rep.theRBarS orig.theRBarS) ||
        (dblLe (some 0) orig.theRBarS && dblLe orig.theRBarS rep.theRBarS))
  else false

/-- `thePVals[i]++` when the test holds. -/
def bumpPVal (thePVals : List Nat) (i : Nat) (b : Bool) : List Nat :=
  if b then thePVals.set i (thePVals.getD i 0 + 1) else thePVals

/-- The calculations for the p-values of a replicate (the `else` branch of the pass
`i != 0` of the loop of `CalcDiversity`). -/
def countPVals (mIsDataRankable : Bool) (orig : DiversityStats) (thePVals : List Nat)
    (rep : DiversityStats) : List Nat :=
  bumpPVal (bumpPVal (bumpPVal (bumpPVal (bumpPVal (bumpPVal (bumpPVal thePVals
    kPval_NumDiff (meetsCriterion mIsDataRankable orig rep kPval_NumDiff))
    kPval_MaxFreq (meetsCriterion mIsDataRankable orig rep kPval_MaxFreq))
    kPval_Diversity (meetsCriterion mIsDataRankable orig rep kPval_Diversity))
    kPval_PorpCompat (meetsCriterion mIsDataRankable orig rep kPval_PorpCompat))
    kPval_IndexAssoc (meetsCriterion mIsDataRankable orig rep kPval_IndexAssoc))
    kPval_RBarD (meetsCriterion mIsDataRankable orig rep kPval_RBarD))
    kPval_RBarS (meetsCriterion mIsDataRankable orig rep kPval_RBarS)

/-- The counters `thePVals` at the end of the loop of `CalcDiversity`; `theStats i` are
the statistics of the pass `i`, the pass 0 being the observed data. -/
def CalcDiversityPVals (mIsDataRankable : Bool) (iNumRandomizations : Nat)
    (theStats : Nat → DiversityStats) : List Nat :=
  (List.range (iNumRandomizations + 1)).foldl
    (fun thePVals i =>
      if i = 0 then thePVals
      else countPVals mIsDataRankable (theStats 0) thePVals (theStats i))
    (List.replicate kPval_Size 0)

/-- An entry of the row `P_Values`: the text written before the number ("< ", nothing,
or "N/A" with no number) and the number that is streamed after it. -/
structure PValEntry where
  text : String
  value : Option ℚ
  deriving DecidableEq
/-- The entry `i` of the row `P_Values`. -/
def pValEntry (mIsDataRankable : Bool) (iNumRandomizations : Nat) (thePVals : List Nat)
    (i : Nat) : PValEntry :=
  if i = kPval_RBarS then
    if !mIsDataRankable then { text := "N/A", value := none }
    else if thePVals.getD kPval_RBarS 0 = 0 then
      { text := "< ", value := some (2 / (iNumRandomizations : ℚ)) }
    else
      { text := "",
        value := some (2 * (thePVals.getD kPval_RBarS 0 : ℚ) / (iNumRandomizations : ℚ)) }
  else
    if thePVals.getD i 0 = 0 then
      { text := "< ", value := some (1 / (iNumRandomizations : ℚ)) }
    else
      { text := "", value := some ((thePVals.getD i 0 : ℚ) / (iNumRandomizations : ℚ)) }

/-- The row `P_Values` that `CalcDiversity` writes when there have been randomizations;
`none` when there have been none. -/
def PValuesRow (mIsDataRankable : Bool) (iNumRandomizations : Nat)
    (theStats : Nat → DiversityStats) : Option (List PValEntry) :=
  if iNumRandomizations ≠ 0 then
    some ((List.range kPval_Size).map
      (pValEntry mIsDataRankable iNumRandomizations
        (CalcDiversityPVals mIsDataRankable iNumRandomizations theStats)))
  else none

/-- The number of the replicates `1, ..., n` that meet the criterion of the statistic
`i`. -/
def replicatesMeeting (mIsDataRankable : Bool) (n : Nat) (theStats : Nat → DiversityStats)
    (i : Nat) : Nat :=
  ((List.range' 1 n).filter
    (fun k => meetsCriterion mIsDataRankable (theStats 0) (theStats k) i)).length

/-- The statistics of a run on rankable data in which rBarS is 1 for the observed data
and 0 for every replicate, the diversity is 0 for the observed data and 1 for every
replicate, and the other statistics are the same in every pass. -/
def pvalStats (k : Nat) : DiversityStats :=
  { theNumDiff := 1, theMaxFreq := 1,
    theDiversity := if k = 0 then some 0 else some 1,
    thePorpCompat := some 0, theIndexAssoc := some 0, theRBarD := some 0,
    theRBarS := if k = 0 then some 1 else some 0 }

/-! ## The scanner (BasicScanner, StreamScanner) -/
/-- The type of line ending of the source (BasicScanner.h). -/
inductive eoln_t where
  | kEoln_Unknown
  | kEoln_Dos
  | kEoln_Mac
  | kEoln_Unix
  deriving DecidableEq, Repr

/-- A `StreamScanner` on an input stream: the characters of the stream, the read position
and the state of the stream (`bool (*mSrcStreamP)`, false once a read has failed).
`ParseInput` sets the comment delimiters to "", so that `ReadChar` skips nothing (the
line comment that it also sets is read by no function of the scanner), and never calls
`DetectEoln`, so that `mEolnType` stays `kEoln_Unknown`. -/
structure StreamScanner where
  mSrc : List Char
  mPosn : Nat := 0
  mGood : Bool := true
  mEolnType : eoln_t := eoln_t.kEoln_Unknown
  deriving DecidableEq, Repr

namespace StreamScanner

/-- `StreamScanner::GetChar`: the next character, or `none` when the stream is not good
or runs out, which leaves the stream failed. -/
def GetChar (sc : StreamScanner) : Option Char × StreamScanner :=
  if sc.mGood then
    match sc.mSrc.get? sc.mPosn with
    | some c => (some c, { sc with mPosn := sc.mPosn + 1 })
    | none => (none, { sc with mGood := false })
  else (none, sc)

/-- `BasicScanner::ReadChar` with no comment delimiter set: `GetChar`. A failed read
gives the caller the character 0. -/
def ReadChar (sc : StreamScanner) : Option Char × StreamScanner := sc.GetChar

/-- `StreamScanner::UnreadChar`: `putback` of the character just read; it does nothing on
a failed stream. -/
def UnreadChar (sc : StreamScanner) : StreamScanner :=
  if sc.mGood then { sc with mPosn := sc.mPosn - 1 } else sc

/-- `BasicScanner::Rewind`: `Goto (kScan_SrcBegin)` clears the state of the stream and
seeks its beginning. -/
def Rewind (sc : StreamScanner) : StreamScanner := { sc with mPosn := 0, mGood := true }

/-- The loop of `Read` and of `ReadUntil` over the characters that remain: the token, and
the delimiter that stops it (`none` when the source runs out). -/
def readToken (iDelimiters : List Char) : List Char → List Char × Option Char
  | [] => ([], none)
  | c :: rest =>
    if c ∈ iDelimiters then ([], some c)
    else ((c :: (readToken iDelimiters rest).1), (readToken iDelimiters rest).2)

/-- `BasicScanner::Read (ioToken, iDelimiters)`, the delimiter being put back: the token,
the stopping character (127 at the end of the source) and the scanner. -/
def Read (sc : StreamScanner) (iDelimiters : List Char) : (String × Char) × StreamScanner :=
  if sc.mGood then
    match readToken iDelimiters (sc.mSrc.drop sc.mPosn) with
    | (tok, some c) => ((String.mk tok, c), { sc with mPosn := sc.mPosn + tok.length })
    | (tok, none) =>
      ((String.mk tok, Char.ofNat 127),
        { sc with mPosn := sc.mPosn + tok.length, mGood := false })
  else (("", Char.ofNat 127), sc)

/-- `BasicScanner::ReadUntil (ioToken, iCharSet)`, the delimiter being put back; `none` is
the `assert (false)` met when the source runs out before a delimiter. -/
def ReadUntil (sc : StreamScanner) (iCharSet : List Char) :
    Option ((String × Char) × StreamScanner) :=
  if sc.mGood then
    match readToken iCharSet (sc.mSrc.drop sc.mPosn) with
    | (tok, some c) => some ((String.mk tok, c), { sc with mPosn := sc.mPosn + tok.length })
    | (_, none) => none
  else none

/-- `BasicScanner::ReadLine (ioLine)`: read up to and including the end of the line, the
line being returned without it; `none` is a failed assertion. -/
def ReadLine (sc : StreamScanner) : Option (String × StreamScanner) :=
  match sc.mEolnType with
  | eoln_t.kEoln_Unknown =>
    match (sc.Read ['\n', '\r']).2.ReadChar with
    | (none, sc2) => some ((sc.Read ['\n', '\r']).1.1, sc2)
    | (some c, sc2) =>
      if c = '\n' then
        match sc2.ReadChar with
        | (some c2, sc3) =>
          if c2 ≠ '\r' then some ((sc.Read ['\n', '\r']).1.1, sc3.UnreadChar)
          else some ((sc.Read ['\n', '\r']).1.1, sc3)
        | (none, sc3) => some ((sc.Read ['\n', '\r']).1.1, sc3)
      else if c = '\r' then some ((sc.Read ['\n', '\r']).1.1, sc2)
      else none
  | eoln_t.kEoln_Dos =>
    if ((sc.Read ['\n']).2.ReadChar.2.ReadChar.1).getD (Char.ofNat 0) = '\r' then
      some ((sc.Read ['\n']).1.1, (sc.Read ['\n']).2.ReadChar.2.ReadChar.2)
    else none
  | eoln_t.kEoln_Mac =>
    if ((sc.Read ['\r']).2.ReadChar.1).getD (Char.ofNat 0) = '\r' then
      some ((sc.Read ['\r']).1.1, (sc.Read ['\r']).2.ReadChar.2)
    else none
  | eoln_t.kEoln_Unix =>
    if ((sc.Read ['\n']).2.ReadChar.1).getD (Char.ofNat 0) = '\n' then
      some ((sc.Read ['\n']).1.1, (sc.Read ['\n']).2.ReadChar.2)
    else none

/-- `BasicScanner::GetLineIndex`: the line characters before the current position are
counted again from the beginning (over the whole source when the stream has failed and
`GetPosn` is -1; the failed read that ends that count assigns no character), and the
number of lines follows from the type of line ending. -/
def GetLineIndex (sc : StreamScanner) : Nat :=
  match sc.mEolnType with
  | eoln_t.kEoln_Unknown =>
    if (if sc.mGood then sc.mSrc.take sc.mPosn else sc.mSrc).count '\r' ≠ 0 then
      (if sc.mGood then sc.mSrc.take sc.mPosn else sc.mSrc).count '\r' + 1
    else if (if sc.mGood then sc.mSrc.take sc.mPosn else sc.mSrc).count '\n' ≠ 0 then
      (if sc.mGood then sc.mSrc.take sc.mPosn else sc.mSrc).count '\n' + 1
    else 0
  | eoln_t.kEoln_Dos => (if sc.mGood then sc.mSrc.take sc.mPosn else sc.mSrc).count '\r' + 1
  | eoln_t.kEoln_Mac => (if sc.mGood then sc.mSrc.take sc.mPosn else sc.mSrc).count '\r' + 1
  | eoln_t.kEoln_Unix => (if sc.mGood then sc.mSrc.take sc.mPosn else sc.mSrc).count '\n' + 1

end StreamScanner

/-! ## String utilities (StringUtils) -/
/-- The C function `isspace` in the "C" locale: space, tab, line feed, vertical tab, form
feed and carriage return. -/
def isspace (c : Char) : Bool := c = ' ' || (9 ≤ c.toNat && c.toNat ≤ 13)

/-- `eraseFlankingSpace`: the whitespace at the end, then at the front, is deleted. -/
def eraseFlankingSpace (ioTargetStr : String) : String :=
  String.mk ((ioTargetStr.data.reverse.dropWhile isspace).reverse.dropWhile isspace)

/-- The loop of `split`: `theDestString` collects the characters up to the next
delimiter. -/
def splitLoop (iDelimiter : Char) : List Char → List Char → List String
  | [], theDestString => [String.mk theDestString]
  | c :: rest, theDestString =>
    if c = iDelimiter then String.mk theDestString :: splitLoop iDelimiter rest []
    else splitLoop iDelimiter rest (theDestString ++ [c])

/-- `split (iSrcString, iResultIter, iDelimiter)`: the substrings between the
delimiters. -/
def split (iSrcString : String) (iDelimiter : Char) : List String :=
  splitLoop iDelimiter iSrcString.data []

/-- The loop of `ParseInput` that pops the empty columns at the end of the line. -/
def popEmptyColumns (theSplitStr : List String) : List String :=
  (theSplitStr.reverse.dropWhile (fun x => x == "")).reverse

/-! ## Loading (`ParseInput`) -/
/-- `ParseError` (Error.h): the description, and the name of the source or the number of
the line, according to the constructor used. -/
structure ParseError where
  mDesc : String
  mSource : String := ""
  mLineNum : Option Nat := none
  deriving DecidableEq, Repr

/-- How a call of the parser stops short: on a thrown `ParseError`, or on a failed
assertion. -/
inductive ParseStop where
  | thrown (e : ParseError)
  | assertion
  deriving DecidableEq, Repr

/-- `MultiLocusModel::IsValidAllele`: a token that tests as missing, or alphanumeric
characters only.
The flag `mIsDataRankable`, which the function lowers, is computed anew by
`DetermineDimensions` at the end of `ParseInput` and is left out. -/
def IsValidAllele (iAlleleStr : String) : Bool :=
  if IsMissing iAlleleStr then true
  else iAlleleStr.data.all (fun c => c.isAlphanum)

/-- The value of the `UInt` expression `GetLineIndex () - 1`. -/
def lineIndexLess1 (theLineIndex : Nat) : Nat := (theLineIndex + 4294967295) % 4294967296

/-- The loop over the columns but the last of `ParseHaploidInput`; the first argument is
the number of columns still to read. -/
def haploidCells : Nat → StreamScanner → List tAllele →
    Except ParseStop (List tAllele × StreamScanner)
  | 0, sc, theDataRow => Except.ok (theDataRow, sc)
  | n + 1, sc, theDataRow =>
    match sc.ReadUntil ['\t'] with
    | none => Except.error ParseStop.assertion
    | some ((theInToken, _), sc1) =>
      if !IsValidAllele (eraseFlankingSpace theInToken) then
        Except.error (ParseStop.thrown
          { mDesc := "illegal allele", mLineNum := some sc1.GetLineIndex })
      else if (sc1.ReadChar.1).getD (Char.ofNat 0) ≠ '\t' then
        Except.error (ParseStop.thrown
          { mDesc := "missing column delimiter",
            mLineNum := some sc1.ReadChar.2.GetLineIndex })
      else haploidCells n sc1.ReadChar.2 (theDataRow ++ [eraseFlankingSpace theInToken])

/-- A turn of the loop `while (iScanner)` of `ParseHaploidInput`: `none` is the `break`
on an empty line, otherwise the row read and the scanner after it. -/
def haploidRow (iNumCols : Nat) (sc : StreamScanner) :
    Except ParseStop (Option (List tAllele × StreamScanner)) :=
  if (sc.ReadChar.1).getD (Char.ofNat 0) ∈ ['\r', '\n'] then Except.ok none
  else
    match haploidCells (iNumCols - 1) sc.ReadChar.2.UnreadChar [] with
    | Except.error e => Except.error e
    | Except.ok (theDataRow, sc1) =>
      match sc1.ReadLine with
      | none => Except.error ParseStop.assertion
      | some (theInToken, sc2) =>
        if !IsValidAllele (eraseFlankingSpace theInToken) then
          Except.error (ParseStop.thrown
            { mDesc := "illegal allele", mLineNum := some (lineIndexLess1 sc2.GetLineIndex) })
        else Except.ok (some (theDataRow ++ [eraseFlankingSpace theInToken], sc2))

/-- The loop `while (iScanner)` of `ParseHaploidInput`. Every turn but the last reads a
character at least, so the number of characters of the source plus one bounds the number
of turns (first argument). -/
def haploidRows : Nat → Nat → StreamScanner → MATRIX tAllele →
    Except ParseStop (MATRIX tAllele)
  | 0, _, _, theData => Except.ok theData
  | fuel + 1, iNumCols, sc, theData =>
    if sc.mGood then
      match haploidRow iNumCols sc with
      | Except.error e => Except.error e
      | Except.ok none => Except.ok theData
      | Except.ok (some (theDataRow, sc1)) =>
        haploidRows fuel iNumCols sc1 (theData ++ [theDataRow])
    else Except.ok theData

namespace MultiLocusModel

/-- `MultiLocusModel::ParseHaploidInput`. -/
def ParseHaploidInput (s : MultiLocusModel) (iScanner : StreamScanner) (iNumCols : Nat) :
    Except ParseStop MultiLocusModel :=
  match haploidRows (iScanner.mSrc.length + 1) iNumCols iScanner [] with
  | Except.error e => Except.error e
  | Except.ok theData =>
    Except.ok { s with mPloidy := ploidy_t.kPloidy_Haploid, mHaploData := theData }

end MultiLocusModel

/-- The first allele of a diploid cell and its separator: `ReadUntil "/"`, the check of
the allele, and the `'/'` consumed. -/
def diploidFirstAllele (sc : StreamScanner) : Except ParseStop (String × StreamScanner) :=
  match sc.ReadUntil ['/'] with
  | none => Except.error ParseStop.assertion
  | some ((theInToken, _), sc1) =>
    if !IsValidAllele (eraseFlankingSpace theInToken) then
      Except.error (ParseStop.thrown
        { mDesc := "illegal allele", mLineNum := some sc1.GetLineIndex })
    else if (sc1.ReadChar.1).getD (Char.ofNat 0) ≠ '/' then
      Except.error (ParseStop.thrown
        { mDesc := "missing allele seperator",
          mLineNum := some sc1.ReadChar.2.GetLineIndex })
    else Except.ok (eraseFlankingSpace theInToken, sc1.ReadChar.2)

/-- The loop over the columns but the last of `ParseDiploidInput`. -/
def diploidCells : Nat → StreamScanner → List tAllelePair →
    Except ParseStop (List tAllelePair × StreamScanner)
  | 0, sc, theDataRow => Except.ok (theDataRow, sc)
  | n + 1, sc, theDataRow =>
    match diploidFirstAllele sc with
    | Except.error e => Except.error e
    | Except.ok (theAlleleA, sc1) =>
      match sc1.ReadUntil ['\t'] with
      | none => Except.error ParseStop.assertion
      | some ((theInToken, _), sc2) =>
        if IsValidAllele (eraseFlankingSpace theInToken) == false then
          Except.error (ParseStop.thrown
            { mDesc := "illegal allele", mLineNum := some sc2.GetLineIndex })
        else if (sc2.ReadChar.1).getD (Char.ofNat 0) ≠ '\t' then
          Except.error (ParseStop.thrown
            { mDesc := "missing column delimiter",
              mLineNum := some sc2.ReadChar.2.GetLineIndex })
        else
          diploidCells n sc2.ReadChar.2
            (theDataRow ++ [{ alleleA := theAlleleA,
                              alleleB := eraseFlankingSpace theInToken,
                              transNumDTypes := 0 }])

/-- A turn of the loop `while (iScanner)` of `ParseDiploidInput`. -/
def diploidRow (iNumCols : Nat) (sc : StreamScanner) :
    Except ParseStop (Option (List tAllelePair × StreamScanner)) :=
  if (sc.ReadChar.1).getD (Char.ofNat 0) ∈ ['\r', '\n'] then Except.ok none
  else
    match diploidCells (iNumCols - 1) sc.ReadChar.2.UnreadChar [] with
    | Except.error e => Except.error e
    | Except.ok (theDataRow, sc1) =>
      match diploidFirstAllele sc1 with
      | Except.error e => Except.error e
      | Except.ok (theAlleleA, sc2) =>
        match sc2.ReadLine with
        | none => Except.error ParseStop.assertion
        | some (theInToken, sc3) =>
          if !IsValidAllele (eraseFlankingSpace theInToken) then
            Except.error (ParseStop.thrown
              { mDesc := "illegal allele",
                mLineNum := some (lineIndexLess1 sc3.GetLineIndex) })
          else
            Except.ok (some (theDataRow ++ [{ alleleA := theAlleleA,
                                              alleleB := eraseFlankingSpace theInToken,
                                              transNumDTypes := 0 }], sc3))

/-- The loop `while (iScanner)` of `ParseDiploidInput`, bounded as the haploid one. -/
def diploidRows : Nat → Nat → StreamScanner → MATRIX tAllelePair →
    Except ParseStop (MATRIX tAllelePair)
  | 0, _, _, theData => Except.ok theData
  | fuel + 1, iNumCols, sc, theData =>
    if sc.mGood then
      match diploidRow iNumCols sc with
      | Except.error e => Except.error e
      | Except.ok none => Except.ok theData
      | Except.ok (some (theDataRow, sc1)) =>
        diploidRows fuel iNumCols sc1 (theData ++ [theDataRow])
    else Except.ok theData

namespace MultiLocusModel

/-- `MultiLocusModel::ParseDiploidInput`. -/
def ParseDiploidInput (s : MultiLocusModel) (iScanner : StreamScanner) (iNumCols : Nat) :
    Except ParseStop MultiLocusModel :=
  match diploidRows (iScanner.mSrc.length + 1) iNumCols iScanner [] with
  | Except.error e => Except.error e
  | Except.ok theData =>
    Except.ok { s with mPloidy := ploidy_t.kPloidy_Diploid, mDiploData := theData }

/-- `MultiLocusModel::BackupOriginal`. -/
def BackupOriginal (s : MultiLocusModel) : MultiLocusModel :=
  match s.GetPloidy with
  | ploidy_t.kPloidy_Haploid => { s with mOriginalHaploData := s.mHaploData }
  | ploidy_t.kPloidy_Diploid => { s with mOriginalDiploData := s.mDiploData }
  | ploidy_t.kPloidy_None => s

/-- `MultiLocusModel::GetDataString`. -/
def GetDataString (s : MultiLocusModel) (iRowIndex iColIndex : Nat) : String :=
  match s.GetPloidy with
  | ploidy_t.kPloidy_Haploid => cellAt s.mHaploData iRowIndex iColIndex
  | ploidy_t.kPloidy_Diploid =>
    (cellAt s.mDiploData iRowIndex iColIndex).alleleA ++ "/" ++
      (cellAt s.mDiploData iRowIndex iColIndex).alleleB
  | ploidy_t.kPloidy_None => ""

/-- The first line of the file as `ParseInput` reads it, with the scanner rolled back to
the beginning; `none` is a failed assertion of `ReadLine`. -/
def firstLineOf (ioInputFile : List Char) : Option (String × StreamScanner) :=
  match ({ mSrc := ioInputFile } : StreamScanner).ReadLine with
  | none => none
  | some (theInLine, sc) => some (theInLine, sc.Rewind)

/-- `MultiLocusModel::ParseInput` on a stream holding the characters `ioInputFile`. -/
def ParseInput (s : MultiLocusModel) (ioInputFile : List Char) (iDataFileName : String) :
    Except ParseStop MultiLocusModel :=
  match firstLineOf ioInputFile with
  | none => Except.error ParseStop.assertion
  | some (theInLine, theScanner) =>
    if theInLine.data.count '/' = 0 then
      match s.ParseHaploidInput theScanner (popEmptyColumns (split theInLine '\t')).length with
      | Except.error e => Except.error e
      | Except.ok t => Except.ok t.BackupOriginal.DetermineDimensions
    else if theInLine.data.count '/' ≠ (popEmptyColumns (split theInLine '\t')).length then
      Except.error (ParseStop.thrown
        { mDesc := "missing column delimiter", mSource := iDataFileName })
    else
      match s.ParseDiploidInput theScanner (popEmptyColumns (split theInLine '\t')).length with
      | Except.error e => Except.error e
      | Except.ok t => Except.ok t.BackupOriginal.DetermineDimensions

end MultiLocusModel

/-! ### The scanner on a table of cells -/
/-- The cells of a row written with tab separators. -/
def joinTabs : List (List Char) → List Char
  | [] => []
  | [cell] => cell
  | cell :: rest => cell ++ '\t' :: joinTabs rest

/-- A row as a line of the file: its cells with tab separators and a line feed. -/
def rowText (cells : List (List Char)) : List Char := joinTabs cells ++ ['\n']

/-- A table as a file: its rows, one per line. -/
def tableText (rows : List (List (List Char))) : List Char := rows.flatMap rowText

/-- The allele that the parser stores for a cell: the text of the cell without its
flanking whitespace. -/
def cellToken (cell : List Char) : String := eraseFlankingSpace (String.mk cell)

/-- A cell of a table that can be written to a file: it is not empty and holds neither a
tab nor a line character. -/
def PlainCell (cell : List Char) : Prop :=
  cell ≠ [] ∧ ∀ c ∈ cell, c ≠ '\t' ∧ c ≠ '\n' ∧ c ≠ '\r'

instance (cell : List Char) : Decidable (PlainCell cell) := by
  unfold PlainCell
  infer_instance

/-- The first line of a file: the characters before the first line character. -/
def firstLine (ioInputFile : List Char) : String :=
  String.mk (ioInputFile.takeWhile (fun c => c ≠ '\n' && c ≠ '\r'))

/-- The number of columns that `ParseInput` finds in the first line: the tab-separated
columns, the empty ones at the end being dropped. -/
def numColumns (theInLine : String) : Nat := (popEmptyColumns (split theInLine '\t')).length

/-- A cell of a haploid table: an allele token with spaces before and after it. -/
structure PaddedToken where
  lead : Nat := 0
  token : List Char
  trail : Nat := 0
  deriving DecidableEq, Repr, Inhabited

/-- The text of a cell in the file. -/
def PaddedToken.text (p : PaddedToken) : List Char :=
  List.replicate p.lead ' ' ++ p.token ++ List.replicate p.trail ' '

/-- A non-empty valid allele token: a missing symbol, or alphanumeric characters. -/
def ValidToken (tok : List Char) : Prop :=
  tok ≠ [] ∧ (tok = ['?'] ∨ tok = ['-'] ∨ tok.all (fun c => c.isAlphanum) = true)

instance (tok : List Char) : Decidable (ValidToken tok) := by
  unfold ValidToken
  infer_instance

/-- The 3 x 4 table of the example: tokens with and without padding, and both missing
symbols. -/
def exampleTable : List (List PaddedToken) :=
  [[{ token := "A".data }, { lead := 1, token := "b2".data }, { token := "?".data },
      { token := "7".data, trail := 2 }],
   [{ token := "B".data }, { token := "b2".data }, { token := "-".data },
      { token := "8".data }],
   [{ lead := 2, token := "A".data, trail := 1 }, { token := "c3".data },
      { token := "x".data }, { token := "9".data }]]

/-- The result of a parser is no ParseError "missing column delimiter". -/
def NoDelimiterError {α : Type} (r : Except ParseStop α) : Prop :=
  ∀ e, r = Except.error (ParseStop.thrown e) → e.mDesc ≠ "missing column delimiter"

/-! ## Including and excluding data ("DATASET TRANSFORMATION") -/
namespace MultiLocusModel

/-- `MultiLocusModel::RestoreOriginal`; the assertions on the data slots are not
modelled. -/
def RestoreOriginal (s : MultiLocusModel) : MultiLocusModel :=
  match s.GetPloidy with
  | ploidy_t.kPloidy_Haploid =>
    ({ s with mHaploData := s.mOriginalHaploData } : MultiLocusModel).DetermineDimensions
  | ploidy_t.kPloidy_Diploid =>
    ({ s with mDiploData := s.mOriginalDiploData } : MultiLocusModel).DetermineDimensions
  | ploidy_t.kPloidy_None => s.DetermineDimensions

/-- `MultiLocusModel::IncludeAllData`. -/
def IncludeAllData (s : MultiLocusModel) : MultiLocusModel :=
  { s.RestoreOriginal with mExcludeIso := false, mExcludeLoci := false }

/-- `MultiLocusModel::IsColMissing (UInt iColIndex)`: does this column contain missing
data? -/
def IsColMissingAt (s : MultiLocusModel) (iColIndex : Nat) : Bool :=
  (List.range s.GetNumRows).any (fun i => s.IsMissingAt i iColIndex)

/-- `MultiLocusModel::IsColMissing ()`: are all columns missing data? -/
def IsColMissing (s : MultiLocusModel) : Bool :=
  (List.range s.GetNumCols).all (fun i => s.IsColMissingAt i)

/-- `MultiLocusModel::IsRowMissing (UInt iRowIndex)`: does this row contain missing
data? -/
def IsRowMissingAt (s : MultiLocusModel) (iRowIndex : Nat) : Bool :=
  (List.range s.GetNumCols).any (fun i => s.IsMissingAt iRowIndex i)

/-- `MultiLocusModel::IsRowMissing ()`: are all rows missing data? -/
def IsRowMissing (s : MultiLocusModel) : Bool :=
  (List.range s.GetNumRows).all (fun i => s.IsRowMissingAt i)

/-- `MultiLocusModel::DeleteCol`: the cell at `iColIndex` is erased from every row. -/
def DeleteCol (s : MultiLocusModel) (iColIndex : Nat) : MultiLocusModel :=
  if s.GetPloidy = ploidy_t.kPloidy_Haploid then
    { s with mHaploData := s.mHaploData.map (fun row => row.eraseIdx iColIndex) }
  else
    { s with mDiploData := s.mDiploData.map (fun row => row.eraseIdx iColIndex) }

/-- `MultiLocusModel::DeleteRow`. -/
def DeleteRow (s : MultiLocusModel) (iRowIndex : Nat) : MultiLocusModel :=
  if s.GetPloidy = ploidy_t.kPloidy_Haploid then
    { s with mHaploData := s.mHaploData.eraseIdx iRowIndex }
  else
    { s with mDiploData := s.mDiploData.eraseIdx iRowIndex }

/-- `MultiLocusModel::ExcludeMissingIso`: the value returned and the model afterwards.
The indices of the rows with missing data are collected in rising order and the rows
deleted from the last to the first. -/
def ExcludeMissingIso (s : MultiLocusModel) : Bool × MultiLocusModel :=
  if s.IsRowMissing then (false, s)
  else
    (true,
      { (((List.range s.GetNumRows).filter (fun i => s.IsRowMissingAt i)).reverse.foldl
          (fun t i => t.DeleteRow i) s).DetermineDimensions with mExcludeIso := true })

/-- `MultiLocusModel::ExcludeMissingLoci`: the value returned and the model afterwards. -/
def ExcludeMissingLoci (s : MultiLocusModel) : Bool × MultiLocusModel :=
  if s.IsColMissing then (false, s)
  else
    (true,
      { (((List.range s.GetNumCols).filter (fun i => s.IsColMissingAt i)).reverse.foldl
          (fun t i => t.DeleteCol i) s).DetermineDimensions with mExcludeLoci := true })

end MultiLocusModel

/-- The cells of a row whose column index satisfies `keep`, in order. -/
def keepCols {X : Type} (keep : Nat → Bool) : List X → List X
  | [] => []
  | x :: xs =>
    if keep 0 then x :: keepCols (fun j => keep (j + 1)) xs
    else keepCols (fun j => keep (j + 1)) xs

/-- An operation on the loaded data: the exclusions, the shuffle, and the backup and the
restoring of the working data. -/
inductive DataOp where
  | excludeMissingIso
  | excludeMissingLoci
  | shuffleDataset
  | backupWorkingData
  | restoreWorkingData
  deriving DecidableEq, Repr

/-- The model after an operation. -/
def DataOp.apply (s : MultiLocusModel) : DataOp → MultiLocusModel
  | DataOp.excludeMissingIso => s.ExcludeMissingIso.2
  | DataOp.excludeMissingLoci => s.ExcludeMissingLoci.2
  | DataOp.shuffleDataset => s.ShuffleDataset
  | DataOp.backupWorkingData => s.BackupWorkingData
  | DataOp.restoreWorkingData => s.RestoreWorkingData

/-- The model after a sequence of operations. -/
def applyOps (s : MultiLocusModel) (ops : List DataOp) : MultiLocusModel :=
  ops.foldl DataOp.apply s

/-- A haploid table of three isolates in which every row and every column holds a
missing cell. -/
def allMissingModel : MultiLocusModel :=
  ({ mPloidy := ploidy_t.kPloidy_Haploid,
     mHaploData := [["?", "A", "B"], ["A", "-", "B"], ["A", "B", "?"]],
     mOriginalHaploData := [["?", "A", "B"], ["A", "-", "B"], ["A", "B", "?"]] } :
    MultiLocusModel).DetermineDimensions

/-- A haploid table of three isolates: the second row and the second column hold a
missing cell. -/
def someMissingModel : MultiLocusModel :=
  ({ mPloidy := ploidy_t.kPloidy_Haploid,
     mHaploData := [["A", "B", "C"], ["A", "?", "D"], ["E", "B", "C"]],
     mOriginalHaploData := [["A", "B", "C"], ["A", "?", "D"], ["E", "B", "C"]] } :
    MultiLocusModel).DetermineDimensions

/-- The ploidy and the original snapshot of `t` are those of `s`. -/
def OriginalKept (s t : MultiLocusModel) : Prop :=
  t.mPloidy = s.mPloidy ∧ t.mOriginalHaploData = s.mOriginalHaploData ∧
    t.mOriginalDiploData = s.mOriginalDiploData

/-- The model that the file of two isolates "A B" and "? C" loads to. -/
def loadedModel : MultiLocusModel :=
  ({ mPloidy := ploidy_t.kPloidy_Haploid, mHaploData := [["A", "B"], ["?", "C"]] } :
    MultiLocusModel).BackupOriginal.DetermineDimensions

/-! ## Positions and look-ahead (StreamScanner, BasicScanner) -/
namespace StreamScanner

/-- `StreamScanner::GetPosn`: `tellg ()`, which is -1 on a failed stream. -/
def GetPosn (sc : StreamScanner) : Int := if sc.mGood then (sc.mPosn : Int) else -1

/-- `StreamScanner::Goto`: the position before the call, and the scanner after it. The
state of the stream is cleared; 0 (`kScan_SrcBegin`) seeks the beginning, -1
(`kScan_SrcEnd`) the end, another position is sought as it is given, a seek to a negative
position failing. -/
def Goto (sc : StreamScanner) (iPosn : Int) : Int × StreamScanner :=
  (sc.GetPosn,
    if iPosn = 0 then { sc with mPosn := 0, mGood := true }
    else if iPosn = -1 then { sc with mPosn := sc.mSrc.length, mGood := true }
    else if 0 < iPosn then { sc with mPosn := iPosn.toNat, mGood := true }
    else { sc with mGood := false })

/-- `BasicScanner::PeekChar`: the character that `GetChar` gives, and the scanner after
`Goto (theCurrPosn)`. -/
def PeekChar (sc : StreamScanner) : Option Char × StreamScanner :=
  (sc.GetChar.1, (sc.GetChar.2.Goto sc.GetPosn).2)

/-- The loop of `DetectEoln` over the characters of the source from its beginning. The
character after a line feed is looked at with `PeekChar`, which fails at the end of the
source. -/
def detectLoop : List Char → eoln_t
  | [] => eoln_t.kEoln_Unknown
  | c :: rest =>
    if c = '\n' then
      match rest with
      | [] => eoln_t.kEoln_Unknown
      | theNextChar :: _ =>
        if theNextChar = '\r' then eoln_t.kEoln_Dos else eoln_t.kEoln_Unix
    else if c = '\r' then eoln_t.kEoln_Mac
    else detectLoop rest

/-- `BasicScanner::DetectEoln`: the result, and the scanner after `Goto (thePosn)`, the
position bookmarked by `Rewind`, with the result stored in `mEolnType`. -/
def DetectEoln (sc : StreamScanner) : eoln_t × StreamScanner :=
  (detectLoop sc.mSrc,
    { (sc.Rewind.Goto (sc.Goto 0).1).2 with mEolnType := detectLoop sc.mSrc })

/-- `GetChar` called `n` times. -/
def getChars : Nat → StreamScanner → StreamScanner
  | 0, sc => sc
  | n + 1, sc => getChars n sc.GetChar.2

/-- Successive calls of `ReadLine`: the lines read and the scanner after them; `none` is
a failed assertion. -/
def readLines : Nat → StreamScanner → Option (List String × StreamScanner)
  | 0, sc => some ([], sc)
  | n + 1, sc =>
    match sc.ReadLine with
    | none => none
    | some (theLine, sc1) =>
      match readLines n sc1 with
      | none => none
      | some (theLines, sc2) => some (theLine :: theLines, sc2)

end StreamScanner

/-! ## The comment filter (BasicScanner) -/
/-- A scanner with its format parameters: the stream, and the comment delimiters, the
line comment, the meta character and the whitespace as the constructor of `BasicScanner`
sets them. The flag `mCommentsAreSpace` is set by the constructor and changed nowhere: it
is true throughout. -/
structure BasicScanner extends StreamScanner where
  mStartComment : List Char := "/*".data
  mStopComment : List Char := "*/".data
  mLineComment : List Char := "//".data
  mMeta : List Char := "#".data
  mSpace : List Char := " \r\n\t".data
  deriving DecidableEq, Repr

/-- The look-ahead of `IsCommentDelim`: the characters of the source are read as long
as they are those of the delimiter, and the delimiter is found when it is read in
full. -/
def matchDelim : List Char → List Char → Bool
  | [], _ => true
  | _ :: _, [] => false
  | d :: ds, c :: cs => if c = d then matchDelim ds cs else false

/-- The loop of `SkipWhileComment` that looks for the comment stop: the number of
characters read before the stop is found, `none` when the source runs out. -/
def findStop (theDelim : List Char) : List Char → Option Nat
  | [] => none
  | c :: rest =>
    if matchDelim theDelim (c :: rest) then some 0
    else (findStop theDelim rest).map (fun k => k + 1)

namespace BasicScanner

/-- The scanner on another state of its stream. -/
def withStream (b : BasicScanner) (sc : StreamScanner) : BasicScanner :=
  { b with toStreamScanner := sc }

/-- `BasicScanner::IsCommentDelim`: does the delimiter start at the current position?
The scanner is rolled back with `Goto (theStartPosn)` in any event. -/
def IsCommentDelim (b : BasicScanner) (theDelim : List Char) : Bool × BasicScanner :=
  if theDelim = [] then (false, b)
  else
    (b.mGood && matchDelim theDelim (b.mSrc.drop b.mPosn),
      b.withStream (b.toStreamScanner.Goto b.toStreamScanner.GetPosn).2)

/-- `BasicScanner::SkipWhileComment`: a comment that starts at the current position is
consumed. Both errors are thrown with the description "no comment stop defined", the
second as an `EndOfFileError`. -/
def SkipWhileComment (b : BasicScanner) : Except ParseStop BasicScanner :=
  if b.mStartComment = [] then Except.ok b
  else if (b.IsCommentDelim b.mStartComment).1 = false then
    Except.ok (b.IsCommentDelim b.mStartComment).2
  else if b.mStopComment = [] then
    Except.error (ParseStop.thrown { mDesc := "no comment stop defined" })
  else
    match findStop b.mStopComment
        (((b.IsCommentDelim b.mStartComment).2.toStreamScanner.getChars
          b.mStartComment.length).mSrc.drop
          ((b.IsCommentDelim b.mStartComment).2.toStreamScanner.getChars
            b.mStartComment.length).mPosn) with
    | none => Except.error (ParseStop.thrown { mDesc := "no comment stop defined" })
    | some k =>
      Except.ok (b.withStream
        ((b.IsCommentDelim b.mStartComment).2.toStreamScanner.getChars
          (b.mStartComment.length + k + b.mStopComment.length)))

/-- `BasicScanner::ReadChar`: the next character that is no comment, `none` when the
source has run out (the caller is given the character 0). A comment at the current
position is skipped and the first character of `mSpace`, or a space, is returned for
it. -/
def ReadChar (b : BasicScanner) : Except ParseStop (Option Char × BasicScanner) :=
  if (b.IsCommentDelim b.mStartComment).1 then
    match (b.IsCommentDelim b.mStartComment).2.SkipWhileComment with
    | Except.error e => Except.error e
    | Except.ok b1 => Except.ok (some (b.mSpace.headD ' '), b1)
  else
    Except.ok ((b.IsCommentDelim b.mStartComment).2.toStreamScanner.GetChar.1,
      b.withStream (b.IsCommentDelim b.mStartComment).2.toStreamScanner.GetChar.2)

/-- `BasicScanner::PeekChar` on the scanner with its parameters. -/
def PeekChar (b : BasicScanner) : Option Char × BasicScanner :=
  (b.toStreamScanner.PeekChar.1, b.withStream b.toStreamScanner.PeekChar.2)

/-- `StreamScanner::UnreadChar`: `putback` on the stream. The source is not written to:
the scanner steps back one place, whatever the character handed over. -/
def UnreadChar (b : BasicScanner) (_iLastChar : Char) : BasicScanner :=
  b.withStream b.toStreamScanner.UnreadChar

/-- The loop of `ConsumeWhile`: the terminating character (0 at the end of the source)
and the scanner. A turn that reads a character advances the scanner, so the number of
characters of the source plus one bounds the number of turns (first argument); `none`
is the bound reached. -/
def consumeLoop : Nat → BasicScanner → List Char →
    Option (Except ParseStop (Char × BasicScanner))
  | 0, _, _ => none
  | fuel + 1, b, iCharSet =>
    match b.ReadChar with
    | Except.error e => some (Except.error e)
    | Except.ok (none, b1) => some (Except.ok (Char.ofNat 0, b1))
    | Except.ok (some theInChar, b1) =>
      if theInChar ∉ iCharSet then some (Except.ok (theInChar, b1.UnreadChar theInChar))
      else consumeLoop fuel b1 iCharSet

/-- `BasicScanner::ConsumeWhile`. -/
def ConsumeWhile (b : BasicScanner) (iCharSet : List Char) :
    Option (Except ParseStop (Char × BasicScanner)) :=
  consumeLoop (b.mSrc.length + 1) b iCharSet

/-- `BasicScanner::ConsumeSpace`. -/
def ConsumeSpace (b : BasicScanner) : Option (Except ParseStop (Char × BasicScanner)) :=
  b.ConsumeWhile b.mSpace

/-- The loop of `Read`: the token, the stopping character (127 at the end of the source)
and the scanner; the first argument bounds the number of turns as in `consumeLoop`. -/
def readLoop : Nat → BasicScanner → List Char → Bool → List Char →
    Option (Except ParseStop ((String × Char) × BasicScanner))
  | 0, _, _, _, _ => none
  | fuel + 1, b, iDelimiters, iEatDelimiter, ioToken =>
    match b.ReadChar with
    | Except.error e => some (Except.error e)
    | Except.ok (none, b1) => some (Except.ok ((String.mk ioToken, Char.ofNat 127), b1))
    | Except.ok (some theInChar, b1) =>
      if theInChar ∈ iDelimiters then
        some (Except.ok ((String.mk ioToken, theInChar),
          if iEatDelimiter = false then b1.UnreadChar theInChar else b1))
      else readLoop fuel b1 iDelimiters iEatDelimiter (ioToken ++ [theInChar])

/-- `BasicScanner::Read (ioToken, iDelimiters, iEatDelimiter)`. -/
def Read (b : BasicScanner) (iDelimiters : List Char) (iEatDelimiter : Bool) :
    Option (Except ParseStop ((String × Char) × BasicScanner)) :=
  readLoop (b.mSrc.length + 1) b iDelimiters iEatDelimiter []

/-- `BasicScanner::ReadToken (ioToken, iDelimiters, iEatDelimiter)`. -/
def ReadToken (b : BasicScanner) (iDelimiters : List Char) (iEatDelimiter : Bool) :
    Option (Except ParseStop ((String × Char) × BasicScanner)) :=
  match b.ConsumeSpace with
  | none => none
  | some (Except.error e) => some (Except.error e)
  | some (Except.ok (_, b1)) => b1.Read (b1.mSpace ++ iDelimiters) iEatDelimiter

end BasicScanner

/-! ### `ReadLine` on the three line endings -/
/-- The text of lines that all end with the terminator `term`. -/
def linesText (term : List Char) (lines : List (List Char)) : List Char :=
  lines.flatMap (fun line => line ++ term)

/-- The line endings that `ReadLine` reads and the types of line ending it reads them
with: a carriage return, a line feed, or a line feed followed by a carriage return, the
type being unknown or the one that `DetectEoln` names. -/
def LineEnding (term : List Char) (mode : eoln_t) : Prop :=
  (term = ['\r'] ∧ (mode = eoln_t.kEoln_Unknown ∨ mode = eoln_t.kEoln_Mac)) ∨
  (term = ['\n'] ∧ (mode = eoln_t.kEoln_Unknown ∨ mode = eoln_t.kEoln_Unix)) ∨
  (term = ['\n', '\r'] ∧ (mode = eoln_t.kEoln_Unknown ∨ mode = eoln_t.kEoln_Dos))

instance (term : List Char) (mode : eoln_t) : Decidable (LineEnding term mode) := by
  unfold LineEnding
  infer_instance

/-! ### `GetLineIndex` as it runs on the stream -/
namespace StreamScanner

/-- The counting loop of `GetLineIndex`: characters are read until `GetPosn ()` is the
position bookmarked; a failed read assigns no character. The first argument bounds the
number of turns, `none` being the bound reached. -/
def lineIndexLoop : Nat → Int → StreamScanner → Nat → Nat →
    Option (StreamScanner × Nat × Nat)
  | 0, _, _, _, _ => none
  | fuel + 1, theCurrPosn, sc, theNumCr, theNumLf =>
    if sc.GetPosn = theCurrPosn then some (sc, theNumCr, theNumLf)
    else
      match sc.GetChar with
      | (some theCurrChar, sc1) =>
        if theCurrChar = '\r' then lineIndexLoop fuel theCurrPosn sc1 (theNumCr + 1) theNumLf
        else if theCurrChar = '\n' then
          lineIndexLoop fuel theCurrPosn sc1 theNumCr (theNumLf + 1)
        else lineIndexLoop fuel theCurrPosn sc1 theNumCr theNumLf
      | (none, sc1) => lineIndexLoop fuel theCurrPosn sc1 theNumCr theNumLf

/-- The number of lines that `GetLineIndex` derives from the two counts and the type of
line ending. -/
def numLinesOf (theEolnType : eoln_t) (theNumCr theNumLf : Nat) : Nat :=
  match theEolnType with
  | eoln_t.kEoln_Unknown =>
    if theNumCr ≠ 0 then theNumCr + 1
    else if theNumLf ≠ 0 then theNumLf + 1
    else 0
  | eoln_t.kEoln_Dos => theNumCr + 1
  | eoln_t.kEoln_Mac => theNumCr + 1
  | eoln_t.kEoln_Unix => theNumLf + 1

/-- `BasicScanner::GetLineIndex` with the scanner it leaves: `Rewind`, the counting loop
and the number of lines. On a scanner within its source the loop ends after as many
turns as characters precede the position, and on a failed stream after one turn more than
the source has characters. -/
def GetLineIndexRun (sc : StreamScanner) : Option (Nat × StreamScanner) :=
  match lineIndexLoop (sc.mSrc.length + 2) sc.GetPosn sc.Rewind 0 0 with
  | none => none
  | some (sc1, theNumCr, theNumLf) => some (numLinesOf sc.mEolnType theNumCr theNumLf, sc1)

end StreamScanner

/-! ## The random number generator (RandomService.cpp)

The seed `mSeed` is a `long`; `SetSeed` leaves a value between 0 and `kRandMax`, and the
seed is held here as that natural number. `unsigned long` is taken at 32 bits, the
narrowest the language allows; the theorems below show that for the seeds `SetSeed`
leaves no intermediate value of `Generate` reaches 2 ** 32, so that a wider `long` gives
the same values. The `double`s are exact rationals. -/
namespace RandomService

/-- `kRandMax` of RandomService.cpp, 2 ** 31 - 1. -/
def kRandMax : Nat := 2147483647

/-- `kA` of RandomService.cpp. -/
def kA : Nat := 16807

/-- The value that a whole number has as an `unsigned long` of 32 bits. -/
def ulong (x : Nat) : Nat := x % 4294967296

/-- `RandomService::SetSeed`: `mSeed = iSeed ? (iSeed & kRandMax) : 1`. The operator `&`
with 0x7FFFFFFF keeps the low 31 bits of the two's complement pattern of `iSeed`, which
is `iSeed` modulo 2 ** 31 whatever the width of `long` and the sign of `iSeed`. -/
def SetSeed (iSeed : Int) : Nat :=
  if iSeed ≠ 0 then (iSeed % 2147483648).toNat else 1

/-- The step that `Generate` takes twice:
`if (theLo > kRandMax) { theLo &= kRandMax; ++theLo; }`. -/
def foldHigh (theLo : Nat) : Nat :=
  if theLo > kRandMax then ulong ((theLo &&& kRandMax) + 1) else theLo

/-- The statements of `RandomService::Generate` up to `mSeed = (long) theLo`: the seed
that one call leaves, with
`theLo = kA * (mSeed & 0xFFFF)` and `theHi = kA * ((unsigned long) mSeed >> 16)`:
`theLo += (theHi & 0x7FFF) << 16`, the step above, `theLo += theHi >> 15`, the step above
again. -/
def nextSeed (mSeed : Nat) : Nat :=
  foldHigh (ulong (foldHigh (ulong (ulong (kA * (mSeed &&& 0xFFFF)) +
      ((ulong (kA * (ulong mSeed >>> 16)) &&& 0x7FFF) <<< 16))) +
    (ulong (kA * (ulong mSeed >>> 16)) >>> 15)))

/-- `RandomService::Generate`: the number returned,
`double (mSeed) / double (kRandMax)`, and the seed left. -/
def Generate (mSeed : Nat) : ℚ × Nat :=
  ((nextSeed mSeed : ℚ) / (kRandMax : ℚ), nextSeed mSeed)

/-- `RandomService::Uniform ()`: the number returned and the seed left. -/
def UniformFloat (mSeed : Nat) : ℚ × Nat := Generate mSeed

/-- `RandomService::Uniform (long iNumChoices)` on the seed `mSeed`:
`long (theFloatRand * double (iNumChoices))` and the seed left. -/
def UniformLong (mSeed iNumChoices : Nat) : Nat × Nat :=
  (⌊(UniformFloat mSeed).1 * (iNumChoices : ℚ)⌋₊, (UniformFloat mSeed).2)

/-- `RandomService::Uniform (long iFloor, long iCeiling)` on the seed `mSeed`. -/
def UniformLongRange (mSeed iFloor iCeiling : Nat) : Nat × Nat :=
  ((UniformLong mSeed (iCeiling - iFloor + 1)).1 + iFloor,
    (UniformLong mSeed (iCeiling - iFloor + 1)).2)

/-- The seed after `k` calls of `Generate`. -/
def seedAfter (mSeed k : Nat) : Nat := (fun s => (Generate s).2)^[k] mSeed

/-- The random number service whose seed is `mSeed`: the `k`-th call of `Generate`
works on the seed that the calls before it have left. -/
def ofSeed (mSeed : Nat) : RandomService :=
  { gen := fun k n => (UniformLong (seedAfter mSeed k) n).1, calls := 0 }

end RandomService

/-- Three isolates at two loci in the populations {0, 1} and {2}, one linkage group; the
generator is in the state that `SetSeed (2147483647)` leaves. -/
def stuckSeedModel : MultiLocusModel :=
  { mPloidy := ploidy_t.kPloidy_Haploid
    mHaploData := [["A", "B"], ["C", "D"], ["E", "F"]]
    mPops := { mNumElements := 3, mParts := [(0, 1), (2, 2)] }
    mLinkages := { mNumElements := 2, mParts := [(0, 1)] }
    mRng := RandomService.ofSeed (RandomService.SetSeed 2147483647) }


/-- What the loops of `CountFreqsFromDist` keep while the isolate `i` is compared with
the later ones: the array has `n` entries, none negative, the entries after `i` are 0 or
1, the entries sum to `n`, and the first entry is at least 1. -/
def FreqBounds (n i : Nat) (freq : List Int) : Prop :=
  freq.length = n ∧ (∀ r, 0 ≤ freq.getD r 0) ∧ (∀ r, i < r → freq.getD r 0 ≤ 1) ∧
    freq.sum = n ∧ 1 ≤ freq.getD 0 0

/-- One locus, the rows "?", "A", "B", as loaded. -/
def missingFirstModel : MultiLocusModel :=
  { mPloidy := ploidy_t.kPloidy_Haploid
    mHaploData := [["?"], ["A"], ["B"]] }

/-- One locus, the rows "A", "B", "?", as loaded. -/
def missingLastModel : MultiLocusModel :=
  { mPloidy := ploidy_t.kPloidy_Haploid
    mHaploData := [["A"], ["B"], ["?"]] }

/-- Six isolates at two loci in the populations {0, 1}, {2, 3} and {4, 5}, all the loci
in one linkage group; the generator is in the state that `SetSeed (1)` leaves. -/
def threePopsModel : MultiLocusModel :=
  { mPloidy := ploidy_t.kPloidy_Haploid
    mHaploData := [["A", "B"], ["C", "D"], ["E", "F"], ["G", "H"], ["I", "J"], ["K", "L"]]
    mPops := { mNumElements := 6, mParts := [(0, 1), (2, 3), (4, 5)] }
    mLinkages := { mNumElements := 2, mParts := [(0, 1)] }
    mRng := RandomService.ofSeed (RandomService.SetSeed 1) }

/-! ## The pairwise statistics and their row of P values

`theRPairwise` of `CalcPairwiseStats` is computed with `sqrt` and is not embedded: the
parameter `theR i j` stands for the `double` that the function computes for the loci
`i < j` on the data of the pass. The counters are `double`s that hold whole numbers. -/
/-- The test `mVarDist[i] == 0`. -/
def varDistZero (mVarDist : List (Option ℚ)) (i : Nat) : Bool :=
  decide (mVarDist.getD i none = some 0)

/-- The body of the loops of `CalcPairwiseStats` for the loci `i < j`; the state is the
values `oPairwiseRVals`, the counters `oPVals` and the index `theSitePr`. -/
def CalcPairwiseStatsStep (mVarDist : List (Option ℚ)) (theR : Nat → Nat → Option ℚ)
    (iIsOriginalData : Bool) (i : Nat) (st : (List (Option ℚ) × List Nat) × Nat) (j : Nat) :
    (List (Option ℚ) × List Nat) × Nat :=
  if varDistZero mVarDist i || varDistZero mVarDist j then (st.1, st.2 + 1)
  else if iIsOriginalData then ((st.1.1.set st.2 (theR i j), st.1.2), st.2 + 1)
  else if dblLe (st.1.1.getD st.2 none) (theR i j) then
    ((st.1.1, st.1.2.set st.2 (st.1.2.getD st.2 0 + 1)), st.2 + 1)
  else (st.1, st.2 + 1)

/-- `MultiLocusModel::CalcPairwiseStats`, as far as `oPairwiseRVals` and `oPVals` go. -/
def CalcPairwiseStats (theNumSites : Nat) (mVarDist : List (Option ℚ))
    (theR : Nat → Nat → Option ℚ) (oPairwiseRVals : List (Option ℚ)) (oPVals : List Nat)
    (iIsOriginalData : Bool) : List (Option ℚ) × List Nat :=
  ((List.range (theNumSites - 1)).foldl
    (fun st i =>
      (List.range' (i + 1) (theNumSites - (i + 1))).foldl
        (CalcPairwiseStatsStep mVarDist theR iIsOriginalData i) st)
    ((oPairwiseRVals, oPVals), 0)).1

/-- The counters `thePairPVals` at the end of the loop of `CalcDiversity`; `theR k` gives
the values of the pass `k`, the pass 0 being the observed data. -/
def CalcDiversityPairPVals (theNumSites mNumPairsSites : Nat) (mVarDist : List (Option ℚ))
    (iNumRandomizations : Nat) (theR : Nat → Nat → Nat → Option ℚ) : List Nat :=
  ((List.range (iNumRandomizations + 1)).foldl
    (fun st k =>
      CalcPairwiseStats theNumSites mVarDist (theR k) st.1 st.2 (decide (k = 0)))
    (List.replicate mNumPairsSites (some 0), List.replicate mNumPairsSites 0)).2

/-- The entry that `CalcDiversity` writes in the row "P Values" of the pairs stream for
the loci `i < j`: the counter is read at the index `i`. -/
def pairPValEntry (mVarDist : List (Option ℚ)) (iNumRandomizations : Nat)
    (thePairPVals : List Nat) (i j : Nat) : PValEntry :=
  if varDistZero mVarDist i || varDistZero mVarDist j then { text := "N/A", value := none }
  else if thePairPVals.getD i 0 = 0 then
    if iNumRandomizations ≠ 0 then
      { text := "< ", value := some (1 / (iNumRandomizations : ℚ)) }
    else { text := "N/A", value := none }
  else
    { text := "< ",
      value := some ((thePairPVals.getD i 0 : ℚ) / (iNumRandomizations : ℚ)) }

/-- The row "P Values" of the pairs stream. -/
def PairPValuesRow (theNumCols : Nat) (mVarDist : List (Option ℚ))
    (iNumRandomizations : Nat) (thePairPVals : List Nat) : List PValEntry :=
  (List.range (theNumCols - 1)).flatMap (fun i =>
    (List.range' (i + 1) (theNumCols - (i + 1))).map
      (pairPValEntry mVarDist iNumRandomizations thePairPVals i))

/-- The values of `theRPairwise` of three passes over three loci: 0 for every pair of
the observed data; -1, 1, 1 for the pairs (0,1), (0,2), (1,2) of the first replicate
and -1, 1, -1 for those of the second. -/
def pairwiseRuns (k i j : Nat) : Option ℚ :=
  if k = 0 then some 0
  else if i = 0 ∧ j = 1 then some (-1)
  else if i = 0 ∧ j = 2 then some 1
  else if k = 1 then some 1
  else some (-1)

/-- Two populations of two and three haploid isolates at two loci: the first population
carries A and C, the second B and D. -/
def differentiatedModel : MultiLocusModel :=
  { mPloidy := ploidy_t.kPloidy_Haploid
    mHaploData := [["A", "C"], ["A", "C"], ["B", "D"], ["B", "D"], ["B", "D"]]
    mPops := { mNumElements := 5, mParts := [(0, 1), (2, 4)] } }

/-! ## The variance of the distances (`CalcVarDistances`) -/
/-- The value that a whole number has as a `long` of `w` bits (two's complement). -/
def wrapLong (w : Nat) (x : Int) : Int := (x + 2 ^ (w - 1)) % 2 ^ w - 2 ^ (w - 1)

namespace MultiLocusModel

/-- `theDistance` of `CalcVarDistances` for the isolates `k`, `m` at the locus `i`. -/
def locusDist (s : MultiLocusModel) (i k m : Nat) : Int :=
  if s.GetPloidy = ploidy_t.kPloidy_Haploid then
    Distance (cellAt s.mHaploData k i) (cellAt s.mHaploData m i)
  else
    DistancePair (cellAt s.mDiploData k i) (cellAt s.mDiploData m i)

/-- `theSumDist` and `theSumSquares` of `CalcVarDistances` for the locus `i`, after the
loops over the pairs of isolates. The sums stay far inside the range of `long` (a
distance is at most 2) and are taken as whole numbers. -/
def locusDistSums (s : MultiLocusModel) (i : Nat) : Int × Int :=
  (List.range (s.GetNumRows - 1)).foldl
    (fun st k =>
      (List.range' (k + 1) (s.GetNumRows - (k + 1))).foldl
        (fun st m =>
          (st.1 + s.locusDist i k m, st.2 + s.locusDist i k m * s.locusDist i k m)) st)
    (0, 0)

end MultiLocusModel

/-- `mVarDist[i]` of `CalcVarDistances` from the two sums of the locus:
`((double) theSumSquares - ((double) (theSumDist * theSumDist) /
(double) mNumPairsIsolates)) / (double) mNumPairsIsolates`. The product is taken in a
`long` of `w` bits; `none` is the result of a division by zero. -/
def varDistOf (w mNumPairsIsolates : Nat) (sums : Int × Int) : Option ℚ := do
  let r ← divQ ((wrapLong w (sums.1 * sums.1) : Int) : ℚ) (mNumPairsIsolates : ℚ)
  divQ (((sums.2 : Int) : ℚ) - r) (mNumPairsIsolates : ℚ)

/-- The sum `a + b` of two `double`s, `none` when one of them is not a number. -/
def dblAdd (a b : Option ℚ) : Option ℚ := do
  let x ← a
  let y ← b
  pure (x + y)

/-- What `CalcVarDistances` leaves in the model. -/
structure VarDistances where
  mVarDist : List (Option ℚ)
  mSumVarDist : Option ℚ
  mMaxSumCov1 : Option ℚ

namespace MultiLocusModel

/-- `mVarDist` of `CalcVarDistances`. -/
def CalcVarDist (w : Nat) (s : MultiLocusModel) : List (Option ℚ) :=
  (List.range s.GetNumCols).map (fun i => varDistOf w s.mNumPairsIsolates (s.locusDistSums i))

/-- `MultiLocusModel::CalcVarDistances`. The function `sqrt` of the library is the
parameter `dsqrt`, a `long` has `w` bits. -/
def CalcVarDistances (w : Nat) (dsqrt : Option ℚ → Option ℚ) (s : MultiLocusModel) :
    VarDistances :=
  { mVarDist := s.CalcVarDist w
    mSumVarDist := (s.CalcVarDist w).foldl dblAdd (some 0)
    mMaxSumCov1 :=
      (List.range (s.GetNumCols - 1)).foldl
        (fun acc i =>
          (List.range' (i + 1) (s.GetNumCols - (i + 1))).foldl
            (fun acc j =>
              dblAdd acc (dsqrt (do
                let x ← (s.CalcVarDist w).getD i none
                let y ← (s.CalcVarDist w).getD j none
                pure (x * y)))) acc)
        (some 0) }

end MultiLocusModel

/-- The state `t` holds the data of `s`: the ploidy, the two working matrices, the two
partitions and the number of pairs of isolates. -/
def SameData (s t : MultiLocusModel) : Prop :=
  t.mPloidy = s.mPloidy ∧ t.mHaploData = s.mHaploData ∧ t.mDiploData = s.mDiploData ∧
    t.mPops = s.mPops ∧ t.mLinkages = s.mLinkages ∧
    t.mNumPairsIsolates = s.mNumPairsIsolates

/-- The state of the replicate loop of `CalcDiversity` after the pass 0: the data of `s`
is the working data and its backup, and the draws keep their range. -/
def ReplicateReady (s t : MultiLocusModel) : Prop :=
  SameData s t ∧ t.mRng.InRange ∧
    (s.mPloidy = ploidy_t.kPloidy_Haploid → t.mBackupHaploData = s.mHaploData) ∧
    (s.mPloidy = ploidy_t.kPloidy_Diploid → t.mBackupDiploData = s.mDiploData)

/-- The data on which the pass `i` of the replicate loop of `CalcDiversity` computes its
statistics, `t` being the state before the pass. -/
def passData (iNumRandomizations : Nat) (t : MultiLocusModel) (i : Nat) : MultiLocusModel :=
  if iNumRandomizations ≠ 0 then
    (if i = 0 then t.BackupWorkingData else t.ShuffleDataset)
  else t

/-- Three diploid isolates at two loci in one population, each locus a linkage group of
its own, missing data free to move. -/
def c33Model : MultiLocusModel :=
  { mPloidy := ploidy_t.kPloidy_Diploid
    mDiploData := [[⟨"A", "B", 0⟩, ⟨"A", "A", 0⟩], [⟨"B", "A", 0⟩, ⟨"?", "A", 0⟩],
      [⟨"B", "B", 0⟩, ⟨"C", "A", 0⟩]]
    mNumPairsIsolates := 3
    mPops := { mNumElements := 3, mParts := [(0, 2)] }
    mLinkages := { mNumElements := 2, mParts := [(0, 0), (1, 1)] }
    mDoMissingShuffle := missing_t.kMissing_Free
    mRng := { gen := fun k n => (k + 1) % n } }

/-- The sum of `f` over the pairs of an earlier and a later entry of a list. -/
def pairSum {X : Type} (f : X → X → Int) : List X → Int
  | [] => 0
  | x :: xs => (xs.map (f x)).sum + pairSum f xs

/-- The cells of the locus `c` over the isolates `0 .. n - 1`. -/
def wholeColumn {X : Type} [Inhabited X] (m : MATRIX X) (n c : Nat) : List X :=
  (List.range n).map (fun r => cellAt m r c)

/-! ## The search for partitions (`FindParts`, ComboMill.h) -/
/-- The class `ComboMill` over the range `0 .. n - 1` (`ComboMill (UInt iRangeSize)` with
`iRangeSize >= 1`): `mRange` holds `0, ..., n - 1` and `mMembership` one flag for each of
them. -/
structure ComboMill where
  mMembership : List Bool
  deriving DecidableEq

namespace ComboMill

/-- `ComboMill::Size`: `count (mMembership.begin(), mMembership.end(), 1)`. -/
def Size (c : ComboMill) : Nat := c.mMembership.count true

end ComboMill

namespace MultiLocusModel

end MultiLocusModel

namespace MultiLocusModel

end MultiLocusModel

/-- Three haploid isolates at three loci with a missing allele, as loaded. -/
def abcMissingModel : MultiLocusModel :=
  { mPloidy := ploidy_t.kPloidy_Haploid
    mHaploData := [["A", "B", "C"], ["A", "A", "C"], ["B", "?", "C"]] }

/-- No genotype of the set is unique on an axis: every one shares its first allele with
another genotype of the set and its second allele with another one. -/
def NoneUnique (S : List (tAllele × tAllele)) : Prop :=
  ∀ g ∈ S, (∃ m ∈ S, m ≠ g ∧ m.1 = g.1) ∧ (∃ m ∈ S, m ≠ g ∧ m.2 = g.2)

instance (S : List (tAllele × tAllele)) : Decidable (NoneUnique S) := by
  unfold NoneUnique
  infer_instance

/-- Some non-empty set of genotypes of the list has no genotype unique on an axis. -/
def HasClosedSet (l : List (tAllele × tAllele)) : Prop :=
  ∃ S : List (tAllele × tAllele), S ≠ [] ∧ (∀ g ∈ S, g ∈ l) ∧ NoneUnique S

/-- The rows 0 0 / 0 1 / 1 0: three of the four genotypes of two loci with two alleles. -/
def threeGametesModel : MultiLocusModel :=
  { mPloidy := ploidy_t.kPloidy_Haploid
    mHaploData := [["0", "0"], ["0", "1"], ["1", "0"]] }

/-- Two identical isolates with a single locus, as loaded. -/
def twoEqualModel : MultiLocusModel :=
  { mPloidy := ploidy_t.kPloidy_Haploid
    mHaploData := [["A"], ["A"]] }

/-- The number of columns of a line as the description of `ParseInput` words it, the
tab-separated columns of the line once the empty columns at its end are dropped, counted
on the characters: the line without the tabs at its end holds one column more than it
holds tabs, and no column when nothing is left of it. -/
def columnsOfLine (theInLine : String) : Nat :=
  if theInLine.data.reverse.dropWhile (fun c => c == '\t') = [] then 0
  else (theInLine.data.reverse.dropWhile (fun c => c == '\t')).count '\t' + 1

open MultiLocusModel

/-! ## Theorems -/

/-! ### The distance primitives -/

theorem IsMissingCStr_iff (x : String) :
    IsMissingCStr x = true ↔ x = kSymbol_Unknown ∨ x = kSymbol_Gap := by
  unfold IsMissingCStr
  by_cases h1 : kSymbol_Unknown = x
  · simp [h1]
  · by_cases h2 : kSymbol_Gap = x
    · simp [h2]
    · have h1' : ¬ x = kSymbol_Unknown := fun h => h1 h.symm
      have h2' : ¬ x = kSymbol_Gap := fun h => h2 h.symm
      simp [h1, h2, h1', h2']

/-- The test of `IsMissing (const string&)` reads the characters before the first NUL. -/
theorem IsMissing_iff (x : String) :
    IsMissing x = true ↔ c_str x = kSymbol_Unknown ∨ c_str x = kSymbol_Gap :=
  IsMissingCStr_iff (c_str x)

/-- A string without a NUL character is its own C string. -/
theorem c_str_of_no_nul (x : String) (h : Char.ofNat 0 ∉ x.data) : c_str x = x := by
  unfold c_str
  have : x.data.takeWhile (fun c => c != Char.ofNat 0) = x.data := by
    rw [List.takeWhile_eq_self_iff]
    intro c hc
    have : c ≠ Char.ofNat 0 := fun e => h (e ▸ hc)
    simpa using this
  rw [this]

theorem IsMissing_of_no_nul (x : String) (h : Char.ofNat 0 ∉ x.data) :
    IsMissing x = IsMissingCStr x := by
  unfold IsMissing
  rw [c_str_of_no_nul x h]

/-- The two missing symbols are missing. -/
theorem IsMissing_of_symbol (x : String) (h : x = kSymbol_Unknown ∨ x = kSymbol_Gap) :
    IsMissing x = true := by
  rcases h with rfl | rfl <;> decide

/-- An allele that is not missing is none of the two missing symbols. -/
theorem ne_symbol_of_not_missing (x : String) (h : IsMissing x = false) :
    x ≠ kSymbol_Unknown ∧ x ≠ kSymbol_Gap := by
  constructor
  · intro e
    rw [IsMissing_of_symbol x (Or.inl e)] at h
    exact absurd h (by decide)
  · intro e
    rw [IsMissing_of_symbol x (Or.inr e)] at h
    exact absurd h (by decide)

/-- The haploid `Distance` by cases: 0 when either allele reads as a missing symbol up to
its first NUL character or the two alleles are equal, and 1 otherwise. -/
theorem Distance_c_str (a b : tAllele) :
    Distance a b =
      if (c_str a = "?" ∨ c_str a = "-") ∨ (c_str b = "?" ∨ c_str b = "-") ∨ a = b
        then 0 else 1 := by
  have ha := IsMissing_iff a
  have hb := IsMissing_iff b
  unfold kSymbol_Unknown kSymbol_Gap at ha hb
  simp only [← ha, ← hb]
  unfold Distance
  by_cases h1 : IsMissing a = true <;> by_cases h2 : IsMissing b = true <;>
    by_cases h3 : a = b <;> simp [h1, h2, h3]

theorem Distance_symm (a b : tAllele) : Distance a b = Distance b a := by
  unfold Distance
  by_cases h3 : a = b
  · subst h3; simp [Bool.or_comm]
  · have h3b : ¬ b = a := fun h => h3 h.symm
    by_cases h1 : IsMissing a = true <;> by_cases h2 : IsMissing b = true <;>
      simp [h1, h2, h3, h3b]

theorem Distance_symbol (x : tAllele) :
    Distance "?" x = 0 ∧ Distance "-" x = 0 ∧ Distance x "?" = 0 ∧ Distance x "-" = 0 := by
  have h1 : IsMissing "?" = true := by decide
  have h2 : IsMissing "-" = true := by decide
  refine ⟨?_, ?_, ?_, ?_⟩ <;> simp [Distance, h1, h2]

/-- On alleles without a NUL character the haploid `Distance` is 0 when either allele is
"?" or "-" or the two alleles are equal, and 1 otherwise. -/
theorem Distance_of_no_nul (a b : tAllele) (ha : Char.ofNat 0 ∉ a.data)
    (hb : Char.ofNat 0 ∉ b.data) :
    Distance a b = if (a = "?" ∨ a = "-") ∨ (b = "?" ∨ b = "-") ∨ a = b then 0 else 1 := by
  rw [Distance_c_str, c_str_of_no_nul a ha, c_str_of_no_nul b hb]

/-- C4: the haploid `Distance` is 0 when either allele tests as a missing symbol or the
two alleles are equal, and 1 otherwise; it is symmetric, and "?" and "-" are at distance 0
from every allele. The test of a missing symbol reads the allele as a C string, up to its
first NUL character: the allele of the three characters '?', NUL, 'A', which `ParseInput`
stores from a file, is neither "?" nor "-" and differs from "B", yet its distance to "B"
is 0, while `Frequency.Erase` of the missing symbol leaves it in place. -/
theorem C4_Distance_haploid :
    (∀ a b : tAllele, Distance a b =
      if (c_str a = "?" ∨ c_str a = "-") ∨ (c_str b = "?" ∨ c_str b = "-") ∨ a = b
        then 0 else 1) ∧
    (∀ a b : tAllele, Distance a b = Distance b a) ∧
    (∀ x : tAllele, Distance "?" x = 0 ∧ Distance "-" x = 0 ∧ Distance x "?" = 0 ∧
      Distance x "-" = 0) ∧
    ("?\x00A" ≠ "?" ∧ "?\x00A" ≠ "-" ∧ "?\x00A" ≠ "B" ∧ "B" ≠ "?" ∧ "B" ≠ "-" ∧
      "?\x00A".length = 3 ∧ c_str "?\x00A" = "?" ∧ IsMissing "?\x00A" = true ∧
      Distance "?\x00A" "B" = 0 ∧ Distance "B" "?\x00A" = 0) ∧
    Frequency.Erase (Frequency.Erase [("?\x00A", 1), ("B", 1)] kSymbol_Unknown) kSymbol_Gap =
      [("?\x00A", 1), ("B", 1)] ∧
    (({} : MultiLocusModel).ParseInput "?\x00A\tX\nB\tX\n".data "f").toOption.map
        (fun m => (m.GetNumRows, m.GetNumCols, m.GetDataString 0 0, m.GetDataString 1 0,
          Distance (m.GetDataString 0 0) (m.GetDataString 1 0))) =
      some (2, 2, "?\x00A", "B", 0) :=
  ⟨Distance_c_str, Distance_symm, Distance_symbol, by decide, by decide, by decide⟩

theorem distance_table (m1 m2 m3 m4 eac ead ebc ebd : Bool) :
    (if (((m1 || m3 || eac) && (m2 || m4 || ebd)) ||
          ((m1 || m4 || ead) && (m2 || m3 || ebc))) = true then (0 : Int)
      else if ((!m1) && (!m3) && (!m2) && (!m4) && (!eac) && (!ead) && (!ebc) &&
          (!ebd)) = true then 2 else 1) =
      if ((m1 = true ∨ m3 = true ∨ eac = true) ∧ (m2 = true ∨ m4 = true ∨ ebd = true)) ∨
          ((m1 = true ∨ m4 = true ∨ ead = true) ∧ (m2 = true ∨ m3 = true ∨ ebc = true))
      then 0
      else if (m1 = false ∧ m2 = false ∧ m3 = false ∧ m4 = false) ∧
          (¬ eac = true ∧ ¬ ead = true ∧ ¬ ebc = true ∧ ¬ ebd = true) then 2 else 1 := by
  revert m1 m2 m3 m4 eac ead ebc ebd
  decide

theorem DistancePair_eq (p q : tAllelePair) :
    DistancePair p q =
      if pairingMatches p q then 0
      else if noneMissing p q ∧ allFourDiffer p q then 2 else 1 := by
  have h := distance_table (IsMissing p.alleleA) (IsMissing p.alleleB)
    (IsMissing q.alleleA) (IsMissing q.alleleB) (p.alleleA == q.alleleA)
    (p.alleleA == q.alleleB) (p.alleleB == q.alleleA) (p.alleleB == q.alleleB)
  simp only [beq_iff_eq] at h
  unfold DistancePair pairingMatches noneMissing allFourDiffer wildMatch
  simp only [bne, ne_eq]
  exact h

/-- C5: the diploid `Distance` is 0 iff one of the two pairings of the alleles matches
component-wise with missing alleles as wildcards; it is 2 iff no allele is missing and
each allele of the first pair differs from both alleles of the second; it is 1 in every
other case. -/
theorem C5_Distance_diploid (p q : tAllelePair) :
    (DistancePair p q = 0 ↔ pairingMatches p q) ∧
    (DistancePair p q = 2 ↔ noneMissing p q ∧ allFourDiffer p q) ∧
    (DistancePair p q = 1 ↔ ¬ pairingMatches p q ∧ ¬ (noneMissing p q ∧ allFourDiffer p q)) := by
  rw [DistancePair_eq]
  by_cases h0 : pairingMatches p q
  · have h2 : ¬ (noneMissing p q ∧ allFourDiffer p q) := by
      rintro ⟨⟨m1, m2, m3, m4⟩, d1, d2, d3, d4⟩
      unfold pairingMatches wildMatch at h0
      simp [m1, m2, m3, m4, d1, d2, d3, d4] at h0
    simp [h0, h2]
  · by_cases h2 : noneMissing p q ∧ allFourDiffer p q <;> simp [h0, h2]

theorem DistancePair_swap_first (a b c d : String) (t u : Nat) :
    DistancePair ⟨b, a, t⟩ ⟨c, d, u⟩ = DistancePair ⟨a, b, t⟩ ⟨c, d, u⟩ := by
  have h := distance_table (IsMissing a) (IsMissing b) (IsMissing c) (IsMissing d)
    (a == c) (a == d) (b == c) (b == d)
  have h' := distance_table (IsMissing b) (IsMissing a) (IsMissing c) (IsMissing d)
    (b == c) (b == d) (a == c) (a == d)
  unfold DistancePair
  simp only [bne]
  rw [h, h']
  refine if_congr ?_ rfl (if_congr ?_ rfl rfl)
  · constructor
    · rintro (⟨h1, h2⟩ | ⟨h1, h2⟩)
      · exact Or.inr ⟨h2, h1⟩
      · exact Or.inl ⟨h2, h1⟩
    · rintro (⟨h1, h2⟩ | ⟨h1, h2⟩)
      · exact Or.inr ⟨h2, h1⟩
      · exact Or.inl ⟨h2, h1⟩
  · constructor
    · rintro ⟨⟨m1, m2, m3, m4⟩, e1, e2, e3, e4⟩
      exact ⟨⟨m2, m1, m3, m4⟩, e3, e4, e1, e2⟩
    · rintro ⟨⟨m1, m2, m3, m4⟩, e1, e2, e3, e4⟩
      exact ⟨⟨m2, m1, m3, m4⟩, e3, e4, e1, e2⟩

theorem DistancePair_swap_second (a b c d : String) (t u : Nat) :
    DistancePair ⟨a, b, t⟩ ⟨d, c, u⟩ = DistancePair ⟨a, b, t⟩ ⟨c, d, u⟩ := by
  have h := distance_table (IsMissing a) (IsMissing b) (IsMissing c) (IsMissing d)
    (a == c) (a == d) (b == c) (b == d)
  have h' := distance_table (IsMissing a) (IsMissing b) (IsMissing d) (IsMissing c)
    (a == d) (a == c) (b == d) (b == c)
  unfold DistancePair
  simp only [bne]
  rw [h, h']
  refine if_congr ?_ rfl (if_congr ?_ rfl rfl)
  · exact Or.comm
  · constructor
    · rintro ⟨⟨m1, m2, m3, m4⟩, e1, e2, e3, e4⟩
      exact ⟨⟨m1, m2, m4, m3⟩, e2, e1, e4, e3⟩
    · rintro ⟨⟨m1, m2, m3, m4⟩, e1, e2, e3, e4⟩
      exact ⟨⟨m1, m2, m4, m3⟩, e2, e1, e4, e3⟩

theorem DistancePair_comm (p q : tAllelePair) : DistancePair q p = DistancePair p q := by
  rw [DistancePair_eq, DistancePair_eq]
  refine if_congr ?_ rfl (if_congr ?_ rfl rfl)
  · unfold pairingMatches wildMatch
    constructor
    · rintro (⟨h1, h2⟩ | ⟨h1, h2⟩)
      · exact Or.inl ⟨by tauto, by tauto⟩
      · exact Or.inr ⟨by tauto, by tauto⟩
    · rintro (⟨h1, h2⟩ | ⟨h1, h2⟩)
      · exact Or.inl ⟨by tauto, by tauto⟩
      · exact Or.inr ⟨by tauto, by tauto⟩
  · unfold noneMissing allFourDiffer
    constructor
    · rintro ⟨⟨m1, m2, m3, m4⟩, e1, e2, e3, e4⟩
      exact ⟨⟨m3, m4, m1, m2⟩, Ne.symm e1, Ne.symm e3, Ne.symm e2, Ne.symm e4⟩
    · rintro ⟨⟨m1, m2, m3, m4⟩, e1, e2, e3, e4⟩
      exact ⟨⟨m3, m4, m1, m2⟩, Ne.symm e1, Ne.symm e3, Ne.symm e2, Ne.symm e4⟩

/-- C6: the diploid `Distance` does not change when the two alleles of either pair are
swapped, nor when the two pairs are exchanged, whatever the alleles (missing or not). -/
theorem C6_Distance_diploid_order_invariant (a b c d : String) (t u : Nat) :
    DistancePair ⟨a, b, t⟩ ⟨c, d, u⟩ = DistancePair ⟨b, a, t⟩ ⟨c, d, u⟩ ∧
    DistancePair ⟨b, a, t⟩ ⟨c, d, u⟩ = DistancePair ⟨a, b, t⟩ ⟨d, c, u⟩ ∧
    DistancePair ⟨a, b, t⟩ ⟨d, c, u⟩ = DistancePair ⟨c, d, u⟩ ⟨a, b, t⟩ := by
  refine ⟨(DistancePair_swap_first a b c d t u).symm, ?_, ?_⟩
  · rw [DistancePair_swap_first, DistancePair_swap_second]
  · rw [DistancePair_swap_second, DistancePair_comm]

theorem StrictDistance_eq (a b : tAllele) :
    StrictDistance a b =
      if IsMissing a = true ∨ IsMissing b = true then 1 else if a = b then 0 else 1 := by
  unfold StrictDistance
  simp only [Bool.or_eq_true, beq_iff_eq]

theorem StrictDistance_zero_iff (a b : tAllele) :
    StrictDistance a b = 0 ↔ IsMissing a = false ∧ IsMissing b = false ∧ a = b := by
  rw [StrictDistance_eq]
  by_cases h1 : IsMissing a = true <;> by_cases h2 : IsMissing b = true <;>
    by_cases h3 : a = b <;> simp [h1, h2, h3]

theorem StrictDistancePair_zero_iff (p q : tAllelePair) :
    StrictDistancePair p q = 0 ↔ noneMissing p q ∧ sameUnordered p q := by
  unfold StrictDistancePair noneMissing sameUnordered
  simp only [StrictDistance_zero_iff]
  constructor
  · intro h
    by_cases h1 : IsMissing p.alleleA = false ∧ IsMissing q.alleleA = false ∧
        p.alleleA = q.alleleA
    · rw [if_pos h1] at h
      by_cases h2 : IsMissing p.alleleB = false ∧ IsMissing q.alleleB = false ∧
          p.alleleB = q.alleleB
      · exact ⟨⟨h1.1, h2.1, h1.2.1, h2.2.1⟩, Or.inl ⟨h1.2.2, h2.2.2⟩⟩
      · rw [if_neg h2] at h
        exact absurd h (by decide)
    · rw [if_neg h1] at h
      by_cases h3 : IsMissing p.alleleA = false ∧ IsMissing q.alleleB = false ∧
          p.alleleA = q.alleleB
      · rw [if_pos h3] at h
        by_cases h4 : IsMissing p.alleleB = false ∧ IsMissing q.alleleA = false ∧
            p.alleleB = q.alleleA
        · exact ⟨⟨h3.1, h4.1, h4.2.1, h3.2.1⟩, Or.inr ⟨h3.2.2, h4.2.2⟩⟩
        · rw [if_neg h4] at h
          exact absurd h (by decide)
      · rw [if_neg h3] at h
        split_ifs at h <;> exact absurd h (by decide)
  · rintro ⟨⟨m1, m2, m3, m4⟩, (⟨e1, e2⟩ | ⟨e1, e2⟩)⟩
    · rw [if_pos ⟨m1, m3, e1⟩, if_pos ⟨m2, m4, e2⟩]
    · by_cases hac : p.alleleA = q.alleleA
      · have hbd : p.alleleB = q.alleleB := by rw [e2, ← hac, e1]
        rw [if_pos ⟨m1, m3, hac⟩, if_pos ⟨m2, m4, hbd⟩]
      · rw [if_neg (fun h => hac h.2.2), if_pos ⟨m1, m4, e1⟩, if_pos ⟨m2, m3, e2⟩]

theorem StrictDistancePair_nonneg (p q : tAllelePair) : 0 ≤ StrictDistancePair p q := by
  unfold StrictDistancePair
  split_ifs <;> decide

/-- C7: `StrictDistance` never treats a missing allele as a match. Haploid: the distance
is 1 whenever either allele is a missing symbol and otherwise 0 exactly when the alleles
are equal. Diploid: the distance is 0 iff none of the four alleles is missing and the
two cells are equal as unordered pairs, so it is at least 1 whenever an allele is
missing. -/
theorem C7_StrictDistance_no_wildcard (a b : tAllele) (p q : tAllelePair) :
    (StrictDistance a b =
      if IsMissing a = true ∨ IsMissing b = true then 1 else if a = b then 0 else 1) ∧
    (StrictDistancePair p q = 0 ↔ noneMissing p q ∧ sameUnordered p q) ∧
    (noneMissing p q ∨ 1 ≤ StrictDistancePair p q) := by
  refine ⟨StrictDistance_eq a b, StrictDistancePair_zero_iff p q, ?_⟩
  by_cases h : noneMissing p q
  · exact Or.inl h
  · right
    have h0 : StrictDistancePair p q ≠ 0 := fun h0 =>
      h ((StrictDistancePair_zero_iff p q).1 h0).1
    have h1 := StrictDistancePair_nonneg p q
    omega

/-! ### Reading and writing cells -/

theorem getD_set_eq {α : Type} (l : List α) (i j : Nat) (a d : α) :
    (l.set i a).getD j d = if j = i ∧ i < l.length then a else l.getD j d := by
  simp only [List.getD_eq_getElem?_getD, List.getElem?_set]
  by_cases h : i = j
  · subst h
    by_cases hi : i < l.length
    · simp [hi]
    · simp [hi, List.getElem?_eq_none (Nat.le_of_not_lt hi)]
  · have h' : ¬ j = i := fun e => h e.symm
    simp [h, h']

theorem length_cellPut {X : Type} (m : MATRIX X) (i k : Nat) (v : X) :
    (cellPut m i k v).length = m.length := by
  simp [cellPut]

theorem row_cellPut {X : Type} (m : MATRIX X) (i k r : Nat) (v : X) :
    (cellPut m i k v).getD r [] =
      if r = i ∧ i < m.length then (m.getD i []).set k v else m.getD r [] := by
  unfold cellPut
  rw [getD_set_eq]

theorem rowLength_cellPut {X : Type} (m : MATRIX X) (i k r : Nat) (v : X) :
    ((cellPut m i k v).getD r []).length = (m.getD r []).length := by
  rw [row_cellPut]
  split_ifs with h
  · rw [List.length_set, h.1]
  · rfl

theorem cellAt_cellPut {X : Type} [Inhabited X] (m : MATRIX X) (i k r c : Nat) (v : X) :
    cellAt (cellPut m i k v) r c =
      if r = i ∧ c = k ∧ i < m.length ∧ k < (m.getD i []).length then v
      else cellAt m r c := by
  unfold cellAt
  rw [row_cellPut]
  by_cases h : r = i ∧ i < m.length
  · rw [if_pos h, getD_set_eq]
    obtain ⟨rfl, hi⟩ := h
    by_cases h2 : c = k ∧ k < (m.getD r []).length
    · rw [if_pos h2, if_pos ⟨rfl, h2.1, hi, h2.2⟩]
    · rw [if_neg h2, if_neg (fun h3 => h2 ⟨h3.2.1, h3.2.2.2⟩)]
  · rw [if_neg h, if_neg (fun h3 => h ⟨h3.1, h3.2.2.1⟩)]

theorem cellAt_cellPut_cases {X : Type} [Inhabited X] (m : MATRIX X) (i k r c : Nat) (v : X) :
    cellAt (cellPut m i k v) r c = cellAt m r c ∨ cellAt (cellPut m i k v) r c = v := by
  rw [cellAt_cellPut]
  split_ifs
  · exact Or.inr rfl
  · exact Or.inl rfl

theorem Rect_cellPut {X : Type} (m : MATRIX X) (n l i k : Nat) (v : X) (h : Rect m n l) :
    Rect (cellPut m i k v) n l :=
  ⟨by rw [length_cellPut]; exact h.1, fun r hr => by rw [rowLength_cellPut]; exact h.2 r hr⟩

theorem cellAt_cellPut_rect {X : Type} [Inhabited X] (m : MATRIX X) (n l i k r c : Nat)
    (v : X) (h : Rect m n l) (hi : i < n) (hk : k < l) :
    cellAt (cellPut m i k v) r c = if r = i ∧ c = k then v else cellAt m r c := by
  rw [cellAt_cellPut]
  have h1 : i < m.length := by rw [h.1]; exact hi
  have h2 : k < (m.getD i []).length := by rw [h.2 i hi]; exact hk
  by_cases h3 : r = i ∧ c = k
  · rw [if_pos ⟨h3.1, h3.2, h1, h2⟩, if_pos h3]
  · rw [if_neg (fun h4 => h3 ⟨h4.1, h4.2.1⟩), if_neg h3]

/-! ### One swap -/

theorem Rect_gSwap {X : Type} [Inhabited X] (fixed : Bool) (miss : X → Bool) (m : MATRIX X)
    (n l k i j : Nat) (h : Rect m n l) : Rect (gSwap fixed miss m k i j) n l := by
  unfold gSwap
  split_ifs
  · exact Rect_cellPut _ n l _ _ _ (Rect_cellPut _ n l _ _ _ h)
  · exact h

theorem cellAt_gSwap {X : Type} [Inhabited X] (fixed : Bool) (miss : X → Bool)
    (m : MATRIX X) (n l k i j r c : Nat) (h : Rect m n l) (hi : i < n) (hj : j < n)
    (hk : k < l) :
    cellAt (gSwap fixed miss m k i j) r c =
      if c = k ∧ swapEnabled fixed miss m k i j = true then cellAt m (Equiv.swap i j r) c
      else cellAt m r c := by
  unfold gSwap
  by_cases he : swapEnabled fixed miss m k i j = true
  · rw [if_pos he, cellAt_cellPut_rect _ n l j k r c _ (Rect_cellPut _ n l _ _ _ h) hj hk,
      cellAt_cellPut_rect _ n l i k r c _ h hi hk]
    by_cases hc : c = k
    · subst hc
      simp only [and_true, true_and, he, if_true, Equiv.swap_apply_def]
      by_cases hrj : r = j
      · by_cases hri : r = i
        · rw [if_pos hrj, if_pos hri, ← hri, ← hrj]
        · rw [if_pos hrj, if_neg hri, if_pos hrj]
      · by_cases hri : r = i
        · rw [if_neg hrj, if_pos hri, if_pos hri]
        · rw [if_neg hrj, if_neg hri, if_neg hri, if_neg hrj]
    · simp [hc]
  · rw [if_neg he, if_neg (fun h' => he h'.2)]

theorem cellAt_gSwap_cases {X : Type} [Inhabited X] (fixed : Bool) (miss : X → Bool)
    (m : MATRIX X) (k i j r c : Nat) :
    cellAt (gSwap fixed miss m k i j) r c = cellAt m r c ∨
      (swapEnabled fixed miss m k i j = true ∧
        (cellAt (gSwap fixed miss m k i j) r c = cellAt m i k ∨
          cellAt (gSwap fixed miss m k i j) r c = cellAt m j k)) := by
  unfold gSwap
  by_cases he : swapEnabled fixed miss m k i j = true
  · rw [if_pos he]
    rcases cellAt_cellPut_cases (cellPut m i k (cellAt m j k)) j k r c (cellAt m i k) with
      h1 | h1
    · rcases cellAt_cellPut_cases m i k r c (cellAt m j k) with h2 | h2
      · exact Or.inl (h1.trans h2)
      · exact Or.inr ⟨he, Or.inr (h1.trans h2)⟩
    · exact Or.inr ⟨he, Or.inl h1⟩
  · rw [if_neg he]; exact Or.inl rfl

/-! ### The locus loop -/

theorem gInner_range {X : Type} [Inhabited X] (fixed : Bool) (miss : X → Bool)
    (m : MATRIX X) (n l i j lf : Nat) (h : Rect m n l) (hi : i < n) (hj : j < n) :
    ∀ w, lf + w ≤ l →
      Rect ((List.range' lf w).foldl (fun t k => gSwap fixed miss t k i j) m) n l ∧
      ∀ r c, cellAt ((List.range' lf w).foldl (fun t k => gSwap fixed miss t k i j) m) r c =
        if lf ≤ c ∧ c < lf + w ∧ swapEnabled fixed miss m c i j = true then
          cellAt m (Equiv.swap i j r) c
        else cellAt m r c := by
  intro w
  induction w with
  | zero =>
    intro _
    refine ⟨h, fun r c => ?_⟩
    simp only [List.range'_zero, List.foldl_nil]
    rw [if_neg]
    rintro ⟨h1, h2, _⟩
    omega
  | succ w ih =>
    intro hw
    obtain ⟨hrect, hcell⟩ := ih (by omega)
    rw [List.range'_concat, List.foldl_append]
    simp only [Nat.one_mul, List.foldl_cons, List.foldl_nil]
    refine ⟨Rect_gSwap _ _ _ n l _ _ _ hrect, fun r c => ?_⟩
    rw [cellAt_gSwap fixed miss _ n l (lf + w) i j r c hrect hi hj (by omega)]
    have e1 : ∀ r', cellAt ((List.range' lf w).foldl
        (fun t k => gSwap fixed miss t k i j) m) r' (lf + w) = cellAt m r' (lf + w) := by
      intro r'
      rw [hcell]
      exact if_neg (fun h' => Nat.lt_irrefl _ h'.2.1)
    have hen : swapEnabled fixed miss
        ((List.range' lf w).foldl (fun t k => gSwap fixed miss t k i j) m) (lf + w) i j =
        swapEnabled fixed miss m (lf + w) i j := by
      unfold swapEnabled
      rw [e1, e1]
    rw [hen]
    by_cases hc : c = lf + w
    · subst hc
      simp only [e1]
      refine if_congr ?_ rfl rfl
      constructor
      · rintro ⟨_, he⟩
        exact ⟨Nat.le_add_right _ _, by omega, he⟩
      · rintro ⟨_, _, he⟩
        exact ⟨trivial, he⟩
    · have h0 : ¬ (c = lf + w ∧ swapEnabled fixed miss m (lf + w) i j = true) :=
        fun h' => hc h'.1
      simp only [h0, if_false, hcell]
      refine if_congr ?_ rfl rfl
      constructor
      · rintro ⟨h4, h5, h6⟩
        exact ⟨h4, by omega, h6⟩
      · rintro ⟨h4, h5, h6⟩
        exact ⟨h4, by omega, h6⟩

theorem gInner_spec {X : Type} [Inhabited X] (fixed : Bool) (miss : X → Bool)
    (m : MATRIX X) (n l i j lf lt : Nat) (h : Rect m n l) (hi : i < n) (hj : j < n)
    (hlf : lf ≤ lt) (hlt : lt < l) :
    Rect (gInner fixed miss lf lt i j m) n l ∧
      ∀ r c, cellAt (gInner fixed miss lf lt i j m) r c =
        if lf ≤ c ∧ c ≤ lt ∧ swapEnabled fixed miss m c i j = true then
          cellAt m (Equiv.swap i j r) c
        else cellAt m r c := by
  unfold gInner
  obtain ⟨h1, h2⟩ := gInner_range fixed miss m n l i j lf h hi hj (lt + 1 - lf) (by omega)
  refine ⟨h1, fun r c => ?_⟩
  rw [h2]
  refine if_congr ?_ rfl rfl
  constructor
  · rintro ⟨h4, h5, h6⟩
    exact ⟨h4, by omega, h6⟩
  · rintro ⟨h4, h5, h6⟩
    exact ⟨h4, by omega, h6⟩

/-! ### Loops as folds -/

theorem foldl_invariant {σ α : Type} (P : σ → Prop) (f : σ → α → σ) (l : List α)
    (h : ∀ s x, x ∈ l → P s → P (f s x)) : ∀ s, P s → P (l.foldl f s) := by
  induction l with
  | nil => intro s hs; exact hs
  | cons x xs ih =>
    intro s hs
    rw [List.foldl_cons]
    exact ih (fun s' y hy hs' => h s' y (List.mem_cons_of_mem _ hy) hs') _
      (h s x (List.mem_cons_self _ _) hs)

theorem foldl_range_getD {σ α : Type} (f : σ → α → σ) (l : List α) (d : α) (s : σ) :
    (List.range l.length).foldl (fun t i => f t (l.getD i d)) s = l.foldl f s := by
  induction l using List.reverseRecOn generalizing s with
  | nil => rfl
  | append_singleton xs x ih =>
    rw [List.length_append, List.length_singleton, List.range_succ, List.foldl_append,
      List.foldl_append]
    simp only [List.foldl_cons, List.foldl_nil]
    have h1 : (xs ++ [x]).getD xs.length d = x := by simp
    rw [h1]
    congr 1
    rw [← ih s]
    apply List.foldl_ext
    intro t i hi
    have hi' : i < xs.length := List.mem_range.1 hi
    simp [List.getElem?_append_left hi']

/-! ### Tuples of a block -/

theorem perm_map_swap (f w i j : Nat) (hi : f ≤ i ∧ i < f + w) (hj : f ≤ j ∧ j < f + w) :
    ((List.range' f w).map (Equiv.swap i j)).Perm (List.range' f w) := by
  apply (List.perm_ext_iff_of_nodup
    ((List.nodup_range' f w).map (Equiv.injective _)) (List.nodup_range' f w)).2
  intro x
  simp only [List.mem_map, List.mem_range'_1]
  constructor
  · rintro ⟨y, hy, rfl⟩
    rw [Equiv.swap_apply_def]
    split_ifs <;> omega
  · intro hx
    refine ⟨Equiv.swap i j x, ?_, Equiv.swap_apply_self i j x⟩
    rw [Equiv.swap_apply_def]
    split_ifs <;> omega

theorem isolateTuple_congr {X : Type} [Inhabited X] (m m' : MATRIX X) (a b r r' : Nat)
    (h : ∀ c, a ≤ c → c ≤ b → cellAt m' r' c = cellAt m r c) :
    isolateTuple m' a b r' = isolateTuple m a b r := by
  unfold isolateTuple
  apply List.map_congr_left
  intro c hc
  rw [List.mem_range'_1] at hc
  exact h c hc.1 (by omega)

theorem blockTuples_congr {X : Type} [Inhabited X] (m m' : MATRIX X) (a b f t : Nat)
    (h : ∀ r c, f ≤ r → r ≤ t → a ≤ c → c ≤ b → cellAt m' r c = cellAt m r c) :
    blockTuples m' a b f t = blockTuples m a b f t := by
  unfold blockTuples
  apply List.map_congr_left
  intro r hr
  rw [List.mem_range'_1] at hr
  exact isolateTuple_congr m m' a b r r (fun c h1 h2 => h r c hr.1 (by omega) h1 h2)

theorem regionComplete_iff {X : Type} [Inhabited X] (miss : X → Bool) (m : MATRIX X)
    (a b f t : Nat) :
    regionComplete miss m a b f t ↔
      ∀ T ∈ blockTuples m a b f t, ∀ x ∈ T, miss x = false := by
  unfold regionComplete blockTuples isolateTuple
  constructor
  · intro h T hT x hx
    rw [List.mem_map] at hT
    obtain ⟨r, hr, rfl⟩ := hT
    rw [List.mem_map] at hx
    obtain ⟨c, hc, rfl⟩ := hx
    rw [List.mem_range'_1] at hr hc
    exact h r c hr.1 (by omega) hc.1 (by omega)
  · intro h r c h1 h2 h3 h4
    apply h ((List.range' a (b + 1 - a)).map (cellAt m r))
    · rw [List.mem_map]
      exact ⟨r, List.mem_range'_1.2 ⟨h1, by omega⟩, rfl⟩
    · rw [List.mem_map]
      exact ⟨c, List.mem_range'_1.2 ⟨h3, by omega⟩, rfl⟩

theorem regionComplete_of_perm {X : Type} [Inhabited X] (miss : X → Bool) (m m' : MATRIX X)
    (a b f t : Nat) (hp : (blockTuples m' a b f t).Perm (blockTuples m a b f t))
    (h : regionComplete miss m a b f t) : regionComplete miss m' a b f t := by
  rw [regionComplete_iff] at h ⊢
  intro T hT
  exact h T (hp.mem_iff.1 hT)

/-- The effect of the locus loop on the tuples of a block of isolates. -/
theorem blockTuples_gInner {X : Type} [Inhabited X] (fixed : Bool) (miss : X → Bool)
    (m : MATRIX X) (n l i j lf lt a b f t : Nat) (h : Rect m n l) (hi : i < n) (hj : j < n)
    (hlf : lf ≤ lt) (hlt : lt < l)
    (hcols : (lf ≤ a ∧ b ≤ lt) ∨ b < lf ∨ lt < a)
    (hrows : (f ≤ i ∧ i ≤ t ∧ f ≤ j ∧ j ≤ t) ∨ ((i < f ∨ t < i) ∧ (j < f ∨ t < j)))
    (hu : fixed = false ∨ a = b ∨ regionComplete miss m a b f t) :
    (blockTuples (gInner fixed miss lf lt i j m) a b f t).Perm (blockTuples m a b f t) := by
  obtain ⟨_, hcell⟩ := gInner_spec fixed miss m n l i j lf lt h hi hj hlf hlt
  rcases hcols with hin | hout
  · rcases hrows with ⟨hi1, hi2, hj1, hj2⟩ | ⟨hi', hj'⟩
    · -- the swap is enabled on all the loci of the region, or on none
      have hconst : (∀ c, a ≤ c → c ≤ b → swapEnabled fixed miss m c i j = true) ∨
          (∀ c, a ≤ c → c ≤ b → swapEnabled fixed miss m c i j = false) := by
        rcases hu with hfree | hab | hcomp
        · left
          intro c _ _
          simp [swapEnabled, hfree]
        · subst hab
          cases he : swapEnabled fixed miss m a i j
          · right
            intro c h1 h2
            have : c = a := by omega
            rw [this, he]
          · left
            intro c h1 h2
            have : c = a := by omega
            rw [this, he]
        · left
          intro c h1 h2
          simp [swapEnabled, hcomp i c hi1 hi2 h1 h2, hcomp j c hj1 hj2 h1 h2]
      rcases hconst with hen | hdis
      · have hEq : blockTuples (gInner fixed miss lf lt i j m) a b f t =
            ((List.range' f (t + 1 - f)).map (Equiv.swap i j)).map (isolateTuple m a b) := by
          unfold blockTuples
          rw [List.map_map]
          apply List.map_congr_left
          intro r _
          apply isolateTuple_congr
          intro c h1 h2
          rw [hcell, if_pos ⟨by omega, by omega, hen c h1 h2⟩]
        rw [hEq]
        exact (perm_map_swap f (t + 1 - f) i j ⟨hi1, by omega⟩ ⟨hj1, by omega⟩).map _
      · rw [blockTuples_congr m _ a b f t]
        intro r c _ _ h1 h2
        rw [hcell, if_neg]
        rintro ⟨_, _, he⟩
        rw [hdis c h1 h2] at he
        exact Bool.false_ne_true he
    · rw [blockTuples_congr m _ a b f t]
      intro r c hr1 hr2 _ _
      rw [hcell]
      have hsw : Equiv.swap i j r = r := by
        rw [Equiv.swap_apply_def, if_neg (by omega), if_neg (by omega)]
      rw [hsw]
      split_ifs <;> rfl
  · rw [blockTuples_congr m _ a b f t]
    intro r c _ _ h1 h2
    rw [hcell, if_neg]
    rintro ⟨h3, h4, _⟩
    omega

/-! ### The random draws -/

theorem UniformWhole_mem (r : RandomService) (h : r.InRange) (f t : Nat) (hft : f ≤ t) :
    f ≤ (r.UniformWhole f t).1 ∧ (r.UniformWhole f t).1 ≤ t := by
  unfold RandomService.UniformWhole RandomService.UniformRange RandomService.Uniform
  have := h r.calls (t - f + 1) (by omega)
  simp only
  omega

theorem UniformWhole_inRange (r : RandomService) (h : r.InRange) (f t : Nat) :
    (r.UniformWhole f t).2.InRange := by
  unfold RandomService.UniformWhole RandomService.UniformRange RandomService.Uniform
  exact h

/-! ### Partitions -/

theorem ChainFrom_mem (parts : List (Nat × Nat)) :
    ∀ start stop, Partition.ChainFrom start parts stop →
      ∀ b ∈ parts, start ≤ b.1 ∧ b.1 ≤ b.2 ∧ b.2 < stop := by
  induction parts with
  | nil => intro _ _ _ b hb; cases hb
  | cons x xs ih =>
    intro start stop h b hb
    obtain ⟨h1, h2, h3⟩ := h
    have hstop : ∀ (ys : List (Nat × Nat)) (s e : Nat), Partition.ChainFrom s ys e → s ≤ e := by
      intro ys
      induction ys with
      | nil => intro s e he; exact Nat.le_of_eq he
      | cons y ys ihy =>
        intro s e he
        obtain ⟨e1, e2, e3⟩ := he
        have := ihy _ _ e3
        omega
    rcases List.mem_cons.1 hb with rfl | hb'
    · have := hstop xs _ _ h3
      omega
    · have := ih _ _ h3 b hb'
      omega

theorem ChainFrom_disjoint (parts : List (Nat × Nat)) :
    ∀ start stop, Partition.ChainFrom start parts stop →
      ∀ b1 ∈ parts, ∀ b2 ∈ parts, b1 = b2 ∨ b1.2 < b2.1 ∨ b2.2 < b1.1 := by
  induction parts with
  | nil => intro _ _ _ b hb; cases hb
  | cons x xs ih =>
    intro start stop h b1 hb1 b2 hb2
    obtain ⟨h1, h2, h3⟩ := h
    rcases List.mem_cons.1 hb1 with rfl | hb1'
    · rcases List.mem_cons.1 hb2 with rfl | hb2'
      · exact Or.inl rfl
      · have := ChainFrom_mem xs _ _ h3 b2 hb2'
        right; left; omega
    · rcases List.mem_cons.1 hb2 with rfl | hb2'
      · have := ChainFrom_mem xs _ _ h3 b1 hb1'
        right; right; omega
      · exact ih _ _ h3 b1 hb1' b2 hb2'

/-! ### The shuffle keeps the tuples of every compatible region -/

theorem Keeps_gStep {X : Type} [Inhabited X] (fixed : Bool) (miss : X → Bool)
    (m0 : MATRIX X) (n l a b f t lf lt f' t' i : Nat)
    (hu : fixed = false ∨ a = b ∨ regionComplete miss m0 a b f t)
    (hlf : lf ≤ lt) (hlt : lt < l) (hft : f' ≤ t') (ht : t' < n)
    (hcols : (lf ≤ a ∧ b ≤ lt) ∨ b < lf ∨ lt < a)
    (hrows : (f', t') = (f, t) ∨ t' < f ∨ t < f')
    (hi : f' ≤ i ∧ i ≤ t')
    (p : MATRIX X × RandomService) (hp : Keeps m0 n l a b f t p) :
    Keeps m0 n l a b f t (gStep fixed miss lf lt f' t' p i) := by
  obtain ⟨hrect, hperm, hrng⟩ := hp
  have hj := UniformWhole_mem p.2 hrng f' t' hft
  have hrng' := UniformWhole_inRange p.2 hrng f' t'
  unfold gStep
  split_ifs with hne
  · refine ⟨(gInner_spec fixed miss p.1 n l i _ lf lt hrect (by omega) (by omega) hlf hlt).1,
      ?_, hrng'⟩
    refine List.Perm.trans ?_ hperm
    apply blockTuples_gInner fixed miss p.1 n l i _ lf lt a b f t hrect (by omega) (by omega)
      hlf hlt hcols
    · rcases hrows with heq | hdis
      · left
        have e1 : f' = f := congrArg Prod.fst heq
        have e2 : t' = t := congrArg Prod.snd heq
        omega
      · right
        omega
    · rcases hu with h1 | h2 | h3
      · exact Or.inl h1
      · exact Or.inr (Or.inl h2)
      · exact Or.inr (Or.inr (regionComplete_of_perm miss m0 p.1 a b f t hperm h3))
  · exact ⟨hrect, hperm, hrng'⟩

theorem Keeps_gBlock {X : Type} [Inhabited X] (fixed : Bool) (miss : X → Bool)
    (m0 : MATRIX X) (n l a b f t lf lt f' t' : Nat)
    (hu : fixed = false ∨ a = b ∨ regionComplete miss m0 a b f t)
    (hlf : lf ≤ lt) (hlt : lt < l) (hft : f' ≤ t') (ht : t' < n)
    (hcols : (lf ≤ a ∧ b ≤ lt) ∨ b < lf ∨ lt < a)
    (hrows : (f', t') = (f, t) ∨ t' < f ∨ t < f')
    (p : MATRIX X × RandomService) (hp : Keeps m0 n l a b f t p) :
    Keeps m0 n l a b f t (gBlock fixed miss lf lt f' t' p) := by
  unfold gBlock
  apply foldl_invariant (Keeps m0 n l a b f t) _ _ _ p hp
  intro q i hi hq
  rw [List.mem_range'_1] at hi
  exact Keeps_gStep fixed miss m0 n l a b f t lf lt f' t' i hu hlf hlt hft ht hcols hrows
    ⟨hi.1, by omega⟩ q hq

theorem Keeps_gPop {X : Type} [Inhabited X] (fixed : Bool) (miss : X → Bool)
    (m0 : MATRIX X) (n l a b f t f' t' : Nat) (links : List (Nat × Nat))
    (hu : fixed = false ∨ a = b ∨ regionComplete miss m0 a b f t)
    (hlinks : ∀ g ∈ links, g.1 ≤ g.2 ∧ g.2 < l ∧ ((g.1 ≤ a ∧ b ≤ g.2) ∨ b < g.1 ∨ g.2 < a))
    (hft : f' ≤ t') (ht : t' < n)
    (hrows : (f', t') = (f, t) ∨ t' < f ∨ t < f')
    (p : MATRIX X × RandomService) (hp : Keeps m0 n l a b f t p) :
    Keeps m0 n l a b f t (gPop fixed miss links f' t' p) := by
  unfold gPop
  split_ifs
  · exact hp
  · apply foldl_invariant (Keeps m0 n l a b f t) _ _ _ p hp
    intro q g hg hq
    obtain ⟨h1, h2, h3⟩ := hlinks g hg
    exact Keeps_gBlock fixed miss m0 n l a b f t g.1 g.2 f' t' hu h1 h2 hft ht h3 hrows q hq

theorem Keeps_gDataset {X : Type} [Inhabited X] (fixed : Bool) (miss : X → Bool)
    (m0 : MATRIX X) (n l a b f t : Nat) (pops links : List (Nat × Nat))
    (hu : fixed = false ∨ a = b ∨ regionComplete miss m0 a b f t)
    (hlinks : ∀ g ∈ links, g.1 ≤ g.2 ∧ g.2 < l ∧ ((g.1 ≤ a ∧ b ≤ g.2) ∨ b < g.1 ∨ g.2 < a))
    (hpops : ∀ q ∈ pops, q.1 ≤ q.2 ∧ q.2 < n ∧ (q = (f, t) ∨ q.2 < f ∨ t < q.1))
    (p : MATRIX X × RandomService) (hp : Keeps m0 n l a b f t p) :
    Keeps m0 n l a b f t (gDataset fixed miss pops links p) := by
  unfold gDataset
  apply foldl_invariant (Keeps m0 n l a b f t) _ _ _ p hp
  intro q b' hb hq
  obtain ⟨h1, h2, h3⟩ := hpops b' hb
  exact Keeps_gPop fixed miss m0 n l a b f t b'.1 b'.2 links hu hlinks h1 h2 h3 q hq

/-- The tuples of a linkage group (or of a single locus of it) over a population block
are permuted by the shuffle when the swaps of the block cannot be split by missing
data. -/
theorem blockTuples_gDataset {X : Type} [Inhabited X] (fixed : Bool) (miss : X → Bool)
    (m : MATRIX X) (rng : RandomService) (n l : Nat) (pops links : List (Nat × Nat))
    (hrect : Rect m n l) (hrng : rng.InRange)
    (hpops : Partition.ChainFrom 0 pops n) (hlinks : Partition.ChainFrom 0 links l)
    (g : Nat × Nat) (hg : g ∈ links) (q : Nat × Nat) (hq : q ∈ pops) (a b : Nat)
    (hab : (a, b) = g ∨ (a = b ∧ g.1 ≤ a ∧ a ≤ g.2))
    (hu : fixed = false ∨ a = b ∨ regionComplete miss m a b q.1 q.2) :
    (blockTuples (gDataset fixed miss pops links (m, rng)).1 a b q.1 q.2).Perm
      (blockTuples m a b q.1 q.2) := by
  have hk := Keeps_gDataset fixed miss m n l a b q.1 q.2 pops links hu ?_ ?_ (m, rng)
    ⟨hrect, List.Perm.refl _, hrng⟩
  · exact hk.2.1
  · intro g' hg'
    obtain ⟨_, h2, h3⟩ := ChainFrom_mem links 0 l hlinks g' hg'
    refine ⟨h2, h3, ?_⟩
    have hgm := ChainFrom_mem links 0 l hlinks g hg
    rcases ChainFrom_disjoint links 0 l hlinks g' hg' g hg with heq | hlt | hgt
    · subst heq
      rcases hab with h | ⟨h1, h2, h3⟩
      · left
        have e1 : a = g'.1 := congrArg Prod.fst h
        have e2 : b = g'.2 := congrArg Prod.snd h
        omega
      · left; omega
    · rcases hab with h | ⟨h1, h2, h3⟩
      · have e1 : a = g.1 := congrArg Prod.fst h
        have e2 : b = g.2 := congrArg Prod.snd h
        right; right; omega
      · right; right; omega
    · rcases hab with h | ⟨h1, h2, h3⟩
      · have e1 : a = g.1 := congrArg Prod.fst h
        have e2 : b = g.2 := congrArg Prod.snd h
        right; left; omega
      · right; left; omega
  · intro q' hq'
    obtain ⟨_, h2, h3⟩ := ChainFrom_mem pops 0 n hpops q' hq'
    refine ⟨h2, h3, ?_⟩
    rcases ChainFrom_disjoint pops 0 n hpops q' hq' q hq with heq | hlt | hgt
    · exact Or.inl heq
    · exact Or.inr (Or.inl hlt)
    · exact Or.inr (Or.inr hgt)

theorem foldl_lift {σ τ α : Type} (lift : τ → σ) (f : σ → α → σ) (g : τ → α → τ)
    (l : List α) (h : ∀ p x, x ∈ l → f (lift p) x = lift (g p x)) :
    ∀ p, l.foldl f (lift p) = lift (l.foldl g p) := by
  induction l with
  | nil => intro p; rfl
  | cons x xs ih =>
    intro p
    rw [List.foldl_cons, List.foldl_cons, h p x (List.mem_cons_self _ _)]
    exact ih (fun q y hy => h q y (List.mem_cons_of_mem _ hy)) _

/-! ### Haploid data -/

theorem SwapAllele_withHaplo (s : MultiLocusModel) (hp : s.mPloidy = ploidy_t.kPloidy_Haploid)
    (m : MATRIX tAllele) (rng : RandomService) (k i j : Nat) :
    (withHaplo s (m, rng)).SwapAllele k i j =
      withHaplo s (gSwap (fixedFlag s) IsMissing m k i j, rng) := by
  unfold SwapAllele gSwap swapEnabled IsMissingAt GetPloidy withHaplo fixedFlag
  simp only [hp]
  by_cases hf : s.mDoMissingShuffle = missing_t.kMissing_Fixed
  · cases h1 : IsMissing (cellAt m i k) <;> cases h2 : IsMissing (cellAt m j k) <;>
      simp [hf, h1, h2]
  · simp [hf]

theorem ShuffleBlockStep_withHaplo (s : MultiLocusModel)
    (hp : s.mPloidy = ploidy_t.kPloidy_Haploid) (lf lt f t i : Nat)
    (p : MATRIX tAllele × RandomService) :
    ShuffleBlockStep lf lt f t (withHaplo s p) i =
      withHaplo s (gStep (fixedFlag s) IsMissing lf lt f t p i) := by
  unfold ShuffleBlockStep gStep
  have e1 : (withHaplo s p).mRng = p.2 := rfl
  rw [e1]
  have e2 : ∀ r', ({ withHaplo s p with mRng := r' } : MultiLocusModel) =
      withHaplo s (p.1, r') := fun _ => rfl
  rw [e2]
  split_ifs with h
  · unfold gInner
    exact foldl_lift (fun m => withHaplo s (m, (p.2.UniformWhole f t).2)) _ _ _
      (fun m k _ => SwapAllele_withHaplo s hp m _ k i _) p.1
  · rfl

theorem ShuffleBlock_withHaplo (s : MultiLocusModel)
    (hp : s.mPloidy = ploidy_t.kPloidy_Haploid) (lf lt f t : Nat)
    (p : MATRIX tAllele × RandomService) :
    (withHaplo s p).ShuffleBlock lf lt f t =
      withHaplo s (gBlock (fixedFlag s) IsMissing lf lt f t p) := by
  unfold ShuffleBlock gBlock
  exact foldl_lift (withHaplo s) _ _ _
    (fun q i _ => ShuffleBlockStep_withHaplo s hp lf lt f t i q) p

theorem ShufflePop_withHaplo (s : MultiLocusModel)
    (hp : s.mPloidy = ploidy_t.kPloidy_Haploid) (f t : Nat)
    (p : MATRIX tAllele × RandomService) :
    (withHaplo s p).ShufflePop f t =
      withHaplo s (gPop (fixedFlag s) IsMissing s.mLinkages.mParts f t p) := by
  unfold ShufflePop gPop
  split_ifs
  · rfl
  · have e1 : (withHaplo s p).mLinkages.GetNumParts = s.mLinkages.mParts.length := rfl
    rw [e1, ← foldl_range_getD
      (fun q g => gBlock (fixedFlag s) IsMissing g.1 g.2 f t q) s.mLinkages.mParts (0, 0) p]
    exact foldl_lift (withHaplo s) _ _ _
      (fun q i _ => ShuffleBlock_withHaplo s hp _ _ f t q) p

theorem ShuffleDataset_withHaplo (s : MultiLocusModel)
    (hp : s.mPloidy = ploidy_t.kPloidy_Haploid) :
    s.ShuffleDataset =
      withHaplo s (gDataset (fixedFlag s) IsMissing s.mPops.mParts s.mLinkages.mParts
        (s.mHaploData, s.mRng)) := by
  unfold ShuffleDataset gDataset
  rw [← foldl_range_getD
    (fun q b => gPop (fixedFlag s) IsMissing s.mLinkages.mParts b.1 b.2 q) s.mPops.mParts
    (0, 0) (s.mHaploData, s.mRng)]
  have e0 : s = withHaplo s (s.mHaploData, s.mRng) := rfl
  have e1 : s.mPops.GetNumParts = s.mPops.mParts.length := rfl
  rw [e1]
  conv_lhs => rw [e0]
  exact foldl_lift (withHaplo s) _ _ _
    (fun q i _ => ShufflePop_withHaplo s hp _ _ q) (s.mHaploData, s.mRng)

/-! ### Diploid data -/

theorem SwapAllele_withDiplo (s : MultiLocusModel) (hp : s.mPloidy = ploidy_t.kPloidy_Diploid)
    (m : MATRIX tAllelePair) (rng : RandomService) (k i j : Nat) :
    (withDiplo s (m, rng)).SwapAllele k i j =
      withDiplo s (gSwap (fixedFlag s) IsMissingPair m k i j, rng) := by
  unfold SwapAllele gSwap swapEnabled IsMissingAt GetPloidy withDiplo fixedFlag IsMissingPair
  simp only [hp]
  by_cases hf : s.mDoMissingShuffle = missing_t.kMissing_Fixed
  · cases h1 : IsMissing (cellAt m i k).alleleA <;> cases h2 : IsMissing (cellAt m j k).alleleA <;>
      cases h3 : IsMissing (cellAt m i k).alleleB <;>
      cases h4 : IsMissing (cellAt m j k).alleleB <;>
      simp [hf, h1, h2, h3, h4]
  · simp [hf]

theorem ShuffleBlockStep_withDiplo (s : MultiLocusModel)
    (hp : s.mPloidy = ploidy_t.kPloidy_Diploid) (lf lt f t i : Nat)
    (p : MATRIX tAllelePair × RandomService) :
    ShuffleBlockStep lf lt f t (withDiplo s p) i =
      withDiplo s (gStep (fixedFlag s) IsMissingPair lf lt f t p i) := by
  unfold ShuffleBlockStep gStep
  have e1 : (withDiplo s p).mRng = p.2 := rfl
  rw [e1]
  have e2 : ∀ r', ({ withDiplo s p with mRng := r' } : MultiLocusModel) =
      withDiplo s (p.1, r') := fun _ => rfl
  rw [e2]
  split_ifs with h
  · unfold gInner
    exact foldl_lift (fun m => withDiplo s (m, (p.2.UniformWhole f t).2)) _ _ _
      (fun m k _ => SwapAllele_withDiplo s hp m _ k i _) p.1
  · rfl

theorem ShuffleBlock_withDiplo (s : MultiLocusModel)
    (hp : s.mPloidy = ploidy_t.kPloidy_Diploid) (lf lt f t : Nat)
    (p : MATRIX tAllelePair × RandomService) :
    (withDiplo s p).ShuffleBlock lf lt f t =
      withDiplo s (gBlock (fixedFlag s) IsMissingPair lf lt f t p) := by
  unfold ShuffleBlock gBlock
  exact foldl_lift (withDiplo s) _ _ _
    (fun q i _ => ShuffleBlockStep_withDiplo s hp lf lt f t i q) p

theorem ShufflePop_withDiplo (s : MultiLocusModel)
    (hp : s.mPloidy = ploidy_t.kPloidy_Diploid) (f t : Nat)
    (p : MATRIX tAllelePair × RandomService) :
    (withDiplo s p).ShufflePop f t =
      withDiplo s (gPop (fixedFlag s) IsMissingPair s.mLinkages.mParts f t p) := by
  unfold ShufflePop gPop
  split_ifs
  · rfl
  · have e1 : (withDiplo s p).mLinkages.GetNumParts = s.mLinkages.mParts.length := rfl
    rw [e1, ← foldl_range_getD
      (fun q g => gBlock (fixedFlag s) IsMissingPair g.1 g.2 f t q) s.mLinkages.mParts (0, 0) p]
    exact foldl_lift (withDiplo s) _ _ _
      (fun q i _ => ShuffleBlock_withDiplo s hp _ _ f t q) p

theorem ShuffleDataset_withDiplo (s : MultiLocusModel)
    (hp : s.mPloidy = ploidy_t.kPloidy_Diploid) :
    s.ShuffleDataset =
      withDiplo s (gDataset (fixedFlag s) IsMissingPair s.mPops.mParts s.mLinkages.mParts
        (s.mDiploData, s.mRng)) := by
  unfold ShuffleDataset gDataset
  rw [← foldl_range_getD
    (fun q b => gPop (fixedFlag s) IsMissingPair s.mLinkages.mParts b.1 b.2 q) s.mPops.mParts
    (0, 0) (s.mDiploData, s.mRng)]
  have e0 : s = withDiplo s (s.mDiploData, s.mRng) := rfl
  have e1 : s.mPops.GetNumParts = s.mPops.mParts.length := rfl
  rw [e1]
  conv_lhs => rw [e0]
  exact foldl_lift (withDiplo s) _ _ _
    (fun q i _ => ShufflePop_withDiplo s hp _ _ q) (s.mDiploData, s.mRng)

/-! ### Missing data held in place -/

theorem HeldInPlace_refl {X : Type} [Inhabited X] (miss : X → Bool) (m : MATRIX X) :
    HeldInPlace miss m m := fun _ _ => ⟨fun _ => rfl, fun h => h⟩

theorem HeldInPlace_trans {X : Type} [Inhabited X] (miss : X → Bool) (m0 m1 m2 : MATRIX X)
    (h1 : HeldInPlace miss m0 m1) (h2 : HeldInPlace miss m1 m2) : HeldInPlace miss m0 m2 := by
  intro r c
  constructor
  · intro hm
    have e1 := (h1 r c).1 hm
    have hm1 : miss (cellAt m1 r c) = true := by rw [e1]; exact hm
    rw [(h2 r c).1 hm1, e1]
  · intro hm
    exact (h2 r c).2 ((h1 r c).2 hm)

theorem cellAt_cellPut_where {X : Type} [Inhabited X] (m : MATRIX X) (i k r c : Nat) (v : X) :
    cellAt (cellPut m i k v) r c = cellAt m r c ∨
      (r = i ∧ c = k ∧ cellAt (cellPut m i k v) r c = v) := by
  rw [cellAt_cellPut]
  split_ifs with h
  · exact Or.inr ⟨h.1, h.2.1, rfl⟩
  · exact Or.inl rfl

theorem HeldInPlace_gSwap {X : Type} [Inhabited X] (miss : X → Bool) (m : MATRIX X)
    (k i j : Nat) : HeldInPlace miss m (gSwap true miss m k i j) := by
  unfold gSwap
  by_cases he : swapEnabled true miss m k i j = true
  · rw [if_pos he]
    have hi : miss (cellAt m i k) = false := by
      unfold swapEnabled at he
      cases h : miss (cellAt m i k)
      · rfl
      · simp [h] at he
    have hj : miss (cellAt m j k) = false := by
      unfold swapEnabled at he
      cases h : miss (cellAt m j k)
      · rfl
      · simp [h] at he
    intro r c
    rcases cellAt_cellPut_where (cellPut m i k (cellAt m j k)) j k r c (cellAt m i k) with
      h1 | ⟨h1, h2, h3⟩
    · rcases cellAt_cellPut_where m i k r c (cellAt m j k) with h4 | ⟨h4, h5, h6⟩
      · rw [h1, h4]
        exact ⟨fun _ => rfl, fun h => h⟩
      · rw [h1, h6, h4, h5]
        exact ⟨fun h => absurd h (by rw [hi]; exact Bool.false_ne_true), fun _ => hj⟩
    · rw [h3, h1, h2]
      exact ⟨fun h => absurd h (by rw [hj]; exact Bool.false_ne_true), fun _ => hi⟩
  · rw [if_neg he]
    exact HeldInPlace_refl miss m

theorem HeldInPlace_gDataset {X : Type} [Inhabited X] (miss : X → Bool)
    (pops links : List (Nat × Nat)) (m : MATRIX X) (rng : RandomService) :
    HeldInPlace miss m (gDataset true miss pops links (m, rng)).1 := by
  have hInner : ∀ (lf lt i j : Nat) (m1 : MATRIX X), HeldInPlace miss m m1 →
      HeldInPlace miss m (gInner true miss lf lt i j m1) := by
    intro lf lt i j m1 h1
    unfold gInner
    apply foldl_invariant (HeldInPlace miss m) _ _ _ m1 h1
    intro m2 k _ h2
    exact HeldInPlace_trans miss m m2 _ h2 (HeldInPlace_gSwap miss m2 k i j)
  have hBlock : ∀ (lf lt f t : Nat) (p : MATRIX X × RandomService), HeldInPlace miss m p.1 →
      HeldInPlace miss m (gBlock true miss lf lt f t p).1 := by
    intro lf lt f t p hp
    unfold gBlock
    apply foldl_invariant (fun q : MATRIX X × RandomService => HeldInPlace miss m q.1) _ _ _ p hp
    intro q i _ hq
    unfold gStep
    split_ifs
    · exact hInner lf lt i _ q.1 hq
    · exact hq
  have hPop : ∀ (f t : Nat) (p : MATRIX X × RandomService), HeldInPlace miss m p.1 →
      HeldInPlace miss m (gPop true miss links f t p).1 := by
    intro f t p hp
    unfold gPop
    split_ifs
    · exact hp
    · apply foldl_invariant (fun q : MATRIX X × RandomService => HeldInPlace miss m q.1)
        _ _ _ p hp
      intro q g _ hq
      exact hBlock g.1 g.2 f t q hq
  unfold gDataset
  apply foldl_invariant (fun q : MATRIX X × RandomService => HeldInPlace miss m q.1) _ _ _
    (m, rng) (HeldInPlace_refl miss m)
  intro q b _ hq
  exact hPop b.1 b.2 q hq

/-- C2: with the missing-data policy Fixed, `ShuffleDataset` leaves every missing cell
(haploid: the allele tests as "?" or "-"; diploid: either allele of the pair does) unchanged at
its (isolate, locus) position, and every cell that was not missing is still not missing
afterwards, whatever the matrix, the partitions and the random draws. -/
theorem C2_fixed_missing_held_in_place (s : MultiLocusModel)
    (hloaded : s.mPloidy ≠ ploidy_t.kPloidy_None)
    (hfixed : s.mDoMissingShuffle = missing_t.kMissing_Fixed) (r c : Nat) :
    (s.IsMissingAt r c = true →
      cellAt s.ShuffleDataset.mHaploData r c = cellAt s.mHaploData r c ∧
      cellAt s.ShuffleDataset.mDiploData r c = cellAt s.mDiploData r c) ∧
    (s.IsMissingAt r c = false → s.ShuffleDataset.IsMissingAt r c = false) := by
  have hflag : fixedFlag s = true := by simp [fixedFlag, hfixed]
  cases hp : s.mPloidy with
  | kPloidy_None => exact absurd hp hloaded
  | kPloidy_Haploid =>
    rw [ShuffleDataset_withHaplo s hp, hflag]
    have h := HeldInPlace_gDataset IsMissing s.mPops.mParts s.mLinkages.mParts
      s.mHaploData s.mRng r c
    have e1 : ∀ q, (withHaplo s q).IsMissingAt r c = IsMissing (cellAt q.1 r c) := by
      intro q
      simp [IsMissingAt, GetPloidy, withHaplo, hp]
    have e2 : s.IsMissingAt r c = IsMissing (cellAt s.mHaploData r c) := e1 (s.mHaploData, s.mRng)
    rw [e1, e2]
    exact ⟨fun hm => ⟨h.1 hm, rfl⟩, h.2⟩
  | kPloidy_Diploid =>
    rw [ShuffleDataset_withDiplo s hp, hflag]
    have h := HeldInPlace_gDataset IsMissingPair s.mPops.mParts s.mLinkages.mParts
      s.mDiploData s.mRng r c
    have e1 : ∀ q, (withDiplo s q).IsMissingAt r c = IsMissingPair (cellAt q.1 r c) := by
      intro q
      simp [IsMissingAt, GetPloidy, withDiplo, hp, IsMissingPair]
    have e2 : s.IsMissingAt r c = IsMissingPair (cellAt s.mDiploData r c) :=
      e1 (s.mDiploData, s.mRng)
    rw [e1, e2]
    exact ⟨fun hm => ⟨rfl, h.1 hm⟩, h.2⟩

theorem blockColumn_eq {X : Type} [Inhabited X] (m : MATRIX X) (c f t : Nat) :
    blockColumn m c f t = (blockTuples m c c f t).map (fun T => T.headD default) := by
  unfold blockColumn blockTuples isolateTuple
  rw [List.map_map]
  apply List.map_congr_left
  intro r _
  have : c + 1 - c = 1 := by omega
  simp [this, List.range'_one]

theorem C1_counterexample :
    c1Model.mDoMissingShuffle = missing_t.kMissing_Fixed ∧ DataWellFormed c1Model ∧
    c1Model.mRng.InRange ∧
    ((0, 1) ∈ c1Model.mLinkages.mParts ∧ (0, 1) ∈ c1Model.mPops.mParts) ∧
    c1Model.ShuffleDataset.mHaploData = [["B", "?"], ["A", "C"]] ∧
    (↑(blockTuples c1Model.ShuffleDataset.mHaploData 0 1 0 1) : Multiset (List tAllele)) ≠
      ↑(blockTuples c1Model.mHaploData 0 1 0 1) :=
  ⟨by decide, by decide, fun _ _ hn => Nat.mod_lt _ hn, by decide, by decide, by decide⟩

theorem fixedFlag_eq_false (s : MultiLocusModel)
    (h : s.mDoMissingShuffle = missing_t.kMissing_Free) : fixedFlag s = false := by
  simp [fixedFlag, h]

/-- The shuffle of a well-formed model permutes, within each population block, the
tuples of each linkage group when the policy is Free or the block of the group holds no
missing cell, and the cells of each single locus in every case. -/
theorem ShuffleDataset_tuples (s : MultiLocusModel) (hwf : DataWellFormed s)
    (hrng : s.mRng.InRange) (g : Nat × Nat) (hg : g ∈ s.mLinkages.mParts)
    (q : Nat × Nat) (hq : q ∈ s.mPops.mParts) :
    ((s.mDoMissingShuffle = missing_t.kMissing_Free ∨
        (∀ r c, q.1 ≤ r → r ≤ q.2 → g.1 ≤ c → c ≤ g.2 → s.IsMissingAt r c = false)) →
      (blockTuples s.ShuffleDataset.mHaploData g.1 g.2 q.1 q.2).Perm
        (blockTuples s.mHaploData g.1 g.2 q.1 q.2) ∧
      (blockTuples s.ShuffleDataset.mDiploData g.1 g.2 q.1 q.2).Perm
        (blockTuples s.mDiploData g.1 g.2 q.1 q.2)) ∧
    (∀ c, g.1 ≤ c → c ≤ g.2 →
      (blockColumn s.ShuffleDataset.mHaploData c q.1 q.2).Perm
        (blockColumn s.mHaploData c q.1 q.2) ∧
      (blockColumn s.ShuffleDataset.mDiploData c q.1 q.2).Perm
        (blockColumn s.mDiploData c q.1 q.2)) := by
  obtain ⟨hdata, hpops, hlinks⟩ := hwf
  rcases hdata with ⟨hp, hrect⟩ | ⟨hp, hrect⟩
  · rw [ShuffleDataset_withHaplo s hp]
    have key := fun a b hab hu =>
      blockTuples_gDataset (fixedFlag s) IsMissing s.mHaploData s.mRng s.GetNumRows
        s.GetNumCols s.mPops.mParts s.mLinkages.mParts hrect hrng hpops hlinks g hg q hq a b
        hab hu
    constructor
    · intro hu
      refine ⟨key g.1 g.2 (Or.inl rfl) ?_, List.Perm.refl _⟩
      rcases hu with hfree | hcomp
      · exact Or.inl (fixedFlag_eq_false s hfree)
      · right; right
        intro r c h1 h2 h3 h4
        have := hcomp r c h1 h2 h3 h4
        simpa [IsMissingAt, GetPloidy, hp] using this
    · intro c h1 h2
      refine ⟨?_, List.Perm.refl _⟩
      rw [blockColumn_eq, blockColumn_eq]
      exact (key c c (Or.inr ⟨rfl, h1, h2⟩) (Or.inr (Or.inl rfl))).map _
  · rw [ShuffleDataset_withDiplo s hp]
    have key := fun a b hab hu =>
      blockTuples_gDataset (fixedFlag s) IsMissingPair s.mDiploData s.mRng s.GetNumRows
        s.GetNumCols s.mPops.mParts s.mLinkages.mParts hrect hrng hpops hlinks g hg q hq a b
        hab hu
    constructor
    · intro hu
      refine ⟨List.Perm.refl _, key g.1 g.2 (Or.inl rfl) ?_⟩
      rcases hu with hfree | hcomp
      · exact Or.inl (fixedFlag_eq_false s hfree)
      · right; right
        intro r c h1 h2 h3 h4
        have := hcomp r c h1 h2 h3 h4
        simpa [IsMissingAt, GetPloidy, hp, IsMissingPair] using this
    · intro c h1 h2
      refine ⟨List.Perm.refl _, ?_⟩
      rw [blockColumn_eq, blockColumn_eq]
      exact (key c c (Or.inr ⟨rfl, h1, h2⟩) (Or.inr (Or.inl rfl))).map _

/-- C1 (amended): after `ShuffleDataset`, for every linkage group and every population
block, the multiset of per-isolate allele tuples over the isolates of the block equals
the multiset before the call whenever the policy is Free, or the policy is Fixed and no
cell of the block is missing at the loci of the group; under either policy the multiset
of the cells at each single locus of the group, over the isolates of the block, equals
the multiset before the call. -/
theorem C1_shuffle_preserves_tuples (s : MultiLocusModel) (hwf : DataWellFormed s)
    (hrng : s.mRng.InRange) (g : Nat × Nat) (hg : g ∈ s.mLinkages.mParts)
    (q : Nat × Nat) (hq : q ∈ s.mPops.mParts) :
    ((s.mDoMissingShuffle = missing_t.kMissing_Free ∨
        (∀ r c, q.1 ≤ r → r ≤ q.2 → g.1 ≤ c → c ≤ g.2 → s.IsMissingAt r c = false)) →
      (↑(blockTuples s.ShuffleDataset.mHaploData g.1 g.2 q.1 q.2) : Multiset (List tAllele)) =
        ↑(blockTuples s.mHaploData g.1 g.2 q.1 q.2) ∧
      (↑(blockTuples s.ShuffleDataset.mDiploData g.1 g.2 q.1 q.2) :
          Multiset (List tAllelePair)) =
        ↑(blockTuples s.mDiploData g.1 g.2 q.1 q.2)) ∧
    (∀ c, g.1 ≤ c → c ≤ g.2 →
      (↑(blockColumn s.ShuffleDataset.mHaploData c q.1 q.2) : Multiset tAllele) =
        ↑(blockColumn s.mHaploData c q.1 q.2) ∧
      (↑(blockColumn s.ShuffleDataset.mDiploData c q.1 q.2) : Multiset tAllelePair) =
        ↑(blockColumn s.mDiploData c q.1 q.2)) := by
  obtain ⟨h1, h2⟩ := ShuffleDataset_tuples s hwf hrng g hg q hq
  refine ⟨fun hu => ⟨Multiset.coe_eq_coe.2 (h1 hu).1, Multiset.coe_eq_coe.2 (h1 hu).2⟩,
    fun c hc1 hc2 => ⟨Multiset.coe_eq_coe.2 (h2 c hc1 hc2).1,
      Multiset.coe_eq_coe.2 (h2 c hc1 hc2).2⟩⟩

theorem C1_shuffle_preserves_tuples_witness :
    DataWellFormed c1FreeModel ∧ c1FreeModel.mRng.InRange ∧
    (0, 1) ∈ c1FreeModel.mLinkages.mParts ∧ (0, 2) ∈ c1FreeModel.mPops.mParts ∧
    (↑(blockTuples c1FreeModel.ShuffleDataset.mHaploData 0 1 0 2) : Multiset (List tAllele)) =
      ↑(blockTuples c1FreeModel.mHaploData 0 1 0 2) :=
  ⟨by decide, fun _ _ hn => Nat.mod_lt _ hn, by decide, by decide,
    ((C1_shuffle_preserves_tuples c1FreeModel (by decide) (fun _ _ hn => Nat.mod_lt _ hn)
      (0, 1) (by decide) (0, 2) (by decide)).1 (Or.inl rfl)).1⟩

theorem C2_fixed_missing_held_in_place_witness :
    c1Model.mPloidy ≠ ploidy_t.kPloidy_None ∧
    c1Model.mDoMissingShuffle = missing_t.kMissing_Fixed ∧
    c1Model.IsMissingAt 0 1 = true ∧
    cellAt c1Model.ShuffleDataset.mHaploData 0 1 = cellAt c1Model.mHaploData 0 1 :=
  ⟨by decide, rfl, by decide,
    ((C2_fixed_missing_held_in_place c1Model (by decide) rfl 0 1).1 (by decide)).1⟩

/-! ### Loops that may stop -/

theorem loopOpt_invariant {σ α : Type} (P : σ → Prop) (f : σ → α → Option σ) (l : List α)
    (h : ∀ s x s', x ∈ l → P s → f s x = some s' → P s') :
    ∀ s s', P s → loopOpt f s l = some s' → P s' := by
  induction l with
  | nil =>
    intro s s' hs he
    simp only [loopOpt, Option.some.injEq] at he
    rw [← he]; exact hs
  | cons x xs ih =>
    intro s s' hs he
    unfold loopOpt at he
    cases hf : f s x with
    | none => rw [hf] at he; cases he
    | some t =>
      rw [hf] at he
      exact ih (fun u y u' hy => h u y u' (List.mem_cons_of_mem _ hy)) t s'
        (h s x t (List.mem_cons_self _ _) hs hf) he

theorem Frame_refl (s : MultiLocusModel) : Frame s s :=
  ⟨rfl, rfl, rfl, fun _ => rfl, fun _ => rfl⟩

theorem Frame_trans (s t u : MultiLocusModel) (h1 : Frame s t) (h2 : Frame t u) :
    Frame s u := by
  obtain ⟨a1, a2, a3, a4, a5⟩ := h1
  obtain ⟨b1, b2, b3, b4, b5⟩ := h2
  refine ⟨b1.trans a1, b2.trans a2, b3.trans a3, fun h => ?_, fun h => ?_⟩
  · rw [b4 (by rw [a1]; exact h), a4 h]
  · rw [b5 (by rw [a1]; exact h), a5 h]

theorem Frame_SwapAllele (s : MultiLocusModel) (k i j : Nat) : Frame s (s.SwapAllele k i j) := by
  unfold SwapAllele
  split_ifs with h1 h2
  · exact Frame_refl s
  · exact ⟨rfl, rfl, rfl, fun h => absurd h2 h, fun _ => rfl⟩
  · exact ⟨rfl, rfl, rfl, fun _ => rfl, fun h => absurd h h2⟩

theorem Frame_swaps (s : MultiLocusModel) (cols : List Nat) (i j : Nat) :
    Frame s (cols.foldl (fun t k => t.SwapAllele k i j) s) := by
  apply foldl_invariant (Frame s) _ _ _ s (Frame_refl s)
  intro t k _ ht
  exact Frame_trans s t _ ht (Frame_SwapAllele t k i j)

theorem Frame_ShuffleBlock (s : MultiLocusModel) (lf lt f t : Nat) :
    Frame s (s.ShuffleBlock lf lt f t) := by
  unfold ShuffleBlock
  apply foldl_invariant (Frame s) _ _ _ s (Frame_refl s)
  intro u i _ hu
  refine Frame_trans s u _ hu ?_
  unfold ShuffleBlockStep
  split_ifs
  · exact Frame_trans u { u with mRng := (u.mRng.UniformWhole f t).2 } _
      ⟨rfl, rfl, rfl, fun _ => rfl, fun _ => rfl⟩ (Frame_swaps _ _ _ _)
  · exact ⟨rfl, rfl, rfl, fun _ => rfl, fun _ => rfl⟩

theorem Frame_ShufflePop (s : MultiLocusModel) (f t : Nat) : Frame s (s.ShufflePop f t) := by
  unfold ShufflePop
  split_ifs
  · exact Frame_refl s
  · apply foldl_invariant (Frame s) _ _ _ s (Frame_refl s)
    intro u i _ hu
    exact Frame_trans s u _ hu (Frame_ShuffleBlock u _ _ f t)

theorem Frame_ShuffleDataset (s : MultiLocusModel) : Frame s s.ShuffleDataset := by
  unfold ShuffleDataset
  apply foldl_invariant (Frame s) _ _ _ s (Frame_refl s)
  intro u i _ hu
  exact Frame_trans s u _ hu (Frame_ShufflePop u _ _)

theorem Restore_fields (t : MultiLocusModel) :
    t.RestoreWorkingData.mPloidy = t.mPloidy ∧
    t.RestoreWorkingData.mBackupHaploData = t.mBackupHaploData ∧
    t.RestoreWorkingData.mBackupDiploData = t.mBackupDiploData ∧
    t.RestoreWorkingData.mHaploData =
      (if t.mPloidy = ploidy_t.kPloidy_Haploid then t.mBackupHaploData else t.mHaploData) ∧
    t.RestoreWorkingData.mDiploData =
      (if t.mPloidy = ploidy_t.kPloidy_Diploid then t.mBackupDiploData else t.mDiploData) := by
  unfold RestoreWorkingData GetPloidy
  split <;> rename_i h <;> simp [h]

theorem foldl_flatMap {σ α β : Type} (f : σ → β → σ) (g : α → List β) (l : List α) (a : σ) :
    (l.flatMap g).foldl f a = l.foldl (fun acc x => (g x).foldl f acc) a := by
  induction l generalizing a with
  | nil => rfl
  | cons x xs ih => simp [List.flatMap_cons, List.foldl_append, ih]

theorem set_getD_self {α : Type} (l : List α) (p : Nat) (d : α) :
    l.set p (l.getD p d) = l := by
  induction l generalizing p with
  | nil => rfl
  | cons x xs ih =>
    cases p with
    | zero => rfl
    | succ p =>
      simp only [List.set_cons_succ, List.getD_cons_succ]
      rw [ih]

theorem foldl_add_at (f : Nat → Int) (ks : List Nat) (arr : List Int) (p : Nat)
    (hp : p < arr.length) :
    ks.foldl (fun a k => a.set p (a.getD p 0 + f k)) arr =
      arr.set p (arr.getD p 0 + (ks.map f).sum) := by
  induction ks generalizing arr with
  | nil =>
    simp only [List.foldl_nil, List.map_nil, List.sum_nil, add_zero]
    exact (set_getD_self arr p 0).symm
  | cons k ks ih =>
    rw [List.foldl_cons, ih _ (by rw [List.length_set]; exact hp)]
    rw [getD_set_eq, if_pos ⟨rfl, hp⟩, List.set_set, List.map_cons, List.sum_cons, add_assoc]

theorem addSiteDists_eq (s : MultiLocusModel) (mode : distance_t) (i j : Nat)
    (arr : List Int) (p : Nat) (hp : p < arr.length) :
    s.addSiteDists mode i j arr p = arr.set p (arr.getD p 0 + sumSiteDist s mode i j) := by
  unfold addSiteDists sumSiteDist
  exact foldl_add_at (fun k => s.siteDist mode i j k) _ arr p hp

theorem set_append_cons {α : Type} (pre rest : List α) (x v : α) :
    (pre ++ x :: rest).set pre.length v = pre ++ v :: rest := by
  rw [List.set_append_right _ _ (Nat.le_refl _), Nat.sub_self, List.set_cons_zero]

theorem getD_append_cons {α : Type} (pre rest : List α) (x d : α) :
    (pre ++ x :: rest).getD pre.length d = x := by
  rw [List.getD_eq_getElem?_getD, List.getElem?_append_right (Nat.le_refl _), Nat.sub_self]
  simp

theorem fill_pairs (s : MultiLocusModel) (mode : distance_t) (ps : List (Nat × Nat)) :
    ∀ (pre : List Int) (r : Nat),
      ps.foldl (fun (st : List Int × Nat) q =>
          (s.addSiteDists mode q.1 q.2 st.1 st.2, st.2 + 1))
        (pre ++ List.replicate (ps.length + r) 0, pre.length) =
      (pre ++ ps.map (fun q => sumSiteDist s mode q.1 q.2) ++ List.replicate r 0,
        pre.length + ps.length) := by
  induction ps with
  | nil => intro pre r; simp
  | cons q qs ih =>
    intro pre r
    rw [List.foldl_cons]
    have e2 : (q :: qs).length + r = (qs.length + r) + 1 := by
      rw [List.length_cons]; omega
    have e0 : pre.length < (pre ++ List.replicate ((q :: qs).length + r) 0).length := by
      rw [List.length_append, List.length_replicate, e2]; omega
    simp only
    rw [addSiteDists_eq s mode q.1 q.2 _ _ e0, e2, List.replicate_succ, set_append_cons,
      getD_append_cons, zero_add]
    have e3 := ih (pre ++ [sumSiteDist s mode q.1 q.2]) r
    rw [List.length_append, List.length_singleton, List.append_assoc, List.singleton_append]
      at e3
    rw [e3, List.map_cons, List.length_cons]
    simp [Nat.add_assoc, Nat.add_comm 1]

theorem CalcIsoDistArray_eq_fold (s : MultiLocusModel) (mode : distance_t) :
    s.CalcIsoDistArray mode =
      ((isoPairs s.GetNumRows).foldl (fun (st : List Int × Nat) q =>
          (s.addSiteDists mode q.1 q.2 st.1 st.2, st.2 + 1))
        (List.replicate s.mNumPairsIsolates 0, 0)).1 := by
  unfold CalcIsoDistArray isoPairs
  rw [foldl_flatMap]
  congr 1
  apply List.foldl_ext
  intro st i _
  rw [List.foldl_map]

/-! ### Row-major indices of the pairs -/

theorem offsetOf_succ {β : Type} (g : Nat → List β) (i : Nat) :
    offsetOf g (i + 1) = offsetOf g i + (g i).length := by
  unfold offsetOf
  rw [List.range_succ, List.map_append, List.sum_append]
  simp

theorem offsetOf_mono {β : Type} (g : Nat → List β) (i m : Nat) (h : i ≤ m) :
    offsetOf g i ≤ offsetOf g m := by
  induction m with
  | zero =>
    have : i = 0 := by omega
    rw [this]
  | succ m ih =>
    rcases Nat.lt_or_ge i (m + 1) with h1 | h1
    · have := ih (by omega)
      rw [offsetOf_succ]
      omega
    · have : i = m + 1 := by omega
      rw [this]

theorem length_flatMap_range {β : Type} (g : Nat → List β) (m : Nat) :
    ((List.range m).flatMap g).length = offsetOf g m := by
  induction m with
  | zero => rfl
  | succ m ih =>
    rw [List.range_succ, List.flatMap_append, List.length_append, ih, offsetOf_succ]
    simp

theorem getD_flatMap_range {β : Type} (g : Nat → List β) (d : β) (m i q : Nat) (hi : i < m)
    (hq : q < (g i).length) :
    ((List.range m).flatMap g).getD (offsetOf g i + q) d = (g i).getD q d := by
  induction m with
  | zero => omega
  | succ m ih =>
    rw [List.range_succ, List.flatMap_append]
    have hlen := length_flatMap_range g m
    rcases Nat.lt_or_ge i m with h1 | h1
    · have h2 : offsetOf g (i + 1) ≤ offsetOf g m := offsetOf_mono g (i + 1) m h1
      rw [offsetOf_succ] at h2
      rw [List.getD_eq_getElem?_getD, List.getElem?_append_left (by rw [hlen]; omega),
        ← List.getD_eq_getElem?_getD]
      exact ih h1
    · have h2 : i = m := by omega
      subst h2
      rw [List.getD_eq_getElem?_getD, List.getElem?_append_right (by rw [hlen]; omega), hlen]
      simp [List.getD_eq_getElem?_getD]

theorem triangle_succ (i : Nat) : (i + 1) * (i + 1 + 1) / 2 = i * (i + 1) / 2 + (i + 1) := by
  have h : (i + 1) * (i + 1 + 1) = i * (i + 1) + 2 * (i + 1) := by ring
  rw [h, Nat.add_mul_div_left _ _ (by decide : 0 < 2)]

theorem two_mul_triangle (i : Nat) : 2 * (i * (i + 1) / 2) = i * (i + 1) := by
  induction i with
  | zero => rfl
  | succ i ih =>
    rw [triangle_succ, Nat.mul_add, ih]
    ring

theorem offsetOf_isoPairsRow (n i : Nat) (h : i ≤ n) :
    offsetOf (isoPairsRow n) i + i * (i + 1) / 2 = i * n := by
  induction i with
  | zero => simp [offsetOf]
  | succ i ih =>
    have h1 := ih (by omega)
    rw [offsetOf_succ, triangle_succ]
    have h2 : (isoPairsRow n i).length = n - (i + 1) := by simp [isoPairsRow]
    rw [h2]
    have h3 : (i + 1) * n = i * n + n := by ring
    omega

theorem isoPairs_eq (n : Nat) : isoPairs n = (List.range (n - 1)).flatMap (isoPairsRow n) := rfl

theorem length_isoPairs (n : Nat) : (isoPairs n).length = n * (n - 1) / 2 := by
  rw [isoPairs_eq, length_flatMap_range]
  have h1 := offsetOf_isoPairsRow n (n - 1) (by omega)
  have h2 := two_mul_triangle (n - 1)
  rcases Nat.eq_zero_or_pos n with h0 | h0
  · subst h0; simp [offsetOf]
  · have h3 : n - 1 + 1 = n := by omega
    rw [h3] at h1 h2
    have h4 : n * (n - 1) = (n - 1) * n := Nat.mul_comm _ _
    rw [h4]
    omega

theorem getD_isoPairs (n i j : Nat) (hij : i < j) (hj : j < n) :
    (isoPairs n).getD (pairIndex n i j) (0, 0) = (i, j) := by
  have h1 := offsetOf_isoPairsRow n i (by omega)
  have h2 : pairIndex n i j = offsetOf (isoPairsRow n) i + (j - i - 1) := by
    unfold pairIndex
    omega
  rw [h2, isoPairs_eq, getD_flatMap_range (isoPairsRow n) (0, 0) (n - 1) i (j - i - 1)
    (by omega) (by simp [isoPairsRow]; omega)]
  unfold isoPairsRow
  rw [List.getD_eq_getElem?_getD, List.getElem?_map, List.getElem?_range' _ _ (by omega)]
  simp
  omega

theorem CalcIsoDistArray_eq_map (s : MultiLocusModel) (mode : distance_t)
    (hdim : s.mNumPairsIsolates = s.GetNumRows * (s.GetNumRows - 1) / 2) :
    s.CalcIsoDistArray mode =
      (isoPairs s.GetNumRows).map (fun q => sumSiteDist s mode q.1 q.2) := by
  rw [CalcIsoDistArray_eq_fold, hdim, ← length_isoPairs]
  have h := fill_pairs s mode (isoPairs s.GetNumRows) [] 0
  simp only [List.nil_append, Nat.add_zero, List.length_nil, List.replicate_zero,
    List.append_nil, Nat.zero_add] at h
  rw [h]

theorem DetermineDimensions_fields (s : MultiLocusModel) :
    s.DetermineDimensions.GetNumRows = s.GetNumRows ∧
    s.DetermineDimensions.GetNumCols = s.GetNumCols ∧
    s.DetermineDimensions.mNumPairsIsolates = s.GetNumRows * (s.GetNumRows - 1) / 2 ∧
    (∀ mode i j k, s.DetermineDimensions.siteDist mode i j k = s.siteDist mode i j k) :=
  ⟨rfl, rfl, rfl, fun _ _ _ _ => rfl⟩

/-! ### Loops over ranges with a counter in the invariant -/

theorem foldl_range'_invariant {σ : Type} (P : Nat → σ → Prop) (f : σ → Nat → σ) (a : Nat) :
    ∀ (w : Nat) (s0 : σ), P a s0 →
      (∀ j s, a ≤ j → j < a + w → P j s → P (j + 1) (f s j)) →
      P (a + w) ((List.range' a w).foldl f s0) := by
  intro w
  induction w with
  | zero => intro s0 h0 _; simpa using h0
  | succ w ih =>
    intro s0 h0 hstep
    rw [List.range'_concat, List.foldl_append]
    simp only [Nat.one_mul, List.foldl_cons, List.foldl_nil]
    have h1 := ih s0 h0 (fun j s hj1 hj2 => hstep j s hj1 (by omega))
    have h2 := hstep (a + w) _ (by omega) (by omega) h1
    rw [Nat.add_assoc] at h2
    exact h2

theorem foldl_range_invariant {σ : Type} (P : Nat → σ → Prop) (f : σ → Nat → σ) (m : Nat)
    (s0 : σ) (h0 : P 0 s0) (hstep : ∀ i s, i < m → P i s → P (i + 1) (f s i)) :
    P m ((List.range m).foldl f s0) := by
  have h := foldl_range'_invariant P f 0 m s0 h0
    (fun j s _ hj hp => hstep j s (by omega) hp)
  rw [Nat.zero_add] at h
  rw [List.range_eq_range']
  exact h

/-! ### The greedy clustering of `CountFreqsFromDist` -/

theorem sameGenotype_self (n : Nat) (d : List Int) (i : Nat) : sameGenotype n d i i = true := by
  simp [sameGenotype]

theorem sameGenotype_comm (n : Nat) (d : List Int) (i j : Nat) :
    sameGenotype n d i j = sameGenotype n d j i := by
  unfold sameGenotype
  rw [Nat.min_comm, Nat.max_comm]
  congr 1
  exact Bool.beq_comm

theorem sameGenotype_lt (n : Nat) (d : List Int) (i j : Nat) (h : i < j) :
    (sameGenotype n d i j = true ↔ d.getD (pairIndex n i j) 0 = 0) := by
  unfold sameGenotype
  have h1 : min i j = i := Nat.min_eq_left (Nat.le_of_lt h)
  have h2 : max i j = j := Nat.max_eq_right (Nat.le_of_lt h)
  have h3 : (i == j) = false := by
    rw [beq_eq_false_iff_ne]; omega
  rw [h1, h2, h3]
  simp

theorem hasEarlier_iff (n : Nat) (d : List Int) (m r : Nat) :
    hasEarlier n d m r = true ↔ ∃ k, k < m ∧ sameGenotype n d k r = true := by
  unfold hasEarlier
  rw [List.any_eq_true]
  constructor
  · rintro ⟨k, hk, h⟩
    exact ⟨k, List.mem_range.1 hk, h⟩
  · rintro ⟨k, hk, h⟩
    exact ⟨k, List.mem_range.2 hk, h⟩

theorem isFirstOfClass_eq (n : Nat) (d : List Int) (i : Nat) :
    isFirstOfClass n d i = !hasEarlier n d i i := by
  unfold isFirstOfClass hasEarlier
  rw [List.all_eq_not_any_not]
  simp

theorem hasEarlier_succ (n : Nat) (d : List Int) (m r : Nat) :
    hasEarlier n d (m + 1) r = (hasEarlier n d m r || sameGenotype n d m r) := by
  unfold hasEarlier
  rw [List.range_succ, List.any_append]
  simp

theorem laterCount_self (n : Nat) (d : List Int) (i : Nat) : laterCount n d i (i + 1) = 0 := by
  simp [laterCount]

theorem laterCount_succ (n : Nat) (d : List Int) (i j : Nat) (h : i < j) :
    laterCount n d i (j + 1) =
      laterCount n d i j + (if sameGenotype n d i j = true then 1 else 0) := by
  unfold laterCount
  have e : j + 1 - (i + 1) = (j - (i + 1)) + 1 := by omega
  rw [e, List.range'_concat, List.filter_append, List.length_append]
  have e2 : i + 1 + 1 * (j - (i + 1)) = j := by omega
  rw [e2]
  by_cases hs : sameGenotype n d i j = true
  · simp [hs]
  · simp [hs]

theorem classSize_first (n : Nat) (d : List Int) (i : Nat) (hi : i < n)
    (hf : isFirstOfClass n d i = true) : classSize n d i = 1 + laterCount n d i n := by
  unfold classSize laterCount
  have e1 : List.range n = List.range i ++ (i :: List.range' (i + 1) (n - (i + 1))) := by
    have h := List.range'_append_1 0 i (n - i)
    rw [Nat.zero_add, Nat.sub_add_cancel (Nat.le_of_lt hi)] at h
    have h2 : n - i = (n - (i + 1)) + 1 := by omega
    rw [List.range_eq_range', List.range_eq_range', ← h, h2, List.range'_succ]
  rw [e1, List.filter_append, List.length_append]
  have e2 : (List.range i).filter (fun j => sameGenotype n d i j) = [] := by
    rw [List.filter_eq_nil_iff]
    intro k hk
    unfold isFirstOfClass at hf
    rw [List.all_eq_true] at hf
    have := hf k hk
    rw [sameGenotype_comm]
    simpa using this
  rw [e2, List.filter_cons_of_pos (by simpa using sameGenotype_self n d i)]
  simp
  omega

theorem pairIndex_eq_offset (n i j : Nat) (hij : i < j) (hj : j ≤ n) :
    pairIndex n i j = offsetOf (isoPairsRow n) i + (j - (i + 1)) := by
  have h1 := offsetOf_isoPairsRow n i (by omega)
  unfold pairIndex
  omega

theorem FreqInv_init (n : Nat) (d : List Int) :
    FreqInv n d 0 1 (List.replicate n 1, 0) := by
  refine ⟨by simp, by simp [offsetOf], fun r hr => ?_⟩
  have h1 : (List.replicate n (1 : Int)).getD r 0 = 1 := by
    simp [List.getD_eq_getElem?_getD, List.getElem?_replicate, hr]
  rw [h1]
  unfold freqAt
  by_cases h0 : r = 0
  · subst h0
    simp [isFirstOfClass, laterCount]
  · have e1 : ¬ r < 0 := by omega
    have e2 : ¬ r < 1 := by omega
    simp [e1, h0, e2, hasEarlier]

theorem FreqInv_step (n : Nat) (d : List Int) (ht : distanceTransitive n d) (i j : Nat)
    (hij : i < j) (hj : j < n) (st : List Int × Nat) (h : FreqInv n d i j st) :
    FreqInv n d i (j + 1) (CountFreqsStep d i st j) := by
  obtain ⟨hlen, hp, hget⟩ := h
  have hi : i < n := by omega
  have hne : i ≠ j := by omega
  -- the three tests of the body
  have hfi : st.1.getD i 0 ≠ 0 ↔ isFirstOfClass n d i = true := by
    rw [hget i hi]
    unfold freqAt
    simp only [Nat.lt_irrefl, if_false, if_true]
    by_cases hf : isFirstOfClass n d i = true
    · simp only [hf, if_true]
      constructor
      · intro _; trivial
      · intro _; omega
    · simp [hf]
  have hfj : st.1.getD j 0 ≠ 0 ↔ hasEarlier n d i j = false := by
    rw [hget j hj]
    unfold freqAt
    have e1 : ¬ j < i := by omega
    have e2 : ¬ j = i := by omega
    simp only [e1, e2, Nat.lt_irrefl, if_false]
    cases hasEarlier n d i j <;> simp
  have hd : st.1.length = n → (d.getD st.2 0 = 0 ↔ sameGenotype n d i j = true) := by
    intro _
    rw [hp, ← pairIndex_eq_offset n i j hij (by omega), sameGenotype_lt n d i j hij]
  have hd := hd hlen
  -- a first isolate has no class member with an earlier match
  have hkey1 : isFirstOfClass n d i = true → hasEarlier n d i j = true →
      sameGenotype n d i j = true → False := by
    intro h1 h2 h3
    obtain ⟨k, hk, hkj⟩ := (hasEarlier_iff n d i j).1 h2
    have hki : sameGenotype n d k i = true :=
      ht k (by omega) j hj i hi hkj (by rw [sameGenotype_comm]; exact h3)
    rw [isFirstOfClass_eq] at h1
    have : hasEarlier n d i i = true := (hasEarlier_iff n d i i).2 ⟨k, hk, hki⟩
    rw [this] at h1
    exact Bool.false_ne_true h1
  have hkey2 : isFirstOfClass n d i = false → sameGenotype n d i j = true →
      hasEarlier n d i j = true := by
    intro h1 h3
    rw [isFirstOfClass_eq] at h1
    have h4 : hasEarlier n d i i = true := by
      cases h5 : hasEarlier n d i i
      · rw [h5] at h1; exact absurd h1 (by decide)
      · rfl
    obtain ⟨k, hk, hki⟩ := (hasEarlier_iff n d i i).1 h4
    exact (hasEarlier_iff n d i j).2 ⟨k, hk, ht k (by omega) i hi j hj hki h3⟩
  unfold CountFreqsStep
  by_cases hc : (st.1.getD i 0 ≠ 0 ∧ st.1.getD j 0 ≠ 0) ∧ d.getD st.2 0 = 0
  · rw [if_pos hc]
    obtain ⟨⟨c1, c2⟩, c3⟩ := hc
    have f1 := hfi.1 c1
    have f2 := hfj.1 c2
    have f3 := hd.1 c3
    refine ⟨by simp [hlen], by simp only; omega, fun r hr => ?_⟩
    simp only
    rw [getD_set_eq, getD_set_eq, getD_set_eq]
    simp only [List.length_set, hlen, hi, hj, and_true]
    unfold freqAt
    by_cases hri : r = i
    · subst hri
      have e0 : ¬ r = j := hne
      simp only [if_true, e0, if_false, Nat.lt_irrefl, f1]
      rw [hget r hi]
      unfold freqAt
      simp only [Nat.lt_irrefl, if_false, if_true, f1]
      rw [laterCount_succ n d r j hij, if_pos f3]
      push_cast
      ring
    · rw [if_neg hri]
      by_cases hrj : r = j
      · subst hrj
        have e1 : ¬ r < i := by omega
        have e2 : r < r + 1 := by omega
        simp only [if_true, e1, hri, if_false, e2]
        rw [hasEarlier_succ, f3]
        simp
      · rw [if_neg hrj, hget r hr]
        unfold freqAt
        simp only [hri, if_false]
        by_cases h1 : r < i
        · simp only [h1, if_true]
        · simp only [h1, if_false]
          by_cases h2 : r < j
          · have h3 : r < j + 1 := by omega
            simp only [h2, h3, if_true]
          · have h3 : ¬ r < j + 1 := by omega
            simp only [h2, h3, if_false]
  · rw [if_neg hc]
    refine ⟨hlen, by simp only; omega, fun r hr => ?_⟩
    simp only
    rw [hget r hr]
    unfold freqAt
    by_cases h1 : r < i
    · simp only [h1, if_true]
    · simp only [h1, if_false]
      by_cases hri : r = i
      · subst hri
        simp only [if_true]
        cases hf : isFirstOfClass n d r
        · simp
        · simp only [if_true]
          rw [laterCount_succ n d r j hij]
          have hns : ¬ sameGenotype n d r j = true := by
            intro hs
            apply hc
            refine ⟨⟨hfi.2 hf, hfj.2 ?_⟩, hd.2 hs⟩
            cases h5 : hasEarlier n d r j
            · rfl
            · exact absurd (hkey1 hf h5 hs) (fun x => x)
          rw [if_neg hns]
          simp
      · simp only [hri, if_false]
        by_cases hrj : r = j
        · subst hrj
          have e2 : r < r + 1 := by omega
          simp only [Nat.lt_irrefl, if_false, e2, if_true]
          rw [hasEarlier_succ]
          cases hs : sameGenotype n d i r
          · simp
          · cases hf : isFirstOfClass n d i
            · rw [hkey2 hf hs]
              simp
            · cases h5 : hasEarlier n d i r
              · exfalso
                apply hc
                exact ⟨⟨hfi.2 hf, hfj.2 h5⟩, hd.2 hs⟩
              · simp
        · by_cases h2 : r < j
          · have h3 : r < j + 1 := by omega
            simp only [h2, h3, if_true]
          · have h3 : ¬ r < j + 1 := by omega
            simp only [h2, h3, if_false]

theorem FreqInv_nextRow (n : Nat) (d : List Int) (i : Nat) (hi : i + 1 < n)
    (st : List Int × Nat) (h : FreqInv n d i n st) : FreqInv n d (i + 1) (i + 2) st := by
  obtain ⟨hlen, hp, hget⟩ := h
  refine ⟨hlen, ?_, fun r hr => ?_⟩
  · rw [hp, offsetOf_succ]
    have : (isoPairsRow n i).length = n - (i + 1) := by simp [isoPairsRow]
    rw [this]
    omega
  · rw [hget r hr]
    unfold freqAt
    by_cases h1 : r < i
    · have h2 : r < i + 1 := by omega
      simp only [h1, h2, if_true]
    · simp only [h1, if_false]
      by_cases h2 : r = i
      · subst h2
        have h3 : r < r + 1 := by omega
        simp only [if_true, h3]
        cases hf : isFirstOfClass n d r
        · simp
        · simp only [if_true]
          rw [classSize_first n d r (by omega) hf]
          push_cast
          rfl
      · have h3 : ¬ r < i + 1 := by omega
        simp only [h2, h3, hr, if_false, if_true]
        by_cases h4 : r = i + 1
        · subst h4
          have h5 : ¬ i + 1 + 1 < i + 1 := by omega
          simp only [if_true, isFirstOfClass_eq, laterCount_self]
          cases hasEarlier n d (i + 1) (i + 1) <;> simp
        · have h5 : ¬ r < i + 2 := by omega
          simp only [h4, h5, if_false]

theorem FreqInv_rows (n : Nat) (d : List Int) (ht : distanceTransitive n d) (hn : 1 ≤ n) :
    FreqInv n d (n - 1) n
      ((List.range (n - 1)).foldl
        (fun (st : List Int × Nat) i =>
          (List.range' (i + 1) (n - (i + 1))).foldl (CountFreqsStep d i) st)
        (List.replicate n 1, 0)) := by
  have h := foldl_range_invariant (fun i st => FreqInv n d i (i + 1) st)
    (fun (st : List Int × Nat) i =>
      (List.range' (i + 1) (n - (i + 1))).foldl (CountFreqsStep d i) st)
    (n - 1) (List.replicate n 1, 0) (FreqInv_init n d) ?_
  · have e : n - 1 + 1 = n := by omega
    simp only [e] at h
    exact h
  · intro i st hi hst
    have h1 := foldl_range'_invariant (fun j st => FreqInv n d i j st) (CountFreqsStep d i)
      (i + 1) (n - (i + 1)) st hst
      (fun j s hj1 hj2 hs => FreqInv_step n d ht i j (by omega) (by omega) s hs)
    have e : i + 1 + (n - (i + 1)) = n := by omega
    rw [e] at h1
    exact FreqInv_nextRow n d i (by omega) _ h1

/-- With a transitive "distance 0", `CountFreqsFromDist` gives the first isolate of each
class the size of the class and 0 to the other members. -/
theorem CountFreqsFromDistN_eq (n : Nat) (d : List Int) (ht : distanceTransitive n d) :
    CountFreqsFromDistN n d = classFreqs n d := by
  rcases Nat.eq_zero_or_pos n with h0 | hn
  · subst h0; rfl
  · obtain ⟨hlen, _, hget⟩ := FreqInv_rows n d ht hn
    unfold CountFreqsFromDistN classFreqs
    apply List.ext_getElem?
    intro r
    by_cases hr : r < n
    · have h1 := hget r hr
      rw [List.getD_eq_getElem?_getD, List.getElem?_eq_getElem (by rw [hlen]; exact hr)] at h1
      simp only [Option.getD_some] at h1
      rw [List.getElem?_eq_getElem (by rw [hlen]; exact hr), h1, List.getElem?_map,
        List.getElem?_range hr]
      simp only [Option.map_some', Option.some.injEq]
      unfold freqAt
      by_cases h2 : r < n - 1
      · simp only [h2, if_true]
      · have h3 : r = n - 1 := by omega
        subst h3
        simp only [h2, if_false, if_true]
        cases hf : isFirstOfClass n d (n - 1)
        · simp
        · simp only [if_true]
          rw [classSize_first n d (n - 1) (by omega) hf]
          push_cast
          rfl
    · rw [List.getElem?_eq_none (by rw [hlen]; omega),
        List.getElem?_eq_none (by simp; omega)]

/-! ### The number of genotypes and the greatest frequency -/

theorem foldl_count_ne_zero (l : List Int) (c : Nat) :
    l.foldl (fun k x => if x ≠ 0 then k + 1 else k) c = c + (l.filter (fun x => x ≠ 0)).length := by
  induction l generalizing c with
  | nil => simp
  | cons x xs ih =>
    rw [List.foldl_cons, ih]
    by_cases hx : x = 0
    · simp [hx]
    · simp [hx]
      omega

theorem foldl_max_spec (l : List Int) (m0 : Int) :
    (m0 ≤ l.foldl (fun m x => if m < x then x else m) m0) ∧
    (∀ x ∈ l, x ≤ l.foldl (fun m x => if m < x then x else m) m0) ∧
    (l.foldl (fun m x => if m < x then x else m) m0 = m0 ∨
      l.foldl (fun m x => if m < x then x else m) m0 ∈ l) := by
  induction l generalizing m0 with
  | nil => simp
  | cons x xs ih =>
    rw [List.foldl_cons]
    obtain ⟨h1, h2, h3⟩ := ih (if m0 < x then x else m0)
    refine ⟨?_, ?_, ?_⟩
    · have : m0 ≤ (if m0 < x then x else m0) := by split_ifs <;> omega
      omega
    · intro y hy
      rcases List.mem_cons.1 hy with rfl | hy'
      · have : y ≤ (if m0 < y then y else m0) := by split_ifs <;> omega
        omega
      · exact h2 y hy'
    · rcases h3 with h3 | h3
      · rw [h3]
        by_cases hx : m0 < x
        · rw [if_pos hx]; exact Or.inr (List.mem_cons_self _ _)
        · rw [if_neg hx]; exact Or.inl rfl
      · exact Or.inr (List.mem_cons_of_mem _ h3)

theorem classSize_pos (n : Nat) (d : List Int) (i : Nat) (hi : i < n) : 1 ≤ classSize n d i := by
  unfold classSize
  apply List.length_pos_of_mem (a := i)
  rw [List.mem_filter]
  exact ⟨List.mem_range.2 hi, sameGenotype_self n d i⟩

theorem exists_first (n : Nat) (d : List Int) (ht : distanceTransitive n d) :
    ∀ i, i < n → ∃ k, k ≤ i ∧ isFirstOfClass n d k = true ∧ sameGenotype n d k i = true := by
  intro i
  induction i using Nat.strong_induction_on with
  | _ i ih =>
    intro hi
    cases hf : isFirstOfClass n d i
    · rw [isFirstOfClass_eq] at hf
      have h4 : hasEarlier n d i i = true := by
        cases h5 : hasEarlier n d i i
        · rw [h5] at hf; exact absurd hf (by decide)
        · rfl
      obtain ⟨k', hk', hk'i⟩ := (hasEarlier_iff n d i i).1 h4
      obtain ⟨k, hk, hkf, hkk'⟩ := ih k' hk' (by omega)
      exact ⟨k, by omega, hkf, ht k (by omega) k' (by omega) i hi hkk' hk'i⟩
    · exact ⟨i, Nat.le_refl _, hf, sameGenotype_self n d i⟩

theorem classSize_congr (n : Nat) (d : List Int) (ht : distanceTransitive n d) (k i : Nat)
    (hk : k < n) (hi : i < n) (h : sameGenotype n d k i = true) :
    classSize n d k = classSize n d i := by
  unfold classSize
  congr 1
  apply List.filter_congr
  intro j hj
  have hj' := List.mem_range.1 hj
  have h' : sameGenotype n d i k = true := by rw [sameGenotype_comm]; exact h
  cases h1 : sameGenotype n d k j
  · cases h2 : sameGenotype n d i j
    · rfl
    · rw [ht k hk i hi j hj' h h2] at h1; cases h1
  · rw [ht i hi k hk j hj' h' h1]

theorem numDiff_classes (n : Nat) (d : List Int) :
    (classFreqs n d).foldl (fun k x => if x ≠ 0 then k + 1 else k) 0 =
      ((List.range n).filter (fun i => isFirstOfClass n d i)).length := by
  rw [foldl_count_ne_zero, Nat.zero_add]
  unfold classFreqs
  rw [List.filter_map, List.length_map]
  congr 1
  apply List.filter_congr
  intro i hi
  have hi' := List.mem_range.1 hi
  have hpos := classSize_pos n d i hi'
  have hne : (classSize n d i : Int) ≠ 0 := by omega
  cases hf : isFirstOfClass n d i
  · simp [hf]
  · simp [hf, hne]

theorem maxFreq_classes (n : Nat) (d : List Int) (ht : distanceTransitive n d) :
    (∀ i, i < n →
      (classSize n d i : Int) ≤ (classFreqs n d).foldl (fun m x => if m < x then x else m) 0) ∧
    (1 ≤ n → ∃ i, i < n ∧
      (classSize n d i : Int) = (classFreqs n d).foldl (fun m x => if m < x then x else m) 0) := by
  obtain ⟨h1, h2, h3⟩ := foldl_max_spec (classFreqs n d) 0
  generalize (classFreqs n d).foldl (fun m x => if m < x then x else m) 0 = M at h1 h2 h3 ⊢
  have hmem : ∀ k, k < n → isFirstOfClass n d k = true →
      (classSize n d k : Int) ∈ classFreqs n d := by
    intro k hk hf
    unfold classFreqs
    rw [List.mem_map]
    exact ⟨k, List.mem_range.2 hk, by rw [hf]; rfl⟩
  constructor
  · intro i hi
    obtain ⟨k, hk, hkf, hki⟩ := exists_first n d ht i hi
    rw [← classSize_congr n d ht k i (by omega) hi hki]
    exact h2 _ (hmem k (by omega) hkf)
  · intro hn
    have h0 : isFirstOfClass n d 0 = true := by simp [isFirstOfClass]
    have hge := h2 _ (hmem 0 (by omega) h0)
    have hpos := classSize_pos n d 0 (by omega)
    rcases h3 with h3 | h3
    · rw [h3] at hge
      omega
    · unfold classFreqs at h3
      rw [List.mem_map] at h3
      obtain ⟨i, hi, hi2⟩ := h3
      have hi' := List.mem_range.1 hi
      cases hf : isFirstOfClass n d i
      · rw [hf] at hi2
        simp only [Bool.false_eq_true, if_false] at hi2
        rw [← hi2] at hge
        omega
      · rw [hf] at hi2
        simp only [if_true] at hi2
        exact ⟨i, hi', hi2⟩

/-! ### Distances of matrices without missing data -/

theorem sum_eq_zero_of_nonneg (l : List Int) (h : ∀ x ∈ l, 0 ≤ x) :
    l.sum = 0 ↔ ∀ x ∈ l, x = 0 := by
  induction l with
  | nil => simp
  | cons x xs ih =>
    have hx := h x (List.mem_cons_self _ _)
    have hxs : ∀ y ∈ xs, 0 ≤ y := fun y hy => h y (List.mem_cons_of_mem _ hy)
    have hsum : 0 ≤ xs.sum := List.sum_nonneg hxs
    rw [List.sum_cons]
    constructor
    · intro h0
      have h1 : x = 0 := by omega
      have h2 : xs.sum = 0 := by omega
      intro y hy
      rcases List.mem_cons.1 hy with rfl | hy'
      · exact h1
      · exact (ih hxs).1 h2 y hy'
    · intro h0
      rw [h0 x (List.mem_cons_self _ _), (ih hxs).2 (fun y hy => h0 y (List.mem_cons_of_mem _ hy))]
      rfl

theorem Distance_nonneg (a b : tAllele) : 0 ≤ Distance a b := by
  unfold Distance; split_ifs <;> decide

theorem DistancePair_nonneg (p q : tAllelePair) : 0 ≤ DistancePair p q := by
  unfold DistancePair; split_ifs <;> decide

theorem StrictDistance_nonneg (a b : tAllele) : 0 ≤ StrictDistance a b := by
  unfold StrictDistance; split_ifs <;> decide

theorem siteDist_nonneg (s : MultiLocusModel) (mode : distance_t) (i j k : Nat) :
    0 ≤ s.siteDist mode i j k := by
  unfold siteDist
  split_ifs
  · exact Distance_nonneg _ _
  · exact DistancePair_nonneg _ _
  · exact StrictDistance_nonneg _ _
  · exact StrictDistancePair_nonneg _ _

theorem sumSiteDist_nonneg (s : MultiLocusModel) (mode : distance_t) (i j : Nat) :
    0 ≤ sumSiteDist s mode i j := by
  unfold sumSiteDist
  apply List.sum_nonneg
  intro x hx
  rw [List.mem_map] at hx
  obtain ⟨k, _, rfl⟩ := hx
  exact siteDist_nonneg s mode i j k

theorem sumSiteDist_eq_zero (s : MultiLocusModel) (mode : distance_t) (i j : Nat) :
    sumSiteDist s mode i j = 0 ↔ ∀ k, k < s.GetNumCols → s.siteDist mode i j k = 0 := by
  unfold sumSiteDist
  rw [sum_eq_zero_of_nonneg]
  · constructor
    · intro h k hk
      exact h _ (List.mem_map.2 ⟨k, List.mem_range.2 hk, rfl⟩)
    · intro h x hx
      rw [List.mem_map] at hx
      obtain ⟨k, hk, rfl⟩ := hx
      exact h k (List.mem_range.1 hk)
  · intro x hx
    rw [List.mem_map] at hx
    obtain ⟨k, _, rfl⟩ := hx
    exact siteDist_nonneg s mode i j k

theorem pairIndex_lt (n i j : Nat) (hij : i < j) (hj : j < n) :
    pairIndex n i j < n * (n - 1) / 2 := by
  rw [← length_isoPairs, isoPairs_eq, length_flatMap_range,
    pairIndex_eq_offset n i j hij (by omega)]
  have h1 : offsetOf (isoPairsRow n) (i + 1) ≤ offsetOf (isoPairsRow n) (n - 1) :=
    offsetOf_mono _ _ _ (by omega)
  rw [offsetOf_succ] at h1
  have h2 : (isoPairsRow n i).length = n - (i + 1) := by simp [isoPairsRow]
  omega

theorem getD_CalcIsoDistArray (s : MultiLocusModel) (mode : distance_t)
    (hdim : s.mNumPairsIsolates = s.GetNumRows * (s.GetNumRows - 1) / 2) (i j : Nat)
    (hij : i < j) (hj : j < s.GetNumRows) :
    (s.CalcIsoDistArray mode).getD (pairIndex s.GetNumRows i j) 0 = sumSiteDist s mode i j := by
  rw [CalcIsoDistArray_eq_map s mode hdim]
  have hlt : pairIndex s.GetNumRows i j < (isoPairs s.GetNumRows).length := by
    rw [length_isoPairs]; exact pairIndex_lt _ i j hij hj
  have h := getD_isoPairs s.GetNumRows i j hij hj
  rw [List.getD_eq_getElem?_getD, List.getElem?_eq_getElem hlt] at h
  simp only [Option.getD_some] at h
  rw [List.getD_eq_getElem?_getD, List.getElem?_map, List.getElem?_eq_getElem hlt, h]
  rfl

theorem Distance_comm (a b : tAllele) : Distance a b = Distance b a := by
  unfold Distance
  by_cases h3 : a = b
  · subst h3; simp [Bool.or_comm]
  · have h3' : ¬ b = a := fun h => h3 h.symm
    by_cases h1 : IsMissing a = true <;> by_cases h2 : IsMissing b = true <;>
      simp [h1, h2, h3, h3']

theorem siteDist_comm (s : MultiLocusModel) (i j k : Nat) :
    s.siteDist distance_t.kDistance_Relaxed i j k =
      s.siteDist distance_t.kDistance_Relaxed j i k := by
  unfold siteDist
  simp only [if_true]
  split_ifs
  · exact Distance_comm _ _
  · exact (DistancePair_comm _ _).symm

theorem Distance_zero_of_complete (a b : tAllele) (ha : IsMissing a = false)
    (hb : IsMissing b = false) : Distance a b = 0 ↔ a = b := by
  unfold Distance
  by_cases h : a = b <;> simp [ha, hb, h]

theorem DistancePair_zero_of_complete (p q : tAllelePair) (h : noneMissing p q) :
    DistancePair p q = 0 ↔ sameUnordered p q := by
  rw [DistancePair_eq]
  obtain ⟨m1, m2, m3, m4⟩ := h
  have e : pairingMatches p q ↔ sameUnordered p q := by
    unfold pairingMatches wildMatch sameUnordered
    simp [m1, m2, m3, m4]
  by_cases hs : sameUnordered p q
  · simp [e.2 hs, hs]
  · have hn : ¬ pairingMatches p q := fun h' => hs (e.1 h')
    rw [if_neg hn]
    constructor
    · intro h'
      split_ifs at h' <;> exact absurd h' (by decide)
    · intro h'
      exact absurd h' hs

theorem sameUnordered_trans (p q r : tAllelePair) (h1 : sameUnordered p q)
    (h2 : sameUnordered q r) : sameUnordered p r := by
  unfold sameUnordered at *
  rcases h1 with ⟨a1, a2⟩ | ⟨a1, a2⟩ <;> rcases h2 with ⟨b1, b2⟩ | ⟨b1, b2⟩
  · exact Or.inl ⟨a1.trans b1, a2.trans b2⟩
  · exact Or.inr ⟨a1.trans b1, a2.trans b2⟩
  · exact Or.inr ⟨a1.trans b2, a2.trans b1⟩
  · exact Or.inl ⟨a1.trans b2, a2.trans b1⟩

theorem siteDist_self (s : MultiLocusModel) (i k : Nat) :
    s.siteDist distance_t.kDistance_Relaxed i i k = 0 := by
  unfold siteDist
  simp only [if_true]
  split_ifs
  · simp [Distance]
  · rw [DistancePair_eq, if_pos]
    unfold pairingMatches wildMatch
    exact Or.inl ⟨Or.inr (Or.inr rfl), Or.inr (Or.inr rfl)⟩

theorem siteDist_trans (s : MultiLocusModel) (hm : noMissingData s) (a b c k : Nat)
    (ha : a < s.GetNumRows) (hb : b < s.GetNumRows) (hc : c < s.GetNumRows)
    (hk : k < s.GetNumCols)
    (h1 : s.siteDist distance_t.kDistance_Relaxed a b k = 0)
    (h2 : s.siteDist distance_t.kDistance_Relaxed b c k = 0) :
    s.siteDist distance_t.kDistance_Relaxed a c k = 0 := by
  have ma := hm a ha k hk
  have mb := hm b hb k hk
  have mc := hm c hc k hk
  unfold siteDist at *
  unfold IsMissingAt at ma mb mc
  simp only [if_true] at h1 h2 ⊢
  by_cases hp : s.GetPloidy = ploidy_t.kPloidy_Haploid
  · simp only [hp, if_true] at h1 h2 ma mb mc ⊢
    have na : IsMissing (cellAt s.mHaploData a k) = false := by
      cases h : IsMissing (cellAt s.mHaploData a k)
      · rfl
      · rw [h] at ma; simp at ma
    have nb : IsMissing (cellAt s.mHaploData b k) = false := by
      cases h : IsMissing (cellAt s.mHaploData b k)
      · rfl
      · rw [h] at mb; simp at mb
    have nc : IsMissing (cellAt s.mHaploData c k) = false := by
      cases h : IsMissing (cellAt s.mHaploData c k)
      · rfl
      · rw [h] at mc; simp at mc
    rw [Distance_zero_of_complete _ _ na nb] at h1
    rw [Distance_zero_of_complete _ _ nb nc] at h2
    rw [Distance_zero_of_complete _ _ na nc]
    exact h1.trans h2
  · simp only [hp, if_false] at h1 h2 ma mb mc ⊢
    have split : ∀ x : tAllelePair,
        (if IsMissing x.alleleA = true then true
          else if IsMissing x.alleleB = true then true else false) = false →
        IsMissing x.alleleA = false ∧ IsMissing x.alleleB = false := by
      intro x hx
      cases h1' : IsMissing x.alleleA
      · cases h2' : IsMissing x.alleleB
        · exact ⟨rfl, rfl⟩
        · rw [h1', h2'] at hx; simp at hx
      · rw [h1'] at hx; simp at hx
    obtain ⟨a1, a2⟩ := split _ ma
    obtain ⟨b1, b2⟩ := split _ mb
    obtain ⟨c1, c2⟩ := split _ mc
    rw [DistancePair_zero_of_complete _ _ ⟨a1, a2, b1, b2⟩] at h1
    rw [DistancePair_zero_of_complete _ _ ⟨b1, b2, c1, c2⟩] at h2
    rw [DistancePair_zero_of_complete _ _ ⟨a1, a2, c1, c2⟩]
    exact sameUnordered_trans _ _ _ h1 h2

theorem sameGenotype_iff_rowsSame (s : MultiLocusModel)
    (hdim : s.mNumPairsIsolates = s.GetNumRows * (s.GetNumRows - 1) / 2) (i j : Nat)
    (hi : i < s.GetNumRows) (hj : j < s.GetNumRows) :
    sameGenotype s.GetNumRows (s.CalcIsoDistArray distance_t.kDistance_Relaxed) i j = true ↔
      rowsSame s i j := by
  rcases Nat.lt_trichotomy i j with h | h | h
  · rw [sameGenotype_lt _ _ i j h, getD_CalcIsoDistArray s _ hdim i j h hj,
      sumSiteDist_eq_zero]
    rfl
  · subst h
    constructor
    · intro _ k _
      exact siteDist_self s i k
    · intro _
      exact sameGenotype_self _ _ i
  · rw [sameGenotype_comm, sameGenotype_lt _ _ j i h, getD_CalcIsoDistArray s _ hdim j i h hi,
      sumSiteDist_eq_zero]
    constructor
    · intro h' k hk
      rw [siteDist_comm]; exact h' k hk
    · intro h' k hk
      rw [siteDist_comm]; exact h' k hk

theorem distanceTransitive_of_noMissing (s : MultiLocusModel)
    (hdim : s.mNumPairsIsolates = s.GetNumRows * (s.GetNumRows - 1) / 2)
    (hm : noMissingData s) :
    distanceTransitive s.GetNumRows (s.CalcIsoDistArray distance_t.kDistance_Relaxed) := by
  intro a ha b hb c hc h1 h2
  rw [sameGenotype_iff_rowsSame s hdim _ _ ha hb] at h1
  rw [sameGenotype_iff_rowsSame s hdim _ _ hb hc] at h2
  rw [sameGenotype_iff_rowsSame s hdim _ _ ha hc]
  intro k hk
  exact siteDist_trans s hm a b c k ha hb hc hk (h1 k hk) (h2 k hk)

/-! ### All the isolates different -/

theorem length_CalcIsoDistArray (s : MultiLocusModel) (mode : distance_t)
    (hdim : s.mNumPairsIsolates = s.GetNumRows * (s.GetNumRows - 1) / 2) :
    (s.CalcIsoDistArray mode).length = s.GetNumRows * (s.GetNumRows - 1) / 2 := by
  rw [CalcIsoDistArray_eq_map s mode hdim, List.length_map, length_isoPairs]

theorem mem_CalcIsoDistArray_nonneg (s : MultiLocusModel) (mode : distance_t)
    (hdim : s.mNumPairsIsolates = s.GetNumRows * (s.GetNumRows - 1) / 2) (x : Int)
    (hx : x ∈ s.CalcIsoDistArray mode) : 0 ≤ x := by
  rw [CalcIsoDistArray_eq_map s mode hdim, List.mem_map] at hx
  obtain ⟨q, _, rfl⟩ := hx
  exact sumSiteDist_nonneg s mode q.1 q.2

theorem sameGenotype_of_all_ne (n : Nat) (d : List Int) (hlen : d.length = n * (n - 1) / 2)
    (hnz : ∀ x ∈ d, x ≠ 0) (i j : Nat) (hi : i < n) (hj : j < n) :
    sameGenotype n d i j = true ↔ i = j := by
  have key : ∀ a b, a < b → b < n → ¬ sameGenotype n d a b = true := by
    intro a b hab hb h
    rw [sameGenotype_lt n d a b hab] at h
    have hlt : pairIndex n a b < d.length := by rw [hlen]; exact pairIndex_lt n a b hab hb
    rw [List.getD_eq_getElem?_getD, List.getElem?_eq_getElem hlt] at h
    simp only [Option.getD_some] at h
    exact hnz _ (List.getElem_mem hlt) h
  constructor
  · intro h
    rcases Nat.lt_trichotomy i j with h1 | h1 | h1
    · exact absurd h (key i j h1 hj)
    · exact h1
    · rw [sameGenotype_comm] at h
      exact absurd h (key j i h1 hi)
  · rintro rfl
    exact sameGenotype_self n d i

theorem all_different (n : Nat) (d : List Int) (hlen : d.length = n * (n - 1) / 2)
    (hnz : ∀ x ∈ d, x ≠ 0) :
    distanceTransitive n d ∧ (∀ i, i < n → isFirstOfClass n d i = true) ∧
      (∀ i, i < n → classSize n d i = 1) := by
  refine ⟨?_, ?_, ?_⟩
  · intro a ha b hb c hc h1 h2
    rw [sameGenotype_of_all_ne n d hlen hnz a b ha hb] at h1
    rw [sameGenotype_of_all_ne n d hlen hnz b c hb hc] at h2
    rw [sameGenotype_of_all_ne n d hlen hnz a c ha hc]
    exact h1.trans h2
  · intro i hi
    unfold isFirstOfClass
    rw [List.all_eq_true]
    intro k hk
    have hk' := List.mem_range.1 hk
    cases h : sameGenotype n d k i
    · rfl
    · have := (sameGenotype_of_all_ne n d hlen hnz k i (by omega) hi).1 h
      omega
  · intro i hi
    unfold classSize
    have e : (List.range n).filter (fun j => sameGenotype n d i j) =
        (List.range n).filter (fun j => j == i) := by
      apply List.filter_congr
      intro j hj
      have hj' := List.mem_range.1 hj
      cases h : sameGenotype n d i j
      · have hne : ¬ i = j := fun e =>
          absurd ((sameGenotype_of_all_ne n d hlen hnz i j hi hj').2 e) (by rw [h]; decide)
        have : (j == i) = false := by rw [beq_eq_false_iff_ne]; omega
        rw [this]
      · have := (sameGenotype_of_all_ne n d hlen hnz i j hi hj').1 h
        subst this
        simp
    rw [e]
    have hnd := List.nodup_range n
    have hc := List.count_eq_one_of_mem hnd (List.mem_range.2 hi)
    rw [List.count_eq_countP, List.countP_eq_length_filter] at hc
    exact hc

theorem foldl_count_pos (l : List Int) (c : Nat) :
    l.foldl (fun k x => if 0 < x then k + 1 else k) c = c + (l.filter (fun x => 0 < x)).length := by
  induction l generalizing c with
  | nil => simp
  | cons x xs ih =>
    rw [List.foldl_cons, ih]
    by_cases hx : 0 < x
    · simp [hx]
      omega
    · simp [hx]

theorem CalcDivFromDist_all_pos (d : List Int) (hne : d.length ≠ 0) (hpos : ∀ x ∈ d, 0 < x) :
    CalcDivFromDist d = some 1 := by
  unfold CalcDivFromDist
  rw [if_neg hne, foldl_count_pos, Nat.zero_add]
  have e : d.filter (fun x => 0 < x) = d := by
    rw [List.filter_eq_self]
    intro x hx
    simpa using hpos x hx
  rw [e]
  have : (d.length : ℚ) ≠ 0 := by exact_mod_cast hne
  rw [div_self this]

/-! ### Counting the pairs at distance 0 -/

theorem sum_map_range_eq_finset {M : Type} [AddCommMonoid M] (f : Nat → M) (n : Nat) :
    ((List.range n).map f).sum = ∑ i ∈ Finset.range n, f i := by
  induction n with
  | zero => simp
  | succ n ih =>
    rw [List.range_succ, List.map_append, List.sum_append, ih, Finset.sum_range_succ]
    simp

theorem length_filter_eq_sum {α : Type} (p : α → Bool) (l : List α) :
    (l.filter p).length = (l.map (fun x => if p x = true then 1 else 0)).sum := by
  induction l with
  | nil => rfl
  | cons a l ih =>
    by_cases h : p a = true
    · simp [List.filter_cons, h, ih]; omega
    · simp [List.filter_cons, h, ih]

theorem classSize_eq_sum (n : Nat) (d : List Int) (r : Nat) :
    classSize n d r = ∑ j ∈ Finset.range n, if sameGenotype n d r j = true then 1 else 0 := by
  unfold classSize
  rw [length_filter_eq_sum, sum_map_range_eq_finset]

theorem first_unique (n : Nat) (d : List Int) (ht : distanceTransitive n d) (r r' j : Nat)
    (hr : r < n) (hr' : r' < n) (hj : j < n)
    (hf : isFirstOfClass n d r = true) (hf' : isFirstOfClass n d r' = true)
    (h : sameGenotype n d r j = true) (h' : sameGenotype n d r' j = true) : r = r' := by
  have h1 : sameGenotype n d r r' = true :=
    ht r hr j hj r' hr' h (by rw [sameGenotype_comm]; exact h')
  have h2 : sameGenotype n d r' r = true := by rw [sameGenotype_comm]; exact h1
  rw [isFirstOfClass_eq] at hf hf'
  rcases Nat.lt_trichotomy r r' with hlt | heq | hgt
  · have : hasEarlier n d r' r' = true := (hasEarlier_iff n d r' r').2 ⟨r, hlt, h1⟩
    rw [this] at hf'
    exact absurd hf' (by decide)
  · exact heq
  · have : hasEarlier n d r r = true := (hasEarlier_iff n d r r).2 ⟨r', hgt, h2⟩
    rw [this] at hf
    exact absurd hf (by decide)

theorem sum_first_rep (n : Nat) (d : List Int) (ht : distanceTransitive n d) (j : Nat)
    (hj : j < n) :
    (∑ r ∈ Finset.range n,
      if (isFirstOfClass n d r = true ∧ sameGenotype n d r j = true) then 1 else 0) = 1 := by
  obtain ⟨k, hk, hfk, hkj⟩ := exists_first n d ht j hj
  have hkn : k < n := by omega
  rw [Finset.sum_eq_single k]
  · rw [if_pos ⟨hfk, hkj⟩]
  · intro b hb hne
    rw [Finset.mem_range] at hb
    rw [if_neg]
    rintro ⟨hfb, hbj⟩
    exact hne (first_unique n d ht b k j hb hkn hj hfb hfk hbj hkj)
  · intro hk2
    exact absurd (Finset.mem_range.2 hkn) hk2

theorem sum_by_classes (n : Nat) (d : List Int) (ht : distanceTransitive n d) (h : Nat → Nat) :
    (∑ r ∈ Finset.range n,
      if isFirstOfClass n d r = true then
        ∑ j ∈ Finset.range n, (if sameGenotype n d r j = true then h j else 0)
      else 0) = ∑ j ∈ Finset.range n, h j := by
  have e1 : ∀ r ∈ Finset.range n,
      (if isFirstOfClass n d r = true then
        ∑ j ∈ Finset.range n, (if sameGenotype n d r j = true then h j else 0)
      else 0) =
      ∑ j ∈ Finset.range n,
        (if (isFirstOfClass n d r = true ∧ sameGenotype n d r j = true) then 1 else 0) * h j := by
    intro r _
    by_cases hf : isFirstOfClass n d r = true
    · rw [if_pos hf]
      apply Finset.sum_congr rfl
      intro j _
      by_cases hs : sameGenotype n d r j = true
      · rw [if_pos hs, if_pos ⟨hf, hs⟩, Nat.one_mul]
      · rw [if_neg hs, if_neg (fun hh => hs hh.2), Nat.zero_mul]
    · rw [if_neg hf]
      symm
      apply Finset.sum_eq_zero
      intro j _
      rw [if_neg (fun hh => hf hh.1), Nat.zero_mul]
  rw [Finset.sum_congr rfl e1, Finset.sum_comm]
  apply Finset.sum_congr rfl
  intro j hj
  rw [← Finset.sum_mul, sum_first_rep n d ht j (Finset.mem_range.1 hj), Nat.one_mul]

/-- The sizes of the classes add up to the number of isolates. -/
theorem sum_classSize_first (n : Nat) (d : List Int) (ht : distanceTransitive n d) :
    (∑ r ∈ Finset.range n, if isFirstOfClass n d r = true then classSize n d r else 0) = n := by
  have h := sum_by_classes n d ht (fun _ => 1)
  simp only [Finset.sum_const, Finset.card_range, smul_eq_mul, Nat.mul_one] at h
  refine Eq.trans ?_ h
  apply Finset.sum_congr rfl
  intro r _
  rw [classSize_eq_sum]

/-- The squares of the sizes of the classes add up to the number of ordered pairs of
isolates at distance 0. -/
theorem sum_classSize_sq (n : Nat) (d : List Int) (ht : distanceTransitive n d) :
    (∑ r ∈ Finset.range n,
      if isFirstOfClass n d r = true then classSize n d r * classSize n d r else 0) =
      ∑ j ∈ Finset.range n, classSize n d j := by
  rw [← sum_by_classes n d ht (fun j => classSize n d j)]
  apply Finset.sum_congr rfl
  intro r hr
  by_cases hf : isFirstOfClass n d r = true
  · rw [if_pos hf, if_pos hf]
    have e : ∀ j ∈ Finset.range n,
        (if sameGenotype n d r j = true then classSize n d j else 0) =
        (if sameGenotype n d r j = true then 1 else 0) * classSize n d r := by
      intro j hj
      by_cases hs : sameGenotype n d r j = true
      · rw [if_pos hs, if_pos hs, Nat.one_mul,
          classSize_congr n d ht r j (Finset.mem_range.1 hr) (Finset.mem_range.1 hj) hs]
      · rw [if_neg hs, if_neg hs, Nat.zero_mul]
    rw [Finset.sum_congr rfl e, ← Finset.sum_mul, ← classSize_eq_sum]
  · rw [if_neg hf, if_neg hf]

theorem classSize_split (n : Nat) (d : List Int) (i : Nat) (hi : i < n) :
    classSize n d i =
      ((List.range i).filter (fun k => sameGenotype n d i k)).length + 1 +
        laterCount n d i n := by
  unfold classSize laterCount
  have e1 : List.range n = List.range i ++ (i :: List.range' (i + 1) (n - (i + 1))) := by
    have h := List.range'_append_1 0 i (n - i)
    rw [Nat.zero_add, Nat.sub_add_cancel (Nat.le_of_lt hi)] at h
    have h2 : n - i = (n - (i + 1)) + 1 := by omega
    rw [List.range_eq_range', List.range_eq_range', ← h, h2, List.range'_succ]
  rw [e1, List.filter_append, List.length_append,
    List.filter_cons_of_pos (by simpa using sameGenotype_self n d i)]
  simp
  omega

theorem sum_earlier_eq_later (n : Nat) (d : List Int) (m : Nat) :
    (∑ i ∈ Finset.range m, ((List.range i).filter (fun k => sameGenotype n d i k)).length) =
      ∑ i ∈ Finset.range m, laterCount n d i m := by
  induction m with
  | zero => simp
  | succ m ih =>
    rw [Finset.sum_range_succ, Finset.sum_range_succ, laterCount_self, Nat.add_zero, ih]
    have e : ∀ i ∈ Finset.range m,
        laterCount n d i (m + 1) =
          laterCount n d i m + (if sameGenotype n d m i = true then 1 else 0) := by
      intro i hi
      rw [laterCount_succ n d i m (Finset.mem_range.1 hi), sameGenotype_comm n d i m]
    rw [Finset.sum_congr rfl e, Finset.sum_add_distrib, length_filter_eq_sum,
      sum_map_range_eq_finset]

/-- The ordered pairs of isolates at distance 0: every isolate with itself, and every
pair `i < j` at distance 0 in both orders. -/
theorem sum_classSize (n : Nat) (d : List Int) :
    (∑ j ∈ Finset.range n, classSize n d j) =
      n + 2 * ∑ i ∈ Finset.range n, laterCount n d i n := by
  have e : ∀ i ∈ Finset.range n,
      classSize n d i =
        (((List.range i).filter (fun k => sameGenotype n d i k)).length + 1) +
          laterCount n d i n := by
    intro i hi
    exact classSize_split n d i (Finset.mem_range.1 hi)
  rw [Finset.sum_congr rfl e, Finset.sum_add_distrib, Finset.sum_add_distrib,
    sum_earlier_eq_later]
  simp only [Finset.sum_const, Finset.card_range, smul_eq_mul, Nat.mul_one]
  omega

theorem length_filter_flatMap {α β : Type} (g : α → List β) (p : β → Bool) (l : List α) :
    ((l.flatMap g).filter p).length = (l.map (fun i => ((g i).filter p).length)).sum := by
  induction l with
  | nil => rfl
  | cons a l ih =>
    rw [List.flatMap_cons, List.filter_append, List.length_append, ih, List.map_cons,
      List.sum_cons]

/-- The pairs `i < j` at distance 0, counted row by row. -/
theorem length_filter_isoPairs (n : Nat) (d : List Int) :
    ((isoPairs n).filter (fun q => sameGenotype n d q.1 q.2)).length =
      ∑ i ∈ Finset.range n, laterCount n d i n := by
  unfold isoPairs
  rw [length_filter_flatMap, sum_map_range_eq_finset]
  have e : ∀ i ∈ Finset.range (n - 1),
      (((List.range' (i + 1) (n - (i + 1))).map (fun j => (i, j))).filter
        (fun q => sameGenotype n d q.1 q.2)).length = laterCount n d i n := by
    intro i _
    rw [List.filter_map, List.length_map]
    rfl
  rw [Finset.sum_congr rfl e]
  rcases Nat.eq_zero_or_pos n with h0 | hpos
  · subst h0
    simp
  · obtain ⟨m, rfl⟩ : ∃ m, n = m + 1 := ⟨n - 1, by omega⟩
    rw [Nat.add_sub_cancel, Finset.sum_range_succ, laterCount_self]
    rfl

theorem mem_isoPairs (n : Nat) (q : Nat × Nat) (h : q ∈ isoPairs n) : q.1 < q.2 ∧ q.2 < n := by
  unfold isoPairs at h
  rw [List.mem_flatMap] at h
  obtain ⟨i, hi, hq⟩ := h
  rw [List.mem_map] at hq
  obtain ⟨j, hj, rfl⟩ := hq
  rw [List.mem_range'_1] at hj
  rw [List.mem_range] at hi
  constructor
  · show i < j
    omega
  · show j < n
    omega

theorem length_filter_compl {α : Type} (p q : α → Bool) (l : List α)
    (h : ∀ x ∈ l, p x = !q x) :
    (l.filter p).length + (l.filter q).length = l.length := by
  induction l with
  | nil => rfl
  | cons a l ih =>
    have ha := h a (List.mem_cons_self a l)
    have ih2 := ih (fun x hx => h x (List.mem_cons_of_mem a hx))
    cases hq : q a
    · rw [hq] at ha
      simp only [Bool.not_false] at ha
      rw [List.filter_cons_of_pos ha, List.filter_cons_of_neg (by simp [hq])]
      simp only [List.length_cons]
      omega
    · rw [hq] at ha
      simp only [Bool.not_true] at ha
      rw [List.filter_cons_of_neg (by simp [ha]), List.filter_cons_of_pos hq]
      simp only [List.length_cons]
      omega

/-- The pairs of isolates at a distance above 0 and the pairs `i < j` at distance 0
make up all the pairs. -/
theorem count_pos_CalcIsoDistArray (s : MultiLocusModel) (mode : distance_t)
    (hdim : s.mNumPairsIsolates = s.GetNumRows * (s.GetNumRows - 1) / 2) :
    ((s.CalcIsoDistArray mode).filter (fun x => 0 < x)).length +
      ((isoPairs s.GetNumRows).filter
        (fun q => sameGenotype s.GetNumRows (s.CalcIsoDistArray mode) q.1 q.2)).length =
      s.GetNumRows * (s.GetNumRows - 1) / 2 := by
  have hmap := CalcIsoDistArray_eq_map s mode hdim
  have h1 : ((s.CalcIsoDistArray mode).filter (fun x => 0 < x)).length =
      ((isoPairs s.GetNumRows).filter
        (fun q => decide (0 < sumSiteDist s mode q.1 q.2))).length := by
    conv_lhs => rw [hmap]
    rw [List.filter_map, List.length_map]
    rfl
  rw [h1, ← length_isoPairs]
  apply length_filter_compl
  intro q hq
  obtain ⟨hlt, hn⟩ := mem_isoPairs _ q hq
  have hnn := sumSiteDist_nonneg s mode q.1 q.2
  have hg := getD_CalcIsoDistArray s mode hdim q.1 q.2 hlt hn
  have hs := sameGenotype_lt s.GetNumRows (s.CalcIsoDistArray mode) q.1 q.2 hlt
  rw [hg] at hs
  by_cases hz : sumSiteDist s mode q.1 q.2 = 0
  · rw [hs.2 hz]
    simp [hz]
  · have hf : sameGenotype s.GetNumRows (s.CalcIsoDistArray mode) q.1 q.2 = false := by
      cases hb : sameGenotype s.GetNumRows (s.CalcIsoDistArray mode) q.1 q.2
      · rfl
      · exact absurd (hs.1 hb) hz
    rw [hf]
    have : 0 < sumSiteDist s mode q.1 q.2 := by omega
    simp [this]

theorem sum_map_filter_ne_zero (g : Int → ℚ) (hg : g 0 = 0) (l : List Int) :
    ((l.filter (fun f => f ≠ 0)).map g).sum = (l.map g).sum := by
  induction l with
  | nil => rfl
  | cons a l ih =>
    by_cases ha : a = 0
    · subst ha
      rw [List.filter_cons_of_neg (by simp), List.map_cons, List.sum_cons, hg, zero_add, ih]
    · rw [List.filter_cons_of_pos (by simpa using ha), List.map_cons, List.sum_cons,
        List.map_cons, List.sum_cons, ih]

/-- The squares of the proportions of the genotypes add up to the share of the ordered
pairs of isolates at distance 0. -/
theorem sum_sq_classFreqs (n : Nat) (d : List Int) (ht : distanceTransitive n d) :
    (((classFreqs n d).filter (fun f => f ≠ 0)).map
      (fun (f : Int) => ((f : ℚ) / (n : ℚ)) ^ 2)).sum =
      ((n + 2 * ∑ i ∈ Finset.range n, laterCount n d i n : Nat) : ℚ) / (n : ℚ) ^ 2 := by
  rw [sum_map_filter_ne_zero _ (by simp)]
  unfold classFreqs
  rw [List.map_map, sum_map_range_eq_finset, ← sum_classSize, ← sum_classSize_sq n d ht,
    Nat.cast_sum, Finset.sum_div]
  apply Finset.sum_congr rfl
  intro i _
  by_cases hf : isFirstOfClass n d i = true
  · simp only [Function.comp, hf, if_true]
    push_cast
    ring
  · simp only [Function.comp, hf]
    simp

theorem diversity_algebra (n C P Z : Nat) (hn : 2 ≤ n) (hC : 2 * C = n * (n - 1))
    (hP : P + Z = C) :
    (P : ℚ) / (C : ℚ) =
      (1 - ((n + 2 * Z : Nat) : ℚ) / (n : ℚ) ^ 2) * ((n : ℚ) / ((n : ℚ) - 1)) := by
  obtain ⟨m, rfl⟩ : ∃ m, n = m + 2 := ⟨n - 2, by omega⟩
  have hC2 : (2 : ℚ) * (C : ℚ) = ((m : ℚ) + 2) * ((m : ℚ) + 1) := by
    have h : m + 2 - 1 = m + 1 := by omega
    rw [h] at hC
    exact_mod_cast hC
  have hP2 : (P : ℚ) = (C : ℚ) - (Z : ℚ) := by
    have : (P : ℚ) + (Z : ℚ) = (C : ℚ) := by exact_mod_cast hP
    linarith
  have hm0 : (0 : ℚ) ≤ (m : ℚ) := Nat.cast_nonneg m
  have h1 : ((m : ℚ) + 2) ≠ 0 := by linarith
  have h2 : ((m : ℚ) + 2 - 1) ≠ 0 := by linarith
  have h3 : (C : ℚ) ≠ 0 := by
    intro h0
    rw [h0] at hC2
    nlinarith
  rw [hP2]
  push_cast
  field_simp
  linear_combination (Z : ℚ) * ((m : ℚ) + 2) * hC2

theorem CalcDivFromDist_eq (d : List Int) (hne : d.length ≠ 0) :
    CalcDivFromDist d =
      some ((((d.filter (fun x => 0 < x)).length : Nat) : ℚ) / ((d.length : Nat) : ℚ)) := by
  unfold CalcDivFromDist
  rw [if_neg hne, foldl_count_pos, Nat.zero_add]

theorem two_mul_numPairs (n : Nat) : 2 * (n * (n - 1) / 2) = n * (n - 1) := by
  rcases Nat.eq_zero_or_pos n with h0 | hpos
  · subst h0
    rfl
  · obtain ⟨m, rfl⟩ : ∃ m, n = m + 1 := ⟨n - 1, by omega⟩
    rw [Nat.add_sub_cancel, Nat.mul_comm (m + 1) m]
    exact two_mul_triangle m

/-- The diversity of `CalcDivFromDist` in the words of the comment of `CalcNumDiff`, for
an array of distances whose "distance 0" is transitive. -/
theorem CalcDivFromDist_eq_formula (s : MultiLocusModel)
    (hdim : s.mNumPairsIsolates = s.GetNumRows * (s.GetNumRows - 1) / 2)
    (hn : 2 ≤ s.GetNumRows)
    (ht : distanceTransitive s.GetNumRows (s.CalcIsoDistArray distance_t.kDistance_Relaxed)) :
    CalcDivFromDist (s.CalcIsoDistArray distance_t.kDistance_Relaxed) =
      some (diversityFormula s.GetNumRows
        (s.CountFreqsFromDist (s.CalcIsoDistArray distance_t.kDistance_Relaxed))) := by
  have hlen := length_CalcIsoDistArray s distance_t.kDistance_Relaxed hdim
  have h2 := two_mul_numPairs s.GetNumRows
  have hne : (s.CalcIsoDistArray distance_t.kDistance_Relaxed).length ≠ 0 := by
    rw [hlen]
    have h3 : 2 ≤ s.GetNumRows * (s.GetNumRows - 1) := by
      have : 1 ≤ s.GetNumRows - 1 := by omega
      calc 2 = 2 * 1 := rfl
        _ ≤ s.GetNumRows * (s.GetNumRows - 1) := Nat.mul_le_mul hn this
    omega
  have hP := count_pos_CalcIsoDistArray s distance_t.kDistance_Relaxed hdim
  rw [length_filter_isoPairs] at hP
  rw [CalcDivFromDist_eq _ hne, hlen]
  unfold MultiLocusModel.CountFreqsFromDist diversityFormula
  rw [CountFreqsFromDistN_eq _ _ ht, sum_sq_classFreqs _ _ ht]
  exact congrArg some (diversity_algebra _ _ _ _ hn h2 hP)

theorem filter_pos_eq_filter_ne_zero (d : List Int) (h : ∀ x ∈ d, 0 ≤ x) :
    d.filter (fun x => 0 < x) = d.filter (fun x => x ≠ 0) := by
  apply List.filter_congr
  intro x hx
  have := h x hx
  by_cases h0 : x = 0
  · subst h0
    simp
  · have hp : 0 < x := by omega
    simp [h0, hp]

/-- C10: for every matrix with n >= 2 isolates and no missing data, the diversity that
`CalcDivFromDist` computes from the array of `CalcIsoDistArray` is the number of the
pairs of isolates at a non-zero distance divided by the number of the pairs, and it
equals, as an exact rational, (1 - SUM_i p_i^2) * n/(n-1), where p_i = f_i/n and the f_i
are the non-zero frequencies that `CountFreqsFromDist` returns. -/
theorem C10_CalcDivFromDist_formula (s : MultiLocusModel) (hn : 2 ≤ s.GetNumRows)
    (hm : noMissingData s) :
    CalcDivFromDist (s.DetermineDimensions.CalcIsoDistArray distance_t.kDistance_Relaxed) =
      some (((((s.DetermineDimensions.CalcIsoDistArray distance_t.kDistance_Relaxed).filter
        (fun x => x ≠ 0)).length : Nat) : ℚ) /
        ((s.GetNumRows * (s.GetNumRows - 1) / 2 : Nat) : ℚ)) ∧
    CalcDivFromDist (s.DetermineDimensions.CalcIsoDistArray distance_t.kDistance_Relaxed) =
      some (diversityFormula s.GetNumRows
        (s.DetermineDimensions.CountFreqsFromDist
          (s.DetermineDimensions.CalcIsoDistArray distance_t.kDistance_Relaxed))) := by
  have hdim : s.DetermineDimensions.mNumPairsIsolates =
      s.DetermineDimensions.GetNumRows * (s.DetermineDimensions.GetNumRows - 1) / 2 := rfl
  have hrows : s.DetermineDimensions.GetNumRows = s.GetNumRows := rfl
  have hm2 : noMissingData s.DetermineDimensions := hm
  have ht := distanceTransitive_of_noMissing s.DetermineDimensions hdim hm2
  have hlen := length_CalcIsoDistArray s.DetermineDimensions distance_t.kDistance_Relaxed hdim
  rw [hrows] at hlen
  constructor
  · have hne : (s.DetermineDimensions.CalcIsoDistArray distance_t.kDistance_Relaxed).length
        ≠ 0 := by
      rw [hlen]
      have h3 : 2 ≤ s.GetNumRows * (s.GetNumRows - 1) := by
        have : 1 ≤ s.GetNumRows - 1 := by omega
        calc 2 = 2 * 1 := rfl
          _ ≤ s.GetNumRows * (s.GetNumRows - 1) := Nat.mul_le_mul hn this
      omega
    rw [CalcDivFromDist_eq _ hne, hlen, filter_pos_eq_filter_ne_zero _
      (fun x hx => mem_CalcIsoDistArray_nonneg s.DetermineDimensions _ hdim x hx)]
  · have h := CalcDivFromDist_eq_formula s.DetermineDimensions hdim (by rw [hrows]; exact hn) ht
    rw [hrows] at h
    exact h

theorem C10_CalcDivFromDist_formula_witness :
    2 ≤ twoGenotypesModel.GetNumRows ∧ noMissingData twoGenotypesModel ∧
    twoGenotypesModel.DetermineDimensions.CountFreqsFromDist
      (twoGenotypesModel.DetermineDimensions.CalcIsoDistArray distance_t.kDistance_Relaxed) =
      [3, 2, 0, 0, 0] ∧
    CalcDivFromDist
      (twoGenotypesModel.DetermineDimensions.CalcIsoDistArray distance_t.kDistance_Relaxed) =
      some (diversityFormula twoGenotypesModel.GetNumRows
        (twoGenotypesModel.DetermineDimensions.CountFreqsFromDist
          (twoGenotypesModel.DetermineDimensions.CalcIsoDistArray
            distance_t.kDistance_Relaxed))) :=
  ⟨by decide, by decide, by decide,
    (C10_CalcDivFromDist_formula twoGenotypesModel (by decide) (by decide)).2⟩

/-! ## Proportion of compatible pairs of loci (`CalcPorpCompat`) -/

/-! ### The lattice growing of `CalcPorpCompat` -/

theorem perm_getD_eraseIdx {α : Type} (d : α) :
    ∀ (l : List α) (k : Nat), k < l.length → (l.getD k d :: l.eraseIdx k).Perm l
  | [], k, h => absurd h (Nat.not_lt_zero k)
  | x :: l, 0, _ => by simp
  | x :: l, k + 1, h => by
    have ih := perm_getD_eraseIdx d l k (Nat.lt_of_succ_lt_succ h)
    have e : (x :: l).getD (k + 1) d = l.getD k d := by simp
    rw [e, List.eraseIdx_cons_succ]
    exact (List.Perm.swap x (l.getD k d) (l.eraseIdx k)).trans (List.Perm.cons x ih)

theorem getD_mem {α : Type} (d : α) (l : List α) (k : Nat) (h : k < l.length) :
    l.getD k d ∈ l :=
  (perm_getD_eraseIdx d l k h).subset (List.mem_cons_self _ _)

theorem scanGenotypes_incompat (theGraph : List (tAllele × tAllele)) :
    ∀ (gs : List (tAllele × tAllele)) (k : Nat),
      scanGenotypes theGraph gs k = ScanResult.incompat →
      ∃ g ∈ gs, isGtype1Unique theGraph g = false ∧ isGtype2Unique theGraph g = false
  | [], k, h => by simp [scanGenotypes] at h
  | g :: rest, k, h => by
    unfold scanGenotypes at h
    by_cases h1 : (isGtype1Unique theGraph g == false) && (isGtype2Unique theGraph g == false)
    · refine ⟨g, List.mem_cons_self _ _, ?_⟩
      simpa using h1
    · rw [if_neg h1] at h
      split_ifs at h
      obtain ⟨g', hg', hu⟩ := scanGenotypes_incompat theGraph rest (k + 1) h
      exact ⟨g', List.mem_cons_of_mem _ hg', hu⟩

theorem scanGenotypes_grow (theGraph : List (tAllele × tAllele)) :
    ∀ (gs : List (tAllele × tAllele)) (k0 k : Nat),
      scanGenotypes theGraph gs k0 = ScanResult.grow k →
      k0 ≤ k ∧ k - k0 < gs.length ∧
        (isGtype1Unique theGraph (gs.getD (k - k0) ("", "")) ≠
          isGtype2Unique theGraph (gs.getD (k - k0) ("", "")))
  | [], k0, k, h => by simp [scanGenotypes] at h
  | g :: rest, k0, k, h => by
    unfold scanGenotypes at h
    by_cases h1 : (isGtype1Unique theGraph g == false) && (isGtype2Unique theGraph g == false)
    · rw [if_pos h1] at h
      exact absurd h (by simp)
    · rw [if_neg h1] at h
      by_cases h2 : (isGtype1Unique theGraph g && !isGtype2Unique theGraph g) ||
          (!isGtype1Unique theGraph g && isGtype2Unique theGraph g)
      · rw [if_pos h2] at h
        injection h with hk
        subst hk
        refine ⟨Nat.le_refl _, by simp, ?_⟩
        rw [Nat.sub_self]
        show isGtype1Unique theGraph g ≠ isGtype2Unique theGraph g
        revert h2
        cases isGtype1Unique theGraph g <;> cases isGtype2Unique theGraph g <;> simp
      · rw [if_neg h2] at h
        obtain ⟨ha, hb, hc⟩ := scanGenotypes_grow theGraph rest (k0 + 1) k h
        have e : k - k0 = (k - (k0 + 1)) + 1 := by omega
        refine ⟨by omega, by simp only [List.length_cons]; omega, ?_⟩
        rw [e]
        simpa using hc

theorem scanGenotypes_finished (theGraph : List (tAllele × tAllele)) :
    ∀ (gs : List (tAllele × tAllele)) (k : Nat),
      scanGenotypes theGraph gs k = ScanResult.finished →
      ∀ g ∈ gs, isGtype1Unique theGraph g = true ∧ isGtype2Unique theGraph g = true
  | [], k, _ => by simp
  | g :: rest, k, h => by
    unfold scanGenotypes at h
    by_cases h1 : (isGtype1Unique theGraph g == false) && (isGtype2Unique theGraph g == false)
    · rw [if_pos h1] at h
      exact absurd h (by decide)
    · rw [if_neg h1] at h
      by_cases h2 : (isGtype1Unique theGraph g && !isGtype2Unique theGraph g) ||
          (!isGtype1Unique theGraph g && isGtype2Unique theGraph g)
      · rw [if_pos h2] at h
        exact absurd h (by simp)
      · rw [if_neg h2] at h
        have ih := scanGenotypes_finished theGraph rest (k + 1) h
        intro g' hg'
        rcases List.mem_cons.1 hg' with rfl | hm
        · revert h1 h2
          cases isGtype1Unique theGraph g' <;> cases isGtype2Unique theGraph g' <;> simp
        · exact ih g' hm

/-- The genotypes left over by `growGraph` are among the genotypes it was given, in
their order. -/
theorem growGraph_sublist :
    ∀ (fuel : Nat) (theGraph gs : List (tAllele × tAllele)),
      (growGraph fuel theGraph gs).2.Sublist gs
  | 0, _, gs => List.Sublist.refl gs
  | fuel + 1, theGraph, gs => by
    unfold growGraph
    split
    · exact List.Sublist.refl gs
    · exact (growGraph_sublist fuel _ _).trans (List.eraseIdx_sublist gs _)
    · exact List.Sublist.refl gs

theorem not_unique_iff (theGraph : List (tAllele × tAllele)) (g : tAllele × tAllele) :
    (isGtype1Unique theGraph g = false ↔ ∃ m ∈ theGraph, Distance g.1 m.1 = 0) ∧
    (isGtype2Unique theGraph g = false ↔ ∃ m ∈ theGraph, Distance g.2 m.2 = 0) := by
  unfold isGtype1Unique isGtype2Unique
  constructor <;> simp

theorem growGraph_incompat (L : List (tAllele × tAllele)) :
    ∀ (fuel : Nat) (theGraph gs : List (tAllele × tAllele)),
      (∀ x ∈ theGraph ++ gs, x ∈ L) → (theGraph ++ gs).Nodup →
      (growGraph fuel theGraph gs).1 = true → Clash L
  | 0, _, _, _, _, h => by simp [growGraph] at h
  | fuel + 1, theGraph, gs, hsub, hnd, h => by
    unfold growGraph at h
    split at h
    · rename_i hscan
      obtain ⟨g, hg, hu1, hu2⟩ := scanGenotypes_incompat theGraph gs 0 hscan
      obtain ⟨m1, hm1, hd1⟩ := (not_unique_iff theGraph g).1.1 hu1
      obtain ⟨m2, hm2, hd2⟩ := (not_unique_iff theGraph g).2.1 hu2
      have hdis := (List.nodup_append.1 hnd).2.2
      refine ⟨g, hsub g (List.mem_append_right _ hg), m1,
        hsub m1 (List.mem_append_left _ hm1), m2, hsub m2 (List.mem_append_left _ hm2),
        ?_, ?_, hd1, hd2⟩
      · rintro rfl
        exact hdis hm1 hg
      · rintro rfl
        exact hdis hm2 hg
    · rename_i k hscan
      obtain ⟨_, hk, _⟩ := scanGenotypes_grow theGraph gs 0 k hscan
      rw [Nat.sub_zero] at hk
      have hp := perm_getD_eraseIdx ("", "") gs k hk
      have hp2 : ((theGraph ++ [gs.getD k ("", "")]) ++ gs.eraseIdx k).Perm (theGraph ++ gs) := by
        rw [List.append_assoc]
        exact List.Perm.append_left theGraph hp
      exact growGraph_incompat L fuel _ _
        (fun x hx => hsub x (hp2.subset hx)) (hp2.nodup_iff.2 hnd) h
    · exact absurd h (by simp)

theorem Clash_mono (l L : List (tAllele × tAllele)) (h : ∀ x ∈ l, x ∈ L) (hc : Clash l) :
    Clash L := by
  obtain ⟨g, hg, m1, hm1, m2, hm2, r⟩ := hc
  exact ⟨g, h g hg, m1, h m1 hm1, m2, h m2 hm2, r⟩

/-- When the lattice growing flags a list of different genotypes, one of them is
unique on neither axis among the others. -/
theorem latticeLoop_sound :
    ∀ (fuel : Nat) (gs : List (tAllele × tAllele)), gs.Nodup →
      latticeLoop fuel gs = true → Clash gs
  | 0, _, _, h => by simp [latticeLoop] at h
  | fuel + 1, gs, hnd, h => by
    unfold latticeLoop at h
    split at h
    · exact absurd h (by simp)
    · rename_i seed hlast
      have hgs : gs.dropLast ++ [seed] = gs := List.dropLast_append_getLast? seed hlast
      have hp : ([seed] ++ gs.dropLast).Perm gs := by
        have hp0 : ([seed] ++ gs.dropLast).Perm (gs.dropLast ++ [seed]) :=
          List.perm_append_comm
        rw [hgs] at hp0
        exact hp0
      by_cases hg : (growGraph gs.dropLast.length [seed] gs.dropLast).1 = true
      · exact growGraph_incompat gs _ _ _ (fun x hx => hp.subset hx) (hp.nodup_iff.2 hnd) hg
      · rw [if_neg hg] at h
        have hsl := growGraph_sublist gs.dropLast.length [seed] gs.dropLast
        have hsl2 : (growGraph gs.dropLast.length [seed] gs.dropLast).2.Sublist gs :=
          hsl.trans (List.dropLast_sublist gs)
        exact Clash_mono _ gs (fun x hx => hsl2.subset hx)
          (latticeLoop_sound fuel _ (hnd.sublist hsl2) h)

theorem mem_insertGenotype (gs : List (tAllele × tAllele)) (p x : tAllele × tAllele) :
    x ∈ insertGenotype gs p ↔ x ∈ gs ∨ x = p := by
  unfold insertGenotype
  by_cases h : gs.any (fun g => (p.1 == g.1) && (p.2 == g.2)) = true
  · rw [if_pos h]
    constructor
    · exact Or.inl
    · rintro (hx | rfl)
      · exact hx
      · rw [List.any_eq_true] at h
        obtain ⟨g, hg, he⟩ := h
        simp only [Bool.and_eq_true, beq_iff_eq] at he
        have : x = g := Prod.ext he.1 he.2
        rw [this]
        exact hg
  · rw [if_neg h]
    simp

theorem nodup_insertGenotype (gs : List (tAllele × tAllele)) (p : tAllele × tAllele)
    (hnd : gs.Nodup) : (insertGenotype gs p).Nodup := by
  unfold insertGenotype
  by_cases h : gs.any (fun g => (p.1 == g.1) && (p.2 == g.2)) = true
  · rw [if_pos h]
    exact hnd
  · rw [if_neg h]
    rw [List.nodup_append]
    refine ⟨hnd, List.nodup_singleton p, ?_⟩
    intro x hx hp
    rw [List.mem_singleton] at hp
    subst hp
    apply h
    rw [List.any_eq_true]
    exact ⟨x, hx, by simp⟩

theorem foldl_insertGenotype (l : List (tAllele × tAllele)) :
    ∀ gs : List (tAllele × tAllele), gs.Nodup →
      (l.foldl insertGenotype gs).Nodup ∧
        ∀ x, x ∈ l.foldl insertGenotype gs ↔ x ∈ gs ∨ x ∈ l := by
  induction l with
  | nil => intro gs hnd; simp [hnd]
  | cons p l ih =>
    intro gs hnd
    obtain ⟨h1, h2⟩ := ih (insertGenotype gs p) (nodup_insertGenotype gs p hnd)
    refine ⟨h1, fun x => ?_⟩
    rw [List.foldl_cons, h2, mem_insertGenotype, List.mem_cons]
    tauto

theorem foldl_pairGenotypes (s : MultiLocusModel) (i j : Nat) (ks : List Nat) :
    ∀ gs : List (tAllele × tAllele), gs.Nodup →
      (ks.foldl (fun theGenotypes k =>
        (s.newGenotypes i j k).reverse.foldl insertGenotype theGenotypes) gs).Nodup ∧
      ∀ x, x ∈ ks.foldl (fun theGenotypes k =>
        (s.newGenotypes i j k).reverse.foldl insertGenotype theGenotypes) gs ↔
          x ∈ gs ∨ ∃ k ∈ ks, x ∈ s.newGenotypes i j k := by
  induction ks with
  | nil => intro gs hnd; simp [hnd]
  | cons k ks ih =>
    intro gs hnd
    obtain ⟨h1, h2⟩ := foldl_insertGenotype (s.newGenotypes i j k).reverse gs hnd
    obtain ⟨h3, h4⟩ := ih _ h1
    refine ⟨h3, fun x => ?_⟩
    rw [List.foldl_cons, h4, h2, List.mem_reverse]
    constructor
    · rintro ((hx | hx) | ⟨k', hk', hx⟩)
      · exact Or.inl hx
      · exact Or.inr ⟨k, List.mem_cons_self _ _, hx⟩
      · exact Or.inr ⟨k', List.mem_cons_of_mem _ hk', hx⟩
    · rintro (hx | ⟨k', hk', hx⟩)
      · exact Or.inl (Or.inl hx)
      · rcases List.mem_cons.1 hk' with rfl | hk2
        · exact Or.inl (Or.inr hx)
        · exact Or.inr ⟨k', hk2, hx⟩

/-- The list of genotypes of a pair of sites holds every genotype once. -/
theorem nodup_pairGenotypes (s : MultiLocusModel) (i j : Nat) : (s.pairGenotypes i j).Nodup :=
  (foldl_pairGenotypes s i j _ [] List.nodup_nil).1

theorem mem_pairGenotypes (s : MultiLocusModel) (i j : Nat) (x : tAllele × tAllele) :
    x ∈ s.pairGenotypes i j ↔ ∃ k, k < s.GetNumRows ∧ x ∈ s.newGenotypes i j k := by
  unfold MultiLocusModel.pairGenotypes
  rw [(foldl_pairGenotypes s i j _ [] List.nodup_nil).2]
  simp

theorem not_missing_newGenotypes (s : MultiLocusModel) (i j k : Nat) (x : tAllele × tAllele)
    (hx : x ∈ s.newGenotypes i j k) : IsMissing x.1 = false ∧ IsMissing x.2 = false := by
  unfold MultiLocusModel.newGenotypes at hx
  by_cases hm : (!(s.IsMissingAt k i || s.IsMissingAt k j)) = true
  · rw [if_pos hm] at hx
    simp only [Bool.not_eq_true', Bool.or_eq_false_iff] at hm
    obtain ⟨hi, hj⟩ := hm
    unfold MultiLocusModel.IsMissingAt at hi hj
    by_cases hp : s.GetPloidy = ploidy_t.kPloidy_Haploid
    · rw [if_pos hp] at hx hi hj
      rw [List.mem_singleton] at hx
      subst hx
      constructor
      · by_contra hc
        simp [hc] at hi
      · by_contra hc
        simp [hc] at hj
    · rw [if_neg hp] at hx hi hj
      have hiA : IsMissing (cellAt s.mDiploData k i).alleleA = false := by
        by_contra hc; simp [hc] at hi
      have hiB : IsMissing (cellAt s.mDiploData k i).alleleB = false := by
        by_contra hc; simp [hc] at hi
      have hjA : IsMissing (cellAt s.mDiploData k j).alleleA = false := by
        by_contra hc; simp [hc] at hj
      have hjB : IsMissing (cellAt s.mDiploData k j).alleleB = false := by
        by_contra hc; simp [hc] at hj
      split_ifs at hx
      · simp only [List.mem_cons, List.mem_singleton, List.not_mem_nil, or_false] at hx
        rcases hx with rfl | rfl
        · exact ⟨hiA, hjA⟩
        · exact ⟨hiA, hjB⟩
      · simp only [List.mem_cons, List.mem_singleton, List.not_mem_nil, or_false] at hx
        rcases hx with rfl | rfl
        · exact ⟨hiA, hjA⟩
        · exact ⟨hiB, hjA⟩
      · simp at hx
  · rw [if_neg hm] at hx
    simp at hx

theorem Distance_eq_zero_iff (x y : tAllele) (hx : IsMissing x = false)
    (hy : IsMissing y = false) : Distance x y = 0 ↔ x = y := by
  unfold Distance
  rw [hx, hy]
  by_cases h : x = y
  · simp [h]
  · simp [h]

theorem C12_counterexample :
    diagonalModel.pairGenotypes 0 1 = [("0", "0"), ("1", "1")] ∧
    growGraph 1 [("1", "1")] [("0", "0")] = (false, [("0", "0")]) ∧
    growGraph 1 [("0", "0")] [("1", "1")] = (false, [("1", "1")]) ∧
    diagonalModel.sitePairIncompat 0 1 = false ∧
    diagonalModel.DetermineDimensions.CalcPorpCompat = some 1 := by
  refine ⟨by decide, by decide, by decide, by decide, ?_⟩
  have h1 : diagonalModel.DetermineDimensions.mNumPairsSites = 1 := by decide
  have h2 : diagonalModel.DetermineDimensions.numIncompat = 0 := by decide
  unfold MultiLocusModel.CalcPorpCompat
  rw [h1, h2]
  norm_num

/-! ### Two loci with two alleles each -/

theorem Distance_rename (a b : tAllele) (ha : IsMissing a = false) (hb : IsMissing b = false)
    (hab : a ≠ b) (x y : tAllele) (hx : x = a ∨ x = b) (hy : y = a ∨ y = b) :
    Distance (if x = a then "0" else "1") (if y = a then "0" else "1") = Distance x y := by
  have hba : b ≠ a := fun h => hab h.symm
  have e00 : Distance "0" "0" = 0 := by decide
  have e01 : Distance "0" "1" = 1 := by decide
  have e10 : Distance "1" "0" = 1 := by decide
  have e11 : Distance "1" "1" = 0 := by decide
  have daa : Distance a a = 0 := (Distance_eq_zero_iff a a ha ha).2 rfl
  have dbb : Distance b b = 0 := (Distance_eq_zero_iff b b hb hb).2 rfl
  have dab : Distance a b = 1 := by
    unfold Distance; rw [ha, hb]; simp [hab]
  have dba : Distance b a = 1 := by
    unfold Distance; rw [ha, hb]; simp [hba]
  rcases hx with rfl | rfl <;> rcases hy with rfl | rfl
  · rw [if_pos rfl, e00, daa]
  · rw [if_pos rfl, if_neg hba, e01, dab]
  · rw [if_pos rfl, if_neg hba, e10, dba]
  · rw [if_neg hba, e11, dbb]

theorem isGtypeUnique_rename (a b c d : tAllele)
    (ha : IsMissing a = false) (hb : IsMissing b = false)
    (hc : IsMissing c = false) (hd : IsMissing d = false) (hab : a ≠ b) (hcd : c ≠ d)
    (g : tAllele × tAllele) (hg : InAlphabet a b c d g) :
    ∀ theGraph : List (tAllele × tAllele), (∀ m ∈ theGraph, InAlphabet a b c d m) →
      isGtype1Unique (theGraph.map (renameGenotype a c)) (renameGenotype a c g) =
          isGtype1Unique theGraph g ∧
        isGtype2Unique (theGraph.map (renameGenotype a c)) (renameGenotype a c g) =
          isGtype2Unique theGraph g := by
  intro theGraph
  induction theGraph with
  | nil => intro _; exact ⟨rfl, rfl⟩
  | cons m rest ih =>
    intro hm
    obtain ⟨ih1, ih2⟩ := ih (fun x hx => hm x (List.mem_cons_of_mem _ hx))
    have hmm := hm m (List.mem_cons_self _ _)
    have d1 := Distance_rename a b ha hb hab g.1 m.1 hg.1 hmm.1
    have d2 := Distance_rename c d hc hd hcd g.2 m.2 hg.2 hmm.2
    unfold isGtype1Unique at ih1
    unfold isGtype2Unique at ih2
    unfold isGtype1Unique isGtype2Unique
    simp only [List.map_cons, List.any_cons, Bool.not_or] at ih1 ih2 ⊢
    constructor
    · rw [ih1]
      show (!(Distance (if g.1 = a then "0" else "1") (if m.1 = a then "0" else "1") == 0) && _) = _
      rw [d1]
    · rw [ih2]
      show (!(Distance (if g.2 = c then "0" else "1") (if m.2 = c then "0" else "1") == 0) && _) = _
      rw [d2]

theorem scanGenotypes_rename (a b c d : tAllele)
    (ha : IsMissing a = false) (hb : IsMissing b = false)
    (hc : IsMissing c = false) (hd : IsMissing d = false) (hab : a ≠ b) (hcd : c ≠ d)
    (theGraph : List (tAllele × tAllele)) (hgr : ∀ m ∈ theGraph, InAlphabet a b c d m) :
    ∀ (gs : List (tAllele × tAllele)) (k : Nat), (∀ g ∈ gs, InAlphabet a b c d g) →
      scanGenotypes (theGraph.map (renameGenotype a c)) (gs.map (renameGenotype a c)) k =
        scanGenotypes theGraph gs k
  | [], _, _ => rfl
  | g :: rest, k, hgs => by
    obtain ⟨e1, e2⟩ := isGtypeUnique_rename a b c d ha hb hc hd hab hcd g
      (hgs g (List.mem_cons_self _ _)) theGraph hgr
    have ih := scanGenotypes_rename a b c d ha hb hc hd hab hcd theGraph hgr rest (k + 1)
      (fun x hx => hgs x (List.mem_cons_of_mem _ hx))
    rw [List.map_cons]
    unfold scanGenotypes
    rw [e1, e2, ih]

theorem map_eraseIdx_eq {α β : Type} (f : α → β) :
    ∀ (l : List α) (k : Nat), (l.map f).eraseIdx k = (l.eraseIdx k).map f
  | [], _ => rfl
  | _ :: _, 0 => rfl
  | x :: l, k + 1 => by
    rw [List.map_cons, List.eraseIdx_cons_succ, List.eraseIdx_cons_succ, List.map_cons,
      map_eraseIdx_eq f l k]

theorem getD_map_of_lt {α β : Type} (f : α → β) (d : α) (d2 : β) (l : List α) (k : Nat)
    (h : k < l.length) : (l.map f).getD k d2 = f (l.getD k d) := by
  simp [List.getD_eq_getElem?_getD, List.getElem?_map, List.getElem?_eq_getElem h]

theorem growGraph_rename (a b c d : tAllele)
    (ha : IsMissing a = false) (hb : IsMissing b = false)
    (hc : IsMissing c = false) (hd : IsMissing d = false) (hab : a ≠ b) (hcd : c ≠ d) :
    ∀ (fuel : Nat) (theGraph gs : List (tAllele × tAllele)),
      (∀ m ∈ theGraph, InAlphabet a b c d m) → (∀ g ∈ gs, InAlphabet a b c d g) →
      growGraph fuel (theGraph.map (renameGenotype a c)) (gs.map (renameGenotype a c)) =
        ((growGraph fuel theGraph gs).1,
          (growGraph fuel theGraph gs).2.map (renameGenotype a c))
  | 0, _, _, _, _ => rfl
  | fuel + 1, theGraph, gs, hgr, hgs => by
    have hs := scanGenotypes_rename a b c d ha hb hc hd hab hcd theGraph hgr gs 0 hgs
    unfold growGraph
    rw [hs]
    cases hscan : scanGenotypes theGraph gs 0 with
    | incompat => rfl
    | finished => rfl
    | grow k =>
      obtain ⟨_, hk, _⟩ := scanGenotypes_grow theGraph gs 0 k hscan
      rw [Nat.sub_zero] at hk
      have ih := growGraph_rename a b c d ha hb hc hd hab hcd fuel
        (theGraph ++ [gs.getD k ("", "")]) (gs.eraseIdx k)
        (by
          intro m hm
          rcases List.mem_append.1 hm with h1 | h1
          · exact hgr m h1
          · rw [List.mem_singleton] at h1
            rw [h1]
            exact hgs _ (getD_mem _ gs k hk))
        (fun g hg => hgs g (List.mem_of_mem_eraseIdx hg))
      simp only
      rw [← ih, List.map_append, List.map_singleton, map_eraseIdx_eq,
        getD_map_of_lt (renameGenotype a c) ("", "") ("", "") gs k hk]

theorem latticeLoop_rename (a b c d : tAllele)
    (ha : IsMissing a = false) (hb : IsMissing b = false)
    (hc : IsMissing c = false) (hd : IsMissing d = false) (hab : a ≠ b) (hcd : c ≠ d) :
    ∀ (fuel : Nat) (gs : List (tAllele × tAllele)), (∀ g ∈ gs, InAlphabet a b c d g) →
      latticeLoop fuel (gs.map (renameGenotype a c)) = latticeLoop fuel gs
  | 0, _, _ => rfl
  | fuel + 1, gs, hgs => by
    unfold latticeLoop
    rw [List.getLast?_map]
    cases hlast : gs.getLast? with
    | none => rfl
    | some seed =>
      have hmem : gs.dropLast ++ [seed] = gs := List.dropLast_append_getLast? seed hlast
      have hseed : InAlphabet a b c d seed := hgs seed (by rw [← hmem]; simp)
      have hdl : ∀ g ∈ gs.dropLast, InAlphabet a b c d g :=
        fun g hg => hgs g ((List.dropLast_sublist gs).subset hg)
      have hg := growGraph_rename a b c d ha hb hc hd hab hcd gs.dropLast.length [seed]
        gs.dropLast (by intro m hm; rw [List.mem_singleton] at hm; rw [hm]; exact hseed) hdl
      have hrest : ∀ g ∈ (growGraph gs.dropLast.length [seed] gs.dropLast).2,
          InAlphabet a b c d g :=
        fun g hg2 => hdl g ((growGraph_sublist _ _ _).subset hg2)
      have ih := latticeLoop_rename a b c d ha hb hc hd hab hcd fuel _ hrest
      simp only [Option.map_some']
      rw [← List.map_dropLast, List.length_map]
      rw [List.map_singleton] at hg
      rw [hg]
      simp only
      rw [ih]

/-- On every list of different genotypes over the alleles "0" and "1" the lattice growing
flags the pair of loci exactly when all four genotypes are in the list. -/
theorem latticeLoop_binary (l : List (tAllele × tAllele))
    (hmem : ∀ p ∈ l, p ∈ binaryGenotypes) (hnd : l.Nodup) :
    latticeLoop l.length l = true ↔ l.length = 4 := by
  have hlen : l.length ≤ 4 := (List.subperm_of_subset hnd hmem).length_le
  have hm : ∀ p ∈ l, p = ("0", "0") ∨ p = ("0", "1") ∨ p = ("1", "0") ∨ p = ("1", "1") := by
    intro p hp
    have := hmem p hp
    simpa [binaryGenotypes] using this
  rcases l with _ | ⟨p1, _ | ⟨p2, _ | ⟨p3, _ | ⟨p4, _ | ⟨p5, l⟩⟩⟩⟩⟩
  · decide
  · have h1 := hm p1 (by simp)
    rcases h1 with rfl | rfl | rfl | rfl <;> decide
  · have h1 := hm p1 (by simp)
    have h2 := hm p2 (by simp)
    revert hnd
    rcases h1 with rfl | rfl | rfl | rfl <;> rcases h2 with rfl | rfl | rfl | rfl <;> decide
  · have h1 := hm p1 (by simp)
    have h2 := hm p2 (by simp)
    have h3 := hm p3 (by simp)
    revert hnd
    rcases h1 with rfl | rfl | rfl | rfl <;> rcases h2 with rfl | rfl | rfl | rfl <;>
      rcases h3 with rfl | rfl | rfl | rfl <;> decide
  · have h1 := hm p1 (by simp)
    have h2 := hm p2 (by simp)
    have h3 := hm p3 (by simp)
    have h4 := hm p4 (by simp)
    revert hnd
    rcases h1 with rfl | rfl | rfl | rfl <;> rcases h2 with rfl | rfl | rfl | rfl <;>
      rcases h3 with rfl | rfl | rfl | rfl <;> rcases h4 with rfl | rfl | rfl | rfl <;>
      decide
  · simp only [List.length_cons] at hlen
    omega

theorem mem_completeIsolates (s : MultiLocusModel) (i j k : Nat) :
    k ∈ s.completeIsolates i j ↔
      k < s.GetNumRows ∧ s.IsMissingAt k i = false ∧ s.IsMissingAt k j = false := by
  unfold MultiLocusModel.completeIsolates
  rw [List.mem_filter, List.mem_range]
  simp

theorem mem_pairGenotypes_haploid (s : MultiLocusModel) (i j : Nat)
    (hp : s.GetPloidy = ploidy_t.kPloidy_Haploid) (x : tAllele × tAllele) :
    x ∈ s.pairGenotypes i j ↔
      ∃ k ∈ s.completeIsolates i j, x = (cellAt s.mHaploData k i, cellAt s.mHaploData k j) := by
  rw [mem_pairGenotypes]
  constructor
  · rintro ⟨k, hk, hx⟩
    unfold MultiLocusModel.newGenotypes at hx
    by_cases hm : (!(s.IsMissingAt k i || s.IsMissingAt k j)) = true
    · rw [if_pos hm, if_pos hp, List.mem_singleton] at hx
      refine ⟨k, ?_, hx⟩
      rw [mem_completeIsolates]
      simp only [Bool.not_eq_true', Bool.or_eq_false_iff] at hm
      exact ⟨hk, hm.1, hm.2⟩
    · rw [if_neg hm] at hx
      simp at hx
  · rintro ⟨k, hk, hx⟩
    rw [mem_completeIsolates] at hk
    refine ⟨k, hk.1, ?_⟩
    unfold MultiLocusModel.newGenotypes
    rw [if_pos (by simp [hk.2.1, hk.2.2]), if_pos hp, List.mem_singleton]
    exact hx

/-- On haploid data the list of genotypes that `CalcPorpCompat` builds for a pair of
loci holds the observed combinations, each once. -/
theorem pairGenotypes_perm_shown (s : MultiLocusModel) (i j : Nat)
    (hp : s.GetPloidy = ploidy_t.kPloidy_Haploid) :
    (s.pairGenotypes i j).Perm (s.shownGenotypes i j) := by
  have hnd2 : (s.shownGenotypes i j).Nodup := by
    unfold MultiLocusModel.shownGenotypes
    exact List.nodup_dedup _
  rw [List.perm_ext_iff_of_nodup (nodup_pairGenotypes s i j) hnd2]
  intro x
  rw [mem_pairGenotypes_haploid s i j hp]
  unfold MultiLocusModel.shownGenotypes
  rw [List.mem_dedup, List.mem_map]
  constructor
  · rintro ⟨k, hk, rfl⟩
    exact ⟨k, hk, rfl⟩
  · rintro ⟨k, hk, rfl⟩
    exact ⟨k, hk, rfl⟩

theorem shownAlleles_two (s : MultiLocusModel) (i j c : Nat)
    (hp : s.GetPloidy = ploidy_t.kPloidy_Haploid) (hc : c = i ∨ c = j)
    (h2 : (s.shownAlleles i j c).length = 2) :
    ∃ a b, a ≠ b ∧ IsMissing a = false ∧ IsMissing b = false ∧
      ∀ k ∈ s.completeIsolates i j,
        cellAt s.mHaploData k c = a ∨ cellAt s.mHaploData k c = b := by
  have hnd : (s.shownAlleles i j c).Nodup := List.nodup_dedup _
  have hmem : ∀ x, x ∈ s.shownAlleles i j c ↔
      ∃ k ∈ s.completeIsolates i j, cellAt s.mHaploData k c = x := by
    intro x
    unfold MultiLocusModel.shownAlleles
    rw [List.mem_dedup, List.mem_map]
  have hnm : ∀ x ∈ s.shownAlleles i j c, IsMissing x = false := by
    intro x hx
    obtain ⟨k, hk, rfl⟩ := (hmem x).1 hx
    rw [mem_completeIsolates] at hk
    obtain ⟨_, hi, hj⟩ := hk
    unfold MultiLocusModel.IsMissingAt at hi hj
    rw [if_pos hp] at hi hj
    rcases hc with rfl | rfl
    · by_contra hcon
      simp [hcon] at hi
    · by_contra hcon
      simp [hcon] at hj
  generalize s.shownAlleles i j c = l at h2 hnd hmem hnm
  rcases l with _ | ⟨a, _ | ⟨b, _ | ⟨e, l⟩⟩⟩
  · simp at h2
  · simp at h2
  · refine ⟨a, b, ?_, hnm a (by simp), hnm b (by simp), ?_⟩
    · intro hab
      subst hab
      simp at hnd
    · intro k hk
      have : cellAt s.mHaploData k c ∈ [a, b] := (hmem _).2 ⟨k, hk, rfl⟩
      simpa using this
  · simp at h2

theorem renameGenotype_mem (a c : tAllele) (p : tAllele × tAllele) :
    renameGenotype a c p ∈ binaryGenotypes := by
  unfold renameGenotype binaryGenotypes
  by_cases h1 : p.1 = a <;> by_cases h2 : p.2 = c <;> simp [h1, h2]

theorem renameGenotype_inj (a b c d : tAllele) (hab : a ≠ b) (hcd : c ≠ d)
    (x y : tAllele × tAllele) (hx : InAlphabet a b c d x) (hy : InAlphabet a b c d y)
    (h : renameGenotype a c x = renameGenotype a c y) : x = y := by
  have hba : b ≠ a := fun e => hab e.symm
  have hdc : d ≠ c := fun e => hcd e.symm
  have h01 : ("0" : String) ≠ "1" := by decide
  have h10 : ("1" : String) ≠ "0" := by decide
  unfold renameGenotype at h
  have e1 := congrArg Prod.fst h
  have e2 := congrArg Prod.snd h
  simp only at e1 e2
  obtain ⟨x1, x2⟩ := x
  obtain ⟨y1, y2⟩ := y
  obtain ⟨hx1, hx2⟩ := hx
  obtain ⟨hy1, hy2⟩ := hy
  simp only at hx1 hx2 hy1 hy2 e1 e2
  have f1 : x1 = y1 := by
    rcases hx1 with rfl | rfl <;> rcases hy1 with rfl | rfl
    · rfl
    · rw [if_pos rfl, if_neg hba] at e1
      exact absurd e1 h01
    · rw [if_pos rfl, if_neg hba] at e1
      exact absurd e1 h10
    · rfl
  have f2 : x2 = y2 := by
    rcases hx2 with rfl | rfl <;> rcases hy2 with rfl | rfl
    · rfl
    · rw [if_pos rfl, if_neg hdc] at e2
      exact absurd e2 h01
    · rw [if_pos rfl, if_neg hdc] at e2
      exact absurd e2 h10
    · rfl
  rw [f1, f2]

/-- For two loci of a haploid matrix that show two alleles each, the lattice growing
flags the pair exactly when its list of genotypes holds four genotypes. -/
theorem sitePairIncompat_two_alleles (s : MultiLocusModel) (i j : Nat)
    (hp : s.GetPloidy = ploidy_t.kPloidy_Haploid)
    (h1 : (s.shownAlleles i j i).length = 2) (h2 : (s.shownAlleles i j j).length = 2) :
    (s.sitePairIncompat i j = true ↔ (s.pairGenotypes i j).length = 4) ∧
      (s.pairGenotypes i j).length ≤ 4 := by
  obtain ⟨a, b, hab, ha, hb, hA⟩ := shownAlleles_two s i j i hp (Or.inl rfl) h1
  obtain ⟨c, d, hcd, hc, hd, hC⟩ := shownAlleles_two s i j j hp (Or.inr rfl) h2
  have halpha : ∀ g ∈ s.pairGenotypes i j, InAlphabet a b c d g := by
    intro g hg
    obtain ⟨k, hk, rfl⟩ := (mem_pairGenotypes_haploid s i j hp g).1 hg
    exact ⟨hA k hk, hC k hk⟩
  have hnd : ((s.pairGenotypes i j).map (renameGenotype a c)).Nodup :=
    List.Nodup.map_on
      (fun x hx y hy h => renameGenotype_inj a b c d hab hcd x y (halpha x hx) (halpha y hy) h)
      (nodup_pairGenotypes s i j)
  have hsub : ∀ p ∈ (s.pairGenotypes i j).map (renameGenotype a c), p ∈ binaryGenotypes := by
    intro p hp2
    obtain ⟨q, _, rfl⟩ := List.mem_map.1 hp2
    exact renameGenotype_mem a c q
  have hbin := latticeLoop_binary ((s.pairGenotypes i j).map (renameGenotype a c)) hsub hnd
  have hle := (List.subperm_of_subset hnd hsub).length_le
  rw [List.length_map] at hle
  rw [List.length_map, latticeLoop_rename a b c d ha hb hc hd hab hcd _ _ halpha] at hbin
  exact ⟨hbin, hle⟩

/-- C11: for a haploid matrix and two loci that each show exactly two alleles among
the isolates with no missing data at either locus, `CalcPorpCompat` counts the pair as
incompatible iff all four two-locus combinations are observed among those isolates (it
is compatible iff at most 3 of the 4 possible genotypes occur), and the result is
(number of locus pairs - number of incompatible pairs) / (number of locus pairs). -/
theorem C11_CalcPorpCompat_two_alleles (s : MultiLocusModel) (i j : Nat)
    (hp : s.GetPloidy = ploidy_t.kPloidy_Haploid) (hij : i < j) (hj : j < s.GetNumCols)
    (h1 : (s.shownAlleles i j i).length = 2) (h2 : (s.shownAlleles i j j).length = 2) :
    (s.DetermineDimensions.sitePairIncompat i j = true ↔ (s.shownGenotypes i j).length = 4) ∧
    (s.DetermineDimensions.sitePairIncompat i j = false ↔
      (s.shownGenotypes i j).length ≤ 3) ∧
    s.DetermineDimensions.CalcPorpCompat =
      some (((((s.GetNumCols * (s.GetNumCols - 1) / 2 : Nat) : Int) -
          ((((isoPairs s.GetNumCols).filter
            (fun q => s.DetermineDimensions.sitePairIncompat q.1 q.2)).length : Nat) : Int) :
          Int) : ℚ) /
        ((s.GetNumCols * (s.GetNumCols - 1) / 2 : Nat) : ℚ)) := by
  have hlen := (pairGenotypes_perm_shown s i j hp).length_eq
  obtain ⟨hiff, hle⟩ := sitePairIncompat_two_alleles s i j hp h1 h2
  rw [hlen] at hiff hle
  have hdd : s.DetermineDimensions.sitePairIncompat i j = s.sitePairIncompat i j := rfl
  refine ⟨by rw [hdd]; exact hiff, ?_, ?_⟩
  · rw [hdd]
    constructor
    · intro hf
      have : (s.shownGenotypes i j).length ≠ 4 := by
        intro h4
        rw [hiff.2 h4] at hf
        exact absurd hf (by decide)
      omega
    · intro h3
      cases hb : s.sitePairIncompat i j
      · rfl
      · have := hiff.1 hb
        omega
  · have hpairs : s.DetermineDimensions.mNumPairsSites =
        s.GetNumCols * (s.GetNumCols - 1) / 2 := rfl
    have hne : s.GetNumCols * (s.GetNumCols - 1) / 2 ≠ 0 := by
      have h2le : 2 ≤ s.GetNumCols := by omega
      have h3 : 2 ≤ s.GetNumCols * (s.GetNumCols - 1) := by
        have : 1 ≤ s.GetNumCols - 1 := by omega
        calc 2 = 2 * 1 := rfl
          _ ≤ s.GetNumCols * (s.GetNumCols - 1) := Nat.mul_le_mul h2le this
      omega
    unfold MultiLocusModel.CalcPorpCompat
    rw [hpairs, if_neg hne]
    rfl

theorem C11_CalcPorpCompat_two_alleles_witness :
    threeLociModel.GetPloidy = ploidy_t.kPloidy_Haploid ∧
    (threeLociModel.shownAlleles 0 1 0).length = 2 ∧
    (threeLociModel.shownAlleles 0 1 1).length = 2 ∧
    (threeLociModel.shownGenotypes 0 1).length = 4 ∧
    threeLociModel.DetermineDimensions.sitePairIncompat 0 1 = true :=
  ⟨by decide, by decide, by decide, by decide,
    (C11_CalcPorpCompat_two_alleles threeLociModel 0 1 (by decide) (by decide) (by decide)
      (by decide) (by decide)).1.2 (by decide)⟩

/-! ## Population differentiation (`CalcTheta`, `CalcThetaChoice`) -/

/-! ### The frequency lists of `CalcTheta` -/

theorem keys_Increment (k : String) (v : Nat) :
    ∀ f : Frequency, (Frequency.Increment f k v).map Prod.fst =
      if k ∈ f.map Prod.fst then f.map Prod.fst else f.map Prod.fst ++ [k]
  | [] => by simp [Frequency.Increment]
  | e :: rest => by
    unfold Frequency.Increment
    by_cases h : e.1 = k
    · rw [if_pos h]
      simp [h]
    · rw [if_neg h, List.map_cons, keys_Increment k v rest]
      have hne : ¬ k = e.1 := fun h2 => h h2.symm
      by_cases hm : k ∈ rest.map Prod.fst
      · rw [if_pos hm, if_pos (by rw [List.map_cons]; exact List.mem_cons_of_mem _ hm)]
        rfl
      · rw [if_neg hm, if_neg (by
          rw [List.map_cons, List.mem_cons]
          rintro (h2 | h2)
          · exact hne h2
          · exact hm h2)]
        rfl

theorem keys_Erase (k : String) :
    ∀ f : Frequency, (Frequency.Erase f k).map Prod.fst = (f.map Prod.fst).erase k
  | [] => rfl
  | e :: rest => by
    unfold Frequency.Erase
    by_cases h : e.1 = k
    · rw [if_pos h, List.map_cons, h, List.erase_cons_head]
    · rw [if_neg h, List.map_cons, List.map_cons, keys_Erase k rest,
        List.erase_cons_tail (by simpa using h)]

theorem Value_Increment (k : String) (v : Nat) :
    ∀ f : Frequency, (Frequency.Increment f k v).Value = f.Value + v
  | [] => by simp [Frequency.Increment, Frequency.Value]
  | e :: rest => by
    unfold Frequency.Increment
    by_cases h : e.1 = k
    · rw [if_pos h]
      simp only [Frequency.Value, List.map_cons, List.sum_cons]
      omega
    · rw [if_neg h]
      have ih := Value_Increment k v rest
      simp only [Frequency.Value, List.map_cons, List.sum_cons] at ih ⊢
      omega

theorem pos_Increment (k : String) (v : Nat) (hv : 1 ≤ v) :
    ∀ f : Frequency, (∀ e ∈ f, 1 ≤ e.2) → ∀ e ∈ Frequency.Increment f k v, 1 ≤ e.2
  | [], _, e, he => by
    simp only [Frequency.Increment, List.mem_singleton] at he
    rw [he]
    exact hv
  | x :: rest, hf, e, he => by
    unfold Frequency.Increment at he
    by_cases h : x.1 = k
    · rw [if_pos h] at he
      rcases List.mem_cons.1 he with rfl | hm
      · have := hf x (List.mem_cons_self _ _)
        show 1 ≤ x.2 + v
        omega
      · exact hf e (List.mem_cons_of_mem _ hm)
    · rw [if_neg h] at he
      rcases List.mem_cons.1 he with rfl | hm
      · exact hf e (List.mem_cons_self _ _)
      · exact pos_Increment k v hv rest (fun y hy => hf y (List.mem_cons_of_mem _ hy)) e hm

theorem Erase_sublist (k : String) : ∀ f : Frequency, (Frequency.Erase f k).Sublist f
  | [] => List.Sublist.refl _
  | e :: rest => by
    unfold Frequency.Erase
    by_cases h : e.1 = k
    · rw [if_pos h]
      exact List.sublist_cons_self e rest
    · rw [if_neg h]
      exact (Erase_sublist k rest).cons₂ e

theorem Tidy_Increment (f : Frequency) (k : String) (v : Nat) (hv : 1 ≤ v)
    (hf : Frequency.Tidy f) : Frequency.Tidy (Frequency.Increment f k v) := by
  refine ⟨?_, pos_Increment k v hv f hf.2⟩
  rw [keys_Increment]
  by_cases hm : k ∈ f.map Prod.fst
  · rw [if_pos hm]
    exact hf.1
  · rw [if_neg hm, List.nodup_append]
    refine ⟨hf.1, List.nodup_singleton k, ?_⟩
    intro x hx hk
    rw [List.mem_singleton] at hk
    subst hk
    exact hm hx

theorem mem_keys_Increment (f : Frequency) (k : String) (v : Nat) (x : String) :
    x ∈ (Frequency.Increment f k v).map Prod.fst ↔ x ∈ f.map Prod.fst ∨ x = k := by
  rw [keys_Increment]
  by_cases hm : k ∈ f.map Prod.fst
  · rw [if_pos hm]
    constructor
    · exact Or.inl
    · rintro (h | rfl)
      · exact h
      · exact hm
  · rw [if_neg hm, List.mem_append, List.mem_singleton]

theorem Tidy_Erase (f : Frequency) (k : String) (hf : Frequency.Tidy f) :
    Frequency.Tidy (Frequency.Erase f k) :=
  ⟨((Erase_sublist k f).map Prod.fst).nodup hf.1,
    fun e he => hf.2 e ((Erase_sublist k f).subset he)⟩

theorem mem_keys_Erase (f : Frequency) (k : String) (hf : Frequency.Tidy f) (x : String) :
    x ∈ (Frequency.Erase f k).map Prod.fst ↔ x ≠ k ∧ x ∈ f.map Prod.fst := by
  rw [keys_Erase, List.Nodup.mem_erase_iff hf.1]

theorem foldl_Increment (l : List (String × Nat)) (hl : ∀ e ∈ l, 1 ≤ e.2) :
    ∀ f : Frequency, Frequency.Tidy f →
      Frequency.Tidy (l.foldl (fun acc e => Frequency.Increment acc e.1 e.2) f) ∧
      (∀ x, x ∈ (l.foldl (fun acc e => Frequency.Increment acc e.1 e.2) f).map Prod.fst ↔
        x ∈ f.map Prod.fst ∨ x ∈ l.map Prod.fst) ∧
      (l.foldl (fun acc e => Frequency.Increment acc e.1 e.2) f).Value =
        f.Value + (l.map Prod.snd).sum := by
  induction l with
  | nil => intro f hf; simp [hf]
  | cons e l ih =>
    intro f hf
    have he := hl e (List.mem_cons_self _ _)
    obtain ⟨h1, h2, h3⟩ := ih (fun y hy => hl y (List.mem_cons_of_mem _ hy))
      (Frequency.Increment f e.1 e.2) (Tidy_Increment f e.1 e.2 he hf)
    refine ⟨h1, fun x => ?_, ?_⟩
    · rw [List.foldl_cons, h2, mem_keys_Increment, List.map_cons, List.mem_cons]
      tauto
    · rw [List.foldl_cons, h3, Value_Increment, List.map_cons, List.sum_cons]
      omega

theorem Add_spec (f g : Frequency) (hf : Frequency.Tidy f) (hg : Frequency.Tidy g) :
    Frequency.Tidy (Frequency.Add f g) ∧
    (∀ x, x ∈ (Frequency.Add f g).map Prod.fst ↔ x ∈ f.map Prod.fst ∨ x ∈ g.map Prod.fst) ∧
    (Frequency.Add f g).Value = f.Value + g.Value :=
  foldl_Increment g hg.2 f hf

theorem ValueOf_le_Value (k : String) : ∀ f : Frequency, Frequency.ValueOf f k ≤ f.Value
  | [] => Nat.le_refl 0
  | e :: rest => by
    unfold Frequency.ValueOf
    have ih := ValueOf_le_Value k rest
    simp only [Frequency.Value, List.map_cons, List.sum_cons] at ih ⊢
    by_cases h : e.1 = k
    · rw [if_pos h]
      omega
    · rw [if_neg h]
      omega

theorem Size_le_Value : ∀ f : Frequency, (∀ e ∈ f, 1 ≤ e.2) → f.Size ≤ f.Value
  | [], _ => Nat.le_refl 0
  | e :: rest, hf => by
    have ih := Size_le_Value rest (fun y hy => hf y (List.mem_cons_of_mem _ hy))
    have he := hf e (List.mem_cons_self _ _)
    simp only [Frequency.Size, Frequency.Value, List.length_cons, List.map_cons,
      List.sum_cons] at ih ⊢
    omega

theorem Tidy_nil : Frequency.Tidy ([] : Frequency) :=
  ⟨List.nodup_nil, fun _ h => absurd h (List.not_mem_nil _)⟩

theorem foldl_Increment_one (l : List tAllele) :
    Frequency.Tidy (l.foldl (fun f a => Frequency.Increment f a 1) []) ∧
    (∀ x, x ∈ (l.foldl (fun f a => Frequency.Increment f a 1) []).map Prod.fst ↔ x ∈ l) := by
  have h := foldl_Increment (l.map (fun a => (a, 1))) (by
    intro e he
    obtain ⟨a, _, rfl⟩ := List.mem_map.1 he
    exact Nat.le_refl 1) [] Tidy_nil
  rw [List.foldl_map] at h
  refine ⟨h.1, fun x => ?_⟩
  rw [h.2.1]
  simp

theorem knownAlleleFreqs_spec (s : MultiLocusModel) (p i : Nat) :
    Frequency.Tidy (s.knownAlleleFreqs p i) ∧
    ∀ x, x ∈ (s.knownAlleleFreqs p i).map Prod.fst ↔
      x ∈ (s.popIsolates p).flatMap (fun k => s.cellAlleles k i) ∧
        (x == kSymbol_Unknown || x == kSymbol_Gap) = false := by
  obtain ⟨h1, h2⟩ := foldl_Increment_one ((s.popIsolates p).flatMap (fun k => s.cellAlleles k i))
  have t1 := Tidy_Erase _ kSymbol_Unknown h1
  have t2 := Tidy_Erase _ kSymbol_Gap t1
  refine ⟨t2, fun x => ?_⟩
  unfold MultiLocusModel.knownAlleleFreqs MultiLocusModel.popAlleleFreqs
  rw [mem_keys_Erase _ _ t1, mem_keys_Erase _ _ h1, h2]
  simp only [Bool.or_eq_false_iff, beq_eq_false_iff_ne, ne_eq]
  tauto

theorem totalFreqs_spec (s : MultiLocusModel) (i : Nat) (pops : List Nat) :
    ∀ f : Frequency, Frequency.Tidy f →
      Frequency.Tidy (pops.foldl
        (fun theTotalFreqs p => Frequency.Add theTotalFreqs (s.knownAlleleFreqs p i)) f) ∧
      (∀ x, x ∈ (pops.foldl
        (fun theTotalFreqs p => Frequency.Add theTotalFreqs (s.knownAlleleFreqs p i)) f).map
          Prod.fst ↔
        x ∈ f.map Prod.fst ∨ ∃ p ∈ pops, x ∈ (s.knownAlleleFreqs p i).map Prod.fst) ∧
      (pops.foldl
        (fun theTotalFreqs p => Frequency.Add theTotalFreqs (s.knownAlleleFreqs p i)) f).Value =
        f.Value + (pops.map (fun p => (s.knownAlleleFreqs p i).Value)).sum := by
  induction pops with
  | nil => intro f hf; simp [hf]
  | cons p pops ih =>
    intro f hf
    obtain ⟨a1, a2, a3⟩ := Add_spec f (s.knownAlleleFreqs p i) hf (knownAlleleFreqs_spec s p i).1
    obtain ⟨h1, h2, h3⟩ := ih _ a1
    refine ⟨h1, fun x => ?_, ?_⟩
    · rw [List.foldl_cons, h2, a2]
      constructor
      · rintro ((hx | hx) | ⟨q, hq, hx⟩)
        · exact Or.inl hx
        · exact Or.inr ⟨p, List.mem_cons_self _ _, hx⟩
        · exact Or.inr ⟨q, List.mem_cons_of_mem _ hq, hx⟩
      · rintro (hx | ⟨q, hq, hx⟩)
        · exact Or.inl (Or.inl hx)
        · rcases List.mem_cons.1 hq with rfl | hq2
          · exact Or.inl (Or.inr hx)
          · exact Or.inr ⟨q, hq2, hx⟩
    · rw [List.foldl_cons, h3, a3, List.map_cons, List.sum_cons]
      omega

/-- The number of keys of `theTotalFreqs` is the number of the different non-missing
alleles of the pooled populations. -/
theorem Size_totalFreqs (s : MultiLocusModel) (pops : List Nat) (i : Nat) :
    (s.totalFreqs pops i).Size = (s.pooledAlleles pops i).length := by
  obtain ⟨h1, h2, _⟩ := totalFreqs_spec s i pops [] Tidy_nil
  have hlen : (s.totalFreqs pops i).Size = ((s.totalFreqs pops i).map Prod.fst).length := by
    simp [Frequency.Size]
  rw [hlen]
  apply List.Perm.length_eq
  have hnd2 : (s.pooledAlleles pops i).Nodup := by
    unfold MultiLocusModel.pooledAlleles
    exact List.nodup_dedup _
  unfold MultiLocusModel.totalFreqs
  rw [List.perm_ext_iff_of_nodup h1.1 hnd2]
  intro x
  rw [h2]
  unfold MultiLocusModel.pooledAlleles
  rw [List.mem_dedup, List.mem_filter]
  simp only [List.map_nil, List.not_mem_nil, false_or, List.mem_flatMap, Bool.not_eq_true']
  constructor
  · rintro ⟨p, hp, hx⟩
    obtain ⟨hx1, hx2⟩ := (knownAlleleFreqs_spec s p i).2 x |>.1 hx
    rw [List.mem_flatMap] at hx1
    obtain ⟨k, hk, hxk⟩ := hx1
    exact ⟨⟨k, ⟨p, hp, hk⟩, hxk⟩, hx2⟩
  · rintro ⟨⟨k, ⟨p, hp, hk⟩, hxk⟩, hx2⟩
    refine ⟨p, hp, ((knownAlleleFreqs_spec s p i).2 x).2 ⟨?_, hx2⟩⟩
    rw [List.mem_flatMap]
    exact ⟨k, hk, hxk⟩

/-- The number of samples of `theTotalFreqs` is the sum of `theSumArray`
(`assert (theNumSamples == theSumFreq)`). -/
theorem Value_totalFreqs (s : MultiLocusModel) (pops : List Nat) (i : Nat) :
    (s.totalFreqs pops i).Value = (s.theSumArray pops i).sum := by
  obtain ⟨_, _, h3⟩ := totalFreqs_spec s i pops [] Tidy_nil
  unfold MultiLocusModel.totalFreqs MultiLocusModel.theSumArray
  rw [h3]
  simp [Frequency.Value]

theorem Size_le_Value_totalFreqs (s : MultiLocusModel) (pops : List Nat) (i : Nat) :
    (s.totalFreqs pops i).Size ≤ (s.totalFreqs pops i).Value :=
  Size_le_Value _ (totalFreqs_spec s i pops [] Tidy_nil).1.2

theorem foldl_thetaStep_fst (s : MultiLocusModel) (pops : List Nat) (l : List Nat) :
    ∀ st : Nat × Option (ℚ × ℚ),
      (l.foldl (s.thetaStep pops) st).1 =
        st.1 + (l.filter (fun i => decide (2 ≤ (s.totalFreqs pops i).Size))).length := by
  induction l with
  | nil => intro st; simp
  | cons i l ih =>
    intro st
    rw [List.foldl_cons, ih]
    unfold MultiLocusModel.thetaStep
    by_cases h : 2 ≤ (s.totalFreqs pops i).Size
    · rw [if_pos h, List.filter_cons_of_pos (by simpa using h), List.length_cons]
      simp only
      omega
    · rw [if_neg h, List.filter_cons_of_neg (by simpa using h)]

/-- `thetaOver` throws exactly when no site shows two different non-missing alleles
among the pooled populations. -/
theorem thetaOver_error_iff (s : MultiLocusModel) (pops : List Nat) :
    (s.thetaOver pops = Except.error "Need to be able to sample at least 1 polymorphic locus" ↔
      ∀ i, i < s.GetNumCols → (s.pooledAlleles pops i).length < 2) ∧
    ((∃ i, i < s.GetNumCols ∧ 2 ≤ (s.pooledAlleles pops i).length) →
      ∃ v, s.thetaOver pops = Except.ok v) := by
  have hfst := foldl_thetaStep_fst s pops (List.range s.GetNumCols) (0, some (0, 0))
  rw [Nat.zero_add] at hfst
  have hzero : ((List.range s.GetNumCols).filter
      (fun i => decide (2 ≤ (s.totalFreqs pops i).Size))).length = 0 ↔
      ∀ i, i < s.GetNumCols → (s.pooledAlleles pops i).length < 2 := by
    rw [List.length_eq_zero, List.filter_eq_nil_iff]
    constructor
    · intro h i hi
      have := h i (List.mem_range.2 hi)
      rw [Size_totalFreqs] at this
      simpa using this
    · intro h i hi
      have := h i (List.mem_range.1 hi)
      rw [Size_totalFreqs]
      simpa using this
  constructor
  · unfold MultiLocusModel.thetaOver MultiLocusModel.thetaLoop
    rw [hfst]
    constructor
    · intro h
      apply hzero.1
      by_contra hne
      rw [if_pos (Nat.pos_of_ne_zero hne)] at h
      exact absurd h (by simp)
    · intro h
      rw [if_neg (by rw [hzero.2 h]; exact Nat.lt_irrefl 0)]
  · rintro ⟨i, hi, h2⟩
    unfold MultiLocusModel.thetaOver MultiLocusModel.thetaLoop
    rw [hfst]
    have hne : ((List.range s.GetNumCols).filter
        (fun i => decide (2 ≤ (s.totalFreqs pops i).Size))).length ≠ 0 := by
      intro h0
      have := hzero.1 h0 i hi
      omega
    rw [if_pos (Nat.pos_of_ne_zero hne)]
    exact ⟨_, rfl⟩

theorem pooledAlleles_perm (s : MultiLocusModel) (pops pops2 : List Nat) (i : Nat)
    (h : pops.Perm pops2) :
    (s.pooledAlleles pops i).length = (s.pooledAlleles pops2 i).length := by
  unfold MultiLocusModel.pooledAlleles
  exact ((((h.flatMap_right s.popIsolates).flatMap_right _).filter _).dedup).length_eq

/-- C13: `CalcTheta`, and `CalcThetaChoice` on its selected populations, raise the error
"Need to be able to sample at least 1 polymorphic locus" iff no locus shows at least two
distinct non-missing alleles when the alleles of all the tabulated populations are
pooled (both alleles of a diploid cell being counted); otherwise they return without
raising (a value, or the mark of a division by zero). -/
theorem C13_CalcTheta_raises_iff (s : MultiLocusModel) (iSelectedPops : List Nat) :
    (s.CalcTheta = Except.error "Need to be able to sample at least 1 polymorphic locus" ↔
      ∀ i, i < s.GetNumCols →
        (s.pooledAlleles (List.range s.mPops.GetNumParts) i).length < 2) ∧
    ((∃ i, i < s.GetNumCols ∧
        2 ≤ (s.pooledAlleles (List.range s.mPops.GetNumParts) i).length) →
      ∃ v, s.CalcTheta = Except.ok v) ∧
    (s.CalcThetaChoice iSelectedPops =
        Except.error "Need to be able to sample at least 1 polymorphic locus" ↔
      ∀ i, i < s.GetNumCols → (s.pooledAlleles iSelectedPops i).length < 2) ∧
    ((∃ i, i < s.GetNumCols ∧ 2 ≤ (s.pooledAlleles iSelectedPops i).length) →
      ∃ v, s.CalcThetaChoice iSelectedPops = Except.ok v) := by
  obtain ⟨a1, a2⟩ := thetaOver_error_iff s (List.range s.mPops.GetNumParts)
  obtain ⟨b1, b2⟩ := thetaOver_error_iff s (iSelectedPops.insertionSort (fun a b => a ≤ b))
  have hp : ∀ i, (s.pooledAlleles (iSelectedPops.insertionSort (fun a b => a ≤ b)) i).length =
      (s.pooledAlleles iSelectedPops i).length :=
    fun i => pooledAlleles_perm s _ _ i (List.perm_insertionSort _ _)
  refine ⟨a1, a2, ?_, ?_⟩
  · unfold MultiLocusModel.CalcThetaChoice
    rw [b1]
    constructor
    · intro h i hi
      rw [← hp i]
      exact h i hi
    · intro h i hi
      rw [hp i]
      exact h i hi
  · rintro ⟨i, hi, h2⟩
    exact b2 ⟨i, hi, by rw [hp i]; exact h2⟩

theorem C13_CalcTheta_raises_iff_witness :
    monomorphicModel.CalcTheta =
      Except.error "Need to be able to sample at least 1 polymorphic locus" ∧
    (∃ v, twoPopsModel.CalcThetaChoice [1, 0] = Except.ok v) :=
  ⟨(C13_CalcTheta_raises_iff monomorphicModel []).1.2 (by decide),
    (C13_CalcTheta_raises_iff twoPopsModel [1, 0]).2.2.2 ⟨0, by decide, by decide⟩⟩

/-! ### The divisors of `CalcTheta` -/

theorem divQ_of_ne (a b : ℚ) (h : b ≠ 0) : divQ a b = some (a / b) := by
  unfold divQ
  rw [if_neg h]

theorem divQ_zero (a : ℚ) : divQ a 0 = none := by
  unfold divQ
  rw [if_pos rfl]

theorem divQ_isSome_iff (a b : ℚ) : (divQ a b).isSome = true ↔ b ≠ 0 := by
  unfold divQ
  by_cases h : b = 0
  · simp [h]
  · simp [h]

/-- At a site with at least two populations and a sample, `the_Q2` and `the_Q3` are
well-defined exactly when `the_NBar - 1` and `the_Nc` are not zero: the number of
samples is not the number of populations, and the sum of the squares of `theSumArray`
is not the square of its sum. -/
theorem siteQ_isSome_iff (P S SF SSF : Nat) (x y : ℚ) (hP : 2 ≤ P) (hS : S = SF)
    (hSF : SF ≠ 0) :
    (siteQ P S SF SSF x y).isSome = true ↔ S ≠ P ∧ SSF ≠ SF * SF := by
  subst hS
  have hp2 : (2 : ℚ) ≤ (P : ℚ) := by exact_mod_cast hP
  have hp0 : (P : ℚ) ≠ 0 := by linarith
  have hp1 : (P : ℚ) - 1 ≠ 0 := by linarith
  have hs0 : (S : ℚ) ≠ 0 := by exact_mod_cast hSF
  have hNBar : (S : ℚ) / (P : ℚ) - 1 = 0 ↔ S = P := by
    rw [sub_eq_zero, div_eq_one_iff_eq hp0]
    exact_mod_cast Iff.rfl
  have hNc : 1 / ((P : ℚ) - 1) * ((S : ℚ) - (SSF : ℚ) / (S : ℚ)) = 0 ↔ SSF = S * S := by
    rw [mul_eq_zero]
    constructor
    · rintro (h | h)
      · exact absurd h (one_div_ne_zero hp1)
      · have h2 : (SSF : ℚ) = (S : ℚ) * (S : ℚ) := by
          field_simp at h
          linarith
        exact_mod_cast h2
    · intro h
      right
      have h2 : (SSF : ℚ) = (S : ℚ) * (S : ℚ) := by exact_mod_cast h
      rw [h2]
      field_simp
  have hNBar0 : (S : ℚ) / (P : ℚ) ≠ 0 := div_ne_zero hs0 hp0
  unfold siteQ
  rw [divQ_of_ne _ _ hp0, divQ_of_ne _ _ hp1, divQ_of_ne _ _ hs0]
  simp only [Option.bind_eq_bind, Option.some_bind, Option.pure_def]
  by_cases h1 : S = P
  · have hz := hNBar.2 h1
    rw [hz, mul_zero, divQ_zero]
    simp [h1]
  · have hnz : (S : ℚ) / (P : ℚ) - 1 ≠ 0 := fun h => h1 (hNBar.1 h)
    by_cases h2 : SSF = S * S
    · have hz := hNc.2 h2
      rw [hz, mul_zero, divQ_zero, divQ_of_ne _ _ (mul_ne_zero hp0 hnz)]
      simp [h2]
    · have hcz : 1 / ((P : ℚ) - 1) * ((S : ℚ) - (SSF : ℚ) / (S : ℚ)) ≠ 0 :=
        fun h => h2 (hNc.1 h)
      rw [divQ_of_ne _ _ (mul_ne_zero hp0 hnz),
        divQ_of_ne _ _ (mul_ne_zero (mul_ne_zero (mul_ne_zero hp0 hp1) hNBar0) hcz),
        divQ_of_ne _ _ hnz, divQ_of_ne _ _ (mul_ne_zero hcz hnz), divQ_of_ne _ _ hp1]
      simp [h1, h2]

/-- With a single population `the_Q2` and `the_Q3` are not defined: the divisor
`theNumPops - 1` is zero. -/
theorem siteQ_one_pop (S SF SSF : Nat) (x y : ℚ) : siteQ 1 S SF SSF x y = none := by
  unfold siteQ
  have h1 : divQ (S : ℚ) ((1 : Nat) : ℚ) = some ((S : ℚ) / ((1 : Nat) : ℚ)) :=
    divQ_of_ne _ _ (by norm_num)
  have h2 : divQ 1 (((1 : Nat) : ℚ) - 1) = none := by
    have : (((1 : Nat) : ℚ) - 1) = 0 := by norm_num
    rw [this, divQ_zero]
  rw [h1, h2]
  rfl

theorem foldl_optAdd_isSome {α : Type} (g : α → Option ℚ) (l : List α)
    (h : ∀ v ∈ l, (g v).isSome = true) :
    ∀ a : ℚ, ((l.foldl (fun acc2 v => do
      let a ← acc2
      let t ← g v
      pure (a + t)) (some a)).isSome = true) := by
  induction l with
  | nil => intro a; rfl
  | cons v l ih =>
    intro a
    obtain ⟨t, ht⟩ := Option.isSome_iff_exists.1 (h v (List.mem_cons_self _ _))
    rw [List.foldl_cons]
    simp only [Option.bind_eq_bind, Option.some_bind, ht, Option.pure_def]
    exact ih (fun w hw => h w (List.mem_cons_of_mem _ hw)) (a + t)

theorem popTerm_isSome (v : Nat × Nat) (h : v.1 ≤ v.2) : (popTerm v).isSome = true := by
  unfold popTerm
  by_cases h0 : v.1 ≠ 0
  · rw [if_pos h0, divQ_isSome_iff]
    have : v.2 ≠ 0 := by omega
    exact_mod_cast this
  · rw [if_neg h0]
    rfl

/-- Every division of the loop of `the_X` has a non-zero divisor: a population whose
count of an allele is not zero has a total that is not zero. -/
theorem the_X_isSome (tbl : List (List (Nat × Nat)))
    (h : ∀ row ∈ tbl, ∀ v ∈ row, v.1 ≤ v.2) : (the_X tbl).isSome = true := by
  unfold the_X
  exact foldl_optAdd_isSome
    (fun row => row.foldl (fun acc2 v => do
      let a ← acc2
      let t ← popTerm v
      pure (a + t)) (some 0)) tbl
    (fun row hrow => foldl_optAdd_isSome popTerm row
      (fun v hv => popTerm_isSome v (h row hrow v hv)) 0) 0

theorem the_X_popVals_isSome (s : MultiLocusModel) (pops : List Nat) (i : Nat) :
    (the_X (s.popVals pops i)).isSome = true := by
  apply the_X_isSome
  intro row hrow v hv
  unfold MultiLocusModel.popVals at hrow
  obtain ⟨e, _, rfl⟩ := List.mem_map.1 hrow
  obtain ⟨p, _, rfl⟩ := List.mem_map.1 hv
  exact ValueOf_le_Value _ _

theorem sum_sq_le (l : List Nat) : (l.map (fun v => v * v)).sum ≤ l.sum * l.sum := by
  induction l with
  | nil => simp
  | cons x l ih =>
    simp only [List.map_cons, List.sum_cons]
    nlinarith [Nat.zero_le (x * l.sum)]

/-- The sum of the squares of the totals of the populations is the square of their sum
exactly when at most one population has a sample. -/
theorem sum_sq_eq_iff (l : List Nat) :
    (l.map (fun v => v * v)).sum = l.sum * l.sum ↔
      (l.filter (fun v => decide (v ≠ 0))).length ≤ 1 := by
  induction l with
  | nil => simp
  | cons x l ih =>
    have hle := sum_sq_le l
    simp only [List.map_cons, List.sum_cons]
    by_cases hx : x = 0
    · subst hx
      rw [List.filter_cons_of_neg (by simp)]
      simpa using ih
    · rw [List.filter_cons_of_pos (by simpa using hx), List.length_cons]
      have hxpos : 0 < x := Nat.pos_of_ne_zero hx
      constructor
      · intro h
        have hs : l.sum = 0 := by
          by_contra hne
          have hpos : 0 < l.sum := Nat.pos_of_ne_zero hne
          have : 0 < x * l.sum := Nat.mul_pos hxpos hpos
          nlinarith
        have hall : ∀ v ∈ l, v = 0 := List.sum_eq_zero_iff.1 hs
        have : l.filter (fun v => decide (v ≠ 0)) = [] := by
          rw [List.filter_eq_nil_iff]
          intro v hv
          simp [hall v hv]
        rw [this]
        rfl
      · intro h
        have hnil : l.filter (fun v => decide (v ≠ 0)) = [] := by
          rw [← List.length_eq_zero]
          omega
        rw [List.filter_eq_nil_iff] at hnil
        have hall : ∀ v ∈ l, v = 0 := by
          intro v hv
          have := hnil v hv
          simpa using this
        have hs : l.sum = 0 := List.sum_eq_zero_iff.2 hall
        have hq : (l.map (fun v => v * v)).sum = 0 := by
          apply List.sum_eq_zero_iff.2
          intro w hw
          obtain ⟨v, hv, rfl⟩ := List.mem_map.1 hw
          simp [hall v hv]
        rw [hs, hq]
        ring

/-- `the_Q2` and `the_Q3` of a polymorphic site, for at least two populations, are
well-defined exactly when the number of non-missing samples at the site is not the
number of populations and at least two populations have a non-missing sample. -/
theorem siteStats_isSome_iff (s : MultiLocusModel) (pops : List Nat) (i : Nat)
    (hP : 2 ≤ pops.length) (hpoly : 2 ≤ (s.totalFreqs pops i).Size) :
    (s.siteStats pops i).isSome = true ↔
      (s.totalFreqs pops i).Value ≠ pops.length ∧
        2 ≤ ((s.theSumArray pops i).filter (fun v => decide (v ≠ 0))).length := by
  obtain ⟨x, hx⟩ := Option.isSome_iff_exists.1 (the_X_popVals_isSome s pops i)
  have hval := Value_totalFreqs s pops i
  have hge := Size_le_Value_totalFreqs s pops i
  have hSF : (s.theSumArray pops i).sum ≠ 0 := by omega
  unfold MultiLocusModel.siteStats
  rw [hx]
  simp only [Option.bind_eq_bind, Option.some_bind]
  rw [siteQ_isSome_iff _ _ _ _ _ _ hP hval hSF]
  have h2 := sum_sq_eq_iff (s.theSumArray pops i)
  constructor
  · rintro ⟨ha, hb⟩
    refine ⟨ha, ?_⟩
    by_contra hc
    exact hb (h2.2 (by omega))
  · rintro ⟨ha, hb⟩
    refine ⟨ha, fun hc => ?_⟩
    have := h2.1 hc
    omega

theorem siteStats_one_pop (s : MultiLocusModel) (p i : Nat) : s.siteStats [p] i = none := by
  unfold MultiLocusModel.siteStats
  cases the_X (s.popVals [p] i) with
  | none => rfl
  | some x =>
    simp only [Option.bind_eq_bind, Option.some_bind]
    exact siteQ_one_pop _ _ _ _ _

/-- The sums `theSum_Q2`, `theSum_Q3` are well-defined after the loop over the sites
exactly when `the_Q2` and `the_Q3` are at every sampled site. -/
theorem foldl_thetaStep_snd (s : MultiLocusModel) (pops : List Nat) (l : List Nat) :
    ∀ st : Nat × Option (ℚ × ℚ),
      ((l.foldl (s.thetaStep pops) st).2.isSome = true ↔
        st.2.isSome = true ∧
          ∀ i ∈ l, 2 ≤ (s.totalFreqs pops i).Size → (s.siteStats pops i).isSome = true) := by
  induction l with
  | nil => intro st; simp
  | cons i l ih =>
    intro st
    rw [List.foldl_cons, ih]
    unfold MultiLocusModel.thetaStep
    by_cases h : 2 ≤ (s.totalFreqs pops i).Size
    · rw [if_pos h]
      simp only [List.mem_cons, forall_eq_or_imp]
      cases hst : st.2 with
      | none => simp
      | some sums =>
        cases hq : s.siteStats pops i with
        | none => simp [h]
        | some q => simp [h]
    · rw [if_neg h]
      simp only [List.mem_cons, forall_eq_or_imp]
      constructor
      · rintro ⟨h1, h2⟩
        exact ⟨h1, fun hh => absurd hh h, h2⟩
      · rintro ⟨h1, _, h2⟩
        exact ⟨h1, h2⟩

theorem thetaLoop_fst_pos (s : MultiLocusModel) (pops : List Nat)
    (h : ∃ i, i < s.GetNumCols ∧ 2 ≤ (s.totalFreqs pops i).Size) :
    0 < (s.thetaLoop pops).1 := by
  obtain ⟨i, hi, h2⟩ := h
  unfold MultiLocusModel.thetaLoop
  rw [foldl_thetaStep_fst, Nat.zero_add]
  apply List.length_pos_of_mem (a := i)
  rw [List.mem_filter]
  exact ⟨List.mem_range.2 hi, by simpa using h2⟩

theorem thetaLoop_snd_isSome_iff (s : MultiLocusModel) (pops : List Nat) :
    (s.thetaLoop pops).2.isSome = true ↔
      ∀ i, i < s.GetNumCols → 2 ≤ (s.totalFreqs pops i).Size →
        (s.siteStats pops i).isSome = true := by
  unfold MultiLocusModel.thetaLoop
  rw [foldl_thetaStep_snd]
  simp only [Option.isSome_some, true_and, List.mem_range]

/-- When `the_Q2`, `the_Q3` are not defined at a sampled site, theta is returned and is
not a number. -/
theorem thetaOver_none (s : MultiLocusModel) (pops : List Nat)
    (h : ∃ i, i < s.GetNumCols ∧ 2 ≤ (s.totalFreqs pops i).Size ∧ s.siteStats pops i = none) :
    s.thetaOver pops = Except.ok none := by
  obtain ⟨i, hi, h2, hn⟩ := h
  have hpos := thetaLoop_fst_pos s pops ⟨i, hi, h2⟩
  have hnone : (s.thetaLoop pops).2 = none := by
    cases hc : (s.thetaLoop pops).2 with
    | none => rfl
    | some v =>
      have := (thetaLoop_snd_isSome_iff s pops).1 (by rw [hc]; rfl) i hi h2
      rw [hn] at this
      exact absurd this (by simp)
  unfold MultiLocusModel.thetaOver
  rw [if_pos hpos, hnone]
  rfl

/-- With a single population block and a polymorphic locus `CalcTheta` returns, and its
result is not a number. -/
theorem CalcTheta_one_block (s : MultiLocusModel) (h1 : s.mPops.GetNumParts = 1)
    (h : ∃ i, i < s.GetNumCols ∧ 2 ≤ (s.pooledAlleles [0] i).length) :
    s.CalcTheta = Except.ok none := by
  obtain ⟨i, hi, h2⟩ := h
  unfold MultiLocusModel.CalcTheta
  rw [h1]
  have e : List.range 1 = [0] := rfl
  rw [e]
  exact thetaOver_none s [0] ⟨i, hi, by rw [Size_totalFreqs]; exact h2, siteStats_one_pop s 0 i⟩

theorem C14_counterexample :
    onePopModel.mPops.GetNumParts = 1 ∧ onePopModel.CalcTheta = Except.ok none ∧
    onePopModel.CalcTheta ≠
      Except.error "Need to be able to sample at least 1 polymorphic locus" := by
  have h := CalcTheta_one_block onePopModel (by decide) ⟨0, by decide, by decide⟩
  refine ⟨by decide, h, ?_⟩
  rw [h]
  simp

/-- C14 (amended): for every dataset whose population partition consists of exactly
one block, the commands `CalcPopDiff` and `CalcPopDiffChoice` of the application report
"Differentiation analysis requires 2 or more populations" and return without calling
`CalcTheta`. `CalcTheta` itself has no such guard: on such a dataset it raises its
"polymorphic locus" error iff no locus is polymorphic, and otherwise returns a value that
is not a number, its divisor `theNumPops - 1` being zero. -/
theorem C14_one_block_guard (s : MultiLocusModel) (theUserChoice : Option (List Nat))
    (h1 : s.mPops.GetNumParts = 1) :
    MultiLocusApp.CalcPopDiff s =
      PopDiffOutcome.reported "Differentiation analysis requires 2 or more populations" ∧
    MultiLocusApp.CalcPopDiffChoice s theUserChoice =
      PopDiffOutcome.reported "Differentiation analysis requires 2 or more populations" ∧
    (s.CalcTheta = Except.error "Need to be able to sample at least 1 polymorphic locus" ↔
      ∀ i, i < s.GetNumCols → (s.pooledAlleles [0] i).length < 2) ∧
    ((∃ i, i < s.GetNumCols ∧ 2 ≤ (s.pooledAlleles [0] i).length) →
      s.CalcTheta = Except.ok none) := by
  have hlt : s.mPops.GetNumParts < 2 := by omega
  refine ⟨?_, ?_, ?_, CalcTheta_one_block s h1⟩
  · unfold MultiLocusApp.CalcPopDiff
    rw [if_pos hlt]
  · unfold MultiLocusApp.CalcPopDiffChoice
    rw [if_pos hlt]
  · have h := (thetaOver_error_iff s [0]).1
    unfold MultiLocusModel.CalcTheta
    rw [h1]
    exact h

theorem C14_one_block_guard_witness :
    onePopModel.mPops.GetNumParts = 1 ∧
    MultiLocusApp.CalcPopDiff onePopModel =
      PopDiffOutcome.reported "Differentiation analysis requires 2 or more populations" ∧
    onePopModel.CalcTheta = Except.ok none :=
  ⟨by decide, (C14_one_block_guard onePopModel none (by decide)).1,
    (C14_one_block_guard onePopModel none (by decide)).2.2.2 ⟨0, by decide, by decide⟩⟩

/-- When the number of non-missing samples at a polymorphic locus is the number of
populations, `the_NBar - 1` is zero and theta is not a number. -/
theorem CalcTheta_samples_eq_pops (s : MultiLocusModel) (h2 : 2 ≤ s.mPops.GetNumParts)
    (h : ∃ i, i < s.GetNumCols ∧
      2 ≤ (s.pooledAlleles (List.range s.mPops.GetNumParts) i).length ∧
      (s.totalFreqs (List.range s.mPops.GetNumParts) i).Value = s.mPops.GetNumParts) :
    s.CalcTheta = Except.ok none := by
  obtain ⟨i, hi, hp, hv⟩ := h
  have hsize : 2 ≤ (s.totalFreqs (List.range s.mPops.GetNumParts) i).Size := by
    rw [Size_totalFreqs]; exact hp
  have hlen : 2 ≤ (List.range s.mPops.GetNumParts).length := by
    rw [List.length_range]; exact h2
  have hiff := siteStats_isSome_iff s (List.range s.mPops.GetNumParts) i hlen hsize
  rw [List.length_range] at hiff
  have hnone : s.siteStats (List.range s.mPops.GetNumParts) i = none := by
    cases hc : s.siteStats (List.range s.mPops.GetNumParts) i with
    | none => rfl
    | some v =>
      have := (hiff.1 (by rw [hc]; rfl)).1
      exact absurd hv this
  exact thetaOver_none s _ ⟨i, hi, hsize, hnone⟩

theorem C15_counterexample :
    2 ≤ singletonPopsModel.mPops.GetNumParts ∧
    (∃ i, i < singletonPopsModel.GetNumCols ∧
      2 ≤ (singletonPopsModel.pooledAlleles
        (List.range singletonPopsModel.mPops.GetNumParts) i).length) ∧
    (singletonPopsModel.totalFreqs (List.range singletonPopsModel.mPops.GetNumParts) 0).Value =
      singletonPopsModel.mPops.GetNumParts ∧
    singletonPopsModel.CalcTheta = Except.ok none :=
  ⟨by decide, ⟨0, by decide, by decide⟩, by decide,
    CalcTheta_samples_eq_pops singletonPopsModel (by decide)
      ⟨0, by decide, by decide, by decide⟩⟩

/-- C15 (amended): for every dataset with at least two population blocks, at every locus
each population's sample total is non-zero where `CalcTheta` divides by it, and at every
polymorphic locus the divisors `theNumPops`, `theNumPops - 1` and the pooled sample total
are non-zero, so that `the_Q2` and `the_Q3` are well-defined rationals exactly when
`the_NBar - 1` and `the_Nc` are non-zero: the number of non-missing samples at the locus
differs from the number of populations, and at least two populations have a non-missing
sample. With a polymorphic locus, theta is a well-defined rational exactly when this
holds at every polymorphic locus and `theNumSitesSampled - theSum_Q3` is non-zero; it is
not when the samples of a polymorphic locus are as many as the populations (every block
a singleton of complete haploid data). -/
theorem C15_theta_divisors (s : MultiLocusModel) (h2 : 2 ≤ s.mPops.GetNumParts) :
    (∀ i, (the_X (s.popVals (List.range s.mPops.GetNumParts) i)).isSome = true) ∧
    (∀ i, 2 ≤ (s.pooledAlleles (List.range s.mPops.GetNumParts) i).length →
      ((s.siteStats (List.range s.mPops.GetNumParts) i).isSome = true ↔
        (s.totalFreqs (List.range s.mPops.GetNumParts) i).Value ≠ s.mPops.GetNumParts ∧
        2 ≤ ((s.theSumArray (List.range s.mPops.GetNumParts) i).filter
          (fun v => decide (v ≠ 0))).length)) ∧
    ((∃ i, i < s.GetNumCols ∧
        2 ≤ (s.pooledAlleles (List.range s.mPops.GetNumParts) i).length) →
      ((∃ theta, s.CalcTheta = Except.ok (some theta)) ↔
        (∀ i, i < s.GetNumCols →
          2 ≤ (s.pooledAlleles (List.range s.mPops.GetNumParts) i).length →
          (s.totalFreqs (List.range s.mPops.GetNumParts) i).Value ≠ s.mPops.GetNumParts ∧
          2 ≤ ((s.theSumArray (List.range s.mPops.GetNumParts) i).filter
            (fun v => decide (v ≠ 0))).length) ∧
        ∃ sums, (s.thetaLoop (List.range s.mPops.GetNumParts)).2 = some sums ∧
          ((s.thetaLoop (List.range s.mPops.GetNumParts)).1 : ℚ) - sums.2 ≠ 0)) ∧
    ((∃ i, i < s.GetNumCols ∧
        2 ≤ (s.pooledAlleles (List.range s.mPops.GetNumParts) i).length ∧
        (s.totalFreqs (List.range s.mPops.GetNumParts) i).Value = s.mPops.GetNumParts) →
      s.CalcTheta = Except.ok none) := by
  have hlen : 2 ≤ (List.range s.mPops.GetNumParts).length := by
    rw [List.length_range]; exact h2
  have hsite : ∀ i, 2 ≤ (s.pooledAlleles (List.range s.mPops.GetNumParts) i).length →
      ((s.siteStats (List.range s.mPops.GetNumParts) i).isSome = true ↔
        (s.totalFreqs (List.range s.mPops.GetNumParts) i).Value ≠ s.mPops.GetNumParts ∧
        2 ≤ ((s.theSumArray (List.range s.mPops.GetNumParts) i).filter
          (fun v => decide (v ≠ 0))).length) := by
    intro i hp
    have h := siteStats_isSome_iff s (List.range s.mPops.GetNumParts) i hlen
      (by rw [Size_totalFreqs]; exact hp)
    rw [List.length_range] at h
    exact h
  refine ⟨fun i => the_X_popVals_isSome s _ i, hsite, ?_, CalcTheta_samples_eq_pops s h2⟩
  rintro ⟨i0, hi0, hp0⟩
  have hpos := thetaLoop_fst_pos s (List.range s.mPops.GetNumParts)
    ⟨i0, hi0, by rw [Size_totalFreqs]; exact hp0⟩
  have hloop := thetaLoop_snd_isSome_iff s (List.range s.mPops.GetNumParts)
  have hcalc : s.CalcTheta = Except.ok (do
      let sums ← (s.thetaLoop (List.range s.mPops.GetNumParts)).2
      divQ (sums.1 - sums.2)
        (((s.thetaLoop (List.range s.mPops.GetNumParts)).1 : ℚ) - sums.2)) := by
    unfold MultiLocusModel.CalcTheta MultiLocusModel.thetaOver
    rw [if_pos hpos]
  constructor
  · rintro ⟨theta, ht⟩
    rw [hcalc] at ht
    injection ht with ht
    cases hc : (s.thetaLoop (List.range s.mPops.GetNumParts)).2 with
    | none =>
      rw [hc] at ht
      exact absurd ht (by simp)
    | some sums =>
      rw [hc] at ht
      simp only [Option.bind_eq_bind, Option.some_bind] at ht
      have hsome := hloop.1 (by rw [hc]; rfl)
      refine ⟨fun i hi hp => (hsite i hp).1 (hsome i hi (by rw [Size_totalFreqs]; exact hp)),
        sums, rfl, ?_⟩
      have : (divQ (sums.1 - sums.2)
          (((s.thetaLoop (List.range s.mPops.GetNumParts)).1 : ℚ) - sums.2)).isSome = true := by
        rw [ht]; rfl
      exact (divQ_isSome_iff _ _).1 this
  · rintro ⟨_, sums, hs, hne⟩
    refine ⟨(sums.1 - sums.2) /
      (((s.thetaLoop (List.range s.mPops.GetNumParts)).1 : ℚ) - sums.2), ?_⟩
    rw [hcalc, hs]
    simp only [Option.bind_eq_bind, Option.some_bind]
    rw [divQ_of_ne _ _ hne]

theorem C15_theta_divisors_witness :
    2 ≤ twoPopsModel.mPops.GetNumParts ∧
    (twoPopsModel.siteStats (List.range twoPopsModel.mPops.GetNumParts) 0).isSome = true :=
  ⟨by decide,
    ((C15_theta_divisors twoPopsModel (by decide)).2.1 0 (by decide)).2
      ⟨by decide, by decide⟩⟩

/-! ## The P values of `CalcDiversity` -/

theorem length_bumpPVal (l : List Nat) (i : Nat) (b : Bool) :
    (bumpPVal l i b).length = l.length := by
  unfold bumpPVal
  cases b <;> simp

theorem getD_bumpPVal (l : List Nat) (i j : Nat) (b : Bool) (hi : i < l.length) :
    (bumpPVal l i b).getD j 0 = l.getD j 0 + (if i = j ∧ b = true then 1 else 0) := by
  unfold bumpPVal
  cases b
  · simp
  · simp only [if_true, and_true]
    by_cases hij : i = j
    · subst hij
      rw [if_pos rfl]
      simp [List.getD_eq_getElem?_getD, List.getElem?_set, hi]
    · rw [if_neg hij, Nat.add_zero]
      simp [List.getD_eq_getElem?_getD, List.getElem?_set, hij]

/-- A replicate raises the counter of each statistic whose criterion it meets, by one. -/
theorem countPVals_spec (r : Bool) (orig rep : DiversityStats) (l : List Nat)
    (hl : l.length = kPval_Size) :
    (countPVals r orig l rep).length = kPval_Size ∧
    ∀ j, j < kPval_Size →
      (countPVals r orig l rep).getD j 0 =
        l.getD j 0 + (if meetsCriterion r orig rep j = true then 1 else 0) := by
  unfold kPval_Size at hl ⊢
  constructor
  · unfold countPVals
    simp only [length_bumpPVal]
    exact hl
  · intro j hj
    unfold countPVals
    rw [getD_bumpPVal _ _ _ _ (by simp only [length_bumpPVal, hl, kPval_RBarS]; omega),
      getD_bumpPVal _ _ _ _ (by simp only [length_bumpPVal, hl, kPval_RBarD]; omega),
      getD_bumpPVal _ _ _ _ (by simp only [length_bumpPVal, hl, kPval_IndexAssoc]; omega),
      getD_bumpPVal _ _ _ _ (by simp only [length_bumpPVal, hl, kPval_PorpCompat]; omega),
      getD_bumpPVal _ _ _ _ (by simp only [length_bumpPVal, hl, kPval_Diversity]; omega),
      getD_bumpPVal _ _ _ _ (by simp only [length_bumpPVal, hl, kPval_MaxFreq]; omega),
      getD_bumpPVal _ _ _ _ (by simp only [hl, kPval_NumDiff]; omega)]
    unfold kPval_NumDiff kPval_MaxFreq kPval_Diversity kPval_PorpCompat kPval_IndexAssoc
      kPval_RBarD kPval_RBarS
    interval_cases j <;> simp

theorem foldl_countPVals (r : Bool) (orig : DiversityStats) (theStats : Nat → DiversityStats)
    (ks : List Nat) (hks : ∀ k ∈ ks, k ≠ 0) :
    ∀ l : List Nat, l.length = kPval_Size →
      (ks.foldl (fun thePVals i =>
        if i = 0 then thePVals else countPVals r orig thePVals (theStats i)) l).length
          = kPval_Size ∧
      ∀ j, j < kPval_Size →
        (ks.foldl (fun thePVals i =>
          if i = 0 then thePVals else countPVals r orig thePVals (theStats i)) l).getD j 0 =
          l.getD j 0 + (ks.filter (fun k => meetsCriterion r orig (theStats k) j)).length := by
  induction ks with
  | nil => intro l hl; exact ⟨hl, fun j _ => by simp⟩
  | cons k ks ih =>
    intro l hl
    have hk : k ≠ 0 := hks k (List.mem_cons_self _ _)
    obtain ⟨c1, c2⟩ := countPVals_spec r orig (theStats k) l hl
    obtain ⟨h1, h2⟩ := ih (fun x hx => hks x (List.mem_cons_of_mem _ hx)) _ c1
    rw [List.foldl_cons, if_neg hk]
    refine ⟨h1, fun j hj => ?_⟩
    rw [h2 j hj, c2 j hj]
    by_cases hm : meetsCriterion r orig (theStats k) j = true
    · rw [if_pos hm, List.filter_cons_of_pos (p := fun k => meetsCriterion r orig (theStats k) j)
        (by simpa using hm), List.length_cons]
      omega
    · rw [if_neg hm, List.filter_cons_of_neg (p := fun k => meetsCriterion r orig (theStats k) j)
        (by simpa using hm)]
      omega

/-- At the end of the loop the counter of a statistic is the number of the replicates
that meet its criterion. -/
theorem CalcDiversityPVals_spec (r : Bool) (n : Nat) (theStats : Nat → DiversityStats) :
    ∀ j, j < kPval_Size →
      (CalcDiversityPVals r n theStats).getD j 0 = replicatesMeeting r n theStats j := by
  intro j hj
  unfold CalcDiversityPVals replicatesMeeting
  have e : List.range (n + 1) = 0 :: List.range' 1 n := by
    rw [List.range_eq_range', List.range'_succ]
  rw [e, List.foldl_cons, if_pos rfl]
  have h := (foldl_countPVals r (theStats 0) theStats (List.range' 1 n)
    (by
      intro k hk
      rw [List.mem_range'_1] at hk
      omega) (List.replicate kPval_Size 0) (by simp)).2 j hj
  have h0 : (List.replicate kPval_Size 0).getD j 0 = 0 := by
    simp [List.getD_eq_getElem?_getD, List.getElem?_replicate, hj]
  rw [h, h0, Nat.zero_add]

/-- The entries of the row `P_Values` in terms of the numbers of replicates that meet
the criteria. -/
theorem PValuesRow_spec (r : Bool) (n : Nat) (hn : n ≠ 0) (theStats : Nat → DiversityStats) :
    ∃ row, PValuesRow r n theStats = some row ∧ row.length = 7 ∧
      (∀ i, i < 6 → row.getD i { text := "", value := none } =
        if replicatesMeeting r n theStats i = 0 then
          { text := "< ", value := some (1 / (n : ℚ)) }
        else { text := "", value := some ((replicatesMeeting r n theStats i : ℚ) / (n : ℚ)) }) ∧
      row.getD 6 { text := "", value := none } =
        (if r = false then { text := "N/A", value := none }
        else if replicatesMeeting r n theStats 6 = 0 then
          { text := "< ", value := some (2 / (n : ℚ)) }
        else
          { text := "", value := some (2 * (replicatesMeeting r n theStats 6 : ℚ) / (n : ℚ)) }) := by
  refine ⟨_, by unfold PValuesRow; rw [if_pos hn], by simp [kPval_Size], ?_, ?_⟩
  · intro i hi
    have hc := CalcDiversityPVals_spec r n theStats i (by unfold kPval_Size; omega)
    have hi7 : i < (List.range kPval_Size).length := by simp [kPval_Size]; omega
    rw [List.getD_eq_getElem?_getD, List.getElem?_map, List.getElem?_eq_getElem hi7]
    simp only [List.getElem_range, Option.map_some', Option.getD_some]
    unfold pValEntry
    rw [if_neg (by unfold kPval_RBarS; omega), hc]
  · have hc := CalcDiversityPVals_spec r n theStats 6 (by unfold kPval_Size; omega)
    have hi7 : 6 < (List.range kPval_Size).length := by simp [kPval_Size]
    rw [List.getD_eq_getElem?_getD, List.getElem?_map, List.getElem?_eq_getElem hi7]
    simp only [List.getElem_range, Option.map_some', Option.getD_some]
    unfold pValEntry
    have e6 : kPval_RBarS = 6 := rfl
    rw [if_pos e6.symm, e6, hc]
    cases r <;> simp

theorem replicatesMeeting_le (r : Bool) (n : Nat) (theStats : Nat → DiversityStats) (i : Nat) :
    replicatesMeeting r n theStats i ≤ n := by
  unfold replicatesMeeting
  have h := List.length_filter_le
    (fun k => meetsCriterion r (theStats 0) (theStats k) i) (List.range' 1 n)
  rw [List.length_range'] at h
  exact h

theorem C16_counterexample :
    replicatesMeeting true 5 pvalStats kPval_RBarS = 0 ∧
    (∃ row, PValuesRow true 5 pvalStats = some row ∧
      row.getD kPval_RBarS { text := "", value := none } =
        { text := "< ", value := some (2 / 5) }) ∧
    ({ text := "< ", value := some (2 / 5) } : PValEntry) ≠
      { text := "< ", value := some (1 / 5) } := by
  have hc : replicatesMeeting true 5 pvalStats kPval_RBarS = 0 := by
    unfold replicatesMeeting
    rw [List.length_eq_zero, List.filter_eq_nil_iff]
    intro k hk
    rw [List.mem_range'_1] at hk
    have hk0 : k ≠ 0 := by omega
    simp [meetsCriterion, pvalStats, kPval_RBarS, kPval_NumDiff, kPval_MaxFreq,
      kPval_Diversity, kPval_PorpCompat, kPval_IndexAssoc, kPval_RBarD, hk0, dblLe, dblLt]
  refine ⟨hc, ?_, ?_⟩
  · obtain ⟨row, h1, _, _, h4⟩ := PValuesRow_spec true 5 (by decide) pvalStats
    refine ⟨row, h1, ?_⟩
    have e6 : kPval_RBarS = 6 := rfl
    rw [e6] at hc ⊢
    rw [h4, hc]
    simp
  · intro h
    have h2 := congrArg PValEntry.value h
    simp only [Option.some.injEq] at h2
    norm_num at h2

/-- C16 (amended): for every n >= 1 randomizations, the row `P_Values` written by
`CalcDiversity` has seven entries; for each of NumDiff, MaxFreq, Diversity, PorpCompat,
IndexAssoc and rBarD the reported value is c/n, where c is the number of replicates
meeting the one-sided criterion of the statistic, and the entry is "< " followed by 1/n
when c = 0 (n = 5, c = 0 gives "< " and 1/5 = 0.2); for rBarS the entry is "N/A" when the
data is not rankable, and otherwise 2c/n, or "< " followed by 2/n when c = 0, where c
counts the replicates at least as extreme as the observed value on its side of zero. -/
theorem C16_PValues_row (mIsDataRankable : Bool) (n : Nat) (hn : 1 ≤ n)
    (theStats : Nat → DiversityStats) :
    ∃ row, PValuesRow mIsDataRankable n theStats = some row ∧ row.length = 7 ∧
      (∀ i, i < 6 → row.getD i { text := "", value := none } =
        if replicatesMeeting mIsDataRankable n theStats i = 0 then
          { text := "< ", value := some (1 / (n : ℚ)) }
        else
          { text := "",
            value := some ((replicatesMeeting mIsDataRankable n theStats i : ℚ) / (n : ℚ)) }) ∧
      row.getD 6 { text := "", value := none } =
        (if mIsDataRankable = false then { text := "N/A", value := none }
        else if replicatesMeeting mIsDataRankable n theStats 6 = 0 then
          { text := "< ", value := some (2 / (n : ℚ)) }
        else
          { text := "",
            value :=
              some (2 * (replicatesMeeting mIsDataRankable n theStats 6 : ℚ) / (n : ℚ)) }) ∧
      ∀ i, replicatesMeeting mIsDataRankable n theStats i ≤ n := by
  obtain ⟨row, h1, h2, h3, h4⟩ := PValuesRow_spec mIsDataRankable n (by omega) theStats
  exact ⟨row, h1, h2, h3, h4, fun i => replicatesMeeting_le mIsDataRankable n theStats i⟩

theorem C16_PValues_row_witness :
    (1 : Nat) ≤ 5 ∧
    ∃ row, PValuesRow true 5 pvalStats = some row ∧ row.length = 7 ∧
      row.getD kPval_Diversity { text := "", value := none } =
        { text := "< ", value := some (1 / 5) } := by
  have hc : replicatesMeeting true 5 pvalStats 2 = 0 := by
    unfold replicatesMeeting
    rw [List.length_eq_zero, List.filter_eq_nil_iff]
    intro k hk
    rw [List.mem_range'_1] at hk
    have hk0 : k ≠ 0 := by omega
    simp [meetsCriterion, pvalStats, kPval_NumDiff, kPval_MaxFreq, kPval_Diversity, hk0,
      dblLe]
  obtain ⟨row, h1, h2, h3, _⟩ := C16_PValues_row true 5 (by decide) pvalStats
  refine ⟨by decide, row, h1, h2, ?_⟩
  have e2 : kPval_Diversity = 2 := rfl
  rw [e2, h3 2 (by decide), hc]
  simp

theorem drop_eq_cons {α : Type} (l : List α) (n : Nat) (c : α) (rest : List α)
    (h : l.drop n = c :: rest) : l.get? n = some c ∧ l.drop (n + 1) = rest := by
  constructor
  · have := List.head?_drop l n
    rw [h] at this
    simpa using this.symm
  · have e : l.drop (n + 1) = (l.drop n).drop 1 := by
      rw [List.drop_drop, Nat.add_comm]
    rw [e, h]
    rfl

theorem drop_add_of_append {α : Type} (l : List α) (n : Nat) (a b : List α)
    (h : l.drop n = a ++ b) : l.drop (n + a.length) = b := by
  have e : l.drop (n + a.length) = (l.drop n).drop a.length := by
    rw [List.drop_drop, Nat.add_comm]
  rw [e, h, List.drop_left]

theorem readToken_append (iDelimiters : List Char) (d : Char) (hd : d ∈ iDelimiters)
    (rest : List Char) :
    ∀ cell : List Char, (∀ c ∈ cell, c ∉ iDelimiters) →
      StreamScanner.readToken iDelimiters (cell ++ d :: rest) = (cell, some d) := by
  intro cell
  induction cell with
  | nil =>
    intro _
    simp [StreamScanner.readToken, hd]
  | cons c cell ih =>
    intro h
    have hc : c ∉ iDelimiters := h c (List.mem_cons_self _ _)
    have ih2 := ih (fun x hx => h x (List.mem_cons_of_mem _ hx))
    rw [List.cons_append]
    unfold StreamScanner.readToken
    rw [if_neg hc, ih2]

theorem ReadChar_cons (sc : StreamScanner) (c : Char) (rest : List Char)
    (hg : sc.mGood = true) (h : sc.mSrc.drop sc.mPosn = c :: rest) :
    sc.ReadChar = (some c, { sc with mPosn := sc.mPosn + 1 }) := by
  unfold StreamScanner.ReadChar StreamScanner.GetChar
  rw [if_pos hg, (drop_eq_cons _ _ _ _ h).1]

theorem ReadChar_nil (sc : StreamScanner) (hg : sc.mGood = true)
    (h : sc.mSrc.drop sc.mPosn = []) :
    sc.ReadChar = (none, { sc with mGood := false }) := by
  unfold StreamScanner.ReadChar StreamScanner.GetChar
  have hn : sc.mSrc.get? sc.mPosn = none := by
    rw [List.get?_eq_none]
    exact List.drop_eq_nil_iff.1 h
  rw [if_pos hg, hn]

theorem ReadUntil_cell (sc : StreamScanner) (cell rest : List Char) (d : Char)
    (iCharSet : List Char) (hd : d ∈ iCharSet) (hcell : ∀ c ∈ cell, c ∉ iCharSet)
    (hg : sc.mGood = true) (h : sc.mSrc.drop sc.mPosn = cell ++ d :: rest) :
    sc.ReadUntil iCharSet =
      some ((String.mk cell, d), { sc with mPosn := sc.mPosn + cell.length }) := by
  unfold StreamScanner.ReadUntil
  rw [if_pos hg, h, readToken_append iCharSet d hd rest cell hcell]

theorem Read_cell (sc : StreamScanner) (cell rest : List Char) (d : Char)
    (iDelimiters : List Char) (hd : d ∈ iDelimiters) (hcell : ∀ c ∈ cell, c ∉ iDelimiters)
    (hg : sc.mGood = true) (h : sc.mSrc.drop sc.mPosn = cell ++ d :: rest) :
    sc.Read iDelimiters =
      ((String.mk cell, d), { sc with mPosn := sc.mPosn + cell.length }) := by
  unfold StreamScanner.Read
  rw [if_pos hg, h, readToken_append iDelimiters d hd rest cell hcell]

/-- `ReadLine` on a line that ends with a line feed: the line is returned; at the end of
the source the stream is left failed, otherwise the scanner stands at the beginning of
the next line. -/
theorem ReadLine_lf (sc : StreamScanner) (cell rest : List Char)
    (hcell : ∀ c ∈ cell, c ∉ ['\n', '\r']) (hg : sc.mGood = true)
    (he : sc.mEolnType = eoln_t.kEoln_Unknown)
    (h : sc.mSrc.drop sc.mPosn = cell ++ '\n' :: rest)
    (hrest : ∀ c r, rest = c :: r → c ≠ '\r') :
    ∃ sc2, sc.ReadLine = some (String.mk cell, sc2) ∧ sc2.mSrc = sc.mSrc ∧
      sc2.mEolnType = sc.mEolnType ∧ sc2.mPosn = sc.mPosn + cell.length + 1 ∧
      (rest = [] → sc2.mGood = false) ∧ (rest ≠ [] → sc2.mGood = true) := by
  have hread := Read_cell sc cell rest '\n' ['\n', '\r'] (by simp) hcell hg h
  have hdrop := drop_add_of_append _ _ _ _ h
  have hrc := ReadChar_cons { sc with mPosn := sc.mPosn + cell.length } '\n' rest hg hdrop
  have hdrop2 := (drop_eq_cons _ _ _ _ hdrop).2
  unfold StreamScanner.ReadLine
  rw [he]
  simp only [hread, hrc, if_true]
  cases hr : rest with
  | nil =>
    rw [hr] at hdrop2
    have hrc2 := ReadChar_nil
      { sc with mPosn := sc.mPosn + cell.length + 1 } hg hdrop2
    simp only [hrc2]
    exact ⟨_, rfl, rfl, he, rfl, fun _ => rfl, fun hne => absurd rfl hne⟩
  | cons c r =>
    rw [hr] at hdrop2
    have hrc2 := ReadChar_cons
      { sc with mPosn := sc.mPosn + cell.length + 1 } c r hg hdrop2
    have hc : c ≠ '\r' := hrest c r hr
    simp only [hrc2, hc, ne_eq, not_false_eq_true, if_true]
    refine ⟨_, rfl, ?_, ?_, ?_, fun hh => absurd hh (by simp), fun _ => ?_⟩
    · simp [StreamScanner.UnreadChar, hg]
    · simp [StreamScanner.UnreadChar, hg, he]
    · simp [StreamScanner.UnreadChar, hg]
    · simp [StreamScanner.UnreadChar, hg]

theorem joinTabs_cons (cell : List Char) (cells : List (List Char)) (h : cells ≠ []) :
    joinTabs (cell :: cells) = cell ++ '\t' :: joinTabs cells := by
  cases cells with
  | nil => exact absurd rfl h
  | cons c cs => rfl

theorem haploidCells_step_valid (n : Nat) (sc : StreamScanner) (acc : List tAllele)
    (cell rest : List Char) (hcell : ∀ c ∈ cell, c ≠ '\t') (hg : sc.mGood = true)
    (h : sc.mSrc.drop sc.mPosn = cell ++ '\t' :: rest)
    (hv : IsValidAllele (cellToken cell) = true) :
    haploidCells (n + 1) sc acc =
      haploidCells n { sc with mPosn := sc.mPosn + cell.length + 1 }
        (acc ++ [cellToken cell]) := by
  have hru := ReadUntil_cell sc cell rest '\t' ['\t'] (by simp) (by simpa using hcell) hg h
  have hdrop := drop_add_of_append _ _ _ _ h
  have hrc := ReadChar_cons { sc with mPosn := sc.mPosn + cell.length } '\t' rest hg hdrop
  unfold cellToken at hv
  rw [haploidCells]
  simp only [hru, hv, hrc]
  simp [cellToken]

theorem haploidCells_step_invalid (n : Nat) (sc : StreamScanner) (acc : List tAllele)
    (cell rest : List Char) (hcell : ∀ c ∈ cell, c ≠ '\t') (hg : sc.mGood = true)
    (h : sc.mSrc.drop sc.mPosn = cell ++ '\t' :: rest)
    (hv : IsValidAllele (cellToken cell) = false) :
    haploidCells (n + 1) sc acc =
      Except.error (ParseStop.thrown
        { mDesc := "illegal allele",
          mLineNum := some
            ({ sc with mPosn := sc.mPosn + cell.length } : StreamScanner).GetLineIndex }) := by
  have hru := ReadUntil_cell sc cell rest '\t' ['\t'] (by simp) (by simpa using hcell) hg h
  unfold cellToken at hv
  rw [haploidCells]
  simp only [hru, hv]
  simp

/-- The loop over the columns but the last, on a row of cells: the tokens of the cells
are collected when all of them are valid, and an illegal allele is raised otherwise. -/
theorem haploidCells_spec (rest : List Char) (cs2 : List (List Char)) (hcs2 : cs2 ≠ []) :
    ∀ (cs1 : List (List Char)) (sc : StreamScanner) (acc : List tAllele),
      (∀ cell ∈ cs1, ∀ c ∈ cell, c ≠ '\t') → sc.mGood = true →
      sc.mSrc.drop sc.mPosn = joinTabs (cs1 ++ cs2) ++ rest →
      ((∀ cell ∈ cs1, IsValidAllele (cellToken cell) = true) →
        ∃ sc1, haploidCells cs1.length sc acc = Except.ok (acc ++ cs1.map cellToken, sc1) ∧
          sc1.mSrc = sc.mSrc ∧ sc1.mGood = true ∧ sc1.mEolnType = sc.mEolnType ∧
          sc1.mSrc.drop sc1.mPosn = joinTabs cs2 ++ rest) ∧
      ((∃ cell ∈ cs1, IsValidAllele (cellToken cell) = false) →
        ∃ e, haploidCells cs1.length sc acc = Except.error (ParseStop.thrown e) ∧
          e.mDesc = "illegal allele") := by
  intro cs1
  induction cs1 with
  | nil =>
    intro sc acc _ hg h
    refine ⟨fun _ => ⟨sc, ?_, rfl, hg, rfl, h⟩, ?_⟩
    · simp [haploidCells]
    · rintro ⟨cell, hc, _⟩
      exact absurd hc (List.not_mem_nil _)
  | cons cell cs1 ih =>
    intro sc acc htab hg h
    have hne : cs1 ++ cs2 ≠ [] := by simp [hcs2]
    rw [List.cons_append, joinTabs_cons _ _ hne, List.append_assoc, List.cons_append] at h
    have hcell : ∀ c ∈ cell, c ≠ '\t' := htab cell (List.mem_cons_self _ _)
    rw [List.length_cons]
    cases hv : IsValidAllele (cellToken cell) with
    | false =>
      rw [haploidCells_step_invalid cs1.length sc acc cell _ hcell hg h hv]
      refine ⟨fun hall => ?_, fun _ => ⟨_, rfl, rfl⟩⟩
      have := hall cell (List.mem_cons_self _ _)
      rw [hv] at this
      exact absurd this (by simp)
    | true =>
      rw [haploidCells_step_valid cs1.length sc acc cell _ hcell hg h hv]
      have hdrop : sc.mSrc.drop (sc.mPosn + cell.length + 1) =
          joinTabs (cs1 ++ cs2) ++ rest := by
        have h1 := drop_add_of_append _ _ _ _ h
        exact (drop_eq_cons _ _ _ _ h1).2
      obtain ⟨ih1, ih2⟩ := ih { sc with mPosn := sc.mPosn + cell.length + 1 }
        (acc ++ [cellToken cell]) (fun x hx => htab x (List.mem_cons_of_mem _ hx)) hg hdrop
      constructor
      · intro hall
        obtain ⟨sc1, e1, e2, e3, e4, e5⟩ :=
          ih1 (fun x hx => hall x (List.mem_cons_of_mem _ hx))
        refine ⟨sc1, ?_, e2, e3, e4, e5⟩
        rw [e1]
        simp
      · rintro ⟨x, hx, hxv⟩
        rcases List.mem_cons.1 hx with rfl | hx2
        · rw [hv] at hxv
          exact absurd hxv (by simp)
        · exact ih2 ⟨x, hx2, hxv⟩

theorem joinTabs_head (row : List (List Char)) (hne : row ≠ [])
    (hplain : ∀ cell ∈ row, PlainCell cell) :
    ∃ c r, joinTabs row = c :: r ∧ c ≠ '\n' ∧ c ≠ '\r' := by
  cases row with
  | nil => exact absurd rfl hne
  | cons cell cells =>
    obtain ⟨hc1, hc2⟩ := hplain cell (List.mem_cons_self _ _)
    cases cell with
    | nil => exact absurd rfl hc1
    | cons c cs =>
      have hc := hc2 c (List.mem_cons_self _ _)
      cases cells with
      | nil => exact ⟨c, cs, rfl, hc.2.1, hc.2.2⟩
      | cons c2 cs2 => exact ⟨c, _, rfl, hc.2.1, hc.2.2⟩

theorem ReadChar_UnreadChar (sc : StreamScanner) (c : Char) (rest : List Char)
    (hg : sc.mGood = true) (h : sc.mSrc.drop sc.mPosn = c :: rest) :
    sc.ReadChar.2.UnreadChar = sc := by
  rw [ReadChar_cons sc c rest hg h]
  simp [StreamScanner.UnreadChar, hg]
  cases sc
  simp_all

/-- A turn of the loop over the rows, on the text of a row: the tokens of the row are
returned when all of them are valid, and an illegal allele is raised otherwise. -/
theorem haploidRow_spec (cs : List (List Char)) (last rest : List Char) (sc : StreamScanner)
    (hg : sc.mGood = true) (he : sc.mEolnType = eoln_t.kEoln_Unknown)
    (hplain : ∀ cell ∈ cs ++ [last], PlainCell cell)
    (h : sc.mSrc.drop sc.mPosn = rowText (cs ++ [last]) ++ rest)
    (hrest : ∀ c r, rest = c :: r → c ≠ '\r') :
    ((∀ cell ∈ cs ++ [last], IsValidAllele (cellToken cell) = true) →
      ∃ sc2, haploidRow (cs.length + 1) sc =
          Except.ok (some ((cs ++ [last]).map cellToken, sc2)) ∧
        sc2.mSrc = sc.mSrc ∧ sc2.mEolnType = sc.mEolnType ∧
        (rest = [] → sc2.mGood = false) ∧
        (rest ≠ [] → sc2.mGood = true ∧ sc2.mSrc.drop sc2.mPosn = rest)) ∧
    ((∃ cell ∈ cs ++ [last], IsValidAllele (cellToken cell) = false) →
      ∃ e, haploidRow (cs.length + 1) sc = Except.error (ParseStop.thrown e) ∧
        e.mDesc = "illegal allele") := by
  obtain ⟨c0, r0, hc0, hc1, hc2⟩ := joinTabs_head (cs ++ [last]) (by simp) hplain
  have h0 : sc.mSrc.drop sc.mPosn = c0 :: (r0 ++ '\n' :: rest) := by
    rw [h, rowText, hc0]
    simp
  have hfirst : ¬ ((sc.ReadChar.1).getD (Char.ofNat 0) ∈ ['\r', '\n']) := by
    rw [ReadChar_cons sc c0 _ hg h0]
    simp [hc1, hc2]
  have hun := ReadChar_UnreadChar sc c0 _ hg h0
  have htab : ∀ cell ∈ cs, ∀ c ∈ cell, c ≠ '\t' := fun cell hcell c hc =>
    ((hplain cell (List.mem_append_left _ hcell)).2 c hc).1
  have hlast : ∀ c ∈ last, c ∉ ['\n', '\r'] := by
    intro c hc
    have := (hplain last (by simp)).2 c hc
    simp [this.2.1, this.2.2]
  have h1 : sc.mSrc.drop sc.mPosn = joinTabs (cs ++ [last]) ++ ('\n' :: rest) := by
    rw [h, rowText]
    simp
  obtain ⟨hc1, hc2⟩ := haploidCells_spec ('\n' :: rest) [last] (by simp) cs sc [] htab hg h1
  unfold haploidRow
  rw [if_neg hfirst, hun, Nat.add_sub_cancel]
  by_cases hall : ∀ cell ∈ cs, IsValidAllele (cellToken cell) = true
  · obtain ⟨sc1, e1, e2, e3, e4, e5⟩ := hc1 hall
    have e5b : sc1.mSrc.drop sc1.mPosn = last ++ '\n' :: rest := by
      rw [e5]
      rfl
    obtain ⟨sc2, f1, f2, f3, f4, f5, f6⟩ :=
      ReadLine_lf sc1 last rest hlast e3 (e4.trans he) e5b hrest
    rw [e1]
    simp only [f1, List.nil_append]
    cases hv : IsValidAllele (cellToken last) with
    | false =>
      have hv2 : IsValidAllele (eraseFlankingSpace (String.mk last)) = false := hv
      simp only [hv2]
      refine ⟨fun hall2 => ?_, fun _ => ⟨_, rfl, rfl⟩⟩
      have := hall2 last (by simp)
      rw [hv] at this
      exact absurd this (by simp)
    | true =>
      have hv2 : IsValidAllele (eraseFlankingSpace (String.mk last)) = true := hv
      simp only [hv2]
      constructor
      · intro _
        refine ⟨sc2, ?_, f2.trans e2, f3.trans e4, f5, fun hne => ⟨f6 hne, ?_⟩⟩
        · simp [cellToken]
        · rw [f4, f2]
          have := drop_add_of_append sc1.mSrc sc1.mPosn (last ++ ['\n']) rest (by simp [e5b])
          simpa [Nat.add_assoc] using this
      · rintro ⟨x, hx, hxv⟩
        rcases List.mem_append.1 hx with hx1 | hx2
        · have := hall x hx1
          rw [hxv] at this
          exact absurd this (by simp)
        · have : x = last := by simpa using hx2
          rw [this, hv] at hxv
          exact absurd hxv (by simp)
  · have hex : ∃ cell ∈ cs, IsValidAllele (cellToken cell) = false := by
      by_contra hcon
      apply hall
      intro cell hcell
      cases hv : IsValidAllele (cellToken cell) with
      | true => rfl
      | false => exact absurd ⟨cell, hcell, hv⟩ hcon
    obtain ⟨e, e1, e2⟩ := hc2 hex
    rw [e1]
    refine ⟨fun hall2 => ?_, fun _ => ⟨e, rfl, e2⟩⟩
    exact absurd (fun cell hcell => hall2 cell (List.mem_append_left _ hcell)) hall

theorem haploidRows_not_good (fuel iNumCols : Nat) (sc : StreamScanner)
    (theData : MATRIX tAllele) (hg : sc.mGood = false) :
    haploidRows fuel iNumCols sc theData = Except.ok theData := by
  cases fuel with
  | zero => rfl
  | succ f => simp [haploidRows, hg]

theorem tableText_cons (row : List (List Char)) (rows : List (List (List Char))) :
    tableText (row :: rows) = rowText row ++ tableText rows := by
  simp [tableText]

theorem tableText_head (rows : List (List (List Char)))
    (hrows : ∀ row ∈ rows, row ≠ [] ∧ ∀ cell ∈ row, PlainCell cell) :
    ∀ c r, tableText rows = c :: r → c ≠ '\r' := by
  intro c r h
  cases rows with
  | nil => simp [tableText] at h
  | cons row rows2 =>
    obtain ⟨hne, hpl⟩ := hrows row (List.mem_cons_self _ _)
    obtain ⟨c0, r0, e0, _, e2⟩ := joinTabs_head row hne hpl
    rw [tableText_cons, rowText, e0] at h
    simp at h
    rw [← h.1]
    exact e2

theorem tableText_eq_nil (rows : List (List (List Char))) :
    tableText rows = [] ↔ rows = [] := by
  cases rows with
  | nil => simp [tableText]
  | cons row rows2 => simp [tableText_cons, rowText]

theorem length_le_tableText (rows : List (List (List Char))) :
    rows.length ≤ (tableText rows).length := by
  induction rows with
  | nil => simp
  | cons row rows ih =>
    rw [tableText_cons, List.length_append, List.length_cons, rowText, List.length_append]
    simp
    omega

/-- The loop over the rows, on the text of a table with `C + 1` columns: the tokens of
the table are collected when all of them are valid, and an illegal allele is raised
otherwise. -/
theorem haploidRows_spec (C : Nat) :
    ∀ (rows : List (List (List Char))) (fuel : Nat) (sc : StreamScanner)
      (acc : MATRIX tAllele),
      rows ≠ [] → rows.length < fuel →
      (∀ row ∈ rows, row.length = C + 1 ∧ ∀ cell ∈ row, PlainCell cell) →
      sc.mGood = true → sc.mEolnType = eoln_t.kEoln_Unknown →
      sc.mSrc.drop sc.mPosn = tableText rows →
      ((∀ row ∈ rows, ∀ cell ∈ row, IsValidAllele (cellToken cell) = true) →
        haploidRows fuel (C + 1) sc acc =
          Except.ok (acc ++ rows.map (fun row => row.map cellToken))) ∧
      ((∃ row ∈ rows, ∃ cell ∈ row, IsValidAllele (cellToken cell) = false) →
        ∃ e, haploidRows fuel (C + 1) sc acc = Except.error (ParseStop.thrown e) ∧
          e.mDesc = "illegal allele") := by
  intro rows
  induction rows with
  | nil => intro _ _ _ h; exact absurd rfl h
  | cons row rows ih =>
    intro fuel sc acc _ hfuel hrows hg he h
    obtain ⟨hlen, hplain⟩ := hrows row (List.mem_cons_self _ _)
    have hrows2 : ∀ r ∈ rows, r.length = C + 1 ∧ ∀ cell ∈ r, PlainCell cell :=
      fun r hr => hrows r (List.mem_cons_of_mem _ hr)
    have hrne : row ≠ [] := by
      intro hn
      rw [hn] at hlen
      simp at hlen
    have hsplit : row = row.dropLast ++ [row.getLast hrne] :=
      (List.dropLast_append_getLast hrne).symm
    have hdl : row.dropLast.length = C := by
      rw [List.length_dropLast, hlen]
      rfl
    generalize row.dropLast = cs at hsplit hdl
    generalize row.getLast hrne = last at hsplit
    subst hsplit
    subst hdl
    rw [tableText_cons] at h
    have hrest := tableText_head rows (fun r hr => ⟨by
      intro hn
      have := (hrows2 r hr).1
      rw [hn] at this
      simp at this, (hrows2 r hr).2⟩)
    obtain ⟨hr1, hr2⟩ := haploidRow_spec cs last (tableText rows) sc hg he hplain h hrest
    obtain ⟨f, rfl⟩ : ∃ f, fuel = f + 1 := ⟨fuel - 1, by omega⟩
    have hf : rows.length < f ∨ rows = [] := by
      simp at hfuel
      cases rows with
      | nil => exact Or.inr rfl
      | cons r rs =>
        left
        simp at hfuel ⊢
        omega
    rw [haploidRows]
    simp only [hg, if_true]
    by_cases hall : ∀ cell ∈ cs ++ [last], IsValidAllele (cellToken cell) = true
    · obtain ⟨sc2, e1, e2, e3, e4, e5⟩ := hr1 hall
      rw [e1]
      simp only
      by_cases hne : rows = []
      · subst hne
        have hbad := e4 ((tableText_eq_nil []).2 rfl)
        rw [haploidRows_not_good _ _ _ _ hbad]
        constructor
        · intro _
          simp
        · rintro ⟨r, hr, x, hx, hxv⟩
          have hrr : r = cs ++ [last] := by simpa using hr
          subst hrr
          have := hall x hx
          rw [hxv] at this
          exact absurd this (by simp)
      · have hnt : tableText rows ≠ [] := fun hh => hne ((tableText_eq_nil rows).1 hh)
        obtain ⟨g1, g2⟩ := e5 hnt
        have hf2 : rows.length < f := by
          rcases hf with hf | hf
          · exact hf
          · exact absurd hf hne
        obtain ⟨i1, i2⟩ := ih f sc2 (acc ++ [(cs ++ [last]).map cellToken]) hne hf2 hrows2
          g1 (e3.trans he) g2
        constructor
        · intro hv
          rw [i1 (fun r hr => hv r (List.mem_cons_of_mem _ hr))]
          simp
        · rintro ⟨r, hr, x, hx, hxv⟩
          rcases List.mem_cons.1 hr with hr1 | hr2
          · subst hr1
            have := hall x hx
            rw [hxv] at this
            exact absurd this (by simp)
          · exact i2 ⟨r, hr2, x, hx, hxv⟩
    · have hex : ∃ cell ∈ cs ++ [last], IsValidAllele (cellToken cell) = false := by
        by_contra hcon
        apply hall
        intro cell hcell
        cases hv : IsValidAllele (cellToken cell) with
        | true => rfl
        | false => exact absurd ⟨cell, hcell, hv⟩ hcon
      obtain ⟨e, e1, e2⟩ := hr2 hex
      rw [e1]
      refine ⟨fun hv => ?_, fun _ => ⟨e, rfl, e2⟩⟩
      exact absurd (hv _ (List.mem_cons_self _ _)) hall

theorem takeWhile_append_dropWhile_line (l : List Char) :
    l = l.takeWhile (fun c => c ≠ '\n' && c ≠ '\r') ++
      l.dropWhile (fun c => c ≠ '\n' && c ≠ '\r') :=
  (List.takeWhile_append_dropWhile _ l).symm

theorem readToken_all (iDelimiters : List Char) :
    ∀ cell : List Char, (∀ c ∈ cell, c ∉ iDelimiters) →
      StreamScanner.readToken iDelimiters cell = (cell, none) := by
  intro cell
  induction cell with
  | nil => intro _; rfl
  | cons c cell ih =>
    intro h
    have hc : c ∉ iDelimiters := h c (List.mem_cons_self _ _)
    unfold StreamScanner.readToken
    rw [if_neg hc, ih (fun x hx => h x (List.mem_cons_of_mem _ hx))]

/-- `ReadLine` at the beginning of a source with an unknown type of line ending: the
line returned is the first line, and the scanner keeps the source and the type. -/
theorem ReadLine_first (ioInputFile : List Char) :
    ∃ sc2, ({ mSrc := ioInputFile } : StreamScanner).ReadLine =
        some (firstLine ioInputFile, sc2) ∧
      sc2.mSrc = ioInputFile ∧ sc2.mEolnType = eoln_t.kEoln_Unknown := by
  have hsplit := takeWhile_append_dropWhile_line ioInputFile
  have htw : ∀ c ∈ ioInputFile.takeWhile (fun c => c ≠ '\n' && c ≠ '\r'),
      c ∉ ['\n', '\r'] := by
    intro c hc
    have := List.mem_takeWhile_imp hc
    simpa using this
  generalize hA : ioInputFile.takeWhile (fun c => c ≠ '\n' && c ≠ '\r') = tw at hsplit htw
  have hfl : firstLine ioInputFile = String.mk tw := by
    unfold firstLine
    rw [hA]
  cases hdw : ioInputFile.dropWhile (fun c => c ≠ '\n' && c ≠ '\r') with
  | nil =>
    rw [hdw, List.append_nil] at hsplit
    have hread : ({ mSrc := ioInputFile } : StreamScanner).Read ['\n', '\r'] =
        ((String.mk tw, Char.ofNat 127),
          { mSrc := ioInputFile, mPosn := 0 + tw.length, mGood := false }) := by
      unfold StreamScanner.Read
      simp only [if_true, List.drop_zero]
      rw [hsplit, readToken_all _ tw htw]
    unfold StreamScanner.ReadLine
    simp only [hread]
    simp only [StreamScanner.ReadChar, StreamScanner.GetChar]
    simp only [Bool.false_eq_true, if_false]
    exact ⟨_, by rw [hfl], rfl, rfl⟩
  | cons d rest =>
    rw [hdw] at hsplit
    have hd : d = '\n' ∨ d = '\r' := by
      have := List.head_dropWhile_not (fun c => c ≠ '\n' && c ≠ '\r') ioInputFile
        (by rw [hdw]; simp)
      simp only [hdw, List.head_cons] at this
      by_cases h1 : d = '\n'
      · exact Or.inl h1
      · by_cases h2 : d = '\r'
        · exact Or.inr h2
        · simp [h1, h2] at this
    have hread := Read_cell { mSrc := ioInputFile } tw rest d ['\n', '\r']
      (by rcases hd with h | h <;> simp [h]) htw rfl (by simpa using hsplit)
    have hdrop := drop_add_of_append ioInputFile 0 tw (d :: rest) (by simpa using hsplit)
    have hrc := ReadChar_cons
      { mSrc := ioInputFile, mPosn := 0 + tw.length } d rest rfl hdrop
    unfold StreamScanner.ReadLine
    simp only [hread, hrc]
    rcases hd with h | h
    · subst h
      simp only [if_true]
      cases hr : ({ mSrc := ioInputFile, mPosn := 0 + tw.length + 1 } :
          StreamScanner).ReadChar with
      | mk o sc3 =>
        have hsc3 : sc3.mSrc = ioInputFile ∧ sc3.mEolnType = eoln_t.kEoln_Unknown := by
          unfold StreamScanner.ReadChar StreamScanner.GetChar at hr
          simp only [if_true] at hr
          split at hr
          · injection hr with _ h2
            rw [← h2]
            exact ⟨rfl, rfl⟩
          · injection hr with _ h2
            rw [← h2]
            exact ⟨rfl, rfl⟩
        cases o with
        | none => exact ⟨_, by rw [hfl], hsc3.1, hsc3.2⟩
        | some c2 =>
          simp only
          by_cases hc2 : c2 = '\r'
          · simp only [hc2, ne_eq, not_true_eq_false, if_false]
            exact ⟨_, by rw [hfl], hsc3.1, hsc3.2⟩
          · simp only [hc2, ne_eq, not_false_eq_true, if_true]
            refine ⟨_, by rw [hfl], ?_, ?_⟩
            · unfold StreamScanner.UnreadChar
              split <;> simp [hsc3.1]
            · unfold StreamScanner.UnreadChar
              split <;> simp [hsc3.2]
    · subst h
      simp only [Char.reduceEq, if_false, if_true]
      exact ⟨_, by rw [hfl], rfl, rfl⟩

/-- The first line that `ParseInput` reads is the first line of the file, and the parsers
start from the beginning of the file. -/
theorem firstLineOf_eq (ioInputFile : List Char) :
    firstLineOf ioInputFile = some (firstLine ioInputFile, { mSrc := ioInputFile }) := by
  obtain ⟨sc2, h1, h2, h3⟩ := ReadLine_first ioInputFile
  unfold firstLineOf
  rw [h1]
  simp only [StreamScanner.Rewind]
  rw [h2, h3]

/-- The result of `ParseInput` in terms of the first line of the file. -/
theorem ParseInput_eq (s : MultiLocusModel) (ioInputFile : List Char)
    (iDataFileName : String) :
    s.ParseInput ioInputFile iDataFileName =
      if (firstLine ioInputFile).data.count '/' = 0 then
        (s.ParseHaploidInput { mSrc := ioInputFile } (numColumns (firstLine ioInputFile))).map
          (fun t => t.BackupOriginal.DetermineDimensions)
      else if (firstLine ioInputFile).data.count '/' ≠ numColumns (firstLine ioInputFile) then
        Except.error (ParseStop.thrown
          { mDesc := "missing column delimiter", mSource := iDataFileName })
      else
        (s.ParseDiploidInput { mSrc := ioInputFile } (numColumns (firstLine ioInputFile))).map
          (fun t => t.BackupOriginal.DetermineDimensions) := by
  unfold ParseInput numColumns
  rw [firstLineOf_eq]
  simp only
  split
  · cases s.ParseHaploidInput { mSrc := ioInputFile }
      (popEmptyColumns (split (firstLine ioInputFile) '\t')).length <;> rfl
  · split
    · rfl
    · cases s.ParseDiploidInput { mSrc := ioInputFile }
        (popEmptyColumns (split (firstLine ioInputFile) '\t')).length <;> rfl

theorem splitLoop_cell (d : Char) (rest : List Char) :
    ∀ (cell acc : List Char), (∀ c ∈ cell, c ≠ d) →
      splitLoop d (cell ++ rest) acc = splitLoop d rest (acc ++ cell) := by
  intro cell
  induction cell with
  | nil => intro acc _; simp
  | cons c cell ih =>
    intro acc h
    have hc : c ≠ d := h c (List.mem_cons_self _ _)
    rw [List.cons_append, splitLoop, if_neg hc,
      ih (acc ++ [c]) (fun x hx => h x (List.mem_cons_of_mem _ hx))]
    simp

theorem splitLoop_joinTabs :
    ∀ (cells : List (List Char)) (cell acc : List Char),
      (∀ x ∈ cell :: cells, ∀ c ∈ x, c ≠ '\t') →
      splitLoop '\t' (joinTabs (cell :: cells)) acc =
        String.mk (acc ++ cell) :: cells.map String.mk := by
  intro cells
  induction cells with
  | nil =>
    intro cell acc h
    have := splitLoop_cell '\t' [] cell acc (h cell (List.mem_cons_self _ _))
    rw [List.append_nil] at this
    simp only [joinTabs, List.map_nil]
    rw [this]
    rfl
  | cons c2 cells ih =>
    intro cell acc h
    rw [joinTabs_cons cell (c2 :: cells) (by simp),
      splitLoop_cell '\t' _ cell acc (h cell (List.mem_cons_self _ _)), splitLoop, if_pos rfl,
      ih c2 [] (fun x hx => h x (List.mem_cons_of_mem _ hx))]
    simp

theorem popEmptyColumns_concat (cols : List String) (last : String) (h : last ≠ "") :
    popEmptyColumns (cols ++ [last]) = cols ++ [last] := by
  unfold popEmptyColumns
  rw [List.reverse_append, List.reverse_singleton, List.singleton_append,
    List.dropWhile_cons_of_neg (by simpa using h)]
  simp

theorem mem_joinTabs (row : List (List Char)) (c : Char) (h : c ∈ joinTabs row) :
    c = '\t' ∨ ∃ cell ∈ row, c ∈ cell := by
  induction row with
  | nil => simp [joinTabs] at h
  | cons cell cells ih =>
    cases cells with
    | nil =>
      right
      exact ⟨cell, List.mem_cons_self _ _, by simpa [joinTabs] using h⟩
    | cons c2 cs =>
      rw [joinTabs_cons cell (c2 :: cs) (by simp)] at h
      rcases List.mem_append.1 h with h1 | h1
      · exact Or.inr ⟨cell, List.mem_cons_self _ _, h1⟩
      · rcases List.mem_cons.1 h1 with h2 | h2
        · exact Or.inl h2
        · rcases ih h2 with h3 | ⟨x, hx, hcx⟩
          · exact Or.inl h3
          · exact Or.inr ⟨x, List.mem_cons_of_mem _ hx, hcx⟩

theorem takeWhile_append_stop {α : Type} (p : α → Bool) (d : α) (b : List α)
    (hd : p d = false) :
    ∀ a : List α, (∀ c ∈ a, p c = true) → (a ++ d :: b).takeWhile p = a := by
  intro a
  induction a with
  | nil => intro _; simp [List.takeWhile, hd]
  | cons x a ih =>
    intro h
    rw [List.cons_append, List.takeWhile_cons_of_pos (h x (List.mem_cons_self _ _)),
      ih (fun c hc => h c (List.mem_cons_of_mem _ hc))]

/-- The first line of the text of a table is its first row. -/
theorem firstLine_tableText (row : List (List Char)) (rows : List (List (List Char)))
    (hplain : ∀ cell ∈ row, PlainCell cell) :
    firstLine (tableText (row :: rows)) = String.mk (joinTabs row) := by
  unfold firstLine
  rw [tableText_cons, rowText, List.append_assoc, List.singleton_append,
    takeWhile_append_stop _ '\n' _ (by decide)]
  intro c hc
  rcases mem_joinTabs row c hc with h | ⟨cell, hcell, hcc⟩
  · subst h
    decide
  · have := (hplain cell hcell).2 c hcc
    simp [this.2.1, this.2.2]

/-- The number of columns found in the first line of the text of a table. -/
theorem numColumns_joinTabs (cs : List (List Char)) (last : List Char)
    (hplain : ∀ cell ∈ cs ++ [last], PlainCell cell) :
    numColumns (String.mk (joinTabs (cs ++ [last]))) = cs.length + 1 := by
  have htab : ∀ x ∈ cs ++ [last], ∀ c ∈ x, c ≠ '\t' := fun x hx c hc =>
    ((hplain x hx).2 c hc).1
  have hsplit : split (String.mk (joinTabs (cs ++ [last]))) '\t' =
      (cs ++ [last]).map String.mk := by
    unfold split
    cases hcs : cs ++ [last] with
    | nil => simp at hcs
    | cons c0 rest =>
      rw [hcs] at htab
      rw [splitLoop_joinTabs rest c0 [] htab]
      simp
  unfold numColumns
  rw [hsplit, List.map_append, List.map_singleton, popEmptyColumns_concat]
  · simp
  · intro h
    have h2 : last = [] := by
      have := congrArg String.data h
      simpa using this
    exact (hplain last (by simp)).1 h2

/-- `ParseHaploidInput` on the text of a table with `C + 1` columns: the tokens of the
table are stored when all of them are valid, and an illegal allele is raised otherwise. -/
theorem ParseHaploidInput_table (s : MultiLocusModel) (C : Nat)
    (rows : List (List (List Char))) (hne : rows ≠ [])
    (hrows : ∀ row ∈ rows, row.length = C + 1 ∧ ∀ cell ∈ row, PlainCell cell) :
    ((∀ row ∈ rows, ∀ cell ∈ row, IsValidAllele (cellToken cell) = true) →
      s.ParseHaploidInput { mSrc := tableText rows } (C + 1) =
        Except.ok { s with mPloidy := ploidy_t.kPloidy_Haploid,
                           mHaploData := rows.map (fun row => row.map cellToken) }) ∧
    ((∃ row ∈ rows, ∃ cell ∈ row, IsValidAllele (cellToken cell) = false) →
      ∃ e, s.ParseHaploidInput { mSrc := tableText rows } (C + 1) =
          Except.error (ParseStop.thrown e) ∧ e.mDesc = "illegal allele") := by
  have hfuel : rows.length < (tableText rows).length + 1 :=
    Nat.lt_succ_of_le (length_le_tableText rows)
  obtain ⟨h1, h2⟩ := haploidRows_spec C rows ((tableText rows).length + 1)
    { mSrc := tableText rows } [] hne hfuel hrows rfl rfl rfl
  unfold ParseHaploidInput
  constructor
  · intro hv
    simp only [h1 hv, List.nil_append]
  · intro hex
    obtain ⟨e, e1, e2⟩ := h2 hex
    simp only [e1]
    exact ⟨e, rfl, e2⟩

theorem mem_dropWhile_of_not {α : Type} (p : α → Bool) (c : α) (hc : p c = false) :
    ∀ l : List α, c ∈ l → c ∈ l.dropWhile p := by
  intro l
  induction l with
  | nil => intro h; exact h
  | cons x l ih =>
    intro h
    by_cases hx : p x = true
    · rw [List.dropWhile_cons_of_pos hx]
      rcases List.mem_cons.1 h with h1 | h1
      · rw [h1, hx] at hc
        exact absurd hc (by simp)
      · exact ih h1
    · rw [List.dropWhile_cons_of_neg hx]
      exact h

/-- A character of a cell that is no whitespace is a character of its token. -/
theorem mem_cellToken (cell : List Char) (c : Char) (hc : c ∈ cell) (hs : isspace c = false) :
    c ∈ (cellToken cell).data := by
  unfold cellToken eraseFlankingSpace
  apply mem_dropWhile_of_not isspace c hs
  rw [List.mem_reverse]
  apply mem_dropWhile_of_not isspace c hs
  rw [List.mem_reverse]
  exact hc

/-- `ParseInput` on the text of a table of valid cells: the file is read as haploid and
the tokens of the cells are stored. -/
theorem ParseInput_table (s : MultiLocusModel) (iDataFileName : String) (C : Nat)
    (rows : List (List (List Char))) (hne : rows ≠ [])
    (hrows : ∀ row ∈ rows, row.length = C + 1 ∧ ∀ cell ∈ row, PlainCell cell)
    (hv : ∀ row ∈ rows, ∀ cell ∈ row, IsValidAllele (cellToken cell) = true)
    (hns : ∀ row ∈ rows, ∀ cell ∈ row, '/' ∉ cell) :
    s.ParseInput (tableText rows) iDataFileName =
      Except.ok ({ s with mPloidy := ploidy_t.kPloidy_Haploid,
                          mHaploData := rows.map (fun row => row.map cellToken) } :
        MultiLocusModel).BackupOriginal.DetermineDimensions := by
  cases rows with
  | nil => exact absurd rfl hne
  | cons row rows2 =>
    obtain ⟨hlen, hplain⟩ := hrows row (List.mem_cons_self _ _)
    have hfl := firstLine_tableText row rows2 hplain
    have hcount : (firstLine (tableText (row :: rows2))).data.count '/' = 0 := by
      rw [hfl, List.count_eq_zero]
      intro hm
      rcases mem_joinTabs row '/' hm with h | ⟨cell, hcell, hcc⟩
      · exact absurd h (by decide)
      · exact hns row (List.mem_cons_self _ _) cell hcell hcc
    have hcols : numColumns (firstLine (tableText (row :: rows2))) = C + 1 := by
      have hrne : row ≠ [] := by
        intro hn
        rw [hn] at hlen
        simp at hlen
      have hsplit : row = row.dropLast ++ [row.getLast hrne] :=
        (List.dropLast_append_getLast hrne).symm
      have hdl : row.dropLast.length = C := by
        rw [List.length_dropLast, hlen]
        rfl
      rw [hfl]
      rw [hsplit] at hplain ⊢
      rw [numColumns_joinTabs _ _ hplain, hdl]
    rw [ParseInput_eq, if_pos hcount, hcols,
      (ParseHaploidInput_table s C (row :: rows2) hne hrows).1 hv]
    rfl

theorem isspace_cases (c : Char) (h : isspace c = true) :
    c = ' ' ∨ c = Char.ofNat 9 ∨ c = Char.ofNat 10 ∨ c = Char.ofNat 11 ∨
      c = Char.ofNat 12 ∨ c = Char.ofNat 13 := by
  unfold isspace at h
  simp only [Bool.or_eq_true, decide_eq_true_eq, Bool.and_eq_true] at h
  rcases h with h | ⟨h1, h2⟩
  · exact Or.inl h
  · right
    have hc : Char.ofNat c.toNat = c := Char.ofNat_toNat c
    have hk : c.toNat = 9 ∨ c.toNat = 10 ∨ c.toNat = 11 ∨ c.toNat = 12 ∨ c.toNat = 13 := by
      omega
    rcases hk with hk | hk | hk | hk | hk <;> rw [hk] at hc <;> simp [← hc]

theorem isspace_of_token (tok : List Char) (h : ValidToken tok) :
    ∀ c ∈ tok, isspace c = false := by
  intro c hc
  have hprop : c = '?' ∨ c = '-' ∨ c.isAlphanum = true := by
    rcases h.2 with h1 | h1 | h1
    · rw [h1] at hc
      exact Or.inl (by simpa using hc)
    · rw [h1] at hc
      exact Or.inr (Or.inl (by simpa using hc))
    · exact Or.inr (Or.inr (List.all_eq_true.1 h1 c hc))
  cases hs : isspace c with
  | false => rfl
  | true =>
    exfalso
    have hcases := isspace_cases c hs
    rcases hcases with e | e | e | e | e | e <;> subst e <;>
      rcases hprop with p | p | p <;> revert p <;> decide

theorem dropWhile_append_stop {α : Type} (p : α → Bool) (x : α) (b : List α)
    (hx : p x = false) :
    ∀ a : List α, (∀ c ∈ a, p c = true) → (a ++ x :: b).dropWhile p = x :: b := by
  intro a
  induction a with
  | nil => intro _; simp [List.dropWhile, hx]
  | cons y a ih =>
    intro h
    rw [List.cons_append, List.dropWhile_cons_of_pos (h y (List.mem_cons_self _ _)),
      ih (fun c hc => h c (List.mem_cons_of_mem _ hc))]

/-- Trimming a padded token gives the token. -/
theorem cellToken_padded (pre tok post : List Char) (hpre : ∀ c ∈ pre, isspace c = true)
    (hpost : ∀ c ∈ post, isspace c = true) (htok : ∀ c ∈ tok, isspace c = false)
    (hne : tok ≠ []) :
    cellToken (pre ++ tok ++ post) = String.mk tok := by
  unfold cellToken eraseFlankingSpace
  congr 1
  simp only [List.reverse_append]
  obtain ⟨x, xs, hx⟩ : ∃ x xs, tok.reverse = x :: xs := by
    cases h : tok.reverse with
    | nil => exact absurd (List.reverse_eq_nil_iff.1 h) hne
    | cons x xs => exact ⟨x, xs, rfl⟩
  have hxs : isspace x = false := htok x (by
    rw [← List.mem_reverse, hx]
    exact List.mem_cons_self _ _)
  rw [hx, List.cons_append,
    dropWhile_append_stop isspace x _ hxs post.reverse
      (fun c hc => hpost c (List.mem_reverse.1 hc)),
    ← List.cons_append, ← hx, List.reverse_append, List.reverse_reverse, List.reverse_reverse]
  cases tok with
  | nil => exact absurd rfl hne
  | cons y ys =>
    exact dropWhile_append_stop isspace y _ (htok y (List.mem_cons_self _ _)) pre hpre

theorem cellToken_text (p : PaddedToken) (h : ValidToken p.token) :
    cellToken p.text = String.mk p.token := by
  unfold PaddedToken.text
  apply cellToken_padded _ _ _ _ _ (isspace_of_token _ h) h.1
  · intro c hc
    rw [(List.mem_replicate.1 hc).2]
    decide
  · intro c hc
    rw [(List.mem_replicate.1 hc).2]
    decide

theorem IsValidAllele_token (tok : List Char) (h : ValidToken tok) :
    IsValidAllele (String.mk tok) = true := by
  unfold IsValidAllele
  rcases h.2 with h1 | h1 | h1
  · rw [h1]
    decide
  · rw [h1]
    decide
  · split
    · rfl
    · exact h1

theorem plainCell_text (p : PaddedToken) (h : ValidToken p.token) : PlainCell p.text := by
  constructor
  · unfold PaddedToken.text
    intro hn
    have := h.1
    simp at hn
    exact this hn.2.1
  · intro c hc
    unfold PaddedToken.text at hc
    have hs : c = ' ' ∨ isspace c = false := by
      rcases List.mem_append.1 hc with h1 | h1
      · rcases List.mem_append.1 h1 with h2 | h2
        · exact Or.inl (List.mem_replicate.1 h2).2
        · exact Or.inr (isspace_of_token _ h c h2)
      · exact Or.inl (List.mem_replicate.1 h1).2
    rcases hs with hs | hs
    · subst hs
      decide
    · refine ⟨?_, ?_, ?_⟩ <;> intro e <;> subst e <;> revert hs <;> decide

/-- The text of a valid cell holds no allele separator. -/
theorem slash_not_mem_text (p : PaddedToken) (h : ValidToken p.token) : '/' ∉ p.text := by
  intro hc
  unfold PaddedToken.text at hc
  rcases List.mem_append.1 hc with h1 | h1
  · rcases List.mem_append.1 h1 with h2 | h2
    · exact absurd (List.mem_replicate.1 h2).2 (by decide)
    · rcases h.2 with e | e | e
      · rw [e] at h2
        exact absurd h2 (by decide)
      · rw [e] at h2
        exact absurd h2 (by decide)
      · rw [List.all_eq_true] at e
        exact absurd (e _ h2) (by decide)
  · exact absurd (List.mem_replicate.1 h1).2 (by decide)

/-- The table that a parsed haploid file shows through the accessors. -/
theorem parsed_haploid_accessors (s : MultiLocusModel) (theData : MATRIX tAllele) :
    (({ s with mPloidy := ploidy_t.kPloidy_Haploid, mHaploData := theData } :
        MultiLocusModel).BackupOriginal.DetermineDimensions).GetNumRows = theData.length ∧
    (({ s with mPloidy := ploidy_t.kPloidy_Haploid, mHaploData := theData } :
        MultiLocusModel).BackupOriginal.DetermineDimensions).GetNumCols =
      (theData.getD 0 []).length ∧
    ∀ i j, (({ s with mPloidy := ploidy_t.kPloidy_Haploid, mHaploData := theData } :
        MultiLocusModel).BackupOriginal.DetermineDimensions).GetDataString i j =
      cellAt theData i j := by
  refine ⟨?_, ?_, fun i j => ?_⟩ <;>
    simp [BackupOriginal, DetermineDimensions, GetNumRows, GetNumCols, GetDataString, GetPloidy]

theorem cellAt_map_map {X Y : Type} [Inhabited X] [Inhabited Y] (f : X → Y)
    (m : MATRIX X) (i j : Nat) (hi : i < m.length) (hj : j < (m.getD i []).length) :
    cellAt (m.map (fun row => row.map f)) i j = f (cellAt m i j) := by
  unfold cellAt
  have h1 : (m.map (fun row => row.map f)).getD i [] = (m.getD i []).map f := by
    rw [List.getD_eq_getElem _ _ (by simpa using hi), List.getD_eq_getElem _ _ hi]
    simp
  rw [h1, List.getD_eq_getElem _ _ (by simpa using hj), List.getD_eq_getElem _ _ hj]
  simp

/-- C17: a haploid table of `R ≥ 1` rows and `C ≥ 1` columns whose cells are non-empty
valid allele tokens (alphanumeric strings or a missing symbol) padded with spaces, written
with tab separators and lines ended by a line feed, is parsed by `ParseInput`, and the
parsed data has `R` rows, `C` columns, and at every cell the token without its flanking
whitespace, which is the token that was padded. -/
theorem C17_haploid_table_parses (s : MultiLocusModel) (iDataFileName : String) (R C : Nat)
    (table : List (List PaddedToken)) (hR : 1 ≤ R) (hC : 1 ≤ C) (hrows : table.length = R)
    (hcols : ∀ row ∈ table, row.length = C)
    (hvalid : ∀ row ∈ table, ∀ p ∈ row, ValidToken p.token) :
    ∃ m, s.ParseInput (tableText (table.map (fun row => row.map PaddedToken.text)))
        iDataFileName = Except.ok m ∧
      m.GetNumRows = R ∧ m.GetNumCols = C ∧
      ∀ i j, i < R → j < C →
        m.GetDataString i j = eraseFlankingSpace (String.mk (cellAt table i j).text) ∧
        m.GetDataString i j = String.mk (cellAt table i j).token := by
  obtain ⟨C1, rfl⟩ : ∃ C1, C = C1 + 1 := ⟨C - 1, by omega⟩
  have hne : table.map (fun row => row.map PaddedToken.text) ≠ [] := by
    intro h
    rw [List.map_eq_nil_iff] at h
    rw [h] at hrows
    simp at hrows
    omega
  have hplain : ∀ row ∈ table.map (fun row => row.map PaddedToken.text),
      row.length = C1 + 1 ∧ ∀ cell ∈ row, PlainCell cell := by
    intro row hrow
    obtain ⟨r, hr, rfl⟩ := List.mem_map.1 hrow
    refine ⟨by simpa using hcols r hr, fun cell hcell => ?_⟩
    obtain ⟨p, hp, rfl⟩ := List.mem_map.1 hcell
    exact plainCell_text p (hvalid r hr p hp)
  have hv : ∀ row ∈ table.map (fun row => row.map PaddedToken.text),
      ∀ cell ∈ row, IsValidAllele (cellToken cell) = true := by
    intro row hrow cell hcell
    obtain ⟨r, hr, rfl⟩ := List.mem_map.1 hrow
    obtain ⟨p, hp, rfl⟩ := List.mem_map.1 hcell
    rw [cellToken_text p (hvalid r hr p hp)]
    exact IsValidAllele_token _ (hvalid r hr p hp)
  obtain ⟨a1, a2, a3⟩ := parsed_haploid_accessors s
    ((table.map (fun row => row.map PaddedToken.text)).map (fun row => row.map cellToken))
  have hns : ∀ row ∈ table.map (fun row => row.map PaddedToken.text),
      ∀ cell ∈ row, '/' ∉ cell := by
    intro row hrow cell hcell
    obtain ⟨r, hr, rfl⟩ := List.mem_map.1 hrow
    obtain ⟨p, hp, rfl⟩ := List.mem_map.1 hcell
    exact slash_not_mem_text p (hvalid r hr p hp)
  refine ⟨_, ParseInput_table s iDataFileName C1 _ hne hplain hv hns, ?_, ?_, ?_⟩
  · rw [a1]
    simpa using hrows
  · rw [a2]
    cases table with
    | nil => simp at hne
    | cons r rs => simpa using hcols r (List.mem_cons_self _ _)
  · intro i j hi hj
    have hi2 : i < table.length := by omega
    have hrow : table.getD i [] ∈ table := by
      rw [List.getD_eq_getElem _ _ hi2]
      exact List.getElem_mem _
    have hj2 : j < (table.getD i []).length := by
      rw [hcols _ hrow]
      exact hj
    have hcell : cellAt table i j ∈ table.getD i [] := by
      unfold cellAt
      rw [List.getD_eq_getElem _ _ hj2]
      exact List.getElem_mem _
    have htok := cellToken_text _ (hvalid _ hrow _ hcell)
    have hget : cellAt ((table.map (fun row => row.map PaddedToken.text)).map
        (fun row => row.map cellToken)) i j = cellToken (cellAt table i j).text := by
      rw [List.map_map]
      have := cellAt_map_map (fun p : PaddedToken => cellToken p.text) table i j hi2 hj2
      refine Eq.trans ?_ this
      congr 1
      apply List.map_congr_left
      intro r _
      simp
    rw [a3]
    exact ⟨hget, hget.trans htok⟩

/-- The 3 x 4 example table is parsed, with 3 rows, 4 columns and the trimmed tokens. -/
theorem C17_haploid_table_parses_witness :
    ∃ m, ({} : MultiLocusModel).ParseInput
        (tableText (exampleTable.map (fun row => row.map PaddedToken.text)))
        "example.txt" = Except.ok m ∧
      m.GetNumRows = 3 ∧ m.GetNumCols = 4 ∧
      ∀ i j, i < 3 → j < 4 →
        m.GetDataString i j =
          eraseFlankingSpace (String.mk (cellAt exampleTable i j).text) ∧
        m.GetDataString i j = String.mk (cellAt exampleTable i j).token :=
  C17_haploid_table_parses {} "example.txt" 3 4 exampleTable (by decide) (by decide)
    (by decide) (by decide) (by decide)

theorem IsValidAllele_iff (t : String) :
    IsValidAllele t = true ↔
      (c_str t = "?" ∨ c_str t = "-" ∨ ∀ c ∈ t.data, c.isAlphanum = true) := by
  have hm := IsMissing_iff t
  unfold kSymbol_Unknown kSymbol_Gap at hm
  unfold IsValidAllele
  by_cases h : IsMissing t = true
  · rw [if_pos h]
    rcases hm.1 h with e | e
    · simp [e]
    · simp [e]
  · rw [if_neg h, List.all_eq_true]
    constructor
    · intro hx
      exact Or.inr (Or.inr hx)
    · rintro (e | e | e)
      · exact absurd (hm.2 (Or.inl e)) h
      · exact absurd (hm.2 (Or.inr e)) h
      · exact e

/-- On a token without a NUL character `IsValidAllele` returns true exactly when the token
is "?" or "-" or all its characters are alphanumeric. -/
theorem IsValidAllele_of_no_nul (t : String) (h : Char.ofNat 0 ∉ t.data) :
    IsValidAllele t = true ↔ (t = "?" ∨ t = "-" ∨ ∀ c ∈ t.data, c.isAlphanum = true) := by
  rw [IsValidAllele_iff, c_str_of_no_nul t h]

/-- C19: `IsValidAllele` returns true exactly on the tokens that test as a missing symbol
and on the tokens whose characters are all alphanumeric, the empty token among them;
"A-1", "a b" and "?x" are rejected; and a cell with a rejected token, anywhere in a table
that `ParseHaploidInput` reads, makes it raise the ParseError "illegal allele". The test
of a missing symbol reads the token as a C string, up to its first NUL character: the
token of the three characters '?', NUL, 'A' is neither "?" nor "-" and is not
alphanumeric, yet `IsValidAllele` returns true on it and `ParseInput` stores it as an
allele. -/
theorem C19_IsValidAllele :
    (∀ t : String, IsValidAllele t = true ↔
      (c_str t = "?" ∨ c_str t = "-" ∨ ∀ c ∈ t.data, c.isAlphanum = true)) ∧
    IsValidAllele "" = true ∧ IsValidAllele "?" = true ∧ IsValidAllele "-" = true ∧
    IsValidAllele "A-1" = false ∧ IsValidAllele "a b" = false ∧
    IsValidAllele "?x" = false ∧
    ("?\x00A" ≠ "?" ∧ "?\x00A" ≠ "-" ∧
      "?\x00A".data.all (fun c => c.isAlphanum) = false ∧ c_str "?\x00A" = "?" ∧
      IsValidAllele "?\x00A" = true ∧ IsValidAllele "-\x00/ " = true) ∧
    (({} : MultiLocusModel).ParseInput "?\x00A\tB\n".data "f").toOption.map
        (fun m => (m.GetNumRows, m.GetNumCols, m.GetDataString 0 0, m.GetDataString 0 1)) =
      some (1, 2, "?\x00A", "B") ∧
    (∀ (s : MultiLocusModel) (C : Nat) (rows : List (List (List Char))), rows ≠ [] →
      (∀ row ∈ rows, row.length = C + 1 ∧ ∀ cell ∈ row, PlainCell cell) →
      (∃ row ∈ rows, ∃ cell ∈ row, IsValidAllele (cellToken cell) = false) →
      ∃ e, s.ParseHaploidInput { mSrc := tableText rows } (C + 1) =
          Except.error (ParseStop.thrown e) ∧ e.mDesc = "illegal allele") :=
  ⟨IsValidAllele_iff, by decide, by decide, by decide, by decide, by decide, by decide,
    by decide, by decide,
    fun s C rows hne hrows hex => (ParseHaploidInput_table s C rows hne hrows).2 hex⟩

/-- A table with the token "?x" in its second row makes `ParseHaploidInput` raise
"illegal allele". -/
theorem C19_IsValidAllele_witness :
    ∃ e, ({} : MultiLocusModel).ParseHaploidInput
        { mSrc := tableText [["A".data, "B".data], ["?x".data, "C".data]] } (1 + 1) =
        Except.error (ParseStop.thrown e) ∧ e.mDesc = "illegal allele" :=
  C19_IsValidAllele.2.2.2.2.2.2.2.2.2 {} 1 [["A".data, "B".data], ["?x".data, "C".data]]
    (by decide) (by decide) (by decide)

/-- C20: the line number of the ParseError "illegal allele". On a file with lines ended
by a line feed, an illegal allele in row 1 is reported at line 0 unless it stands in the
last column, by the haploid and by the diploid parser, while in rows 2 and 3 and in the
last column of row 1 the number of the row is reported; on a file whose last line has no
line terminator, an illegal allele in the last column of the last row is reported at the
line before (row 2 at line 1, and row 1 at the unsigned value of `0 - 1`). -/
theorem C20_illegal_allele_line_numbers :
    ({} : MultiLocusModel).ParseInput "A-1\tB\n".data "f" =
      Except.error (ParseStop.thrown { mDesc := "illegal allele", mLineNum := some 0 }) ∧
    ({} : MultiLocusModel).ParseInput "A-1/B\tC/D\n".data "f" =
      Except.error (ParseStop.thrown { mDesc := "illegal allele", mLineNum := some 0 }) ∧
    ({} : MultiLocusModel).ParseInput "A\tB-1\n".data "f" =
      Except.error (ParseStop.thrown { mDesc := "illegal allele", mLineNum := some 1 }) ∧
    ({} : MultiLocusModel).ParseInput "A\tB\nA-1\tB\n".data "f" =
      Except.error (ParseStop.thrown { mDesc := "illegal allele", mLineNum := some 2 }) ∧
    ({} : MultiLocusModel).ParseInput "A\tB\nA\tB\nA\tB-1\n".data "f" =
      Except.error (ParseStop.thrown { mDesc := "illegal allele", mLineNum := some 3 }) ∧
    ({} : MultiLocusModel).ParseInput "A\tB\nA\tB-1".data "f" =
      Except.error (ParseStop.thrown { mDesc := "illegal allele", mLineNum := some 1 }) ∧
    ({} : MultiLocusModel).ParseInput "A\tB-1".data "f" =
      Except.error (ParseStop.thrown
        { mDesc := "illegal allele", mLineNum := some 4294967295 }) :=
  ⟨rfl, rfl, rfl, rfl, rfl, rfl, rfl⟩

theorem readToken_some (iDelimiters : List Char) :
    ∀ (l tok : List Char) (c : Char),
      StreamScanner.readToken iDelimiters l = (tok, some c) →
      ∃ rest, l = tok ++ c :: rest ∧ c ∈ iDelimiters := by
  intro l
  induction l with
  | nil =>
    intro tok c h
    simp [StreamScanner.readToken] at h
  | cons x l ih =>
    intro tok c h
    unfold StreamScanner.readToken at h
    by_cases hx : x ∈ iDelimiters
    · rw [if_pos hx] at h
      injection h with h1 h2
      injection h2 with h3
      subst h1
      subst h3
      exact ⟨l, rfl, hx⟩
    · rw [if_neg hx] at h
      injection h with h1 h2
      obtain ⟨rest, e1, e2⟩ := ih (StreamScanner.readToken iDelimiters l).1 c
        (Prod.ext rfl h2)
      refine ⟨rest, ?_, e2⟩
      rw [← h1, List.cons_append, ← e1]

/-- After `ReadUntil`, the next character read is the delimiter found. -/
theorem ReadUntil_ReadChar (sc sc1 : StreamScanner) (iCharSet : List Char) (tok : String)
    (d : Char) (h : sc.ReadUntil iCharSet = some ((tok, d), sc1)) :
    sc1.ReadChar.1 = some d ∧ d ∈ iCharSet := by
  unfold StreamScanner.ReadUntil at h
  by_cases hg : sc.mGood = true
  · rw [if_pos hg] at h
    cases hr : StreamScanner.readToken iCharSet (sc.mSrc.drop sc.mPosn) with
    | mk t o =>
      rw [hr] at h
      cases o with
      | none => simp at h
      | some c =>
        simp only [Option.some.injEq, Prod.mk.injEq] at h
        obtain ⟨⟨_, hd⟩, hsc⟩ := h
        subst hd
        subst hsc
        obtain ⟨rest, e1, e2⟩ := readToken_some iCharSet _ t c hr
        have hdrop := drop_add_of_append _ _ _ _ e1
        rw [ReadChar_cons { sc with mPosn := sc.mPosn + t.length } c rest hg hdrop]
        exact ⟨rfl, e2⟩
  · rw [if_neg hg] at h
    simp at h

theorem diploidFirstAllele_noDelimiterError (sc : StreamScanner) :
    NoDelimiterError (diploidFirstAllele sc) := by
  intro e h
  unfold diploidFirstAllele at h
  split at h
  · simp at h
  · split at h
    · injection h with h1
      injection h1 with h2
      rw [← h2]
      simp only [ne_eq]
      decide
    · split at h
      · injection h with h1
        injection h1 with h2
        rw [← h2]
        simp only [ne_eq]
        decide
      · simp at h

theorem diploidCells_noDelimiterError :
    ∀ (n : Nat) (sc : StreamScanner) (acc : List tAllelePair),
      NoDelimiterError (diploidCells n sc acc) := by
  intro n
  induction n with
  | zero =>
    intro sc acc e h
    simp [diploidCells] at h
  | succ n ih =>
    intro sc acc e h
    unfold diploidCells at h
    split at h
    · rename_i e1 he1
      injection h with h1
      subst h1
      exact diploidFirstAllele_noDelimiterError sc e he1
    · split at h
      · simp at h
      · rename_i tok d sc2 hru
        split at h
        · injection h with h1
          injection h1 with h2
          rw [← h2]
          simp only [ne_eq]
          decide
        · have hrc := (ReadUntil_ReadChar _ _ _ _ _ hru).1
          have hd := (ReadUntil_ReadChar _ _ _ _ _ hru).2
          have hd2 : d = '\t' := by simpa using hd
          rw [hrc, hd2] at h
          simp only [Option.getD_some, ne_eq, not_true_eq_false, if_false] at h
          exact ih _ _ e h

theorem diploidRow_noDelimiterError (iNumCols : Nat) (sc : StreamScanner) :
    NoDelimiterError (diploidRow iNumCols sc) := by
  intro e h
  unfold diploidRow at h
  split at h
  · simp at h
  · split at h
    · rename_i e1 he1
      injection h with h1
      subst h1
      exact diploidCells_noDelimiterError _ _ _ e he1
    · split at h
      · rename_i e1 he1
        injection h with h1
        subst h1
        exact diploidFirstAllele_noDelimiterError _ e he1
      · split at h
        · simp at h
        · split at h
          · injection h with h1
            injection h1 with h2
            rw [← h2]
            simp only [ne_eq]
            decide
          · simp at h

theorem diploidRows_noDelimiterError :
    ∀ (fuel iNumCols : Nat) (sc : StreamScanner) (acc : MATRIX tAllelePair),
      NoDelimiterError (diploidRows fuel iNumCols sc acc) := by
  intro fuel
  induction fuel with
  | zero =>
    intro iNumCols sc acc e h
    simp [diploidRows] at h
  | succ f ih =>
    intro iNumCols sc acc e h
    unfold diploidRows at h
    split at h
    · split at h
      · rename_i e1 he1
        injection h with h1
        subst h1
        exact diploidRow_noDelimiterError _ _ e he1
      · simp at h
      · exact ih _ _ _ e h
    · simp at h

theorem ParseDiploidInput_noDelimiterError (s : MultiLocusModel) (sc : StreamScanner)
    (iNumCols : Nat) : NoDelimiterError (s.ParseDiploidInput sc iNumCols) := by
  intro e h
  unfold ParseDiploidInput at h
  split at h
  · rename_i e1 he1
    injection h with h1
    subst h1
    exact diploidRows_noDelimiterError _ _ _ _ e he1
  · simp at h

theorem ParseHaploidInput_ploidy (s t : MultiLocusModel) (sc : StreamScanner)
    (iNumCols : Nat) (h : s.ParseHaploidInput sc iNumCols = Except.ok t) :
    t.mPloidy = ploidy_t.kPloidy_Haploid := by
  unfold ParseHaploidInput at h
  split at h
  · simp at h
  · injection h with h1
    rw [← h1]

theorem ParseDiploidInput_ploidy (s t : MultiLocusModel) (sc : StreamScanner)
    (iNumCols : Nat) (h : s.ParseDiploidInput sc iNumCols = Except.ok t) :
    t.mPloidy = ploidy_t.kPloidy_Diploid := by
  unfold ParseDiploidInput at h
  split at h
  · simp at h
  · injection h with h1
    rw [← h1]

theorem GetPloidy_dimensions (t : MultiLocusModel) :
    t.BackupOriginal.DetermineDimensions.GetPloidy = t.mPloidy := by
  unfold BackupOriginal GetPloidy DetermineDimensions
  cases h : t.mPloidy <;> simp [h]

/-- The dispatch of `ParseInput` on the first line of the file, the columns counted as
`ParseInput` counts them. -/
theorem ParseInput_dispatch (s : MultiLocusModel) (ioInputFile : List Char)
    (iDataFileName : String) :
    firstLineOf ioInputFile = some (firstLine ioInputFile, { mSrc := ioInputFile }) ∧
    ((firstLine ioInputFile).data.count '/' = 0 →
      s.ParseInput ioInputFile iDataFileName =
        (s.ParseHaploidInput { mSrc := ioInputFile } (numColumns (firstLine ioInputFile))).map
          (fun t => t.BackupOriginal.DetermineDimensions)) ∧
    (∀ m, s.ParseInput ioInputFile iDataFileName = Except.ok m →
      (m.GetPloidy = ploidy_t.kPloidy_Haploid ↔
        (firstLine ioInputFile).data.count '/' = 0)) ∧
    ((firstLine ioInputFile).data.count '/' ≠ 0 →
      ((∃ e, s.ParseInput ioInputFile iDataFileName = Except.error (ParseStop.thrown e) ∧
          e.mDesc = "missing column delimiter") ↔
        (firstLine ioInputFile).data.count '/' ≠ numColumns (firstLine ioInputFile))) ∧
    ((firstLine ioInputFile).data.count '/' ≠ 0 →
      (firstLine ioInputFile).data.count '/' ≠ numColumns (firstLine ioInputFile) →
      s.ParseInput ioInputFile iDataFileName =
        Except.error (ParseStop.thrown
          { mDesc := "missing column delimiter", mSource := iDataFileName })) ∧
    ((firstLine ioInputFile).data.count '/' ≠ 0 →
      (firstLine ioInputFile).data.count '/' = numColumns (firstLine ioInputFile) →
      s.ParseInput ioInputFile iDataFileName =
        (s.ParseDiploidInput { mSrc := ioInputFile } (numColumns (firstLine ioInputFile))).map
          (fun t => t.BackupOriginal.DetermineDimensions)) := by
  have heq := ParseInput_eq s ioInputFile iDataFileName
  refine ⟨firstLineOf_eq ioInputFile, ?_, ?_, ?_, ?_, ?_⟩
  · intro h0
    rw [heq, if_pos h0]
  · intro m hm
    rw [heq] at hm
    by_cases h0 : (firstLine ioInputFile).data.count '/' = 0
    · rw [if_pos h0] at hm
      cases hp : s.ParseHaploidInput { mSrc := ioInputFile }
          (numColumns (firstLine ioInputFile)) with
      | error e =>
        rw [hp] at hm
        simp [Except.map] at hm
      | ok t =>
        rw [hp] at hm
        simp only [Except.map, Except.ok.injEq] at hm
        rw [← hm, GetPloidy_dimensions, ParseHaploidInput_ploidy s t _ _ hp]
        simp [h0]
    · rw [if_neg h0] at hm
      split at hm
      · simp at hm
      · cases hp : s.ParseDiploidInput { mSrc := ioInputFile }
            (numColumns (firstLine ioInputFile)) with
        | error e =>
          rw [hp] at hm
          simp [Except.map] at hm
        | ok t =>
          rw [hp] at hm
          simp only [Except.map, Except.ok.injEq] at hm
          rw [← hm, GetPloidy_dimensions, ParseDiploidInput_ploidy s t _ _ hp]
          simp [h0]
  · intro h0
    rw [heq, if_neg h0]
    constructor
    · rintro ⟨e, he, hd⟩
      by_contra hcon
      rw [if_neg (not_not.2 hcon)] at he
      cases hp : s.ParseDiploidInput { mSrc := ioInputFile }
          (numColumns (firstLine ioInputFile)) with
      | error e1 =>
        rw [hp] at he
        simp only [Except.map, Except.error.injEq] at he
        rw [he] at hp
        exact ParseDiploidInput_noDelimiterError s _ _ e hp hd
      | ok t =>
        rw [hp] at he
        simp [Except.map] at he
    · intro hne
      rw [if_pos hne]
      exact ⟨_, rfl, rfl⟩
  · intro h0 hne
    rw [heq, if_neg h0, if_pos hne]
  · intro h0 he
    rw [heq, if_neg h0, if_neg (not_not.2 he)]

theorem IsRowMissingAt_iff (s : MultiLocusModel) (i : Nat) :
    s.IsRowMissingAt i = true ↔ ∃ j, j < s.GetNumCols ∧ s.IsMissingAt i j = true := by
  unfold IsRowMissingAt
  rw [List.any_eq_true]
  constructor
  · rintro ⟨j, hj, h⟩
    exact ⟨j, List.mem_range.1 hj, h⟩
  · rintro ⟨j, hj, h⟩
    exact ⟨j, List.mem_range.2 hj, h⟩

theorem IsColMissingAt_iff (s : MultiLocusModel) (j : Nat) :
    s.IsColMissingAt j = true ↔ ∃ i, i < s.GetNumRows ∧ s.IsMissingAt i j = true := by
  unfold IsColMissingAt
  rw [List.any_eq_true]
  constructor
  · rintro ⟨i, hi, h⟩
    exact ⟨i, List.mem_range.1 hi, h⟩
  · rintro ⟨i, hi, h⟩
    exact ⟨i, List.mem_range.2 hi, h⟩

theorem IsRowMissing_iff (s : MultiLocusModel) :
    s.IsRowMissing = true ↔
      ∀ i, i < s.GetNumRows → ∃ j, j < s.GetNumCols ∧ s.IsMissingAt i j = true := by
  unfold IsRowMissing
  rw [List.all_eq_true]
  constructor
  · intro h i hi
    exact (IsRowMissingAt_iff s i).1 (h i (List.mem_range.2 hi))
  · intro h i hi
    exact (IsRowMissingAt_iff s i).2 (h i (List.mem_range.1 hi))

theorem IsColMissing_iff (s : MultiLocusModel) :
    s.IsColMissing = true ↔
      ∀ j, j < s.GetNumCols → ∃ i, i < s.GetNumRows ∧ s.IsMissingAt i j = true := by
  unfold IsColMissing
  rw [List.all_eq_true]
  constructor
  · intro h j hj
    exact (IsColMissingAt_iff s j).1 (h j (List.mem_range.2 hj))
  · intro h j hj
    exact (IsColMissingAt_iff s j).2 (h j (List.mem_range.1 hj))

theorem ExcludeMissingIso_false_iff (s : MultiLocusModel) :
    s.ExcludeMissingIso.1 = false ↔ s.IsRowMissing = true := by
  unfold ExcludeMissingIso
  split <;> simp_all

theorem ExcludeMissingLoci_false_iff (s : MultiLocusModel) :
    s.ExcludeMissingLoci.1 = false ↔ s.IsColMissing = true := by
  unfold ExcludeMissingLoci
  split <;> simp_all

/-- C23: `ExcludeMissingIso` returns false exactly when every row of the working matrix
holds a missing cell, `ExcludeMissingLoci` returns false exactly when every column does,
and a call that returns false leaves the whole model (the working matrix, the partitions,
the pair counts and the exclusion flags among the rest) as it was. -/
theorem C23_exclusion_rejected (s : MultiLocusModel) :
    (s.ExcludeMissingIso.1 = false ↔
      ∀ i, i < s.GetNumRows → ∃ j, j < s.GetNumCols ∧ s.IsMissingAt i j = true) ∧
    (s.ExcludeMissingLoci.1 = false ↔
      ∀ j, j < s.GetNumCols → ∃ i, i < s.GetNumRows ∧ s.IsMissingAt i j = true) ∧
    (s.ExcludeMissingIso.1 = false → s.ExcludeMissingIso.2 = s) ∧
    (s.ExcludeMissingLoci.1 = false → s.ExcludeMissingLoci.2 = s) := by
  refine ⟨(ExcludeMissingIso_false_iff s).trans (IsRowMissing_iff s),
    (ExcludeMissingLoci_false_iff s).trans (IsColMissing_iff s), ?_, ?_⟩
  · intro h
    have := (ExcludeMissingIso_false_iff s).1 h
    unfold ExcludeMissingIso
    rw [if_pos this]
  · intro h
    have := (ExcludeMissingLoci_false_iff s).1 h
    unfold ExcludeMissingLoci
    rw [if_pos this]

/-- On the table with a missing cell in every row and column both exclusions are
rejected and leave the model as it was. -/
theorem C23_exclusion_rejected_witness :
    allMissingModel.ExcludeMissingIso.1 = false ∧
    allMissingModel.ExcludeMissingLoci.1 = false ∧
    allMissingModel.ExcludeMissingIso.2 = allMissingModel ∧
    allMissingModel.ExcludeMissingLoci.2 = allMissingModel :=
  ⟨by decide, by decide,
    (C23_exclusion_rejected allMissingModel).2.2.1 (by decide),
    (C23_exclusion_rejected allMissingModel).2.2.2 (by decide)⟩

/-! ### Deleting rows and columns from the last to the first -/
theorem keepCols_congr {X : Type} :
    ∀ (row : List X) (keep keep2 : Nat → Bool),
      (∀ j, j < row.length → keep j = keep2 j) → keepCols keep row = keepCols keep2 row := by
  intro row
  induction row with
  | nil => intro _ _ _; rfl
  | cons x xs ih =>
    intro keep keep2 h
    have h0 : keep 0 = keep2 0 := h 0 (by simp)
    have ht := ih (fun j => keep (j + 1)) (fun j => keep2 (j + 1))
      (fun j hj => h (j + 1) (by simpa using hj))
    simp only [keepCols, h0, ht]

theorem keepCols_true {X : Type} : ∀ (row : List X), keepCols (fun _ => true) row = row := by
  intro row
  induction row with
  | nil => rfl
  | cons x xs ih => simp only [keepCols, if_true, ih]

theorem keepCols_eq_filter {X : Type} (p : X → Bool) (d : X) :
    ∀ (l : List X), keepCols (fun i => !p (l.getD i d)) l = l.filter (fun x => !p x) := by
  intro l
  induction l with
  | nil => rfl
  | cons x xs ih =>
    have ht : keepCols (fun j => !p ((x :: xs).getD (j + 1) d)) xs =
        xs.filter (fun x => !p x) := by
      rw [← ih]
      apply keepCols_congr
      intro j _
      simp
    simp only [keepCols, ht, List.getD_cons_zero, List.filter_cons]

theorem foldr_eraseIdx_map_succ {X : Type} (x : X) (xs : List X) :
    ∀ (D : List Nat),
      (D.map Nat.succ).foldr (fun i r => r.eraseIdx i) (x :: xs) =
        x :: D.foldr (fun i r => r.eraseIdx i) xs := by
  intro D
  induction D with
  | nil => rfl
  | cons d D ih =>
    rw [List.map_cons, List.foldr_cons, ih, List.foldr_cons]
    rfl

theorem foldr_eraseIdx_nil {X : Type} :
    ∀ (D : List Nat), D.foldr (fun i r => r.eraseIdx i) ([] : List X) = [] := by
  intro D
  induction D with
  | nil => rfl
  | cons d D ih => rw [List.foldr_cons, ih]; rfl

/-- Erasing the marked places among the first `n`, from the last to the first, keeps the
other cells in order. -/
theorem eraseIdx_desc {X : Type} :
    ∀ (row : List X) (n : Nat) (dead : Nat → Bool),
      ((List.range n).filter dead).reverse.foldl (fun r i => r.eraseIdx i) row =
        keepCols (fun j => !(decide (j < n) && dead j)) row := by
  intro row
  induction row with
  | nil =>
    intro n dead
    rw [List.foldl_reverse, foldr_eraseIdx_nil]
    rfl
  | cons x xs ih =>
    intro n dead
    rw [List.foldl_reverse]
    cases n with
    | zero =>
      simp only [List.range_zero, List.filter_nil, List.foldr_nil]
      rw [keepCols_congr (x :: xs) _ (fun _ => true) (by intro j _; simp), keepCols_true]
    | succ m =>
      have ih2 := ih m (fun j => dead (j + 1))
      rw [List.foldl_reverse] at ih2
      have htail : keepCols (fun j => !(decide (j + 1 < m + 1) && dead (j + 1))) xs =
          keepCols (fun j => !(decide (j < m) && dead (j + 1))) xs := by
        apply keepCols_congr
        intro j _
        simp
      rw [List.range_succ_eq_map, List.filter_cons, List.filter_map]
      have hcomp : (dead ∘ Nat.succ) = fun j => dead (j + 1) := rfl
      rw [hcomp]
      simp only [keepCols, htail, ← ih2]
      cases h0 : dead 0 with
      | true =>
        simp only [if_true, List.foldr_cons, foldr_eraseIdx_map_succ]
        simp
      | false =>
        simp only [Bool.false_eq_true, if_false, foldr_eraseIdx_map_succ]
        simp

theorem any_range_getD {X : Type} (p : X → Bool) (d : X) (l : List X) :
    (List.range l.length).any (fun j => p (l.getD j d)) = l.any p := by
  rw [Bool.eq_iff_iff, List.any_eq_true, List.any_eq_true]
  constructor
  · rintro ⟨j, hj, h⟩
    have hj2 := List.mem_range.1 hj
    rw [List.getD_eq_getElem _ _ hj2] at h
    exact ⟨_, List.getElem_mem hj2, h⟩
  · rintro ⟨x, hx, h⟩
    obtain ⟨j, hj, rfl⟩ := List.getElem_of_mem hx
    refine ⟨j, List.mem_range.2 hj, ?_⟩
    rw [List.getD_eq_getElem _ _ hj]
    exact h

theorem foldl_map_eraseIdx {X : Type} :
    ∀ (D : List Nat) (m : MATRIX X),
      D.foldl (fun t i => t.map (fun row => row.eraseIdx i)) m =
        m.map (fun row => D.foldl (fun r i => r.eraseIdx i) row) := by
  intro D
  induction D with
  | nil => intro m; simp
  | cons d D ih =>
    intro m
    rw [List.foldl_cons, ih, List.map_map]
    rfl

theorem foldl_DeleteRow_haploid :
    ∀ (D : List Nat) (s : MultiLocusModel), s.mPloidy = ploidy_t.kPloidy_Haploid →
      D.foldl (fun t i => t.DeleteRow i) s =
        { s with mHaploData := D.foldl (fun m i => m.eraseIdx i) s.mHaploData } := by
  intro D
  induction D with
  | nil => intro s _; rfl
  | cons d D ih =>
    intro s hs
    have h1 : s.DeleteRow d = { s with mHaploData := s.mHaploData.eraseIdx d } := by
      simp [DeleteRow, GetPloidy, hs]
    rw [List.foldl_cons, h1]
    exact ih _ hs

theorem foldl_DeleteRow_diploid :
    ∀ (D : List Nat) (s : MultiLocusModel), s.mPloidy ≠ ploidy_t.kPloidy_Haploid →
      D.foldl (fun t i => t.DeleteRow i) s =
        { s with mDiploData := D.foldl (fun m i => m.eraseIdx i) s.mDiploData } := by
  intro D
  induction D with
  | nil => intro s _; rfl
  | cons d D ih =>
    intro s hs
    have h1 : s.DeleteRow d = { s with mDiploData := s.mDiploData.eraseIdx d } := by
      simp [DeleteRow, GetPloidy, hs]
    rw [List.foldl_cons, h1]
    exact ih _ hs

theorem foldl_DeleteCol_haploid :
    ∀ (D : List Nat) (s : MultiLocusModel), s.mPloidy = ploidy_t.kPloidy_Haploid →
      D.foldl (fun t i => t.DeleteCol i) s =
        { s with mHaploData :=
            D.foldl (fun t i => t.map (fun row => row.eraseIdx i)) s.mHaploData } := by
  intro D
  induction D with
  | nil => intro s _; rfl
  | cons d D ih =>
    intro s hs
    have h1 : s.DeleteCol d =
        { s with mHaploData := s.mHaploData.map (fun row => row.eraseIdx d) } := by
      simp [DeleteCol, GetPloidy, hs]
    rw [List.foldl_cons, h1]
    exact ih _ hs

theorem foldl_DeleteCol_diploid :
    ∀ (D : List Nat) (s : MultiLocusModel), s.mPloidy ≠ ploidy_t.kPloidy_Haploid →
      D.foldl (fun t i => t.DeleteCol i) s =
        { s with mDiploData :=
            D.foldl (fun t i => t.map (fun row => row.eraseIdx i)) s.mDiploData } := by
  intro D
  induction D with
  | nil => intro s _; rfl
  | cons d D ih =>
    intro s hs
    have h1 : s.DeleteCol d =
        { s with mDiploData := s.mDiploData.map (fun row => row.eraseIdx d) } := by
      simp [DeleteCol, GetPloidy, hs]
    rw [List.foldl_cons, h1]
    exact ih _ hs

theorem Rect_row_length {X : Type} (m : MATRIX X) (R C : Nat) (h : Rect m R C)
    (row : List X) (hrow : row ∈ m) : row.length = C := by
  obtain ⟨i, hi, rfl⟩ := List.getElem_of_mem hrow
  have := h.2 i (by rw [← h.1]; exact hi)
  rw [List.getD_eq_getElem _ _ hi] at this
  exact this

/-- In the matrix of the rows without a missing cell, no cell is missing. -/
theorem filter_no_missing {X : Type} [Inhabited X] (miss : X → Bool) (m : MATRIX X)
    (R C : Nat) (h : Rect m R C) (i j : Nat)
    (hi : i < (m.filter (fun row => !row.any miss)).length)
    (hj : j < ((m.filter (fun row => !row.any miss)).getD 0 []).length) :
    miss (cellAt (m.filter (fun row => !row.any miss)) i j) = false := by
  have h0 : 0 < (m.filter (fun row => !row.any miss)).length := by omega
  have hrow0 : (m.filter (fun row => !row.any miss)).getD 0 [] ∈
      m.filter (fun row => !row.any miss) := by
    rw [List.getD_eq_getElem _ _ h0]
    exact List.getElem_mem _
  have hrowi : (m.filter (fun row => !row.any miss)).getD i [] ∈
      m.filter (fun row => !row.any miss) := by
    rw [List.getD_eq_getElem _ _ hi]
    exact List.getElem_mem _
  have hl0 := Rect_row_length m R C h _ (List.mem_filter.1 hrow0).1
  have hli := Rect_row_length m R C h _ (List.mem_filter.1 hrowi).1
  have hany := (List.mem_filter.1 hrowi).2
  have hj2 : j < ((m.filter (fun row => !row.any miss)).getD i []).length := by
    rw [hli, ← hl0]
    exact hj
  unfold cellAt
  rw [List.getD_eq_getElem _ _ hj2]
  cases hm : miss (((m.filter (fun row => !row.any miss)).getD i [])[j]) with
  | false => rfl
  | true =>
    exfalso
    have : ((m.filter (fun row => !row.any miss)).getD i []).any miss = true :=
      List.any_eq_true.2 ⟨_, List.getElem_mem _, hm⟩
    rw [this] at hany
    exact absurd hany (by simp)

theorem Rect_getD_length {X : Type} (m : MATRIX X) (R C : Nat) (h : Rect m R C) (i : Nat)
    (hi : i < m.length) : (m.getD i []).length = C :=
  h.2 i (by rw [← h.1]; exact hi)

theorem IsRowMissingAt_haploid (s : MultiLocusModel) (R C : Nat)
    (hp : s.mPloidy = ploidy_t.kPloidy_Haploid) (hr : Rect s.mHaploData R C) (i : Nat)
    (hi : i < s.mHaploData.length) :
    s.IsRowMissingAt i = (s.mHaploData.getD i []).any IsMissing := by
  have hc : s.GetNumCols = (s.mHaploData.getD i []).length := by
    simp only [GetNumCols, GetPloidy, hp, if_true]
    rw [Rect_getD_length _ R C hr 0 (by omega), Rect_getD_length _ R C hr i hi]
  unfold IsRowMissingAt
  rw [hc, ← any_range_getD IsMissing default (s.mHaploData.getD i [])]
  congr 1
  funext j
  simp [IsMissingAt, GetPloidy, hp, cellAt]

theorem IsRowMissingAt_diploid (s : MultiLocusModel) (R C : Nat)
    (hp : s.mPloidy = ploidy_t.kPloidy_Diploid) (hr : Rect s.mDiploData R C) (i : Nat)
    (hi : i < s.mDiploData.length) :
    s.IsRowMissingAt i = (s.mDiploData.getD i []).any IsMissingPair := by
  have hc : s.GetNumCols = (s.mDiploData.getD i []).length := by
    simp only [GetNumCols, GetPloidy, hp]
    rw [if_neg (by decide), Rect_getD_length _ R C hr 0 (by omega),
      Rect_getD_length _ R C hr i hi]
  unfold IsRowMissingAt
  rw [hc, ← any_range_getD IsMissingPair default (s.mDiploData.getD i [])]
  congr 1
  funext j
  simp [IsMissingAt, GetPloidy, hp, cellAt, IsMissingPair]

/-- The rows that `ExcludeMissingIso` keeps, when the test of a row by its index agrees
with a test `p` of its cells. -/
theorem keepRows_eq_filter {X : Type} (p : List X → Bool) (m : MATRIX X)
    (dead : Nat → Bool) (h : ∀ i, i < m.length → dead i = p (m.getD i [])) :
    ((List.range m.length).filter dead).reverse.foldl (fun r i => r.eraseIdx i) m =
      m.filter (fun row => !p row) := by
  rw [eraseIdx_desc, ← keepCols_eq_filter p [] m]
  apply keepCols_congr
  intro i hi
  simp [hi, h i hi]

theorem ExcludeMissingIso_haploid (s : MultiLocusModel) (R C : Nat)
    (hp : s.mPloidy = ploidy_t.kPloidy_Haploid) (hr : Rect s.mHaploData R C)
    (hex : ∃ row ∈ s.mHaploData, row.any IsMissing = false) :
    s.ExcludeMissingIso =
      (true, { ({ s with mHaploData := s.mHaploData.filter (fun row => !row.any IsMissing) } :
        MultiLocusModel).DetermineDimensions with mExcludeIso := true }) := by
  have hrows : s.GetNumRows = s.mHaploData.length := by
    simp [GetNumRows, GetPloidy, hp]
  have hnot : s.IsRowMissing = false := by
    obtain ⟨row, hrow, hany⟩ := hex
    obtain ⟨i, hi, rfl⟩ := List.getElem_of_mem hrow
    cases hall : s.IsRowMissing with
    | false => rfl
    | true =>
      exfalso
      unfold IsRowMissing at hall
      have := List.all_eq_true.1 hall i (List.mem_range.2 (by rw [hrows]; exact hi))
      rw [IsRowMissingAt_haploid s R C hp hr i hi, List.getD_eq_getElem _ _ hi, hany] at this
      exact absurd this (by simp)
  unfold ExcludeMissingIso
  rw [hnot, hrows, foldl_DeleteRow_haploid _ s hp,
    keepRows_eq_filter (fun row => row.any IsMissing) s.mHaploData _
      (fun i hi => IsRowMissingAt_haploid s R C hp hr i hi)]
  simp

theorem ExcludeMissingIso_diploid (s : MultiLocusModel) (R C : Nat)
    (hp : s.mPloidy = ploidy_t.kPloidy_Diploid) (hr : Rect s.mDiploData R C)
    (hex : ∃ row ∈ s.mDiploData, row.any IsMissingPair = false) :
    s.ExcludeMissingIso =
      (true,
        { ({ s with mDiploData := s.mDiploData.filter (fun row => !row.any IsMissingPair) } :
          MultiLocusModel).DetermineDimensions with mExcludeIso := true }) := by
  have hp2 : s.mPloidy ≠ ploidy_t.kPloidy_Haploid := by rw [hp]; decide
  have hrows : s.GetNumRows = s.mDiploData.length := by
    simp [GetNumRows, GetPloidy, hp]
  have hnot : s.IsRowMissing = false := by
    obtain ⟨row, hrow, hany⟩ := hex
    obtain ⟨i, hi, rfl⟩ := List.getElem_of_mem hrow
    cases hall : s.IsRowMissing with
    | false => rfl
    | true =>
      exfalso
      unfold IsRowMissing at hall
      have := List.all_eq_true.1 hall i (List.mem_range.2 (by rw [hrows]; exact hi))
      rw [IsRowMissingAt_diploid s R C hp hr i hi, List.getD_eq_getElem _ _ hi, hany] at this
      exact absurd this (by simp)
  unfold ExcludeMissingIso
  rw [hnot, hrows, foldl_DeleteRow_diploid _ s hp2,
    keepRows_eq_filter (fun row => row.any IsMissingPair) s.mDiploData _
      (fun i hi => IsRowMissingAt_diploid s R C hp hr i hi)]
  simp

/-- The columns that `ExcludeMissingLoci` keeps in the rows of a rectangular matrix. -/
theorem keepColumns_eq {X : Type} (m : MATRIX X) (R C : Nat) (hr : Rect m R C)
    (dead : Nat → Bool) :
    ((List.range (m.getD 0 []).length).filter dead).reverse.foldl
        (fun t i => t.map (fun row => row.eraseIdx i)) m =
      m.map (keepCols (fun j => !dead j)) := by
  rw [foldl_map_eraseIdx]
  apply List.map_congr_left
  intro row hrow
  have hlen := Rect_row_length m R C hr row hrow
  have h0 : (m.getD 0 []).length = C :=
    Rect_getD_length m R C hr 0 (List.length_pos_of_mem hrow)
  rw [eraseIdx_desc, h0]
  apply keepCols_congr
  intro j hj
  rw [hlen] at hj
  simp [hj]

theorem ExcludeMissingLoci_haploid (s : MultiLocusModel) (R C : Nat)
    (hp : s.mPloidy = ploidy_t.kPloidy_Haploid) (hr : Rect s.mHaploData R C)
    (hok : s.ExcludeMissingLoci.1 = true) :
    s.ExcludeMissingLoci.2 =
      { ({ s with mHaploData :=
            s.mHaploData.map (keepCols (fun j => !s.IsColMissingAt j)) } :
        MultiLocusModel).DetermineDimensions with mExcludeLoci := true } := by
  have hcols : s.GetNumCols = (s.mHaploData.getD 0 []).length := by
    simp [GetNumCols, GetPloidy, hp]
  have hnot : s.IsColMissing = false := by
    cases h : s.IsColMissing with
    | false => rfl
    | true =>
      rw [(ExcludeMissingLoci_false_iff s).2 h] at hok
      exact absurd hok (by simp)
  unfold ExcludeMissingLoci
  rw [hnot, hcols, foldl_DeleteCol_haploid _ s hp, keepColumns_eq s.mHaploData R C hr]
  simp

theorem ExcludeMissingLoci_diploid (s : MultiLocusModel) (R C : Nat)
    (hp : s.mPloidy = ploidy_t.kPloidy_Diploid) (hr : Rect s.mDiploData R C)
    (hok : s.ExcludeMissingLoci.1 = true) :
    s.ExcludeMissingLoci.2 =
      { ({ s with mDiploData :=
            s.mDiploData.map (keepCols (fun j => !s.IsColMissingAt j)) } :
        MultiLocusModel).DetermineDimensions with mExcludeLoci := true } := by
  have hp2 : s.mPloidy ≠ ploidy_t.kPloidy_Haploid := by rw [hp]; decide
  have hcols : s.GetNumCols = (s.mDiploData.getD 0 []).length := by
    simp [GetNumCols, GetPloidy, hp]
  have hnot : s.IsColMissing = false := by
    cases h : s.IsColMissing with
    | false => rfl
    | true =>
      rw [(ExcludeMissingLoci_false_iff s).2 h] at hok
      exact absurd hok (by simp)
  unfold ExcludeMissingLoci
  rw [hnot, hcols, foldl_DeleteCol_diploid _ s hp2, keepColumns_eq s.mDiploData R C hr]
  simp

theorem no_missing_after_haploid (s : MultiLocusModel) (R C : Nat)
    (hp : s.mPloidy = ploidy_t.kPloidy_Haploid) (hr : Rect s.mHaploData R C)
    (hex : ∃ row ∈ s.mHaploData, row.any IsMissing = false) :
    1 ≤ s.ExcludeMissingIso.2.GetNumRows ∧
    ∀ i j, i < s.ExcludeMissingIso.2.GetNumRows → j < s.ExcludeMissingIso.2.GetNumCols →
      s.ExcludeMissingIso.2.IsMissingAt i j = false := by
  rw [ExcludeMissingIso_haploid s R C hp hr hex]
  simp only [GetNumRows, GetNumCols, GetPloidy, DetermineDimensions, IsMissingAt, hp, if_true]
  constructor
  · obtain ⟨row, hrow, hany⟩ := hex
    exact List.length_pos_of_mem (List.mem_filter.2 ⟨hrow, by simp [hany]⟩)
  · intro i j hi hj
    rw [filter_no_missing IsMissing s.mHaploData R C hr i j hi hj]
    simp

theorem no_missing_after_diploid (s : MultiLocusModel) (R C : Nat)
    (hp : s.mPloidy = ploidy_t.kPloidy_Diploid) (hr : Rect s.mDiploData R C)
    (hex : ∃ row ∈ s.mDiploData, row.any IsMissingPair = false) :
    1 ≤ s.ExcludeMissingIso.2.GetNumRows ∧
    ∀ i j, i < s.ExcludeMissingIso.2.GetNumRows → j < s.ExcludeMissingIso.2.GetNumCols →
      s.ExcludeMissingIso.2.IsMissingAt i j = false := by
  rw [ExcludeMissingIso_diploid s R C hp hr hex]
  have hd : ¬ ploidy_t.kPloidy_Diploid = ploidy_t.kPloidy_Haploid := by decide
  simp only [GetNumRows, GetNumCols, GetPloidy, DetermineDimensions, IsMissingAt, hp, hd,
    if_false]
  constructor
  · obtain ⟨row, hrow, hany⟩ := hex
    exact List.length_pos_of_mem (List.mem_filter.2 ⟨hrow, by simp [hany]⟩)
  · intro i j hi hj
    have := filter_no_missing IsMissingPair s.mDiploData R C hr i j hi hj
    unfold IsMissingPair at this
    exact this

theorem OriginalKept_refl (s : MultiLocusModel) : OriginalKept s s := ⟨rfl, rfl, rfl⟩

theorem OriginalKept_trans (s t u : MultiLocusModel) (h1 : OriginalKept s t)
    (h2 : OriginalKept t u) : OriginalKept s u :=
  ⟨h2.1.trans h1.1, h2.2.1.trans h1.2.1, h2.2.2.trans h1.2.2⟩

theorem OriginalKept_SwapAllele (s : MultiLocusModel) (k i j : Nat) :
    OriginalKept s (s.SwapAllele k i j) := by
  unfold SwapAllele
  split_ifs <;> exact ⟨rfl, rfl, rfl⟩

theorem OriginalKept_ShuffleBlock (s : MultiLocusModel) (lf lt f t : Nat) :
    OriginalKept s (s.ShuffleBlock lf lt f t) := by
  unfold ShuffleBlock
  apply foldl_invariant (OriginalKept s) _ _ _ s (OriginalKept_refl s)
  intro u i _ hu
  refine OriginalKept_trans s u _ hu ?_
  unfold ShuffleBlockStep
  split_ifs
  · refine OriginalKept_trans u { u with mRng := (u.mRng.UniformWhole f t).2 } _
      ⟨rfl, rfl, rfl⟩ ?_
    apply foldl_invariant (OriginalKept _) _ _ _ _ (OriginalKept_refl _)
    intro v k _ hv
    exact OriginalKept_trans _ v _ hv (OriginalKept_SwapAllele v _ _ _)
  · exact ⟨rfl, rfl, rfl⟩

theorem OriginalKept_ShufflePop (s : MultiLocusModel) (f t : Nat) :
    OriginalKept s (s.ShufflePop f t) := by
  unfold ShufflePop
  split_ifs
  · exact OriginalKept_refl s
  · apply foldl_invariant (OriginalKept s) _ _ _ s (OriginalKept_refl s)
    intro u i _ hu
    exact OriginalKept_trans s u _ hu (OriginalKept_ShuffleBlock u _ _ f t)

theorem OriginalKept_ShuffleDataset (s : MultiLocusModel) :
    OriginalKept s s.ShuffleDataset := by
  unfold ShuffleDataset
  apply foldl_invariant (OriginalKept s) _ _ _ s (OriginalKept_refl s)
  intro u i _ hu
  exact OriginalKept_trans s u _ hu (OriginalKept_ShufflePop u _ _)

theorem OriginalKept_DeleteRow (s : MultiLocusModel) (i : Nat) :
    OriginalKept s (s.DeleteRow i) := by
  unfold DeleteRow
  split_ifs <;> exact ⟨rfl, rfl, rfl⟩

theorem OriginalKept_DeleteCol (s : MultiLocusModel) (i : Nat) :
    OriginalKept s (s.DeleteCol i) := by
  unfold DeleteCol
  split_ifs <;> exact ⟨rfl, rfl, rfl⟩

theorem OriginalKept_ExcludeMissingIso (s : MultiLocusModel) :
    OriginalKept s s.ExcludeMissingIso.2 := by
  unfold ExcludeMissingIso
  split_ifs
  · exact OriginalKept_refl s
  · have h : OriginalKept s
        (((List.range s.GetNumRows).filter (fun i => s.IsRowMissingAt i)).reverse.foldl
          (fun t i => t.DeleteRow i) s) := by
      apply foldl_invariant (OriginalKept s) _ _ _ s (OriginalKept_refl s)
      intro u i _ hu
      exact OriginalKept_trans s u _ hu (OriginalKept_DeleteRow u i)
    exact ⟨h.1, h.2.1, h.2.2⟩

theorem OriginalKept_ExcludeMissingLoci (s : MultiLocusModel) :
    OriginalKept s s.ExcludeMissingLoci.2 := by
  unfold ExcludeMissingLoci
  split_ifs
  · exact OriginalKept_refl s
  · have h : OriginalKept s
        (((List.range s.GetNumCols).filter (fun i => s.IsColMissingAt i)).reverse.foldl
          (fun t i => t.DeleteCol i) s) := by
      apply foldl_invariant (OriginalKept s) _ _ _ s (OriginalKept_refl s)
      intro u i _ hu
      exact OriginalKept_trans s u _ hu (OriginalKept_DeleteCol u i)
    exact ⟨h.1, h.2.1, h.2.2⟩

theorem OriginalKept_apply (s : MultiLocusModel) (op : DataOp) :
    OriginalKept s (DataOp.apply s op) := by
  cases op with
  | excludeMissingIso => exact OriginalKept_ExcludeMissingIso s
  | excludeMissingLoci => exact OriginalKept_ExcludeMissingLoci s
  | shuffleDataset => exact OriginalKept_ShuffleDataset s
  | backupWorkingData =>
    show OriginalKept s s.BackupWorkingData
    unfold BackupWorkingData
    split <;> exact ⟨rfl, rfl, rfl⟩
  | restoreWorkingData =>
    show OriginalKept s s.RestoreWorkingData
    unfold RestoreWorkingData
    split <;> exact ⟨rfl, rfl, rfl⟩

theorem OriginalKept_applyOps (s : MultiLocusModel) (ops : List DataOp) :
    OriginalKept s (applyOps s ops) := by
  unfold applyOps
  apply foldl_invariant (OriginalKept s) _ _ _ s (OriginalKept_refl s)
  intro u op _ hu
  exact OriginalKept_trans s u _ hu (OriginalKept_apply u op)

/-- What a successful load leaves: the data are haploid or diploid, and the original
snapshot is the working matrix. -/
theorem ParseInput_original (s m : MultiLocusModel) (ioInputFile : List Char)
    (iDataFileName : String) (h : s.ParseInput ioInputFile iDataFileName = Except.ok m) :
    (m.mPloidy = ploidy_t.kPloidy_Haploid ∧ m.mOriginalHaploData = m.mHaploData) ∨
    (m.mPloidy = ploidy_t.kPloidy_Diploid ∧ m.mOriginalDiploData = m.mDiploData) := by
  rw [ParseInput_eq] at h
  split at h
  · cases hp : s.ParseHaploidInput { mSrc := ioInputFile }
        (numColumns (firstLine ioInputFile)) with
    | error e =>
      rw [hp] at h
      simp [Except.map] at h
    | ok t =>
      rw [hp] at h
      simp only [Except.map, Except.ok.injEq] at h
      have ht := ParseHaploidInput_ploidy s t _ _ hp
      left
      rw [← h]
      simp [BackupOriginal, DetermineDimensions, GetPloidy, ht]
  · split at h
    · simp at h
    · cases hp : s.ParseDiploidInput { mSrc := ioInputFile }
          (numColumns (firstLine ioInputFile)) with
      | error e =>
        rw [hp] at h
        simp [Except.map] at h
      | ok t =>
        rw [hp] at h
        simp only [Except.map, Except.ok.injEq] at h
        have ht := ParseDiploidInput_ploidy s t _ _ hp
        right
        rw [← h]
        simp [BackupOriginal, DetermineDimensions, GetPloidy, ht]

theorem IncludeAllData_fields (t : MultiLocusModel) :
    t.IncludeAllData.mExcludeIso = false ∧ t.IncludeAllData.mExcludeLoci = false ∧
    (t.mPloidy = ploidy_t.kPloidy_Haploid →
      t.IncludeAllData.mHaploData = t.mOriginalHaploData) ∧
    (t.mPloidy = ploidy_t.kPloidy_Diploid →
      t.IncludeAllData.mDiploData = t.mOriginalDiploData) := by
  refine ⟨rfl, rfl, fun h => ?_, fun h => ?_⟩
  · simp [IncludeAllData, RestoreOriginal, GetPloidy, h, DetermineDimensions]
  · simp [IncludeAllData, RestoreOriginal, GetPloidy, h, DetermineDimensions]

/-- C25: after a successful load, whatever sequence of `ExcludeMissingIso`,
`ExcludeMissingLoci`, `ShuffleDataset`, `BackupWorkingData` and `RestoreWorkingData`
follows, the original snapshot is the matrix as parsed, and `IncludeAllData` then makes
the working matrix that parsed matrix and lowers both exclusion flags. -/
theorem C25_original_snapshot (s m : MultiLocusModel) (ioInputFile : List Char)
    (iDataFileName : String) (ops : List DataOp)
    (h : s.ParseInput ioInputFile iDataFileName = Except.ok m) :
    (m.mPloidy = ploidy_t.kPloidy_Haploid ∨ m.mPloidy = ploidy_t.kPloidy_Diploid) ∧
    (m.mPloidy = ploidy_t.kPloidy_Haploid →
      (applyOps m ops).mOriginalHaploData = m.mHaploData ∧
      (applyOps m ops).IncludeAllData.mHaploData = m.mHaploData) ∧
    (m.mPloidy = ploidy_t.kPloidy_Diploid →
      (applyOps m ops).mOriginalDiploData = m.mDiploData ∧
      (applyOps m ops).IncludeAllData.mDiploData = m.mDiploData) ∧
    (applyOps m ops).IncludeAllData.mExcludeIso = false ∧
    (applyOps m ops).IncludeAllData.mExcludeLoci = false := by
  obtain ⟨k1, k2, k3⟩ := OriginalKept_applyOps m ops
  obtain ⟨i1, i2, i3, i4⟩ := IncludeAllData_fields (applyOps m ops)
  have hload := ParseInput_original s m ioInputFile iDataFileName h
  refine ⟨?_, fun hp => ?_, fun hp => ?_, i1, i2⟩
  · rcases hload with h1 | h1
    · exact Or.inl h1.1
    · exact Or.inr h1.1
  · have ho : m.mOriginalHaploData = m.mHaploData := by
      rcases hload with h1 | h1
      · exact h1.2
      · rw [hp] at h1
        exact absurd h1.1 (by decide)
    exact ⟨k2.trans ho, (i3 (k1.trans hp)).trans (k2.trans ho)⟩
  · have ho : m.mOriginalDiploData = m.mDiploData := by
      rcases hload with h1 | h1
      · rw [hp] at h1
        exact absurd h1.1 (by decide)
      · exact h1.2
    exact ⟨k3.trans ho, (i4 (k1.trans hp)).trans (k3.trans ho)⟩

/-- After the load of two isolates, an exclusion of isolates, a shuffle, a backup, an
exclusion of loci and a restoring, the snapshot and the data included again are the two
isolates parsed. -/
theorem C25_original_snapshot_witness :
    (applyOps loadedModel
        [DataOp.excludeMissingIso, DataOp.shuffleDataset, DataOp.backupWorkingData,
          DataOp.excludeMissingLoci, DataOp.restoreWorkingData]).mOriginalHaploData =
      loadedModel.mHaploData ∧
    (applyOps loadedModel
        [DataOp.excludeMissingIso, DataOp.shuffleDataset, DataOp.backupWorkingData,
          DataOp.excludeMissingLoci, DataOp.restoreWorkingData]).IncludeAllData.mHaploData =
      loadedModel.mHaploData :=
  (C25_original_snapshot {} loadedModel "A\tB\n?\tC\n".data "f"
    [DataOp.excludeMissingIso, DataOp.shuffleDataset, DataOp.backupWorkingData,
      DataOp.excludeMissingLoci, DataOp.restoreWorkingData] rfl).2.1 rfl

theorem ReadLine_cr_unknown (sc : StreamScanner) (line rest : List Char)
    (hline : ∀ c ∈ line, c ∉ ['\n', '\r']) (hg : sc.mGood = true)
    (he : sc.mEolnType = eoln_t.kEoln_Unknown)
    (h : sc.mSrc.drop sc.mPosn = line ++ '\r' :: rest) :
    sc.ReadLine = some (String.mk line, { sc with mPosn := sc.mPosn + line.length + 1 }) := by
  have hread := Read_cell sc line rest '\r' ['\n', '\r'] (by simp) hline hg h
  have hdrop := drop_add_of_append _ _ _ _ h
  have hrc := ReadChar_cons { sc with mPosn := sc.mPosn + line.length } '\r' rest hg hdrop
  unfold StreamScanner.ReadLine
  rw [he]
  simp only [hread, hrc]
  simp [he]

theorem ReadLine_lfcr_unknown (sc : StreamScanner) (line rest : List Char)
    (hline : ∀ c ∈ line, c ∉ ['\n', '\r']) (hg : sc.mGood = true)
    (he : sc.mEolnType = eoln_t.kEoln_Unknown)
    (h : sc.mSrc.drop sc.mPosn = line ++ '\n' :: '\r' :: rest) :
    sc.ReadLine =
      some (String.mk line, { sc with mPosn := sc.mPosn + line.length + 1 + 1 }) := by
  have hread := Read_cell sc line ('\r' :: rest) '\n' ['\n', '\r'] (by simp) hline hg h
  have hdrop := drop_add_of_append _ _ _ _ h
  have hrc := ReadChar_cons { sc with mPosn := sc.mPosn + line.length } '\n' ('\r' :: rest)
    hg hdrop
  have hdrop2 := (drop_eq_cons _ _ _ _ hdrop).2
  have hrc2 := ReadChar_cons { sc with mPosn := sc.mPosn + line.length + 1 } '\r' rest
    hg hdrop2
  unfold StreamScanner.ReadLine
  rw [he]
  simp only [hread, hrc, hrc2]
  simp [he]

theorem ReadLine_mac (sc : StreamScanner) (line rest : List Char)
    (hline : ∀ c ∈ line, c ∉ ['\n', '\r']) (hg : sc.mGood = true)
    (he : sc.mEolnType = eoln_t.kEoln_Mac)
    (h : sc.mSrc.drop sc.mPosn = line ++ '\r' :: rest) :
    sc.ReadLine = some (String.mk line, { sc with mPosn := sc.mPosn + line.length + 1 }) := by
  have hline2 : ∀ c ∈ line, c ∉ ['\r'] := by
    intro c hc hm
    exact hline c hc (by simp at hm; simp [hm])
  have hread := Read_cell sc line rest '\r' ['\r'] (by simp) hline2 hg h
  have hdrop := drop_add_of_append _ _ _ _ h
  have hrc := ReadChar_cons { sc with mPosn := sc.mPosn + line.length } '\r' rest hg hdrop
  unfold StreamScanner.ReadLine
  rw [he]
  simp only [hread, hrc]
  simp [he]

theorem ReadLine_unix (sc : StreamScanner) (line rest : List Char)
    (hline : ∀ c ∈ line, c ∉ ['\n', '\r']) (hg : sc.mGood = true)
    (he : sc.mEolnType = eoln_t.kEoln_Unix)
    (h : sc.mSrc.drop sc.mPosn = line ++ '\n' :: rest) :
    sc.ReadLine = some (String.mk line, { sc with mPosn := sc.mPosn + line.length + 1 }) := by
  have hline2 : ∀ c ∈ line, c ∉ ['\n'] := by
    intro c hc hm
    exact hline c hc (by simp at hm; simp [hm])
  have hread := Read_cell sc line rest '\n' ['\n'] (by simp) hline2 hg h
  have hdrop := drop_add_of_append _ _ _ _ h
  have hrc := ReadChar_cons { sc with mPosn := sc.mPosn + line.length } '\n' rest hg hdrop
  unfold StreamScanner.ReadLine
  rw [he]
  simp only [hread, hrc]
  simp [he]

theorem ReadLine_dos (sc : StreamScanner) (line rest : List Char)
    (hline : ∀ c ∈ line, c ∉ ['\n', '\r']) (hg : sc.mGood = true)
    (he : sc.mEolnType = eoln_t.kEoln_Dos)
    (h : sc.mSrc.drop sc.mPosn = line ++ '\n' :: '\r' :: rest) :
    sc.ReadLine =
      some (String.mk line, { sc with mPosn := sc.mPosn + line.length + 1 + 1 }) := by
  have hline2 : ∀ c ∈ line, c ∉ ['\n'] := by
    intro c hc hm
    exact hline c hc (by simp at hm; simp [hm])
  have hread := Read_cell sc line ('\r' :: rest) '\n' ['\n'] (by simp) hline2 hg h
  have hdrop := drop_add_of_append _ _ _ _ h
  have hrc := ReadChar_cons { sc with mPosn := sc.mPosn + line.length } '\n' ('\r' :: rest)
    hg hdrop
  have hdrop2 := (drop_eq_cons _ _ _ _ hdrop).2
  have hrc2 := ReadChar_cons { sc with mPosn := sc.mPosn + line.length + 1 } '\r' rest
    hg hdrop2
  unfold StreamScanner.ReadLine
  rw [he]
  simp only [hread, hrc, hrc2]
  simp [he]

theorem linesText_cons (term line : List Char) (lines : List (List Char)) :
    linesText term (line :: lines) = line ++ term ++ linesText term lines := by
  simp [linesText]

theorem linesText_head_lf (post : List (List Char))
    (hpost : ∀ l ∈ post, ∀ c ∈ l, c ∉ ['\n', '\r']) :
    ∀ c r, linesText ['\n'] post = c :: r → c ≠ '\r' := by
  intro c r h
  cases post with
  | nil => simp [linesText] at h
  | cons l ls =>
    rw [linesText_cons] at h
    cases l with
    | nil =>
      simp at h
      rw [← h.1]
      decide
    | cons x xs =>
      simp at h
      have := hpost (x :: xs) (List.mem_cons_self _ _) x (List.mem_cons_self _ _)
      rw [← h.1]
      intro hx
      exact this (by simp [hx])

theorem linesText_ne_nil (term : List Char) (hterm : term ≠ []) (post : List (List Char))
    (hpost : post ≠ []) : linesText term post ≠ [] := by
  cases post with
  | nil => exact absurd rfl hpost
  | cons l ls =>
    rw [linesText_cons]
    simp [hterm]

/-- A call of `ReadLine` at the beginning of a line: the line is returned without its
terminator, and the scanner is left after the terminator, the stream being good when a
line follows. -/
theorem ReadLine_step (term : List Char) (mode : eoln_t) (hle : LineEnding term mode)
    (sc : StreamScanner) (line : List Char) (post : List (List Char))
    (hline : ∀ c ∈ line, c ∉ ['\n', '\r'])
    (hpost : ∀ l ∈ post, ∀ c ∈ l, c ∉ ['\n', '\r'])
    (hg : sc.mGood = true) (he : sc.mEolnType = mode)
    (h : sc.mSrc.drop sc.mPosn = line ++ term ++ linesText term post) :
    ∃ sc2, sc.ReadLine = some (String.mk line, sc2) ∧ sc2.mSrc = sc.mSrc ∧
      sc2.mEolnType = sc.mEolnType ∧ sc2.mPosn = sc.mPosn + (line ++ term).length ∧
      (post ≠ [] → sc2.mGood = true) := by
  rcases hle with ⟨rfl, hm⟩ | ⟨rfl, hm⟩ | ⟨rfl, hm⟩
  · have h2 : sc.mSrc.drop sc.mPosn = line ++ '\r' :: linesText ['\r'] post := by
      rw [h]; simp
    rcases hm with hm | hm
    · rw [ReadLine_cr_unknown sc line _ hline hg (he.trans hm) h2]
      exact ⟨_, rfl, rfl, rfl, by simp [Nat.add_assoc], fun _ => hg⟩
    · rw [ReadLine_mac sc line _ hline hg (he.trans hm) h2]
      exact ⟨_, rfl, rfl, rfl, by simp [Nat.add_assoc], fun _ => hg⟩
  · have h2 : sc.mSrc.drop sc.mPosn = line ++ '\n' :: linesText ['\n'] post := by
      rw [h]; simp
    rcases hm with hm | hm
    · obtain ⟨sc2, e1, e2, e3, e4, _, e6⟩ := ReadLine_lf sc line _ hline hg (he.trans hm) h2
        (linesText_head_lf post hpost)
      refine ⟨sc2, e1, e2, e3, ?_, fun hp => e6 (linesText_ne_nil _ (by simp) post hp)⟩
      rw [e4]
      simp [Nat.add_assoc]
    · rw [ReadLine_unix sc line _ hline hg (he.trans hm) h2]
      exact ⟨_, rfl, rfl, rfl, by simp [Nat.add_assoc], fun _ => hg⟩
  · have h2 : sc.mSrc.drop sc.mPosn = line ++ '\n' :: '\r' :: linesText ['\n', '\r'] post := by
      rw [h]; simp
    rcases hm with hm | hm
    · rw [ReadLine_lfcr_unknown sc line _ hline hg (he.trans hm) h2]
      exact ⟨_, rfl, rfl, rfl, by simp [Nat.add_assoc], fun _ => hg⟩
    · rw [ReadLine_dos sc line _ hline hg (he.trans hm) h2]
      exact ⟨_, rfl, rfl, rfl, by simp [Nat.add_assoc], fun _ => hg⟩

/-- Successive calls of `ReadLine` from the beginning of a line: the lines are returned
in order, and the scanner is left at the beginning of the next line. -/
theorem readLines_spec (term : List Char) (mode : eoln_t) (hle : LineEnding term mode) :
    ∀ (k : Nat) (lines : List (List Char)) (sc : StreamScanner), k ≤ lines.length →
      (∀ l ∈ lines, ∀ c ∈ l, c ∉ ['\n', '\r']) →
      sc.mGood = true → sc.mEolnType = mode →
      sc.mSrc.drop sc.mPosn = linesText term lines →
      ∃ sc2, sc.readLines k = some ((lines.take k).map String.mk, sc2) ∧
        sc2.mSrc = sc.mSrc ∧ sc2.mEolnType = sc.mEolnType ∧
        sc2.mPosn = sc.mPosn + (linesText term (lines.take k)).length ∧
        (k < lines.length → sc2.mGood = true) := by
  intro k
  induction k with
  | zero =>
    intro lines sc _ _ hg _ _
    exact ⟨sc, rfl, rfl, rfl, by simp [linesText], fun _ => hg⟩
  | succ k ih =>
    intro lines sc hk hlines hg he h
    cases lines with
    | nil => simp at hk
    | cons line post =>
      rw [linesText_cons] at h
      obtain ⟨sc1, e1, e2, e3, e4, e5⟩ := ReadLine_step term mode hle sc line post
        (hlines line (List.mem_cons_self _ _))
        (fun l hl => hlines l (List.mem_cons_of_mem _ hl)) hg he h
      have hk2 : k ≤ post.length := by simpa using hk
      unfold StreamScanner.readLines
      simp only [e1]
      by_cases hp : post = []
      · subst hp
        have hk0 : k = 0 := by simpa using hk2
        subst hk0
        refine ⟨sc1, ?_, e2, e3, ?_, fun hh => by simp at hh⟩
        · simp [StreamScanner.readLines]
        · rw [e4]
          simp [linesText]
      · have hdrop : sc1.mSrc.drop sc1.mPosn = linesText term post := by
          rw [e2, e4]
          exact drop_add_of_append _ _ _ _ h
        obtain ⟨sc2, f1, f2, f3, f4, f5⟩ := ih post sc1 hk2
          (fun l hl => hlines l (List.mem_cons_of_mem _ hl)) (e5 hp) (e3.trans he) hdrop
        refine ⟨sc2, ?_, f2.trans e2, f3.trans e3, ?_, fun hh => f5 (by simpa using hh)⟩
        · simp only [f1, List.take_succ_cons, List.map_cons]
        · rw [f4, e4, List.take_succ_cons, linesText_cons]
          simp [Nat.add_assoc]

/-- C22, counterexample: on the source "A", CR, LF, "B", CR, LF the second call of
`ReadLine` returns an empty line when the type of line ending is unknown; with the type
that `DetectEoln` finds (Mac) it returns the line feed with "B", with the Unix type the
lines keep the carriage return, and with the Dos type the assertion on the character
after the line feed fails. -/
theorem C22_counterexample :
    (({ mSrc := "A\r\nB\r\n".data } : StreamScanner).readLines 2).map Prod.fst =
      some ["A", ""] ∧
    ({ mSrc := "A\r\nB\r\n".data } : StreamScanner).DetectEoln.1 = eoln_t.kEoln_Mac ∧
    (({ mSrc := "A\r\nB\r\n".data } : StreamScanner).DetectEoln.2.readLines 2).map Prod.fst =
      some ["A", "\nB"] ∧
    (({ mSrc := "A\r\nB\r\n".data, mEolnType := eoln_t.kEoln_Unix } :
      StreamScanner).readLines 2).map Prod.fst = some ["A\r", "B\r"] ∧
    ({ mSrc := "A\r\nB\r\n".data, mEolnType := eoln_t.kEoln_Dos } :
      StreamScanner).readLines 1 = none := by
  refine ⟨by decide, by decide, by decide, by decide, by decide⟩

/-! ### The look-ahead functions on a good stream -/
theorem Goto_GetPosn_good (sc sc1 : StreamScanner) (hg : sc.mGood = true)
    (h1 : sc1.mSrc = sc.mSrc) (h2 : sc1.mEolnType = sc.mEolnType) :
    (sc1.Goto sc.GetPosn).2 = sc := by
  unfold StreamScanner.Goto StreamScanner.GetPosn
  rw [if_pos hg]
  cases sc with
  | mk src posn good eoln =>
    cases sc1 with
    | mk src1 posn1 good1 eoln1 =>
      simp only at hg h1 h2
      subst hg h1 h2
      cases posn with
      | zero => simp
      | succ n =>
        have h0 : ¬ ((n + 1 : Nat) : Int) = 0 := by omega
        have h1 : ¬ ((n + 1 : Nat) : Int) = -1 := by omega
        have h2 : (0 : Int) < ((n + 1 : Nat) : Int) := by omega
        simp only [h0, h1, h2, if_false, if_true, Int.toNat_ofNat]

theorem GetChar_fields (sc : StreamScanner) :
    sc.GetChar.2.mSrc = sc.mSrc ∧ sc.GetChar.2.mEolnType = sc.mEolnType := by
  unfold StreamScanner.GetChar
  split
  · split <;> exact ⟨rfl, rfl⟩
  · exact ⟨rfl, rfl⟩

/-- On a stream that has not failed, `PeekChar` leaves the scanner as it was. -/
theorem PeekChar_good (sc : StreamScanner) (hg : sc.mGood = true) : sc.PeekChar.2 = sc := by
  unfold StreamScanner.PeekChar
  exact Goto_GetPosn_good sc _ hg (GetChar_fields sc).1 (GetChar_fields sc).2

/-- On a stream that has not failed, `DetectEoln` leaves the position as it was. -/
theorem DetectEoln_good (sc : StreamScanner) (hg : sc.mGood = true) :
    sc.DetectEoln.2 = { sc with mEolnType := StreamScanner.detectLoop sc.mSrc } := by
  unfold StreamScanner.DetectEoln
  have h0 : (sc.Goto 0).1 = sc.GetPosn := rfl
  rw [h0, Goto_GetPosn_good sc sc.Rewind hg rfl rfl]

/-- After `Goto (p)` to a place of the source, calls of `PeekChar` give the character at
that place and leave the scanner there. -/
theorem Goto_PeekChar (sc : StreamScanner) (p : Nat) (hp : p < sc.mSrc.length) :
    ((sc.Goto p).2.PeekChar).1 = sc.mSrc.get? p ∧
    ((sc.Goto p).2.PeekChar).2 = (sc.Goto p).2 ∧ (sc.Goto p).2.GetPosn = p := by
  have hstate : (sc.Goto p).2 = { sc with mPosn := p, mGood := true } := by
    unfold StreamScanner.Goto
    cases p with
    | zero => simp
    | succ n =>
      have h0 : ¬ ((n + 1 : Nat) : Int) = 0 := by omega
      have h1 : ¬ ((n + 1 : Nat) : Int) = -1 := by omega
      have h2 : (0 : Int) < ((n + 1 : Nat) : Int) := by omega
      simp only [h0, h1, h2, if_false, if_true, Int.toNat_ofNat]
  rw [hstate]
  refine ⟨?_, PeekChar_good _ rfl, ?_⟩
  · unfold StreamScanner.PeekChar StreamScanner.GetChar
    obtain ⟨c, hc⟩ : ∃ c, sc.mSrc.get? p = some c := by
      rw [List.get?_eq_get hp]
      exact ⟨_, rfl⟩
    simp only [if_true, hc]
  · simp [StreamScanner.GetPosn]

/-- C26: after a read that ran off the end of the source "ab" the position reported is
-1; `PeekChar` and `DetectEoln` then leave it at 2, the end of the source, with the
failure of the stream cleared, and `GetLineIndex` leaves it at -1; on the stream that has
not failed (here at place 1) the three leave the position as it was. -/
theorem C26_lookahead_after_failed_read :
    (({ mSrc := "ab".data } : StreamScanner).Read []).2.GetPosn = -1 ∧
    (({ mSrc := "ab".data } : StreamScanner).Read []).2.PeekChar.2.GetPosn = 2 ∧
    (({ mSrc := "ab".data } : StreamScanner).Read []).2.PeekChar.2.mGood = true ∧
    (({ mSrc := "ab".data } : StreamScanner).Read []).2.DetectEoln.2.GetPosn = 2 ∧
    ((({ mSrc := "ab".data } : StreamScanner).Read []).2.GetLineIndexRun).map
      (fun r => r.2.GetPosn) = some (-1) ∧
    ({ mSrc := "ab".data, mPosn := 1 } : StreamScanner).PeekChar.2.GetPosn = 1 ∧
    ({ mSrc := "ab".data, mPosn := 1 } : StreamScanner).DetectEoln.2.GetPosn = 1 ∧
    (({ mSrc := "ab".data, mPosn := 1 } : StreamScanner).GetLineIndexRun).map
      (fun r => r.2.GetPosn) = some 1 := by
  refine ⟨by decide, by decide, by decide, by decide, by decide, by decide, by decide,
    by decide⟩

/-- With no comment start set, `BasicScanner::ReadChar` is `GetChar` on the stream,
whatever the line comment. -/
theorem ReadChar_no_start (b : BasicScanner) (h : b.mStartComment = []) :
    b.ReadChar =
      Except.ok (b.toStreamScanner.ReadChar.1, b.withStream b.toStreamScanner.ReadChar.2) := by
  unfold BasicScanner.ReadChar BasicScanner.IsCommentDelim
  simp only [h, if_true]
  rfl

/-- Where no comment starts, `BasicScanner::ReadChar` is `GetChar` on the stream. -/
theorem ReadChar_no_comment (b : BasicScanner) (hg : b.mGood = true)
    (h : matchDelim b.mStartComment (b.mSrc.drop b.mPosn) = false) :
    b.ReadChar =
      Except.ok (b.toStreamScanner.ReadChar.1, b.withStream b.toStreamScanner.ReadChar.2) := by
  by_cases h0 : b.mStartComment = []
  · exact ReadChar_no_start b h0
  · unfold BasicScanner.ReadChar BasicScanner.IsCommentDelim
    simp only [h0, if_false, h, Bool.and_false, Bool.false_eq_true]
    rw [Goto_GetPosn_good b.toStreamScanner b.toStreamScanner hg rfl rfl]
    rfl

/-- C21: the scanner that `ParseInput` configures (no comment delimiters, line comment
"#") reads every character of the stream as `GetChar` gives it, a '#' as any other; so
the file with a comment at the end of a line, and the file with a comment line, raise
"illegal allele", while the same files without the comments load as two isolates at two
loci. -/
theorem C21_line_comment_not_discarded :
    (∀ sc : StreamScanner,
      ({ toStreamScanner := sc, mStartComment := [], mStopComment := [],
         mLineComment := ['#'] } : BasicScanner).ReadChar =
        Except.ok (sc.GetChar.1,
          { toStreamScanner := sc.GetChar.2, mStartComment := [], mStopComment := [],
            mLineComment := ['#'] })) ∧
    ({} : MultiLocusModel).ParseInput "A\tB # first\nC\tD\n".data "f" =
      Except.error (ParseStop.thrown { mDesc := "illegal allele", mLineNum := some 1 }) ∧
    ({} : MultiLocusModel).ParseInput "A\tB\n# second\nC\tD\n".data "f" =
      Except.error (ParseStop.thrown { mDesc := "illegal allele", mLineNum := some 3 }) ∧
    ({} : MultiLocusModel).ParseInput "# first\nA\tB\nC\tD\n".data "f" =
      Except.error (ParseStop.thrown { mDesc := "illegal allele", mLineNum := some 1 }) ∧
    (({} : MultiLocusModel).ParseInput "A\tB \nC\tD\n".data "f").map
        (fun m => m.mHaploData) = Except.ok [["A", "B"], ["C", "D"]] ∧
    (({} : MultiLocusModel).ParseInput "A\tB\nC\tD\n".data "f").map
        (fun m => m.mHaploData) = Except.ok [["A", "B"], ["C", "D"]] :=
  ⟨fun _ => ReadChar_no_start _ rfl, rfl, rfl, rfl, rfl, rfl⟩

/-- C27: at the start of the comment of the source "/*x*/a", with the default delimiters,
`PeekChar` succeeds with the character '/', while the `ReadChar` that follows skips the
comment and succeeds with a space, leaving the scanner at place 5. -/
theorem C27_PeekChar_at_comment :
    ({ mSrc := "/*x*/a".data } : BasicScanner).PeekChar.1 = some '/' ∧
    ({ mSrc := "/*x*/a".data } : BasicScanner).PeekChar.2 =
      ({ mSrc := "/*x*/a".data } : BasicScanner) ∧
    ({ mSrc := "/*x*/a".data } : BasicScanner).PeekChar.2.ReadChar =
      Except.ok (some ' ', { mSrc := "/*x*/a".data, mPosn := 5 }) :=
  ⟨rfl, rfl, rfl⟩

/-- C28: on the source "ab/*xyz*/cd", with the default delimiters and whitespace, the
first `ReadToken` returns "ab", stopped by the space that stands for the comment, and
puts that space back, which leaves the scanner at place 8, on the '/' that ends the
comment; the second `ReadToken` returns "/cd". -/
theorem C28_ReadToken_across_comment :
    ({ mSrc := "ab/*xyz*/cd".data } : BasicScanner).ReadToken [] false =
      some (Except.ok (("ab", ' '), { mSrc := "ab/*xyz*/cd".data, mPosn := 8 })) ∧
    ({ mSrc := "ab/*xyz*/cd".data, mPosn := 8 } : BasicScanner).ReadToken [] false =
      some (Except.ok (("/cd", Char.ofNat 127),
        { mSrc := "ab/*xyz*/cd".data, mPosn := 11, mGood := false })) :=
  ⟨rfl, rfl⟩

theorem detectLoop_cons_other (c : Char) (rest : List Char) (h1 : c ≠ '\n')
    (h2 : c ≠ '\r') :
    StreamScanner.detectLoop (c :: rest) = StreamScanner.detectLoop rest := by
  simp only [StreamScanner.detectLoop, h1, h2, if_false]

theorem detectLoop_append (rest : List Char) :
    ∀ pre : List Char, (∀ c ∈ pre, c ≠ '\n' ∧ c ≠ '\r') →
      StreamScanner.detectLoop (pre ++ rest) = StreamScanner.detectLoop rest := by
  intro pre
  induction pre with
  | nil => intro _; rfl
  | cons x xs ih =>
    intro h
    have hx := h x (List.mem_cons_self _ _)
    rw [List.cons_append, detectLoop_cons_other x _ hx.1 hx.2,
      ih (fun c hc => h c (List.mem_cons_of_mem _ hc))]

/-- The result of `DetectEoln` is `kEoln_Unknown` exactly for the sources without a line
character and for those whose only line character is a line feed at their end. -/
theorem detectLoop_unknown_iff (src : List Char) :
    StreamScanner.detectLoop src = eoln_t.kEoln_Unknown ↔
      ((∀ c ∈ src, c ≠ '\n' ∧ c ≠ '\r') ∨
        ∃ pre, src = pre ++ ['\n'] ∧ ∀ c ∈ pre, c ≠ '\n' ∧ c ≠ '\r') := by
  induction src with
  | nil => simp [StreamScanner.detectLoop]
  | cons x xs ih =>
    by_cases h1 : x = '\n'
    · subst h1
      cases xs with
      | nil =>
        simp only [StreamScanner.detectLoop, if_true, true_iff]
        exact Or.inr ⟨[], rfl, by simp⟩
      | cons y ys =>
        have hres : StreamScanner.detectLoop ('\n' :: y :: ys) ≠ eoln_t.kEoln_Unknown := by
          simp only [StreamScanner.detectLoop, if_true]
          split <;> simp
        constructor
        · intro h
          exact absurd h hres
        · rintro (h | ⟨pre, hp, hpre⟩)
          · exact absurd rfl (h '\n' (List.mem_cons_self _ _)).1
          · exfalso
            cases pre with
            | nil => simp at hp
            | cons p ps =>
              simp at hp
              exact (hpre p (List.mem_cons_self _ _)).1 hp.1.symm
    · by_cases h2 : x = '\r'
      · subst h2
        have hres : StreamScanner.detectLoop ('\r' :: xs) ≠ eoln_t.kEoln_Unknown := by
          simp [StreamScanner.detectLoop]
        constructor
        · intro h
          exact absurd h hres
        · rintro (h | ⟨pre, hp, hpre⟩)
          · exact absurd rfl (h '\r' (List.mem_cons_self _ _)).2
          · exfalso
            cases pre with
            | nil => simp at hp
            | cons p ps =>
              simp at hp
              exact (hpre p (List.mem_cons_self _ _)).2 hp.1.symm
      · have hstep : StreamScanner.detectLoop (x :: xs) = StreamScanner.detectLoop xs :=
          detectLoop_cons_other x xs h1 h2
        rw [hstep, ih]
        constructor
        · rintro (h | ⟨pre, hp, hpre⟩)
          · left
            intro c hc
            rcases List.mem_cons.1 hc with rfl | hc2
            · exact ⟨h1, h2⟩
            · exact h c hc2
          · right
            refine ⟨x :: pre, by rw [hp]; rfl, ?_⟩
            intro c hc
            rcases List.mem_cons.1 hc with rfl | hc2
            · exact ⟨h1, h2⟩
            · exact hpre c hc2
        · rintro (h | ⟨pre, hp, hpre⟩)
          · left
            exact fun c hc => h c (List.mem_cons_of_mem _ hc)
          · cases pre with
            | nil =>
              simp at hp
              exact absurd hp.1 h1
            | cons p ps =>
              simp at hp
              right
              exact ⟨ps, hp.2, fun c hc => hpre c (List.mem_cons_of_mem _ hc)⟩

/-- C30, counterexample: the source "abc" with a line feed at its end holds a line
terminator, a single line feed, and `DetectEoln` classifies it as `kEoln_Unknown`, not
as Unix. -/
theorem C30_counterexample :
    ({ mSrc := "abc\n".data } : StreamScanner).DetectEoln.1 = eoln_t.kEoln_Unknown ∧
    '\n' ∈ "abc\n".data ∧ '\r' ∉ "abc\n".data := by
  refine ⟨by decide, by decide, by decide⟩

/-- C30: `DetectEoln` classifies the source by its first line terminator, wherever the
scanner stands: a carriage return gives Mac, a line feed followed by a carriage return
gives Dos, a line feed followed by another character gives Unix, and a line feed that is
the last character of the source gives `kEoln_Unknown`, as does a source without a line
terminator; the result is `kEoln_Unknown` in these two cases only, and it is stored in
`mEolnType`. -/
theorem C30_DetectEoln_first_terminator (sc : StreamScanner) (pre rest : List Char)
    (hpre : ∀ c ∈ pre, c ≠ '\n' ∧ c ≠ '\r') :
    (sc.mSrc = pre ++ '\r' :: rest → sc.DetectEoln.1 = eoln_t.kEoln_Mac) ∧
    (sc.mSrc = pre ++ '\n' :: '\r' :: rest → sc.DetectEoln.1 = eoln_t.kEoln_Dos) ∧
    (∀ c, c ≠ '\r' → sc.mSrc = pre ++ '\n' :: c :: rest →
      sc.DetectEoln.1 = eoln_t.kEoln_Unix) ∧
    (sc.mSrc = pre ++ ['\n'] → sc.DetectEoln.1 = eoln_t.kEoln_Unknown) ∧
    (sc.mSrc = pre → sc.DetectEoln.1 = eoln_t.kEoln_Unknown) ∧
    (sc.DetectEoln.1 = eoln_t.kEoln_Unknown ↔
      ((∀ c ∈ sc.mSrc, c ≠ '\n' ∧ c ≠ '\r') ∨
        ∃ p, sc.mSrc = p ++ ['\n'] ∧ ∀ c ∈ p, c ≠ '\n' ∧ c ≠ '\r')) ∧
    sc.DetectEoln.2.mEolnType = sc.DetectEoln.1 := by
  have hd : sc.DetectEoln.1 = StreamScanner.detectLoop sc.mSrc := rfl
  refine ⟨fun h => ?_, fun h => ?_, fun c hc h => ?_, fun h => ?_, fun h => ?_, ?_, rfl⟩
  · rw [hd, h, detectLoop_append _ pre hpre]
    simp [StreamScanner.detectLoop]
  · rw [hd, h, detectLoop_append _ pre hpre]
    simp [StreamScanner.detectLoop]
  · rw [hd, h, detectLoop_append _ pre hpre]
    simp [StreamScanner.detectLoop, hc]
  · rw [hd, h, detectLoop_append _ pre hpre]
    simp [StreamScanner.detectLoop]
  · rw [hd, h]
    exact (detectLoop_unknown_iff pre).2 (Or.inl hpre)
  · rw [hd]
    exact detectLoop_unknown_iff sc.mSrc

/-- The source with the lines "ab" and "cd", each ended by a line feed, is classified as
Unix. -/
theorem C30_DetectEoln_first_terminator_witness :
    ({ mSrc := "ab\ncd\n".data } : StreamScanner).DetectEoln.1 = eoln_t.kEoln_Unix :=
  (C30_DetectEoln_first_terminator { mSrc := "ab\ncd\n".data } "ab".data "d\n".data
    (by decide)).2.2.1 'c' (by decide) rfl

theorem GetLineIndex_eq_numLinesOf (sc : StreamScanner) :
    sc.GetLineIndex =
      StreamScanner.numLinesOf sc.mEolnType
        ((if sc.mGood then sc.mSrc.take sc.mPosn else sc.mSrc).count '\r')
        ((if sc.mGood then sc.mSrc.take sc.mPosn else sc.mSrc).count '\n') := by
  unfold StreamScanner.GetLineIndex StreamScanner.numLinesOf
  cases sc.mEolnType <;> rfl

theorem lineIndexLoop_good :
    ∀ (n i p : Nat) (sc : StreamScanner) (theNumCr theNumLf fuel : Nat),
      sc.mGood = true → sc.mPosn = i → i + n = p → p ≤ sc.mSrc.length → n < fuel →
      StreamScanner.lineIndexLoop fuel (p : Int) sc theNumCr theNumLf =
        some ({ sc with mPosn := p },
          theNumCr + ((sc.mSrc.drop i).take n).count '\r',
          theNumLf + ((sc.mSrc.drop i).take n).count '\n') := by
  intro n
  induction n with
  | zero =>
    intro i p sc cr lf fuel hg hi hp _ hf
    obtain ⟨f, rfl⟩ : ∃ f, fuel = f + 1 := ⟨fuel - 1, by omega⟩
    have hip : i = p := by omega
    subst hip
    have hpos : sc.GetPosn = (i : Int) := by simp [StreamScanner.GetPosn, hg, hi]
    unfold StreamScanner.lineIndexLoop
    rw [if_pos hpos]
    cases sc
    simp_all
  | succ n ih =>
    intro i p sc cr lf fuel hg hi hp hlen hf
    obtain ⟨f, rfl⟩ : ∃ f, fuel = f + 1 := ⟨fuel - 1, by omega⟩
    have hpos : ¬ sc.GetPosn = (p : Int) := by
      simp only [StreamScanner.GetPosn, hg, if_true, hi]
      omega
    have hil : i < sc.mSrc.length := by omega
    have hget : sc.mSrc.get? sc.mPosn = some (sc.mSrc[i]) := by
      rw [hi]
      exact List.get?_eq_get hil
    have hgc : sc.GetChar = (some (sc.mSrc[i]), { sc with mPosn := sc.mPosn + 1 }) := by
      unfold StreamScanner.GetChar
      rw [if_pos hg, hget]
    have hdrop : sc.mSrc.drop i = sc.mSrc[i] :: sc.mSrc.drop (i + 1) :=
      List.drop_eq_getElem_cons hil
    have ih2 := fun cr2 lf2 => ih (i + 1) p { sc with mPosn := sc.mPosn + 1 } cr2 lf2 f hg
      (by simp [hi]) (by omega) hlen (by omega)
    unfold StreamScanner.lineIndexLoop
    rw [if_neg hpos, hgc]
    simp only
    rw [hdrop, List.take_succ_cons, List.count_cons, List.count_cons]
    by_cases h1 : sc.mSrc[i] = '\r'
    · rw [if_pos h1, ih2]
      simp [h1]
      omega
    · rw [if_neg h1]
      by_cases h2 : sc.mSrc[i] = '\n'
      · rw [if_pos h2, ih2]
        simp [h2]
        omega
      · rw [if_neg h2, ih2]
        simp [h1, h2]

theorem lineIndexLoop_failed :
    ∀ (n i : Nat) (sc : StreamScanner) (theNumCr theNumLf fuel : Nat),
      sc.mGood = true → sc.mPosn = i → i + n = sc.mSrc.length → n + 1 < fuel →
      StreamScanner.lineIndexLoop fuel (-1) sc theNumCr theNumLf =
        some ({ sc with mPosn := sc.mSrc.length, mGood := false },
          theNumCr + (sc.mSrc.drop i).count '\r',
          theNumLf + (sc.mSrc.drop i).count '\n') := by
  intro n
  induction n with
  | zero =>
    intro i sc cr lf fuel hg hi hp hf
    obtain ⟨f, rfl⟩ : ∃ f, fuel = f + 2 := ⟨fuel - 2, by omega⟩
    have hpos : ¬ sc.GetPosn = (-1 : Int) := by
      simp only [StreamScanner.GetPosn, hg, if_true]
      omega
    have hget : sc.mSrc.get? sc.mPosn = none := by
      rw [List.get?_eq_none]
      omega
    have hgc : sc.GetChar = (none, { sc with mGood := false }) := by
      unfold StreamScanner.GetChar
      rw [if_pos hg, hget]
    have hdrop : sc.mSrc.drop i = [] := List.drop_eq_nil_iff.2 (by omega)
    unfold StreamScanner.lineIndexLoop
    rw [if_neg hpos, hgc]
    simp only
    unfold StreamScanner.lineIndexLoop
    rw [if_pos (by simp [StreamScanner.GetPosn]), hdrop]
    have : sc.mPosn = sc.mSrc.length := by omega
    simp [this]
  | succ n ih =>
    intro i sc cr lf fuel hg hi hp hf
    obtain ⟨f, rfl⟩ : ∃ f, fuel = f + 1 := ⟨fuel - 1, by omega⟩
    have hpos : ¬ sc.GetPosn = (-1 : Int) := by
      simp only [StreamScanner.GetPosn, hg, if_true]
      omega
    have hil : i < sc.mSrc.length := by omega
    have hget : sc.mSrc.get? sc.mPosn = some (sc.mSrc[i]) := by
      rw [hi]
      exact List.get?_eq_get hil
    have hgc : sc.GetChar = (some (sc.mSrc[i]), { sc with mPosn := sc.mPosn + 1 }) := by
      unfold StreamScanner.GetChar
      rw [if_pos hg, hget]
    have hdrop : sc.mSrc.drop i = sc.mSrc[i] :: sc.mSrc.drop (i + 1) :=
      List.drop_eq_getElem_cons hil
    have ih2 := fun cr2 lf2 => ih (i + 1) { sc with mPosn := sc.mPosn + 1 } cr2 lf2 f hg
      (by simp [hi]) (by simp; omega) (by omega)
    unfold StreamScanner.lineIndexLoop
    rw [if_neg hpos, hgc]
    simp only
    rw [hdrop, List.count_cons, List.count_cons]
    by_cases h1 : sc.mSrc[i] = '\r'
    · rw [if_pos h1, ih2]
      simp [h1]
      omega
    · rw [if_neg h1]
      by_cases h2 : sc.mSrc[i] = '\n'
      · rw [if_pos h2, ih2]
        simp [h2]
        omega
      · rw [if_neg h2, ih2]
        simp [h1, h2]

/-- On a scanner within its source, `GetLineIndex` ends, returns the number that
`GetLineIndex` stands for, and leaves the scanner as it was. -/
theorem GetLineIndexRun_good (sc : StreamScanner) (hg : sc.mGood = true)
    (hp : sc.mPosn ≤ sc.mSrc.length) :
    sc.GetLineIndexRun = some (sc.GetLineIndex, sc) := by
  have hpos : sc.GetPosn = (sc.mPosn : Int) := by simp [StreamScanner.GetPosn, hg]
  have h := lineIndexLoop_good sc.mPosn 0 sc.mPosn sc.Rewind 0 0 (sc.mSrc.length + 2) rfl rfl
    (by simp) hp (by omega)
  unfold StreamScanner.GetLineIndexRun
  rw [hpos, h, GetLineIndex_eq_numLinesOf]
  simp only [StreamScanner.Rewind, hg, if_true, List.drop_zero, Nat.zero_add]
  cases sc
  simp_all

/-- On a failed stream, `GetLineIndex` ends, returns the number that `GetLineIndex`
stands for, and leaves the stream failed. -/
theorem GetLineIndexRun_failed (sc : StreamScanner) (hg : sc.mGood = false) :
    sc.GetLineIndexRun =
      some (sc.GetLineIndex, { sc with mPosn := sc.mSrc.length, mGood := false }) := by
  have hpos : sc.GetPosn = (-1 : Int) := by simp [StreamScanner.GetPosn, hg]
  have h := lineIndexLoop_failed sc.mSrc.length 0 sc.Rewind 0 0 (sc.mSrc.length + 2) rfl rfl
    (by simp [StreamScanner.Rewind]) (by simp [StreamScanner.Rewind])
  unfold StreamScanner.GetLineIndexRun
  rw [hpos, h, GetLineIndex_eq_numLinesOf]
  simp [StreamScanner.Rewind, hg]

theorem land_65535 (x : Nat) : x &&& 0xFFFF = x % 65536 :=
  Nat.and_pow_two_sub_one_eq_mod x 16

theorem land_32767 (x : Nat) : x &&& 0x7FFF = x % 32768 :=
  Nat.and_pow_two_sub_one_eq_mod x 15

theorem land_kRandMax (x : Nat) : x &&& 2147483647 = x % 2147483648 :=
  Nat.and_pow_two_sub_one_eq_mod x 31

theorem shr_16 (x : Nat) : x >>> 16 = x / 65536 := Nat.shiftRight_eq_div_pow x 16

theorem shr_15 (x : Nat) : x >>> 15 = x / 32768 := Nat.shiftRight_eq_div_pow x 15

theorem shl_16 (x : Nat) : x <<< 16 = x * 65536 := Nat.shiftLeft_eq x 16

/-- No multiple of 2 ** 31 - 1 lies among 16807 * s for 1 <= s <= 2 ** 31 - 2. -/
theorem lehmer_ne_zero (s : Nat) (h1 : 1 ≤ s) (h2 : s ≤ 2147483646) :
    16807 * s % 2147483647 ≠ 0 := by
  intro h
  have hd : 2147483647 ∣ 16807 * s := Nat.dvd_of_mod_eq_zero h
  have hc : Nat.Coprime 2147483647 16807 := by norm_num
  have hs : 2147483647 ∣ s := hc.dvd_of_dvd_mul_left hd
  have := Nat.le_of_dvd (by omega) hs
  omega

theorem foldHigh_eq (x : Nat) (hx : x < 4294967296) :
    RandomService.foldHigh x = if x > 2147483647 then x - 2147483647 else x := by
  simp only [RandomService.foldHigh, RandomService.ulong, RandomService.kRandMax, land_kRandMax]
  split_ifs <;> omega

/-- The two folding steps of `Generate` leave the remainder modulo 2 ** 31 - 1, if that
remainder is not 0. -/
theorem foldHigh_twice (x hh : Nat) (hx : x < 3248864858) (hh1 : hh < 16807)
    (hne : (x + hh) % 2147483647 ≠ 0) :
    RandomService.foldHigh (RandomService.ulong (RandomService.foldHigh (RandomService.ulong x) + hh)) = (x + hh) % 2147483647 := by
  have e1 : RandomService.ulong x = x := Nat.mod_eq_of_lt (by omega)
  rw [e1, foldHigh_eq x (by omega)]
  have e3 : RandomService.ulong ((if x > 2147483647 then x - 2147483647 else x) + hh) =
      (if x > 2147483647 then x - 2147483647 else x) + hh :=
    Nat.mod_eq_of_lt (by split_ifs <;> omega)
  rw [e3, foldHigh_eq _ (by split_ifs <;> omega)]
  split_ifs <;> omega

/-- One call of `Generate` on a seed 1 <= s <= 2 ** 31 - 2 leaves 16807 * s modulo
2 ** 31 - 1. -/
theorem nextSeed_lehmer (s : Nat) (h1 : 1 ≤ s) (h2 : s ≤ 2147483646) :
    RandomService.nextSeed s = 16807 * s % 2147483647 := by
  have hne := lehmer_ne_zero s h1 h2
  have e0 : RandomService.ulong (RandomService.kA * (s &&& 0xFFFF)) = 16807 * (s % 65536) := by
    simp only [RandomService.ulong, RandomService.kA, land_65535]; omega
  have e1 : RandomService.ulong (RandomService.kA * (RandomService.ulong s >>> 16)) = 16807 * (s / 65536) := by
    simp only [RandomService.ulong, RandomService.kA, shr_16]; omega
  have e2 : 16807 * s = (16807 * (s % 65536) + 16807 * (s / 65536) % 32768 * 65536 +
      16807 * (s / 65536) / 32768) + 2147483647 * (16807 * (s / 65536) / 32768) := by
    omega
  have e3 : 16807 * s % 2147483647 = (16807 * (s % 65536) +
      16807 * (s / 65536) % 32768 * 65536 + 16807 * (s / 65536) / 32768) % 2147483647 := by
    conv_lhs => rw [e2]
    exact Nat.add_mul_mod_self_left _ _ _
  rw [e3] at hne
  rw [e3]
  simp only [RandomService.nextSeed, e0, e1, land_32767, shr_15, shl_16]
  exact foldHigh_twice _ _ (by omega) (by omega) hne

theorem nextSeed_zero : RandomService.nextSeed 0 = 0 := by decide

theorem nextSeed_kRandMax : RandomService.nextSeed 2147483647 = 2147483647 := by decide

/-- A seed below 2 ** 31 - 1 stays below it. -/
theorem nextSeed_lt (s : Nat) (h : s ≤ 2147483646) : RandomService.nextSeed s ≤ 2147483646 := by
  rcases Nat.eq_zero_or_pos s with h0 | h0
  · rw [h0, nextSeed_zero]; omega
  · rw [nextSeed_lehmer s h0 h]; omega

theorem seedAfter_succ (s k : Nat) : RandomService.seedAfter s (k + 1) = RandomService.nextSeed (RandomService.seedAfter s k) := by
  simp only [RandomService.seedAfter, Function.iterate_succ_apply', RandomService.Generate]

theorem seedAfter_lt (s : Nat) (h : s ≤ 2147483646) (k : Nat) :
    RandomService.seedAfter s k ≤ 2147483646 := by
  induction k with
  | zero => simpa [RandomService.seedAfter] using h
  | succ k ih => rw [seedAfter_succ]; exact nextSeed_lt _ ih

theorem seedAfter_fixed (s : Nat) (h : RandomService.nextSeed s = s) (k : Nat) : RandomService.seedAfter s k = s := by
  induction k with
  | zero => simp [RandomService.seedAfter]
  | succ k ih => rw [seedAfter_succ, ih, h]

/-- From the seed 1, `k` calls of `Generate` leave 16807 ^ k modulo 2 ** 31 - 1. -/
theorem seedAfter_one (k : Nat) : RandomService.seedAfter 1 k = 16807 ^ k % 2147483647 := by
  induction k with
  | zero => simp [RandomService.seedAfter]
  | succ k ih =>
    have hc : Nat.Coprime 2147483647 (16807 ^ k) :=
      Nat.Coprime.pow_right k (by norm_num)
    have hne : 16807 ^ k % 2147483647 ≠ 0 := by
      intro h
      have hd : 2147483647 ∣ 16807 ^ k := Nat.dvd_of_mod_eq_zero h
      have h1 : 2147483647 ∣ 1 := by
        have := Nat.dvd_gcd (dvd_refl 2147483647) hd
        rwa [Nat.Coprime.gcd_eq_one hc] at this
      have := Nat.le_of_dvd (by omega) h1
      omega
    have hlt : 16807 ^ k % 2147483647 < 2147483647 := Nat.mod_lt _ (by omega)
    rw [seedAfter_succ, ih, nextSeed_lehmer _ (by omega) (by omega), pow_succ,
      Nat.mul_comm (16807 ^ k) 16807, Nat.mul_mod 16807 (16807 ^ k), Nat.mul_mod 16807 (_ % _),
      Nat.mod_mod]

/-- The whole number that `Uniform (long)` returns, in whole-number arithmetic. -/
theorem UniformLong_fst (s n : Nat) : (RandomService.UniformLong s n).1 = RandomService.nextSeed s * n / 2147483647 := by
  simp only [RandomService.UniformLong, RandomService.UniformFloat, RandomService.Generate, RandomService.kRandMax]
  rw [div_mul_eq_mul_div, ← Nat.cast_mul]
  exact Nat.floor_div_eq_div _ _

theorem UniformLong_snd (s n : Nat) : (RandomService.UniformLong s n).2 = RandomService.nextSeed s := rfl

/-- The documented range of `Uniform (long)` holds on every seed below 2 ** 31 - 1. -/
theorem UniformLong_lt (s n : Nat) (h : s ≤ 2147483646) (hn : 0 < n) :
    (RandomService.UniformLong s n).1 < n := by
  rw [UniformLong_fst, Nat.div_lt_iff_lt_mul (by omega)]
  have := nextSeed_lt s h
  exact Nat.mul_lt_mul_of_lt_of_le (by omega) (le_refl n) hn |>.trans_eq (Nat.mul_comm _ _)

/-- The random number service of a seed below 2 ** 31 - 1 keeps the documented range. -/
theorem ofSeed_InRange (s : Nat) (h : s ≤ 2147483646) : (RandomService.ofSeed s).InRange :=
  fun k n hn => UniformLong_lt (RandomService.seedAfter s k) n (seedAfter_lt s h k) hn

/-- On the seed 2 ** 31 - 1 every call of `Uniform (long)` returns its argument. -/
theorem ofSeed_kRandMax : RandomService.ofSeed 2147483647 = { gen := fun _ n => n, calls := 0 } := by
  simp only [RandomService.ofSeed, seedAfter_fixed 2147483647 nextSeed_kRandMax, UniformLong_fst,
    nextSeed_kRandMax]
  congr 1
  funext _ n
  exact Nat.mul_div_cancel_left n (by omega)

/-- C38: for every seed 1 <= s <= 2 ** 31 - 2, one call of `Generate` replaces the seed
by 16807 * s modulo 2 ** 31 - 1, which lies between 1 and 2 ** 31 - 2 again, and returns
the new seed divided by 2 ** 31 - 1; from the seed 1 (as `SetSeed (1)` leaves it), 10000
calls leave the seed 1043618065. -/
theorem C38_Generate_lehmer (s : Nat) (h1 : 1 ≤ s) (h2 : s ≤ 2 ^ 31 - 2) :
    (RandomService.Generate s).2 = 16807 * s % (2 ^ 31 - 1) ∧
    (1 ≤ (RandomService.Generate s).2 ∧ (RandomService.Generate s).2 ≤ 2 ^ 31 - 2) ∧
    (RandomService.Generate s).1 = ((RandomService.Generate s).2 : ℚ) / ((2 : ℚ) ^ 31 - 1) ∧
    RandomService.seedAfter (RandomService.SetSeed 1) 10000 = 1043618065 := by
  have h2' : s ≤ 2147483646 := by norm_num at h2; exact h2
  have hne := lehmer_ne_zero s h1 h2'
  have hs : (RandomService.Generate s).2 = 16807 * s % 2147483647 := nextSeed_lehmer s h1 h2'
  refine ⟨hs.trans (by norm_num), ⟨?_, ?_⟩, ?_, ?_⟩
  · rw [hs]; omega
  · rw [hs]; norm_num; omega
  · simp only [RandomService.Generate, RandomService.kRandMax]; norm_num
  · rw [show RandomService.SetSeed 1 = 1 from by decide, seedAfter_one]
    norm_num

theorem C38_Generate_lehmer_witness :
    (RandomService.Generate 1).2 = 16807 * 1 % (2 ^ 31 - 1) ∧
    (1 ≤ (RandomService.Generate 1).2 ∧ (RandomService.Generate 1).2 ≤ 2 ^ 31 - 2) ∧
    (RandomService.Generate 1).1 = ((RandomService.Generate 1).2 : ℚ) / ((2 : ℚ) ^ 31 - 1) ∧
    RandomService.seedAfter (RandomService.SetSeed 1) 10000 = 1043618065 :=
  C38_Generate_lehmer 1 (by decide) (by decide)

/-- C39 (evaluation): `SetSeed (2147483647)` and `SetSeed (-1)` leave the seed
2 ** 31 - 1, on which `Generate` returns 1 and leaves the seed as it is; `Uniform (n)`
then returns `n` and `Uniform (floor, ceiling)` returns `ceiling + 1`, so that
`ShuffleBlock` on the isolates 0 .. 1 draws the row index 2 and the shuffle of the
population {0, 1} changes the row of the isolate 2. -/
theorem C39_Uniform_on_stuck_seed :
    RandomService.SetSeed 2147483647 = 2147483647 ∧
    RandomService.SetSeed (-1) = 2147483647 ∧
    RandomService.Generate 2147483647 = (1, 2147483647) ∧
    (∀ n, RandomService.UniformLong 2147483647 n = (n, 2147483647)) ∧
    (∀ f w, RandomService.UniformLongRange 2147483647 f (f + w) = (f + w + 1, 2147483647)) ∧
    (stuckSeedModel.mRng.UniformWhole 0 1).1 = 2 ∧
    stuckSeedModel.mPops.mParts = [(0, 1), (2, 2)] ∧
    stuckSeedModel.mHaploData = [["A", "B"], ["C", "D"], ["E", "F"]] ∧
    stuckSeedModel.ShuffleDataset.mHaploData = [["E", "F"], ["A", "B"], ["C", "D"]] := by
  have hU : ∀ n, RandomService.UniformLong 2147483647 n = (n, 2147483647) := by
    intro n
    refine Prod.ext ?_ nextSeed_kRandMax
    rw [UniformLong_fst, nextSeed_kRandMax]
    exact Nat.mul_div_cancel_left n (by omega)
  have hS : RandomService.SetSeed 2147483647 = 2147483647 := by decide
  have hM : stuckSeedModel =
      { mPloidy := ploidy_t.kPloidy_Haploid
        mHaploData := [["A", "B"], ["C", "D"], ["E", "F"]]
        mPops := { mNumElements := 3, mParts := [(0, 1), (2, 2)] }
        mLinkages := { mNumElements := 2, mParts := [(0, 1)] }
        mRng := { gen := fun _ n => n, calls := 0 } } := by
    simp only [stuckSeedModel, hS, ofSeed_kRandMax]
  refine ⟨hS, by decide, ?_, hU, ?_, ?_, rfl, rfl, ?_⟩
  · simp only [RandomService.Generate, nextSeed_kRandMax,
      RandomService.kRandMax]
    norm_num
  · intro f w
    simp only [RandomService.UniformLongRange, hU]
    refine Prod.ext ?_ rfl
    show f + w - f + 1 + f = f + w + 1
    omega
  · rw [hM]; decide
  · rw [hM]; decide

/-- C40 (evaluation): `SetSeed` stores the seed 0 exactly for the non-zero arguments
whose low 31 bits are all zero; `SetSeed (-2147483648)` stores 0, and every call of
`Generate` after it returns 0 and leaves the seed 0. -/
theorem C40_SetSeed_stores_zero :
    RandomService.SetSeed (-2147483648) = 0 ∧
    RandomService.SetSeed 0 = 1 ∧
    (∀ iSeed : Int, RandomService.SetSeed iSeed = 0 ↔
      (iSeed ≠ 0 ∧ iSeed % 2147483648 = 0)) ∧
    RandomService.Generate 0 = (0, 0) ∧
    (∀ k, RandomService.seedAfter (RandomService.SetSeed (-2147483648)) k = 0) ∧
    (∀ k n, (RandomService.ofSeed (RandomService.SetSeed (-2147483648))).gen k n = 0) := by
  have h0 : RandomService.SetSeed (-2147483648) = 0 := by decide
  have hk : ∀ k, RandomService.seedAfter 0 k = 0 :=
    seedAfter_fixed 0 nextSeed_zero
  refine ⟨h0, by decide, ?_, ?_, ?_, ?_⟩
  · intro iSeed
    unfold RandomService.SetSeed
    split_ifs with h
    · constructor
      · intro hz
        refine ⟨h, ?_⟩
        have := Int.emod_nonneg iSeed (show (2147483648 : Int) ≠ 0 by norm_num)
        omega
      · rintro ⟨_, hz⟩
        rw [hz]; rfl
    · constructor
      · intro hz; exact absurd hz (by decide)
      · rintro ⟨hne, _⟩; exact absurd hne h
  · simp only [RandomService.Generate, nextSeed_zero]
    norm_num
  · intro k; rw [h0]; exact hk k
  · intro k n
    rw [h0]
    simp only [RandomService.ofSeed, hk, UniformLong_fst,
      nextSeed_zero]
    simp

theorem sum_set_getD (L : List Int) (n : Nat) (a : Int) (h : n < L.length) :
    (L.set n a).sum = L.sum - L.getD n 0 + a := by
  rw [List.sum_set', dif_pos h, List.getD_eq_getElem L 0 h]
  ring

theorem getD_replicate_one (n r : Nat) :
    (List.replicate n (1 : Int)).getD r 0 = if r < n then 1 else 0 := by
  simp only [List.getD_eq_getElem?_getD, List.getElem?_replicate]
  split_ifs <;> rfl

theorem FreqBounds_init (n : Nat) (hn : 1 ≤ n) : FreqBounds n 0 (List.replicate n 1) := by
  refine ⟨List.length_replicate _ _, ?_, ?_, ?_, ?_⟩
  · intro r; rw [getD_replicate_one]; split_ifs <;> omega
  · intro r _; rw [getD_replicate_one]; split_ifs <;> omega
  · rw [List.sum_replicate]; simp
  · rw [getD_replicate_one, if_pos (by omega)]

theorem FreqBounds_step (n : Nat) (d : List Int) (i j : Nat) (hij : i < j) (hj : j < n)
    (st : List Int × Nat) (h : FreqBounds n i st.1) :
    FreqBounds n i (CountFreqsStep d i st j).1 := by
  obtain ⟨hlen, hnn, hle, hsum, h0⟩ := h
  unfold CountFreqsStep
  split_ifs with hc
  · obtain ⟨⟨_, hfj⟩, _⟩ := hc
    have hj1 : st.1.getD j 0 = 1 := by
      have := hnn j
      have := hle j hij
      omega
    have hji : st.1.getD i 0 = (st.1.set j 0).getD i 0 := by
      rw [getD_set_eq, if_neg (by omega)]
    have hget : ∀ r, ((st.1.set j 0).set i ((st.1.set j 0).getD i 0 + 1)).getD r 0 =
        if r = i then st.1.getD i 0 + 1 else if r = j then 0 else st.1.getD r 0 := by
      intro r
      rw [getD_set_eq, List.length_set, ← hji, getD_set_eq]
      by_cases hri : r = i
      · rw [if_pos ⟨hri, by omega⟩, if_pos hri]
      · rw [if_neg (fun hh => hri hh.1), if_neg hri]
        by_cases hrj : r = j
        · rw [if_pos ⟨hrj, by omega⟩, if_pos hrj]
        · rw [if_neg (fun hh => hrj hh.1), if_neg hrj]
    refine ⟨by simp [hlen], ?_, ?_, ?_, ?_⟩
    · intro r
      show 0 ≤ ((st.1.set j 0).set i ((st.1.set j 0).getD i 0 + 1)).getD r 0
      rw [hget]
      have := hnn i
      have := hnn r
      split_ifs <;> omega
    · intro r hr
      show ((st.1.set j 0).set i ((st.1.set j 0).getD i 0 + 1)).getD r 0 ≤ 1
      rw [hget, if_neg (by omega)]
      have := hle r hr
      split_ifs <;> omega
    · show ((st.1.set j 0).set i ((st.1.set j 0).getD i 0 + 1)).sum = n
      rw [sum_set_getD _ _ _ (by rw [List.length_set]; omega),
        sum_set_getD _ _ _ (by omega), ← hji]
      omega
    · show 1 ≤ ((st.1.set j 0).set i ((st.1.set j 0).getD i 0 + 1)).getD 0 0
      rw [hget]
      have := hnn i
      split_ifs with h1 h2
      · omega
      · omega
      · exact h0
  · exact ⟨hlen, hnn, hle, hsum, h0⟩

theorem FreqBounds_row (n : Nat) (d : List Int) (i : Nat) (hi : i + 1 < n)
    (st : List Int × Nat) (h : FreqBounds n i st.1) :
    FreqBounds n (i + 1)
      ((List.range' (i + 1) (n - (i + 1))).foldl (CountFreqsStep d i) st).1 := by
  have key := foldl_range'_invariant (fun _ (t : List Int × Nat) => FreqBounds n i t.1)
    (CountFreqsStep d i) (i + 1) (n - (i + 1)) st h
    (fun j t hj1 hj2 ht => FreqBounds_step n d i j (by omega) (by omega) t ht)
  obtain ⟨h1, h2, h3, h4, h5⟩ := key
  exact ⟨h1, h2, fun r hr => h3 r (by omega), h4, h5⟩

/-- The array of frequencies that `CountFreqsFromDist` leaves, for any array of
distances. -/
theorem FreqBounds_CountFreqs (n : Nat) (d : List Int) (hn : 1 ≤ n) :
    FreqBounds n (n - 1) (CountFreqsFromDistN n d) := by
  unfold CountFreqsFromDistN
  exact foldl_range_invariant (fun i (t : List Int × Nat) => FreqBounds n i t.1) _ (n - 1)
    (List.replicate n 1, 0) (FreqBounds_init n hn)
    (fun i t hi ht => FreqBounds_row n d i (by omega) t ht)

theorem getD_mem_or {α : Type} (l : List α) (r : Nat) (d : α) :
    l.getD r d = d ∨ l.getD r d ∈ l := by
  by_cases h : r < l.length
  · right
    rw [List.getD_eq_getElem l d h]
    exact List.getElem_mem h
  · left
    simp [List.getD_eq_getElem?_getD, List.getElem?_eq_none (Nat.le_of_not_lt h)]

theorem mem_le_sum_of_nonneg (l : List Int) (h : ∀ x ∈ l, 0 ≤ x) : ∀ x ∈ l, x ≤ l.sum := by
  induction l with
  | nil => intro x hx; cases hx
  | cons y ys ih =>
    intro x hx
    rw [List.sum_cons]
    have hy : 0 ≤ y := h y (List.mem_cons_self _ _)
    have hs : 0 ≤ ys.sum := List.sum_nonneg (fun z hz => h z (List.mem_cons_of_mem _ hz))
    rcases List.mem_cons.1 hx with rfl | hx'
    · omega
    · have := ih (fun z hz => h z (List.mem_cons_of_mem _ hz)) x hx'
      omega

theorem mem_of_getD_ne {α : Type} (l : List α) (r : Nat) (d : α) (h : l.getD r d ≠ d) :
    l.getD r d ∈ l := by
  rcases getD_mem_or l r d with h1 | h1
  · exact absurd h1 h
  · exact h1

/-- C34: for every array of distances and every model of at least one isolate, the
array of frequencies that `CountFreqsFromDist` produces has one entry for each isolate,
no negative entry, a first entry of at least 1, and entries that sum to the number of
isolates; so NumDiff (`CountGtypesFromDist`) and MaxFreq (the greatest entry, as
`CalcNumDiff` takes it) both lie between 1 and the number of isolates. -/
theorem C34_CountFreqs_bounds (s : MultiLocusModel) (oDistArray : List Int)
    (hn : 1 ≤ s.GetNumRows) :
    (s.CountFreqsFromDist oDistArray).length = s.GetNumRows ∧
    (∀ x ∈ s.CountFreqsFromDist oDistArray, 0 ≤ x) ∧
    1 ≤ (s.CountFreqsFromDist oDistArray).getD 0 0 ∧
    (s.CountFreqsFromDist oDistArray).sum = s.GetNumRows ∧
    (1 ≤ s.CountGtypesFromDist oDistArray ∧
      s.CountGtypesFromDist oDistArray ≤ s.GetNumRows) ∧
    (1 ≤ (s.CountFreqsFromDist oDistArray).foldl
        (fun iMaxFreq x => if iMaxFreq < x then x else iMaxFreq) 0 ∧
      (s.CountFreqsFromDist oDistArray).foldl
        (fun iMaxFreq x => if iMaxFreq < x then x else iMaxFreq) 0 ≤ s.GetNumRows) := by
  have hb : FreqBounds s.GetNumRows (s.GetNumRows - 1) (s.CountFreqsFromDist oDistArray) :=
    FreqBounds_CountFreqs s.GetNumRows oDistArray hn
  obtain ⟨hlen, hnn, _, hsum, h0⟩ := hb
  have hmem : ∀ x ∈ s.CountFreqsFromDist oDistArray, 0 ≤ x := by
    intro x hx
    obtain ⟨r, hr, rfl⟩ := List.getElem_of_mem hx
    have := hnn r
    rwa [List.getD_eq_getElem _ 0 hr] at this
  have h0mem : (s.CountFreqsFromDist oDistArray).getD 0 0 ∈ s.CountFreqsFromDist oDistArray :=
    mem_of_getD_ne _ 0 0 (by
      have : 1 ≤ (s.CountFreqsFromDist oDistArray).getD 0 0 := h0
      omega)
  refine ⟨hlen, hmem, h0, hsum, ⟨?_, ?_⟩, ⟨?_, ?_⟩⟩
  · unfold CountGtypesFromDist
    rw [foldl_count_ne_zero, Nat.zero_add]
    have hin : (s.CountFreqsFromDist oDistArray).getD 0 0 ∈
        (s.CountFreqsFromDist oDistArray).filter (fun x => x ≠ 0) := by
      rw [List.mem_filter]
      refine ⟨h0mem, ?_⟩
      have : 1 ≤ (s.CountFreqsFromDist oDistArray).getD 0 0 := h0
      simp only [ne_eq, decide_not, Bool.not_eq_true', decide_eq_false_iff_not]
      omega
    exact List.length_pos_of_mem hin
  · unfold CountGtypesFromDist
    rw [foldl_count_ne_zero, Nat.zero_add]
    calc ((s.CountFreqsFromDist oDistArray).filter (fun x => x ≠ 0)).length
        ≤ (s.CountFreqsFromDist oDistArray).length := List.length_filter_le _ _
      _ = s.GetNumRows := hlen
  · have h2 := (foldl_max_spec (s.CountFreqsFromDist oDistArray) 0).2.1 _ h0mem
    have : 1 ≤ (s.CountFreqsFromDist oDistArray).getD 0 0 := h0
    omega
  · rcases (foldl_max_spec (s.CountFreqsFromDist oDistArray) 0).2.2 with h3 | h3
    · rw [h3]; omega
    · have := mem_le_sum_of_nonneg _ hmem _ h3
      have hs : (s.CountFreqsFromDist oDistArray).sum = (s.GetNumRows : Int) := hsum
      omega

theorem C34_CountFreqs_bounds_witness :
    1 ≤ missingFirstModel.GetNumRows ∧
    (missingFirstModel.CountFreqsFromDist [0, 0, 1]).length = missingFirstModel.GetNumRows ∧
    (missingFirstModel.CountFreqsFromDist [0, 0, 1]).sum = missingFirstModel.GetNumRows ∧
    (1 ≤ missingFirstModel.CountGtypesFromDist [0, 0, 1] ∧
      missingFirstModel.CountGtypesFromDist [0, 0, 1] ≤ missingFirstModel.GetNumRows) :=
  ⟨by decide, (C34_CountFreqs_bounds missingFirstModel [0, 0, 1] (by decide)).1,
    (C34_CountFreqs_bounds missingFirstModel [0, 0, 1] (by decide)).2.2.2.1,
    (C34_CountFreqs_bounds missingFirstModel [0, 0, 1] (by decide)).2.2.2.2.1⟩

/-- The random number service of a seed, in whole-number arithmetic. -/
theorem ofSeed_eq (mSeed : Nat) :
    RandomService.ofSeed mSeed =
      { gen := fun k n =>
          RandomService.nextSeed (RandomService.nextSeed^[k] mSeed) * n / 2147483647,
        calls := 0 } := by
  simp only [RandomService.ofSeed, UniformLong_fst, RandomService.seedAfter,
    RandomService.Generate]

/-- C31 (evaluation): three populations {0, 1}, {2, 3}, {4, 5}, the linkage groups merged,
the generator seeded with 1, and the populations 1 and 2 selected. `ShufflePops` takes
the isolates 0 .. 3 of the populations 0 and 1 for the selected ones: the isolates 0 and
1 of the population 0, which is not selected, end with other rows, the rows held by the
isolates 2 .. 5 of the selected populations are not the rows that they held before, and
the isolates of the population 2 are never drawn. On the selection of the populations 0
and 1 the call does the same. -/
theorem C31_ShufflePops_selection_ignored :
    threePopsModel.mPops.mParts = [(0, 1), (2, 3), (4, 5)] ∧
    threePopsModel.mLinkages.MergeAll = threePopsModel.mLinkages ∧
    threePopsModel.mHaploData =
      [["A", "B"], ["C", "D"], ["E", "F"], ["G", "H"], ["I", "J"], ["K", "L"]] ∧
    (threePopsModel.ShufflePops [1, 2]).mHaploData =
      [["C", "D"], ["E", "F"], ["G", "H"], ["A", "B"], ["I", "J"], ["K", "L"]] ∧
    ¬ (blockTuples (threePopsModel.ShufflePops [1, 2]).mHaploData 0 1 2 5).Perm
      (blockTuples threePopsModel.mHaploData 0 1 2 5) ∧
    (threePopsModel.ShufflePops [1, 2]).mHaploData =
      (threePopsModel.ShufflePops [0, 1]).mHaploData := by
  have hS : RandomService.SetSeed 1 = 1 := by decide
  have hM : threePopsModel =
      { mPloidy := ploidy_t.kPloidy_Haploid
        mHaploData := [["A", "B"], ["C", "D"], ["E", "F"], ["G", "H"], ["I", "J"], ["K", "L"]]
        mPops := { mNumElements := 6, mParts := [(0, 1), (2, 3), (4, 5)] }
        mLinkages := { mNumElements := 2, mParts := [(0, 1)] }
        mRng := ⟨fun k n =>
          RandomService.nextSeed (RandomService.nextSeed^[k] 1) * n / 2147483647, 0⟩ } := by
    simp only [threePopsModel, hS, ofSeed_eq]
  refine ⟨rfl, by decide, rfl, ?_, ?_, ?_⟩
  · rw [hM]; decide
  · rw [hM]; decide
  · rw [hM]; decide

/-- C35 (evaluation): three loci of non-zero variance and two replicates; the
replicates reach the observed value never for the pair (0,1), twice for the pair (0,2)
and once for the pair (1,2), and `CalcPairwiseStats` leaves the counters 0, 2, 1 at the
row-major indices 0, 1, 2 of the pairs. The row "P Values" is written from the counters
0, 0, 2: the entry of the pair (0,2) is that of the counter of the pair (0,1), and the
entry of the pair (1,2) is that of the counter of the pair (0,2). -/
theorem C35_pair_PValues_read_at_first_locus :
    CalcDiversityPairPVals 3 3 [some 1, some 1, some 1] 2 pairwiseRuns = [0, 2, 1] ∧
    pairIndex 3 0 1 = 0 ∧ pairIndex 3 0 2 = 1 ∧ pairIndex 3 1 2 = 2 ∧
    PairPValuesRow 3 [some 1, some 1, some 1] 2 [0, 2, 1] =
      [{ text := "< ", value := some (1 / 2) }, { text := "< ", value := some (1 / 2) },
        { text := "< ", value := some (2 / 2) }] ∧
    (∀ (mVarDist : List (Option ℚ)) (n : Nat) (thePairPVals : List Nat) (c : Nat),
      pairPValEntry mVarDist n thePairPVals 0 2 =
        pairPValEntry mVarDist n (thePairPVals.set (pairIndex 3 0 2) c) 0 2) := by
  refine ⟨?_, by decide, by decide, by decide, ?_, ?_⟩
  · decide
  · simp [PairPValuesRow, pairPValEntry, varDistZero, List.range_succ, List.range']
  · intro mVarDist n thePairPVals c
    have h : (thePairPVals.set (pairIndex 3 0 2) c).getD 0 0 = thePairPVals.getD 0 0 := by
      rw [getD_set_eq, if_neg (fun hh => absurd hh.1 (by decide))]
    simp only [pairPValEntry, h]

theorem foldl_Increment_const (a : String) :
    ∀ (l : List String) (n : Nat), (∀ x ∈ l, x = a) →
      l.foldl (fun f x => Frequency.Increment f x 1) [(a, n)] = [(a, n + l.length)] := by
  intro l
  induction l with
  | nil => intro n _; rfl
  | cons x xs ih =>
    intro n h
    have hx : x = a := h x (List.mem_cons_self _ _)
    rw [List.foldl_cons, hx]
    have e : Frequency.Increment [(a, n)] a 1 = [(a, n + 1)] := by
      simp [Frequency.Increment]
    rw [e, ih (n + 1) (fun y hy => h y (List.mem_cons_of_mem _ hy)), List.length_cons]
    congr 2
    omega

theorem foldl_Increment_all (a : String) (l : List String) (hl : l ≠ [])
    (h : ∀ x ∈ l, x = a) :
    l.foldl (fun f x => Frequency.Increment f x 1) [] = [(a, l.length)] := by
  cases l with
  | nil => exact absurd rfl hl
  | cons x xs =>
    have hx : x = a := h x (List.mem_cons_self _ _)
    rw [List.foldl_cons, hx]
    have e : Frequency.Increment [] a 1 = [(a, 1)] := rfl
    rw [e, foldl_Increment_const a xs 1 (fun y hy => h y (List.mem_cons_of_mem _ hy)),
      List.length_cons, Nat.add_comm]

/-- The counts of a population block whose isolates all carry the allele `a`, which is
not a missing symbol. -/
theorem knownAlleleFreqs_uniform (s : MultiLocusModel)
    (hp : s.mPloidy = ploidy_t.kPloidy_Haploid) (p i f t : Nat) (a : tAllele)
    (hb : s.mPops.GetBounds p = (f, t)) (hft : f ≤ t)
    (ha : ∀ k, f ≤ k → k ≤ t → cellAt s.mHaploData k i = a) (hm : IsMissing a = false) :
    s.knownAlleleFreqs p i = [(a, t + 1 - f)] := by
  have hcells : (s.popIsolates p).flatMap (fun k => s.cellAlleles k i) =
      (List.range' f (t + 1 - f)).map (fun k => cellAt s.mHaploData k i) := by
    simp only [popIsolates, hb, cellAlleles, GetPloidy, hp, if_true]
    induction (List.range' f (t + 1 - f)) with
    | nil => rfl
    | cons x xs ih => simp [List.flatMap_cons, ih]
  have hall : ∀ x ∈ (List.range' f (t + 1 - f)).map (fun k => cellAt s.mHaploData k i),
      x = a := by
    intro x hx
    obtain ⟨k, hk, rfl⟩ := List.mem_map.1 hx
    rw [List.mem_range'_1] at hk
    exact ha k hk.1 (by omega)
  have hne : (List.range' f (t + 1 - f)).map (fun k => cellAt s.mHaploData k i) ≠ [] := by
    intro h
    have := congrArg List.length h
    simp at this
    omega
  have hfreq : s.popAlleleFreqs p i = [(a, t + 1 - f)] := by
    unfold popAlleleFreqs
    rw [hcells, foldl_Increment_all a _ hne hall]
    simp
  have h1 : a ≠ kSymbol_Unknown := by
    intro h; rw [h] at hm; exact absurd hm (by decide)
  have h2 : a ≠ kSymbol_Gap := by
    intro h; rw [h] at hm; exact absurd hm (by decide)
  unfold knownAlleleFreqs
  rw [hfreq]
  simp [Frequency.Erase, h1, h2]

/-- The statistics of a site at which the first of two populations of `n1` and `n2`
isolates carries one allele and the second another. -/
theorem siteQ_differentiated (n1 n2 : Nat) (h1 : 2 ≤ n1) (h2 : 2 ≤ n2) :
    siteQ 2 (n1 + n2) (n1 + n2) (n1 * n1 + n2 * n2) ((n1 : ℚ) + (n2 : ℚ))
      ((n1 * n1 + n2 * n2 : Nat) : ℚ) = some (1, 0) := by
  have hn1 : (2 : ℚ) ≤ (n1 : ℚ) := by exact_mod_cast h1
  have hn2 : (2 : ℚ) ≤ (n2 : ℚ) := by exact_mod_cast h2
  have hN : ((n1 + n2 : Nat) : ℚ) = (n1 : ℚ) + (n2 : ℚ) := by push_cast; ring
  have hS : ((n1 * n1 + n2 * n2 : Nat) : ℚ) = (n1 : ℚ) * n1 + (n2 : ℚ) * n2 := by
    push_cast; ring
  have hNpos : (0 : ℚ) < (n1 : ℚ) + (n2 : ℚ) := by linarith
  have hNne : (n1 : ℚ) + (n2 : ℚ) ≠ 0 := ne_of_gt hNpos
  have hprod : (0 : ℚ) < (n1 : ℚ) * (n2 : ℚ) := by positivity
  have hNbar : ((n1 : ℚ) + n2) / 2 - 1 ≠ 0 := by
    intro h
    have : (n1 : ℚ) + n2 = 2 := by linarith
    linarith
  have hNc : (1 : ℚ) / (((2 : Nat) : ℚ) - 1) *
      (((n1 : ℚ) + n2) - ((n1 : ℚ) * n1 + (n2 : ℚ) * n2) / ((n1 : ℚ) + n2)) =
      2 * (n1 : ℚ) * n2 / ((n1 : ℚ) + n2) := by
    push_cast
    field_simp
    ring
  have hNcne : 2 * (n1 : ℚ) * n2 / ((n1 : ℚ) + n2) ≠ 0 := by
    apply div_ne_zero _ hNne
    nlinarith
  unfold siteQ
  rw [hN, hS]
  rw [divQ_of_ne _ _ (by norm_num : ((2 : Nat) : ℚ) ≠ 0),
    divQ_of_ne _ _ (by norm_num : ((2 : Nat) : ℚ) - 1 ≠ 0), divQ_of_ne _ _ hNne]
  simp only [Option.bind_eq_bind, Option.some_bind]
  rw [hNc]
  have e2 : ((2 : Nat) : ℚ) = 2 := by norm_num
  rw [e2]
  rw [divQ_of_ne _ _ (by
      intro h
      have : (2 : ℚ) * (((n1 : ℚ) + n2) / 2 - 1) ≠ 0 := mul_ne_zero (by norm_num) hNbar
      exact this h)]
  simp only [Option.some_bind]
  rw [divQ_of_ne _ _ (by
      have : (2 : ℚ) * (2 - 1) * (((n1 : ℚ) + n2) / 2) *
          (2 * (n1 : ℚ) * n2 / ((n1 : ℚ) + n2)) ≠ 0 := by
        apply mul_ne_zero _ hNcne
        apply mul_ne_zero (by norm_num)
        exact div_ne_zero hNne (by norm_num)
      exact this)]
  simp only [Option.some_bind]
  rw [divQ_of_ne _ _ hNbar]
  simp only [Option.some_bind]
  rw [divQ_of_ne _ _ (mul_ne_zero hNcne hNbar)]
  simp only [Option.some_bind]
  rw [divQ_of_ne _ _ (by norm_num : (2 : ℚ) - 1 ≠ 0)]
  simp only [Option.some_bind, Option.pure_def, Option.some.injEq, Prod.mk.injEq]
  have hN2 : (n1 : ℚ) + n2 - 2 ≠ 0 := by
    intro h; linarith
  constructor
  · field_simp
  · field_simp
    ring

/-- The site loop of `CalcTheta` over sites that all give Q2 = 1 and Q3 = 0. -/
theorem thetaLoop_differentiated (s : MultiLocusModel) (pops : List Nat)
    (hsize : ∀ i, i < s.GetNumCols → 2 ≤ (s.totalFreqs pops i).Size)
    (hsite : ∀ i, i < s.GetNumCols → s.siteStats pops i = some (1, 0)) :
    s.thetaLoop pops = (s.GetNumCols, some ((s.GetNumCols : ℚ), 0)) := by
  unfold thetaLoop
  have key := foldl_range_invariant
    (fun k (st : Nat × Option (ℚ × ℚ)) => st = (k, some ((k : ℚ), 0)))
    (s.thetaStep pops) s.GetNumCols (0, some (0, 0)) (by simp)
    (fun i st hi hst => by
      rw [hst]
      unfold thetaStep
      rw [if_pos (hsize i hi), hsite i hi]
      simp)
  exact key

/-- C37: a haploid matrix of at least one locus in two populations of `n1 >= 2` and
`n2 >= 2` isolates, without missing data; if at every locus all the isolates of the first
population carry one allele and all those of the second population another, then
`CalcTheta` samples every locus, finds Q2 = 1 and Q3 = 0 at each of them in exact
rational arithmetic, and returns theta = 1. -/
theorem C37_theta_complete_differentiation (s : MultiLocusModel)
    (hp : s.mPloidy = ploidy_t.kPloidy_Haploid) (n1 n2 : Nat) (h1 : 2 ≤ n1) (h2 : 2 ≤ n2)
    (hpops : s.mPops.mParts = [(0, n1 - 1), (n1, n1 + n2 - 1)])
    (hcols : 1 ≤ s.GetNumCols) (a b : Nat → tAllele)
    (ha : ∀ i, i < s.GetNumCols → ∀ k, k < n1 → cellAt s.mHaploData k i = a i)
    (hb : ∀ i, i < s.GetNumCols → ∀ k, n1 ≤ k → k < n1 + n2 →
      cellAt s.mHaploData k i = b i)
    (hab : ∀ i, i < s.GetNumCols → a i ≠ b i)
    (hm : ∀ i, i < s.GetNumCols → IsMissing (a i) = false ∧ IsMissing (b i) = false) :
    (∀ i, i < s.GetNumCols →
      2 ≤ (s.totalFreqs (List.range s.mPops.GetNumParts) i).Size ∧
      s.siteStats (List.range s.mPops.GetNumParts) i = some (1, 0)) ∧
    s.CalcTheta = Except.ok (some 1) := by
  have hparts : List.range s.mPops.GetNumParts = [0, 1] := by
    simp [Partition.GetNumParts, hpops, List.range_succ]
  have hb0 : s.mPops.GetBounds 0 = (0, n1 - 1) := by simp [Partition.GetBounds, hpops]
  have hb1 : s.mPops.GetBounds 1 = (n1, n1 + n2 - 1) := by simp [Partition.GetBounds, hpops]
  have hf0 : ∀ i, i < s.GetNumCols → s.knownAlleleFreqs 0 i = [(a i, n1)] := by
    intro i hi
    rw [knownAlleleFreqs_uniform s hp 0 i 0 (n1 - 1) (a i) hb0 (by omega)
      (fun k _ hk => ha i hi k (by omega)) (hm i hi).1]
    congr 2
    omega
  have hf1 : ∀ i, i < s.GetNumCols → s.knownAlleleFreqs 1 i = [(b i, n2)] := by
    intro i hi
    rw [knownAlleleFreqs_uniform s hp 1 i n1 (n1 + n2 - 1) (b i) hb1 (by omega)
      (fun k hk1 hk2 => hb i hi k hk1 (by omega)) (hm i hi).2]
    congr 2
    omega
  have htot : ∀ i, i < s.GetNumCols → s.totalFreqs [0, 1] i = [(a i, n1), (b i, n2)] := by
    intro i hi
    simp [totalFreqs, hf0 i hi, hf1 i hi, Frequency.Add, Frequency.Increment, hab i hi]
  have hsite : ∀ i, i < s.GetNumCols →
      2 ≤ (s.totalFreqs [0, 1] i).Size ∧ s.siteStats [0, 1] i = some (1, 0) := by
    intro i hi
    have hne : b i ≠ a i := fun h => hab i hi h.symm
    have hn1 : (n1 : ℚ) ≠ 0 := by
      have : (2 : ℚ) ≤ (n1 : ℚ) := by exact_mod_cast h1
      intro h; linarith
    have hn2 : (n2 : ℚ) ≠ 0 := by
      have : (2 : ℚ) ≤ (n2 : ℚ) := by exact_mod_cast h2
      intro h; linarith
    have hn1' : n1 ≠ 0 := by omega
    have hn2' : n2 ≠ 0 := by omega
    have hvals : s.popVals [0, 1] i = [[(n1, n1), (0, n2)], [(0, n1), (n2, n2)]] := by
      simp [popVals, htot i hi, hf0 i hi, hf1 i hi, Frequency.ValueOf, Frequency.Value,
        hab i hi, hne]
    have hX : the_X (s.popVals [0, 1] i) = some ((n1 : ℚ) + (n2 : ℚ)) := by
      rw [hvals]
      simp [the_X, popTerm, divQ, hn1, hn2, hn1', hn2']
    have hY : the_Y (s.popVals [0, 1] i) = ((n1 * n1 + n2 * n2 : Nat) : ℚ) := by
      rw [hvals]
      simp [the_Y]
    refine ⟨by rw [htot i hi]; simp [Frequency.Size], ?_⟩
    unfold siteStats
    rw [hX, hY]
    simp only [Option.bind_eq_bind, Option.some_bind]
    have e1 : (s.totalFreqs [0, 1] i).Value = n1 + n2 := by
      rw [htot i hi]; simp [Frequency.Value]
    have e2 : (s.theSumArray [0, 1] i).sum = n1 + n2 := by
      simp [theSumArray, hf0 i hi, hf1 i hi, Frequency.Value]
    have e3 : ((s.theSumArray [0, 1] i).map (fun v => v * v)).sum = n1 * n1 + n2 * n2 := by
      simp [theSumArray, hf0 i hi, hf1 i hi, Frequency.Value]
    rw [e1, e2, e3]
    exact siteQ_differentiated n1 n2 h1 h2
  rw [hparts]
  refine ⟨hsite, ?_⟩
  have hloop := thetaLoop_differentiated s [0, 1] (fun i hi => (hsite i hi).1)
    (fun i hi => (hsite i hi).2)
  unfold CalcTheta thetaOver
  rw [hparts, hloop]
  have hc : (0 : ℚ) < (s.GetNumCols : ℚ) := by exact_mod_cast hcols
  simp only [Option.bind_eq_bind, Option.some_bind, sub_zero]
  rw [if_pos (by omega), divQ_of_ne _ _ (ne_of_gt hc), div_self (ne_of_gt hc)]

theorem C37_theta_complete_differentiation_witness :
    (∀ i, i < differentiatedModel.GetNumCols →
      2 ≤ (differentiatedModel.totalFreqs
        (List.range differentiatedModel.mPops.GetNumParts) i).Size ∧
      differentiatedModel.siteStats
        (List.range differentiatedModel.mPops.GetNumParts) i = some (1, 0)) ∧
    differentiatedModel.CalcTheta = Except.ok (some 1) :=
  C37_theta_complete_differentiation differentiatedModel rfl 2 3 (by decide) (by decide) rfl
    (by decide) (fun i => if i = 0 then "A" else "C") (fun i => if i = 0 then "B" else "D")
    (by decide) (by decide) (by decide) (by decide)

theorem pairSum_perm {X : Type} (f : X → X → Int) (hf : ∀ x y, f x y = f y x)
    {l l' : List X} (h : l.Perm l') : pairSum f l = pairSum f l' := by
  induction h with
  | nil => rfl
  | cons x h ih =>
    simp only [pairSum]
    rw [ih, (h.map (f x)).sum_eq]
  | swap x y l =>
    simp only [pairSum, List.map_cons, List.sum_cons]
    rw [hf y x]
    ring
  | trans _ _ ih1 ih2 => exact ih1.trans ih2

/-- The sum over the pairs of a list of cells, as the loops over `k < m` take it. -/
theorem pairSum_range' {X : Type} (f : X → X → Int) (cell : Nat → X) :
    ∀ (w a : Nat), pairSum f ((List.range' a w).map cell) =
      ((List.range' a w).map (fun k =>
        ((List.range' (k + 1) (a + w - (k + 1))).map (fun m => f (cell k) (cell m))).sum)).sum := by
  intro w
  induction w with
  | zero => intro a; rfl
  | succ w ih =>
    intro a
    rw [List.range'_succ, List.map_cons, pairSum, ih (a + 1), List.map_cons, List.sum_cons,
      List.map_map]
    have e1 : a + (w + 1) - (a + 1) = w := by omega
    rw [e1]
    congr 1
    congr 1
    apply List.map_congr_left
    intro k _
    have e2 : a + 1 + w - (k + 1) = a + (w + 1) - (k + 1) := by omega
    rw [e2]

theorem foldl_add_pair {α : Type} (g : α → Int) (l : List α) (acc : Int × Int) :
    l.foldl (fun st x => (st.1 + g x, st.2 + g x * g x)) acc =
      (acc.1 + (l.map g).sum, acc.2 + (l.map (fun x => g x * g x)).sum) := by
  induction l generalizing acc with
  | nil => simp
  | cons x xs ih =>
    rw [List.foldl_cons, ih]
    simp only [List.map_cons, List.sum_cons]
    refine Prod.ext ?_ ?_ <;> simp only <;> ring

theorem foldl_add_pair_nested {α β : Type} (g : α → β → Int) (inner : α → List β)
    (l : List α) (acc : Int × Int) :
    l.foldl (fun st k => (inner k).foldl
        (fun st m => (st.1 + g k m, st.2 + g k m * g k m)) st) acc =
      (acc.1 + (l.map (fun k => ((inner k).map (g k)).sum)).sum,
        acc.2 + (l.map (fun k => ((inner k).map (fun m => g k m * g k m)).sum)).sum) := by
  induction l generalizing acc with
  | nil => simp
  | cons x xs ih =>
    rw [List.foldl_cons, foldl_add_pair (g x) (inner x) acc, ih]
    simp only [List.map_cons, List.sum_cons]
    refine Prod.ext ?_ ?_ <;> simp only <;> ring

/-- The double loop over the pairs `k < m` of `n` entries sums over the pairs of the
list of the entries. -/
theorem pairLoops_eq_pairSum {X : Type} (f : X → X → Int) (cell : Nat → X) (n : Nat) :
    ((List.range (n - 1)).map (fun k =>
        ((List.range' (k + 1) (n - (k + 1))).map (fun m => f (cell k) (cell m))).sum)).sum =
      pairSum f ((List.range n).map cell) := by
  rw [List.range_eq_range' (n := n), pairSum_range' f cell n 0]
  cases n with
  | zero => rfl
  | succ n =>
    rw [List.range_eq_range', Nat.add_sub_cancel, List.range'_concat, List.map_append,
      List.sum_append]
    simp only [Nat.zero_add, Nat.one_mul, List.map_cons, List.map_nil, List.sum_cons,
      List.sum_nil, Nat.sub_self, List.range'_zero, Int.add_zero]

theorem ChainFrom_le : ∀ (parts : List (Nat × Nat)) (a b : Nat),
    Partition.ChainFrom a parts b → a ≤ b := by
  intro parts
  induction parts with
  | nil => intro a b h; exact Nat.le_of_eq h
  | cons q rest ih =>
    intro a b h
    obtain ⟨h1, h2, h3⟩ := h
    have := ih _ _ h3
    omega

/-- Every index of a chain of blocks lies in one of them. -/
theorem ChainFrom_cover : ∀ (parts : List (Nat × Nat)) (a b : Nat),
    Partition.ChainFrom a parts b → ∀ c, a ≤ c → c < b → ∃ g ∈ parts, g.1 ≤ c ∧ c ≤ g.2 := by
  intro parts
  induction parts with
  | nil =>
    intro a b h c h1 h2
    have : a = b := h
    omega
  | cons q rest ih =>
    intro a b h c h1 h2
    obtain ⟨e1, e2, e3⟩ := h
    by_cases hc : c ≤ q.2
    · exact ⟨q, List.mem_cons_self _ _, by omega, hc⟩
    · obtain ⟨g, hg, hg1, hg2⟩ := ih _ _ e3 c (by omega) h2
      exact ⟨g, List.mem_cons_of_mem _ hg, hg1, hg2⟩

/-- The indices of a chain of blocks, block after block. -/
theorem range'_chain {β : Type} (F : Nat → β) : ∀ (parts : List (Nat × Nat)) (a b : Nat),
    Partition.ChainFrom a parts b →
      (List.range' a (b - a)).map F =
        parts.flatMap (fun q => (List.range' q.1 (q.2 + 1 - q.1)).map F) := by
  intro parts
  induction parts with
  | nil =>
    intro a b h
    have : a = b := h
    simp [this]
  | cons q rest ih =>
    intro a b h
    obtain ⟨e1, e2, e3⟩ := h
    have hle := ChainFrom_le rest _ _ e3
    rw [List.flatMap_cons, ← ih _ _ e3, ← List.map_append]
    congr 1
    have h1 : List.range' q.1 (q.2 + 1 - q.1) ++ List.range' (q.1 + (q.2 + 1 - q.1))
        (b - (q.2 + 1)) = List.range' q.1 (b - (q.2 + 1) + (q.2 + 1 - q.1)) :=
      List.range'_append_1 _ _ _
    have h2 : q.1 + (q.2 + 1 - q.1) = q.2 + 1 := by omega
    have h3 : b - (q.2 + 1) + (q.2 + 1 - q.1) = b - a := by omega
    rw [h2, h3, e1] at h1
    rw [e1]
    exact h1.symm

theorem wholeColumn_eq_blocks {X : Type} [Inhabited X] (m : MATRIX X) (n c : Nat)
    (pops : List (Nat × Nat)) (h : Partition.ChainFrom 0 pops n) :
    wholeColumn m n c = pops.flatMap (fun q => blockColumn m c q.1 q.2) := by
  unfold wholeColumn
  rw [List.range_eq_range']
  have := range'_chain (fun r => cellAt m r c) pops 0 n h
  rw [Nat.sub_zero] at this
  exact this

/-- The shuffle of a well-formed model permutes the cells of every locus over all the
isolates. -/
theorem ShuffleDataset_wholeColumn (s : MultiLocusModel) (hwf : DataWellFormed s)
    (hrng : s.mRng.InRange) (c : Nat) (hc : c < s.GetNumCols) :
    (wholeColumn s.ShuffleDataset.mHaploData s.GetNumRows c).Perm
        (wholeColumn s.mHaploData s.GetNumRows c) ∧
      (wholeColumn s.ShuffleDataset.mDiploData s.GetNumRows c).Perm
        (wholeColumn s.mDiploData s.GetNumRows c) := by
  obtain ⟨g, hg, hg1, hg2⟩ := ChainFrom_cover _ _ _ hwf.2.2 c (Nat.zero_le _) hc
  rw [wholeColumn_eq_blocks _ _ _ _ hwf.2.1, wholeColumn_eq_blocks _ _ _ _ hwf.2.1,
    wholeColumn_eq_blocks _ _ _ _ hwf.2.1, wholeColumn_eq_blocks _ _ _ _ hwf.2.1]
  exact ⟨List.Perm.flatMap_left _
      (fun q hq => ((ShuffleDataset_tuples s hwf hrng g hg q hq).2 c hg1 hg2).1),
    List.Perm.flatMap_left _
      (fun q hq => ((ShuffleDataset_tuples s hwf hrng g hg q hq).2 c hg1 hg2).2)⟩

/-- What the shuffle of one matrix keeps of its shape and of the random numbers. -/
theorem gDataset_shape {X : Type} [Inhabited X] (fixed : Bool) (miss : X → Bool)
    (m : MATRIX X) (rng : RandomService) (n l : Nat) (pops links : List (Nat × Nat))
    (hrect : Rect m n l) (hrng : rng.InRange)
    (hpops : Partition.ChainFrom 0 pops n) (hlinks : Partition.ChainFrom 0 links l) :
    Rect (gDataset fixed miss pops links (m, rng)).1 n l ∧
      (gDataset fixed miss pops links (m, rng)).2.InRange := by
  have hk := Keeps_gDataset fixed miss m n l l l n n pops links (Or.inr (Or.inl rfl))
    (fun g hg => by
      obtain ⟨_, h2, h3⟩ := ChainFrom_mem links 0 l hlinks g hg
      exact ⟨h2, h3, Or.inr (Or.inr h3)⟩)
    (fun q hq => by
      obtain ⟨_, h2, h3⟩ := ChainFrom_mem pops 0 n hpops q hq
      exact ⟨h2, h3, Or.inr (Or.inl h3)⟩)
    (m, rng) ⟨hrect, List.Perm.refl _, hrng⟩
  exact ⟨hk.1, hk.2.2⟩

theorem Rect_numCols {X : Type} (m m' : MATRIX X) (n l l' : Nat) (h : Rect m n l)
    (h' : Rect m' n l') (hl : l = (m.getD 0 []).length) (hl' : l' = l) :
    (m'.getD 0 []).length = (m.getD 0 []).length := by
  rcases Nat.eq_zero_or_pos n with h0 | h0
  · have e1 : m = [] := List.length_eq_zero.1 (by rw [h.1, h0])
    have e2 : m' = [] := List.length_eq_zero.1 (by rw [h'.1, h0])
    rw [e1, e2]
  · rw [h'.2 0 h0, hl', hl]

/-- The shuffle of a well-formed model keeps the shape of the data, everything that is
not the working matrix or the random number service, and the range of the draws. -/
theorem ShuffleDataset_shape (s : MultiLocusModel) (hwf : DataWellFormed s)
    (hrng : s.mRng.InRange) :
    s.ShuffleDataset.mPloidy = s.mPloidy ∧ s.ShuffleDataset.mPops = s.mPops ∧
    s.ShuffleDataset.mLinkages = s.mLinkages ∧
    s.ShuffleDataset.mNumPairsIsolates = s.mNumPairsIsolates ∧
    s.ShuffleDataset.mDoMissingShuffle = s.mDoMissingShuffle ∧
    s.ShuffleDataset.GetNumRows = s.GetNumRows ∧
    s.ShuffleDataset.GetNumCols = s.GetNumCols ∧
    s.ShuffleDataset.mRng.InRange := by
  obtain ⟨hdata, hpops, hlinks⟩ := hwf
  rcases hdata with ⟨hp, hrect⟩ | ⟨hp, hrect⟩
  · have hs := gDataset_shape (fixedFlag s) IsMissing s.mHaploData s.mRng s.GetNumRows
      s.GetNumCols s.mPops.mParts s.mLinkages.mParts hrect hrng hpops hlinks
    rw [ShuffleDataset_withHaplo s hp]
    refine ⟨rfl, rfl, rfl, rfl, rfl, ?_, ?_, hs.2⟩
    · simp only [GetNumRows, GetPloidy, withHaplo, hp, if_true]
      rw [hs.1.1]
      simp [GetNumRows, GetPloidy, hp]
    · simp only [GetNumCols, GetPloidy, withHaplo, hp, if_true]
      exact Rect_numCols s.mHaploData _ s.GetNumRows s.GetNumCols s.GetNumCols hrect hs.1
        (by simp [GetNumCols, GetPloidy, hp]) rfl
  · have hs := gDataset_shape (fixedFlag s) IsMissingPair s.mDiploData s.mRng s.GetNumRows
      s.GetNumCols s.mPops.mParts s.mLinkages.mParts hrect hrng hpops hlinks
    have hne : ¬ (ploidy_t.kPloidy_Diploid = ploidy_t.kPloidy_Haploid) := by decide
    rw [ShuffleDataset_withDiplo s hp]
    refine ⟨rfl, rfl, rfl, rfl, rfl, ?_, ?_, hs.2⟩
    · simp only [GetNumRows, GetPloidy, withDiplo, hp, hne, if_false]
      rw [hs.1.1]
      simp [GetNumRows, GetPloidy, hp]
    · simp only [GetNumCols, GetPloidy, withDiplo, hp, hne, if_false]
      exact Rect_numCols s.mDiploData _ s.GetNumRows s.GetNumCols s.GetNumCols hrect hs.1
        (by simp [GetNumCols, GetPloidy, hp]) rfl

/-- The two sums of a locus are sums over the pairs of the cells of the locus. -/
theorem locusDistSums_eq (s : MultiLocusModel) (i : Nat) :
    s.locusDistSums i =
      if s.mPloidy = ploidy_t.kPloidy_Haploid then
        (pairSum Distance (wholeColumn s.mHaploData s.GetNumRows i),
          pairSum (fun x y => Distance x y * Distance x y)
            (wholeColumn s.mHaploData s.GetNumRows i))
      else
        (pairSum DistancePair (wholeColumn s.mDiploData s.GetNumRows i),
          pairSum (fun x y => DistancePair x y * DistancePair x y)
            (wholeColumn s.mDiploData s.GetNumRows i)) := by
  unfold locusDistSums
  rw [foldl_add_pair_nested (fun k m => s.locusDist i k m)
    (fun k => List.range' (k + 1) (s.GetNumRows - (k + 1)))]
  simp only [Int.zero_add]
  split_ifs with hp
  · have hg : ∀ k m, s.locusDist i k m =
        Distance (cellAt s.mHaploData k i) (cellAt s.mHaploData m i) := by
      intro k m; simp [locusDist, GetPloidy, hp]
    simp only [hg]
    rw [pairLoops_eq_pairSum Distance (fun r => cellAt s.mHaploData r i),
      pairLoops_eq_pairSum (fun x y => Distance x y * Distance x y)
        (fun r => cellAt s.mHaploData r i)]
    rfl
  · have hg : ∀ k m, s.locusDist i k m =
        DistancePair (cellAt s.mDiploData k i) (cellAt s.mDiploData m i) := by
      intro k m; simp [locusDist, GetPloidy, hp]
    simp only [hg]
    rw [pairLoops_eq_pairSum DistancePair (fun r => cellAt s.mDiploData r i),
      pairLoops_eq_pairSum (fun x y => DistancePair x y * DistancePair x y)
        (fun r => cellAt s.mDiploData r i)]
    rfl

/-- The sums of the distances and of their squares at a locus are those before the
shuffle. -/
theorem ShuffleDataset_locusDistSums (s : MultiLocusModel) (hwf : DataWellFormed s)
    (hrng : s.mRng.InRange) (i : Nat) (hi : i < s.GetNumCols) :
    s.ShuffleDataset.locusDistSums i = s.locusDistSums i := by
  obtain ⟨hpl, _, _, _, _, hrows, _, _⟩ := ShuffleDataset_shape s hwf hrng
  obtain ⟨hH, hD⟩ := ShuffleDataset_wholeColumn s hwf hrng i hi
  rw [locusDistSums_eq, locusDistSums_eq, hpl, hrows]
  split_ifs
  · rw [pairSum_perm Distance Distance_comm hH,
      pairSum_perm (fun x y => Distance x y * Distance x y)
        (fun x y => by simp only [Distance_comm x y]) hH]
  · rw [pairSum_perm DistancePair (fun x y => DistancePair_comm y x) hD,
      pairSum_perm (fun x y => DistancePair x y * DistancePair x y)
        (fun x y => by simp only [DistancePair_comm y x]) hD]

/-- `CalcVarDistances` reads the number of loci, the number of pairs of isolates and the
two sums of each locus. -/
theorem CalcVarDistances_congr (w : Nat) (dsqrt : Option ℚ → Option ℚ)
    (s t : MultiLocusModel) (hcols : t.GetNumCols = s.GetNumCols)
    (hpairs : t.mNumPairsIsolates = s.mNumPairsIsolates)
    (hsums : ∀ i, i < s.GetNumCols → t.locusDistSums i = s.locusDistSums i) :
    t.CalcVarDistances w dsqrt = s.CalcVarDistances w dsqrt := by
  have hv : t.CalcVarDist w = s.CalcVarDist w := by
    unfold CalcVarDist
    rw [hcols, hpairs]
    apply List.map_congr_left
    intro i hi
    rw [hsums i (List.mem_range.1 hi)]
  unfold CalcVarDistances
  rw [hv, hcols]

theorem SameData_refl (s : MultiLocusModel) : SameData s s :=
  ⟨rfl, rfl, rfl, rfl, rfl, rfl⟩

theorem SameData_shape (s t : MultiLocusModel) (h : SameData s t) :
    t.GetNumRows = s.GetNumRows ∧ t.GetNumCols = s.GetNumCols ∧
      (∀ i, t.locusDistSums i = s.locusDistSums i) ∧
      (DataWellFormed s → DataWellFormed t) := by
  obtain ⟨h1, h2, h3, h4, h5, _⟩ := h
  have hr : t.GetNumRows = s.GetNumRows := by simp only [GetNumRows, GetPloidy, h1, h2, h3]
  have hc : t.GetNumCols = s.GetNumCols := by simp only [GetNumCols, GetPloidy, h1, h2, h3]
  refine ⟨hr, hc, ?_, ?_⟩
  · intro i
    simp only [locusDistSums, locusDist, hr, GetPloidy, h1, h2, h3]
  · intro hwf
    unfold DataWellFormed
    rw [hr, hc, h1, h2, h3, h4, h5]
    exact hwf

theorem SameData_CalcVarDistances (w : Nat) (dsqrt : Option ℚ → Option ℚ)
    (s t : MultiLocusModel) (h : SameData s t) :
    t.CalcVarDistances w dsqrt = s.CalcVarDistances w dsqrt :=
  CalcVarDistances_congr w dsqrt s t (SameData_shape s t h).2.1 h.2.2.2.2.2
    (fun i _ => (SameData_shape s t h).2.2.1 i)

/-- The variances that `CalcVarDistances` computes on the shuffled data are those of the
data before the shuffle. -/
theorem ShuffleDataset_CalcVarDistances (w : Nat) (dsqrt : Option ℚ → Option ℚ)
    (s : MultiLocusModel) (hwf : DataWellFormed s) (hrng : s.mRng.InRange) :
    s.ShuffleDataset.CalcVarDistances w dsqrt = s.CalcVarDistances w dsqrt := by
  obtain ⟨_, _, _, hpairs, _, _, hcols, _⟩ := ShuffleDataset_shape s hwf hrng
  exact CalcVarDistances_congr w dsqrt s _ hcols hpairs
    (fun i hi => ShuffleDataset_locusDistSums s hwf hrng i hi)

theorem Backup_fields (t : MultiLocusModel) :
    t.BackupWorkingData.mPloidy = t.mPloidy ∧
    t.BackupWorkingData.mHaploData = t.mHaploData ∧
    t.BackupWorkingData.mDiploData = t.mDiploData ∧
    t.BackupWorkingData.mPops = t.mPops ∧ t.BackupWorkingData.mLinkages = t.mLinkages ∧
    t.BackupWorkingData.mNumPairsIsolates = t.mNumPairsIsolates ∧
    t.BackupWorkingData.mRng = t.mRng ∧
    (t.mPloidy = ploidy_t.kPloidy_Haploid → t.BackupWorkingData.mBackupHaploData = t.mHaploData) ∧
    (t.mPloidy = ploidy_t.kPloidy_Diploid → t.BackupWorkingData.mBackupDiploData = t.mDiploData) := by
  unfold BackupWorkingData GetPloidy
  split <;> rename_i h <;> simp [h]

theorem Restore_others (t : MultiLocusModel) :
    t.RestoreWorkingData.mPops = t.mPops ∧ t.RestoreWorkingData.mLinkages = t.mLinkages ∧
    t.RestoreWorkingData.mNumPairsIsolates = t.mNumPairsIsolates ∧
    t.RestoreWorkingData.mRng = t.mRng := by
  unfold RestoreWorkingData GetPloidy
  split <;> simp

theorem ReplicateReady_Backup (s : MultiLocusModel) (hrng : s.mRng.InRange) :
    ReplicateReady s s.BackupWorkingData := by
  obtain ⟨h1, h2, h3, h4, h5, h6, h7, h8, h9⟩ := Backup_fields s
  exact ⟨⟨h1, h2, h3, h4, h5, h6⟩, by rw [h7]; exact hrng, h8, h9⟩

/-- A replicate, the shuffle followed by the restoration, leaves the loop as the pass 0
has left it. -/
theorem ReplicateReady_replicate (s t : MultiLocusModel) (hwf : DataWellFormed s)
    (h : ReplicateReady s t) : ReplicateReady s t.ShuffleDataset.RestoreWorkingData := by
  obtain ⟨hsame, hrng, hbH, hbD⟩ := h
  have hwft := (SameData_shape s t hsame).2.2.2 hwf
  obtain ⟨hpl, hpops, hlinks, hpairs, _, _, _, hrng'⟩ := ShuffleDataset_shape t hwft hrng
  obtain ⟨_, fH, fD, fd, fh⟩ := Frame_ShuffleDataset t
  obtain ⟨h1, h2, h3, h4, h5, h6⟩ := hsame
  obtain ⟨r1, r2, r3, r4, r5⟩ := Restore_fields t.ShuffleDataset
  obtain ⟨o1, o2, o3, o4⟩ := Restore_others t.ShuffleDataset
  refine ⟨⟨r1.trans (hpl.trans h1), ?_, ?_, o1.trans (hpops.trans h4),
    o2.trans (hlinks.trans h5), o3.trans (hpairs.trans h6)⟩, by rw [o4]; exact hrng',
    fun hp => by rw [r2, fH, hbH hp], fun hp => by rw [r3, fD, hbD hp]⟩
  · rw [r4, hpl, h1]
    split_ifs with hp
    · rw [fH, hbH hp]
    · rcases hwf.1 with ⟨hp', _⟩ | ⟨hp', _⟩
      · exact absurd hp' hp
      · rw [fh (by rw [h1, hp']), h2]
  · rw [r5, hpl, h1]
    split_ifs with hp
    · rw [fD, hbD hp]
    · rw [fd (by rw [h1]; exact hp), h3]

/-- The state before the pass `k` of the replicate loop of `CalcDiversity`. -/
theorem passes_state (stats : MultiLocusModel → Bool) (n : Nat) (s t : MultiLocusModel)
    (hwf : DataWellFormed s) (hrng : s.mRng.InRange) (k : Nat)
    (h : loopOpt (CalcDiversityStep stats n) s (List.range k) = some t) :
    (SameData s t ∧ t.mRng.InRange) ∧ (n ≠ 0 → 1 ≤ k → ReplicateReady s t) := by
  by_cases hn : n = 0
  · subst hn
    have key := loopOpt_invariant (fun u => u = s) (CalcDiversityStep stats 0) (List.range k)
      (fun u x u' _ hu hstep => by
        unfold CalcDiversityStep at hstep
        simp only [ne_eq, not_true_eq_false, if_false, false_and] at hstep
        split_ifs at hstep
        rw [← Option.some.inj hstep, hu]) s t rfl h
    rw [key]
    exact ⟨⟨SameData_refl s, hrng⟩, fun h0 => absurd rfl h0⟩
  · cases k with
    | zero =>
      simp only [List.range_zero, loopOpt, Option.some.injEq] at h
      rw [← h]
      exact ⟨⟨SameData_refl s, hrng⟩, fun _ h1 => absurd h1 (by decide)⟩
    | succ k =>
      have hr : List.range (k + 1) = 0 :: List.range' 1 k := by
        rw [List.range_eq_range', List.range'_succ]
      rw [hr] at h
      unfold loopOpt at h
      cases h0 : CalcDiversityStep stats n s 0 with
      | none => rw [h0] at h; cases h
      | some s1 =>
        rw [h0] at h
        have hs1 : s1 = s.BackupWorkingData := by
          unfold CalcDiversityStep at h0
          simp only [ne_eq, hn, not_false_eq_true, if_true, not_true_eq_false, and_false,
            if_false] at h0
          split_ifs at h0
          exact (Option.some.inj h0).symm
        have key := loopOpt_invariant (ReplicateReady s) (CalcDiversityStep stats n)
          (List.range' 1 k)
          (fun u x u' hx hu hstep => by
            rw [List.mem_range'_1] at hx
            have hx0 : x ≠ 0 := by omega
            unfold CalcDiversityStep at hstep
            simp only [ne_eq, hn, not_false_eq_true, if_true, hx0, if_false, and_self]
              at hstep
            split_ifs at hstep
            rw [← Option.some.inj hstep]
            exact ReplicateReady_replicate s u hwf hu) s1 t
          (by rw [hs1]; exact ReplicateReady_Backup s hrng) h
        exact ⟨⟨key.1, key.2.1⟩, fun _ _ => key⟩

/-- C33: for a well-formed model (haploid or diploid, any partition of the isolates into
populations and of the loci into linkage groups, either policy for missing data) whose
draws keep the documented range, the sum and the sum of squares of the distances over
the pairs of isolates are at every locus the same after `ShuffleDataset` as before it;
so `CalcVarDistances` computes on the shuffled data the `mVarDist`, `mSumVarDist` and
`mMaxSumCov1` that it computes before the shuffle, and on the data of every pass of the
replicate loop of `CalcDiversity` the values that it computes before the loop. -/
theorem C33_distance_sums_invariant (s : MultiLocusModel) (hwf : DataWellFormed s)
    (hrng : s.mRng.InRange) :
    (∀ i, i < s.GetNumCols → s.ShuffleDataset.locusDistSums i = s.locusDistSums i) ∧
    (∀ (w : Nat) (dsqrt : Option ℚ → Option ℚ),
      s.ShuffleDataset.CalcVarDistances w dsqrt = s.CalcVarDistances w dsqrt) ∧
    (∀ (w : Nat) (dsqrt : Option ℚ → Option ℚ) (stats : MultiLocusModel → Bool)
      (n k : Nat) (t : MultiLocusModel),
      loopOpt (CalcDiversityStep stats n) s (List.range k) = some t →
        (passData n t k).CalcVarDistances w dsqrt = s.CalcVarDistances w dsqrt) := by
  refine ⟨fun i hi => ShuffleDataset_locusDistSums s hwf hrng i hi,
    fun w dsqrt => ShuffleDataset_CalcVarDistances w dsqrt s hwf hrng, ?_⟩
  intro w dsqrt stats n k t h
  obtain ⟨⟨hsame, hrt⟩, hready⟩ := passes_state stats n s t hwf hrng k h
  unfold passData
  split_ifs with hn hk
  · exact (SameData_CalcVarDistances w dsqrt t _ (ReplicateReady_Backup t hrt).1).trans
      (SameData_CalcVarDistances w dsqrt s t hsame)
  · exact (ShuffleDataset_CalcVarDistances w dsqrt t
      ((SameData_shape s t hsame).2.2.2 hwf) hrt).trans
      (SameData_CalcVarDistances w dsqrt s t hsame)
  · exact SameData_CalcVarDistances w dsqrt s t hsame

theorem C33_distance_sums_invariant_witness :
    DataWellFormed c33Model ∧ c33Model.mRng.InRange ∧
    c33Model.ShuffleDataset.mDiploData ≠ c33Model.mDiploData ∧
    c33Model.ShuffleDataset.locusDistSums 0 = c33Model.locusDistSums 0 ∧
    c33Model.ShuffleDataset.CalcVarDistances 32 (fun x => x) =
      c33Model.CalcVarDistances 32 (fun x => x) :=
  ⟨by decide, fun _ _ hn => Nat.mod_lt _ hn, by decide,
    (C33_distance_sums_invariant c33Model (by decide) (fun _ _ hn => Nat.mod_lt _ hn)).1 0
      (by decide),
    (C33_distance_sums_invariant c33Model (by decide) (fun _ _ hn => Nat.mod_lt _ hn)).2.1
      32 (fun x => x)⟩

/-- C8: after `DetermineDimensions`, for a matrix of N isolates, `CalcIsoDistArray`
returns an array of exactly N(N-1)/2 entries whose entry for the pair of isolates
(i, j), i < j, sits at the index i*N - i(i+1)/2 + (j - i - 1) and is the sum over all
the loci of the distance between the cells of the two isolates at the locus: `Distance`
in relaxed mode and `StrictDistance` in strict mode, each on the alleles of haploid data
and on the allele pairs of diploid data. -/
theorem C8_CalcIsoDistArray_entries (s : MultiLocusModel) (mode : distance_t) (i j : Nat)
    (hij : i < j) (hj : j < s.GetNumRows) :
    (s.DetermineDimensions.CalcIsoDistArray mode).length =
      s.GetNumRows * (s.GetNumRows - 1) / 2 ∧
    (mode = distance_t.kDistance_Relaxed → s.GetPloidy = ploidy_t.kPloidy_Haploid →
      (s.DetermineDimensions.CalcIsoDistArray mode).getD
          (i * s.GetNumRows - i * (i + 1) / 2 + (j - i - 1)) 0 =
        ((List.range s.GetNumCols).map
          (fun k => Distance (cellAt s.mHaploData i k) (cellAt s.mHaploData j k))).sum) ∧
    (mode = distance_t.kDistance_Relaxed → s.GetPloidy ≠ ploidy_t.kPloidy_Haploid →
      (s.DetermineDimensions.CalcIsoDistArray mode).getD
          (i * s.GetNumRows - i * (i + 1) / 2 + (j - i - 1)) 0 =
        ((List.range s.GetNumCols).map
          (fun k => DistancePair (cellAt s.mDiploData i k) (cellAt s.mDiploData j k))).sum) ∧
    (mode = distance_t.kDistance_Strict → s.GetPloidy = ploidy_t.kPloidy_Haploid →
      (s.DetermineDimensions.CalcIsoDistArray mode).getD
          (i * s.GetNumRows - i * (i + 1) / 2 + (j - i - 1)) 0 =
        ((List.range s.GetNumCols).map
          (fun k => StrictDistance (cellAt s.mHaploData i k) (cellAt s.mHaploData j k))).sum) ∧
    (mode = distance_t.kDistance_Strict → s.GetPloidy ≠ ploidy_t.kPloidy_Haploid →
      (s.DetermineDimensions.CalcIsoDistArray mode).getD
          (i * s.GetNumRows - i * (i + 1) / 2 + (j - i - 1)) 0 =
        ((List.range s.GetNumCols).map
          (fun k => StrictDistancePair (cellAt s.mDiploData i k)
            (cellAt s.mDiploData j k))).sum) := by
  obtain ⟨e1, e2, e3, e4⟩ := DetermineDimensions_fields s
  have hentry : (s.DetermineDimensions.CalcIsoDistArray mode).getD
      (i * s.GetNumRows - i * (i + 1) / 2 + (j - i - 1)) 0 =
      ((List.range s.GetNumCols).map (fun k => s.siteDist mode i j k)).sum := by
    rw [CalcIsoDistArray_eq_map _ mode (by rw [e3, e1]), e1]
    have h := getD_isoPairs s.GetNumRows i j hij hj
    unfold pairIndex at h
    rw [List.getD_eq_getElem?_getD, List.getElem?_map]
    rw [List.getD_eq_getElem?_getD] at h
    cases hq : (isoPairs s.GetNumRows)[i * s.GetNumRows - i * (i + 1) / 2 + (j - i - 1)]? with
    | none =>
      rw [hq] at h
      simp only [Option.getD_none, Prod.mk.injEq] at h
      omega
    | some q =>
      rw [hq] at h
      simp only [Option.getD_some] at h
      subst h
      simp only [Option.map_some', Option.getD_some, sumSiteDist, e2]
      congr 1
  refine ⟨?_, ?_, ?_, ?_, ?_⟩
  · rw [CalcIsoDistArray_eq_map _ mode (by rw [e3, e1]), e1, List.length_map, length_isoPairs]
  · intro hm hp
    rw [hentry]
    simp only [siteDist, hm, hp, if_true]
  · intro hm hp
    rw [hentry]
    simp only [siteDist, hm, hp, if_true, if_false]
  · intro hm hp
    rw [hentry]
    simp [siteDist, hm, hp]
  · intro hm hp
    rw [hentry]
    simp [siteDist, hm, hp]

/-- Three haploid isolates with a missing allele: the pair of the isolates 0 and 2 is at
the index 1, at the relaxed distance 1 and at the strict distance 2; two diploid isolates
at two loci are at the relaxed distance 0 and at the strict distance 2. -/
theorem C8_CalcIsoDistArray_entries_witness :
    (0 < 2 ∧ 2 < abcMissingModel.GetNumRows) ∧
    abcMissingModel.mHaploData = [["A", "B", "C"], ["A", "A", "C"], ["B", "?", "C"]] ∧
    (abcMissingModel.DetermineDimensions.CalcIsoDistArray distance_t.kDistance_Relaxed).length
      = 3 ∧
    (abcMissingModel.DetermineDimensions.CalcIsoDistArray distance_t.kDistance_Relaxed).getD
      1 0 = Distance "A" "B" + (Distance "B" "?" + (Distance "C" "C" + 0)) ∧
    (abcMissingModel.DetermineDimensions.CalcIsoDistArray distance_t.kDistance_Relaxed).getD
      1 0 = 1 ∧
    (abcMissingModel.DetermineDimensions.CalcIsoDistArray distance_t.kDistance_Strict).getD
      1 0 = StrictDistance "A" "B" + (StrictDistance "B" "?" + (StrictDistance "C" "C" + 0)) ∧
    (abcMissingModel.DetermineDimensions.CalcIsoDistArray distance_t.kDistance_Strict).getD
      1 0 = 2 ∧
    (0 < 1 ∧ 1 < c3Model.GetNumRows) ∧
    (c3Model.DetermineDimensions.CalcIsoDistArray distance_t.kDistance_Relaxed).getD 0 0 =
      DistancePair ⟨"A", "B", 0⟩ ⟨"B", "A", 0⟩ + (DistancePair ⟨"A", "A", 0⟩ ⟨"?", "A", 0⟩ + 0) ∧
    (c3Model.DetermineDimensions.CalcIsoDistArray distance_t.kDistance_Relaxed).getD 0 0 = 0 ∧
    (c3Model.DetermineDimensions.CalcIsoDistArray distance_t.kDistance_Strict).getD 0 0 =
      StrictDistancePair ⟨"A", "B", 0⟩ ⟨"B", "A", 0⟩ +
        (StrictDistancePair ⟨"A", "A", 0⟩ ⟨"?", "A", 0⟩ + 0) ∧
    (c3Model.DetermineDimensions.CalcIsoDistArray distance_t.kDistance_Strict).getD 0 0 = 1 :=
  ⟨by decide, by decide,
    (C8_CalcIsoDistArray_entries abcMissingModel distance_t.kDistance_Relaxed 0 2 (by decide)
      (by decide)).1,
    (C8_CalcIsoDistArray_entries abcMissingModel distance_t.kDistance_Relaxed 0 2 (by decide)
      (by decide)).2.1 rfl rfl,
    by decide,
    (C8_CalcIsoDistArray_entries abcMissingModel distance_t.kDistance_Strict 0 2 (by decide)
      (by decide)).2.2.2.1 rfl rfl,
    by decide, by decide,
    (C8_CalcIsoDistArray_entries c3Model distance_t.kDistance_Relaxed 0 1 (by decide)
      (by decide)).2.2.1 rfl (by decide),
    by decide,
    (C8_CalcIsoDistArray_entries c3Model distance_t.kDistance_Strict 0 1 (by decide)
      (by decide)).2.2.2.2 rfl (by decide),
    by decide⟩

theorem exists_closed_finset {α β : Type} [DecidableEq α] [DecidableEq β] :
    ∀ (n : Nat) (E : Finset (α × β)), E.card = n → E.Nonempty →
      (E.image Prod.fst).card + (E.image Prod.snd).card ≤ E.card →
      ∃ S : Finset (α × β), S ⊆ E ∧ S.Nonempty ∧
        ∀ g ∈ S, (∃ m ∈ S, m ≠ g ∧ m.1 = g.1) ∧ (∃ m ∈ S, m ≠ g ∧ m.2 = g.2) := by
  intro n
  induction n with
  | zero =>
    intro E hc hne _
    rw [Finset.card_eq_zero] at hc
    rw [hc] at hne
    exact absurd hne Finset.not_nonempty_empty
  | succ n ih =>
    intro E hc hne hcount
    by_cases hall : ∀ g ∈ E, (∃ m ∈ E, m ≠ g ∧ m.1 = g.1) ∧ (∃ m ∈ E, m ≠ g ∧ m.2 = g.2)
    · exact ⟨E, Finset.Subset.refl E, hne, hall⟩
    · push_neg at hall
      obtain ⟨e, he, hu⟩ := hall
      have hcard : (E.erase e).card = n := by
        rw [Finset.card_erase_of_mem he, hc]
        rfl
      have h1 : e.1 ∈ E.image Prod.fst := Finset.mem_image_of_mem _ he
      have h2 : e.2 ∈ E.image Prod.snd := Finset.mem_image_of_mem _ he
      have hp1 : 0 < (E.image Prod.fst).card := Finset.card_pos.2 ⟨_, h1⟩
      have hp2 : 0 < (E.image Prod.snd).card := Finset.card_pos.2 ⟨_, h2⟩
      have hsub1 : (E.erase e).image Prod.fst ⊆ E.image Prod.fst :=
        Finset.image_subset_image (Finset.erase_subset e E)
      have hsub2 : (E.erase e).image Prod.snd ⊆ E.image Prod.snd :=
        Finset.image_subset_image (Finset.erase_subset e E)
      have hle1 := Finset.card_le_card hsub1
      have hle2 := Finset.card_le_card hsub2
      have hless : ((E.erase e).image Prod.fst).card + ((E.erase e).image Prod.snd).card + 1 ≤
          (E.image Prod.fst).card + (E.image Prod.snd).card := by
        by_cases ha : ∃ m ∈ E, m ≠ e ∧ m.1 = e.1
        · have hb : ∀ m ∈ E, m ≠ e → m.2 ≠ e.2 := hu ha
          have hs : (E.erase e).image Prod.snd ⊆ (E.image Prod.snd).erase e.2 := by
            intro x hx
            obtain ⟨m, hm, rfl⟩ := Finset.mem_image.1 hx
            obtain ⟨hme, hmE⟩ := Finset.mem_erase.1 hm
            exact Finset.mem_erase.2 ⟨hb m hmE hme, Finset.mem_image_of_mem _ hmE⟩
          have := Finset.card_le_card hs
          rw [Finset.card_erase_of_mem h2] at this
          omega
        · push_neg at ha
          have hs : (E.erase e).image Prod.fst ⊆ (E.image Prod.fst).erase e.1 := by
            intro x hx
            obtain ⟨m, hm, rfl⟩ := Finset.mem_image.1 hx
            obtain ⟨hme, hmE⟩ := Finset.mem_erase.1 hm
            exact Finset.mem_erase.2 ⟨ha m hmE hme, Finset.mem_image_of_mem _ hmE⟩
          have := Finset.card_le_card hs
          rw [Finset.card_erase_of_mem h1] at this
          omega
      have hne2 : (E.erase e).Nonempty := by
        rw [← Finset.card_pos, hcard]
        omega
      obtain ⟨S, hS, hSne, hcl⟩ := ih (E.erase e) hcard hne2 (by omega)
      exact ⟨S, hS.trans (Finset.erase_subset e E), hSne, hcl⟩

theorem HasClosedSet_mono (l L : List (tAllele × tAllele)) (h : ∀ x ∈ l, x ∈ L)
    (hc : HasClosedSet l) : HasClosedSet L := by
  obtain ⟨S, hne, hS, hcl⟩ := hc
  exact ⟨S, hne, fun g hg => h g (hS g hg), hcl⟩

theorem HasClosedSet_of_finset (L : List (tAllele × tAllele)) (S : Finset (tAllele × tAllele))
    (hS : ∀ x ∈ S, x ∈ L) (hne : S.Nonempty)
    (hcl : ∀ g ∈ S, (∃ m ∈ S, m ≠ g ∧ m.1 = g.1) ∧ (∃ m ∈ S, m ≠ g ∧ m.2 = g.2)) :
    HasClosedSet L := by
  refine ⟨S.toList, ?_, fun g hg => hS g (Finset.mem_toList.1 hg), fun g hg => ?_⟩
  · intro h
    rw [Finset.toList_eq_nil] at h
    rw [h] at hne
    exact absurd hne Finset.not_nonempty_empty
  · obtain ⟨⟨m1, hm1, a1, b1⟩, ⟨m2, hm2, a2, b2⟩⟩ := hcl g (Finset.mem_toList.1 hg)
    exact ⟨⟨m1, Finset.mem_toList.2 hm1, a1, b1⟩, ⟨m2, Finset.mem_toList.2 hm2, a2, b2⟩⟩

/-- A set without a closed set stays so when a genotype unique on an axis joins it. -/
theorem not_HasClosedSet_cons (P : List (tAllele × tAllele)) (g : tAllele × tAllele)
    (hP : ¬ HasClosedSet P) (hu : (∀ m ∈ P, m.1 ≠ g.1) ∨ (∀ m ∈ P, m.2 ≠ g.2)) :
    ¬ HasClosedSet (g :: P) := by
  rintro ⟨S, hne, hS, hcl⟩
  by_cases hg : g ∈ S
  · obtain ⟨⟨m1, hm1, a1, b1⟩, ⟨m2, hm2, a2, b2⟩⟩ := hcl g hg
    rcases hu with hu | hu
    · rcases List.mem_cons.1 (hS m1 hm1) with e | hm
      · exact a1 e
      · exact hu m1 hm b1
    · rcases List.mem_cons.1 (hS m2 hm2) with e | hm
      · exact a2 e
      · exact hu m2 hm b2
  · refine hP ⟨S, hne, fun x hx => ?_, hcl⟩
    rcases List.mem_cons.1 (hS x hx) with e | hm
    · rw [e] at hx
      exact absurd hx hg
    · exact hm

theorem unique_iff_of_not_missing (G : List (tAllele × tAllele)) (g : tAllele × tAllele)
    (hG : ∀ m ∈ G, IsMissing m.1 = false ∧ IsMissing m.2 = false)
    (hg : IsMissing g.1 = false ∧ IsMissing g.2 = false) :
    (isGtype1Unique G g = true ↔ ∀ m ∈ G, m.1 ≠ g.1) ∧
    (isGtype2Unique G g = true ↔ ∀ m ∈ G, m.2 ≠ g.2) := by
  have h := not_unique_iff G g
  constructor
  · constructor
    · intro hu m hm e
      have hf : isGtype1Unique G g = false :=
        h.1.2 ⟨m, hm, (Distance_eq_zero_iff _ _ hg.1 (hG m hm).1).2 e.symm⟩
      rw [hu] at hf
      exact absurd hf (by decide)
    · intro hall
      cases hb : isGtype1Unique G g
      · obtain ⟨m, hm, hd⟩ := h.1.1 hb
        exact absurd ((Distance_eq_zero_iff _ _ hg.1 (hG m hm).1).1 hd).symm (hall m hm)
      · rfl
  · constructor
    · intro hu m hm e
      have hf : isGtype2Unique G g = false :=
        h.2.2 ⟨m, hm, (Distance_eq_zero_iff _ _ hg.2 (hG m hm).2).2 e.symm⟩
      rw [hu] at hf
      exact absurd hf (by decide)
    · intro hall
      cases hb : isGtype2Unique G g
      · obtain ⟨m, hm, hd⟩ := h.2.1 hb
        exact absurd ((Distance_eq_zero_iff _ _ hg.2 (hG m hm).2).1 hd).symm (hall m hm)
      · rfl

theorem not_unique_mem_image (G : List (tAllele × tAllele)) (g : tAllele × tAllele)
    (hG : ∀ m ∈ G, IsMissing m.1 = false ∧ IsMissing m.2 = false)
    (hg : IsMissing g.1 = false ∧ IsMissing g.2 = false) :
    (isGtype1Unique G g = false → g.1 ∈ G.toFinset.image Prod.fst) ∧
    (isGtype2Unique G g = false → g.2 ∈ G.toFinset.image Prod.snd) ∧
    (isGtype1Unique G g = true → g.1 ∉ G.toFinset.image Prod.fst) ∧
    (isGtype2Unique G g = true → g.2 ∉ G.toFinset.image Prod.snd) := by
  have h := not_unique_iff G g
  have hu := unique_iff_of_not_missing G g hG hg
  refine ⟨fun hf => ?_, fun hf => ?_, fun ht hm => ?_, fun ht hm => ?_⟩
  · obtain ⟨m, hm, hd⟩ := h.1.1 hf
    rw [(Distance_eq_zero_iff _ _ hg.1 (hG m hm).1).1 hd]
    exact Finset.mem_image_of_mem _ (List.mem_toFinset.2 hm)
  · obtain ⟨m, hm, hd⟩ := h.2.1 hf
    rw [(Distance_eq_zero_iff _ _ hg.2 (hG m hm).2).1 hd]
    exact Finset.mem_image_of_mem _ (List.mem_toFinset.2 hm)
  · obtain ⟨m, hmG, e⟩ := Finset.mem_image.1 hm
    exact hu.1.1 ht m (List.mem_toFinset.1 hmG) e
  · obtain ⟨m, hmG, e⟩ := Finset.mem_image.1 hm
    exact hu.2.1 ht m (List.mem_toFinset.1 hmG) e

theorem toFinset_append_singleton (G : List (tAllele × tAllele)) (g : tAllele × tAllele) :
    (G ++ [g]).toFinset = insert g G.toFinset := by
  ext x
  simp [or_comm]

/-- When `growGraph` flags a genotype, the graph, which holds one allele more than
genotypes, and the flagged genotype hold a closed set. -/
theorem growGraph_closed (L : List (tAllele × tAllele))
    (hL : ∀ x ∈ L, IsMissing x.1 = false ∧ IsMissing x.2 = false) :
    ∀ (fuel : Nat) (G R : List (tAllele × tAllele)),
      (∀ x ∈ G ++ R, x ∈ L) → (G ++ R).Nodup →
      (G.toFinset.image Prod.fst).card + (G.toFinset.image Prod.snd).card =
        G.toFinset.card + 1 →
      (growGraph fuel G R).1 = true → HasClosedSet L
  | 0, _, _, _, _, _, h => by simp [growGraph] at h
  | fuel + 1, G, R, hsub, hnd, htree, h => by
    have hGm : ∀ m ∈ G, IsMissing m.1 = false ∧ IsMissing m.2 = false :=
      fun m hm => hL m (hsub m (List.mem_append_left _ hm))
    have hdis := (List.nodup_append.1 hnd).2.2
    unfold growGraph at h
    split at h
    · rename_i hscan
      obtain ⟨g, hg, hu1, hu2⟩ := scanGenotypes_incompat G R 0 hscan
      have hgm := hL g (hsub g (List.mem_append_right _ hg))
      obtain ⟨i1, i2, _, _⟩ := not_unique_mem_image G g hGm hgm
      have hgG : g ∉ G.toFinset := fun hx => hdis (List.mem_toFinset.1 hx) hg
      have hcard : (insert g G.toFinset).card = G.toFinset.card + 1 :=
        Finset.card_insert_of_not_mem hgG
      have him1 : (insert g G.toFinset).image Prod.fst = G.toFinset.image Prod.fst := by
        rw [Finset.image_insert, Finset.insert_eq_of_mem (i1 hu1)]
      have him2 : (insert g G.toFinset).image Prod.snd = G.toFinset.image Prod.snd := by
        rw [Finset.image_insert, Finset.insert_eq_of_mem (i2 hu2)]
      obtain ⟨S, hS, hSne, hcl⟩ := exists_closed_finset _ (insert g G.toFinset) rfl
        ⟨g, Finset.mem_insert_self _ _⟩ (by rw [him1, him2, hcard, htree])
      refine HasClosedSet_of_finset L S (fun x hx => ?_) hSne hcl
      rcases Finset.mem_insert.1 (hS hx) with e | hm
      · rw [e]
        exact hsub g (List.mem_append_right _ hg)
      · exact hsub x (List.mem_append_left _ (List.mem_toFinset.1 hm))
    · rename_i k hscan
      obtain ⟨_, hk, hne⟩ := scanGenotypes_grow G R 0 k hscan
      rw [Nat.sub_zero] at hk hne
      have hp := perm_getD_eraseIdx ("", "") R k hk
      have hp2 : ((G ++ [R.getD k ("", "")]) ++ R.eraseIdx k).Perm (G ++ R) := by
        rw [List.append_assoc]
        exact List.Perm.append_left G hp
      have hgR : R.getD k ("", "") ∈ R := getD_mem ("", "") R k hk
      have hgm := hL _ (hsub _ (List.mem_append_right _ hgR))
      obtain ⟨i1, i2, n1, n2⟩ := not_unique_mem_image G (R.getD k ("", "")) hGm hgm
      have hgG : R.getD k ("", "") ∉ G.toFinset := fun hx => hdis (List.mem_toFinset.1 hx) hgR
      refine growGraph_closed L hL fuel _ _
        (fun x hx => hsub x (hp2.subset hx)) (hp2.nodup_iff.2 hnd) ?_ h
      rw [toFinset_append_singleton, Finset.card_insert_of_not_mem hgG, Finset.image_insert,
        Finset.image_insert]
      cases hb1 : isGtype1Unique G (R.getD k ("", "")) <;>
        cases hb2 : isGtype2Unique G (R.getD k ("", ""))
      · rw [hb1, hb2] at hne
        exact absurd rfl hne
      · rw [Finset.insert_eq_of_mem (i1 hb1), Finset.card_insert_of_not_mem (n2 hb2)]
        omega
      · rw [Finset.insert_eq_of_mem (i2 hb2), Finset.card_insert_of_not_mem (n1 hb1)]
        omega
      · rw [hb1, hb2] at hne
        exact absurd rfl hne
    · exact absurd h (by simp)

/-- When the lattice growing flags a list of different genotypes, the list holds a
closed set. -/
theorem latticeLoop_closed :
    ∀ (fuel : Nat) (gs : List (tAllele × tAllele)), gs.Nodup →
      (∀ x ∈ gs, IsMissing x.1 = false ∧ IsMissing x.2 = false) →
      latticeLoop fuel gs = true → HasClosedSet gs
  | 0, _, _, _, h => by simp [latticeLoop] at h
  | fuel + 1, gs, hnd, hm, h => by
    unfold latticeLoop at h
    split at h
    · exact absurd h (by simp)
    · rename_i seed hlast
      have hgs : gs.dropLast ++ [seed] = gs := List.dropLast_append_getLast? seed hlast
      have hp : ([seed] ++ gs.dropLast).Perm gs := by
        have hp0 : ([seed] ++ gs.dropLast).Perm (gs.dropLast ++ [seed]) :=
          List.perm_append_comm
        rw [hgs] at hp0
        exact hp0
      by_cases hg : (growGraph gs.dropLast.length [seed] gs.dropLast).1 = true
      · exact growGraph_closed gs hm _ _ _ (fun x hx => hp.subset hx) (hp.nodup_iff.2 hnd)
          (by simp) hg
      · rw [if_neg hg] at h
        have hsl := growGraph_sublist gs.dropLast.length [seed] gs.dropLast
        have hsl2 : (growGraph gs.dropLast.length [seed] gs.dropLast).2.Sublist gs :=
          hsl.trans (List.dropLast_sublist gs)
        exact HasClosedSet_mono _ gs (fun x hx => hsl2.subset hx)
          (latticeLoop_closed fuel _ (hnd.sublist hsl2)
            (fun x hx => hm x (hsl2.subset hx)) h)

/-- A run of `growGraph` that flags no genotype: the graph it has grown, together with
the genotypes `D` of the graphs grown before, holds no closed set, and the genotypes left
over share no allele with them. -/
theorem growGraph_open (D : List (tAllele × tAllele)) :
    ∀ (fuel : Nat) (G R : List (tAllele × tAllele)), R.length ≤ fuel →
      (∀ x ∈ G ++ R, IsMissing x.1 = false ∧ IsMissing x.2 = false) →
      ¬ HasClosedSet (G ++ D) →
      (∀ r ∈ R, ∀ m ∈ D, m.1 ≠ r.1 ∧ m.2 ≠ r.2) →
      (growGraph fuel G R).1 = false →
      ∃ G2 : List (tAllele × tAllele), ¬ HasClosedSet (G2 ++ D) ∧
        (∀ r ∈ (growGraph fuel G R).2, ∀ m ∈ G2 ++ D, m.1 ≠ r.1 ∧ m.2 ≠ r.2) ∧
        (∀ x ∈ G ++ R, x ∈ G2 ++ (growGraph fuel G R).2)
  | 0, G, R, hlen, _, hG, _, _ => by
    have hR : R = [] := List.length_eq_zero.1 (Nat.le_zero.1 hlen)
    subst hR
    refine ⟨G, hG, ?_, ?_⟩
    · intro r hr
      simp [growGraph] at hr
    · intro x hx
      simpa [growGraph] using hx
  | fuel + 1, G, R, hlen, hm, hG, hD, h => by
    have hGm : ∀ m ∈ G, IsMissing m.1 = false ∧ IsMissing m.2 = false :=
      fun m hmG => hm m (List.mem_append_left _ hmG)
    unfold growGraph at h ⊢
    split at h
    · exact absurd h (by simp)
    · rename_i k hscan
      obtain ⟨_, hk, hne⟩ := scanGenotypes_grow G R 0 k hscan
      rw [Nat.sub_zero] at hk hne
      have hp := perm_getD_eraseIdx ("", "") R k hk
      have hgR : R.getD k ("", "") ∈ R := getD_mem ("", "") R k hk
      have hgm := hm _ (List.mem_append_right _ hgR)
      have hu := unique_iff_of_not_missing G (R.getD k ("", "")) hGm hgm
      have hone : (∀ m ∈ G ++ D, m.1 ≠ (R.getD k ("", "")).1) ∨
          (∀ m ∈ G ++ D, m.2 ≠ (R.getD k ("", "")).2) := by
        cases hb1 : isGtype1Unique G (R.getD k ("", ""))
        · cases hb2 : isGtype2Unique G (R.getD k ("", ""))
          · rw [hb1, hb2] at hne
            exact absurd rfl hne
          · right
            intro m hmem
            rcases List.mem_append.1 hmem with hx | hx
            · exact hu.2.1 hb2 m hx
            · exact (hD _ hgR m hx).2
        · left
          intro m hmem
          rcases List.mem_append.1 hmem with hx | hx
          · exact hu.1.1 hb1 m hx
          · exact (hD _ hgR m hx).1
      have hG2 : ¬ HasClosedSet ((G ++ [R.getD k ("", "")]) ++ D) := by
        intro hc
        refine not_HasClosedSet_cons (G ++ D) (R.getD k ("", "")) hG hone
          (HasClosedSet_mono _ _ (fun x hx => ?_) hc)
        simp only [List.mem_append, List.mem_cons, List.mem_singleton, List.not_mem_nil,
          or_false] at hx ⊢
        tauto
      have hlen2 : (R.eraseIdx k).length ≤ fuel := by
        rw [List.length_eraseIdx, if_pos hk]
        omega
      have hsubR : ∀ x ∈ R.eraseIdx k, x ∈ R := fun x hx => (List.eraseIdx_sublist R k).subset hx
      obtain ⟨G2, a1, a2, a3⟩ := growGraph_open D fuel (G ++ [R.getD k ("", "")])
        (R.eraseIdx k) hlen2
        (fun x hx => by
          rcases List.mem_append.1 hx with hx1 | hx1
          · rcases List.mem_append.1 hx1 with hx2 | hx2
            · exact hGm x hx2
            · rw [List.mem_singleton.1 hx2]
              exact hgm
          · exact hm x (List.mem_append_right _ (hsubR x hx1)))
        hG2 (fun r hr => hD r (hsubR r hr)) h
      refine ⟨G2, a1, a2, fun x hx => a3 x ?_⟩
      rcases List.mem_append.1 hx with hx1 | hx1
      · exact List.mem_append_left _ (List.mem_append_left _ hx1)
      · rcases List.mem_cons.1 (hp.symm.subset hx1) with e | hx2
        · rw [e]
          exact List.mem_append_left _ (List.mem_append_right _ (List.mem_singleton_self _))
        · exact List.mem_append_right _ hx2
    · rename_i hscan
      have hfin := scanGenotypes_finished G R 0 hscan
      refine ⟨G, hG, fun r hr m hmem => ?_, fun x hx => hx⟩
      have hu := unique_iff_of_not_missing G r hGm (hm r (List.mem_append_right _ hr))
      rcases List.mem_append.1 hmem with hx | hx
      · exact ⟨hu.1.1 (hfin r hr).1 m hx, hu.2.1 (hfin r hr).2 m hx⟩
      · exact hD r hr m hx

/-- A run of the lattice growing that flags no genotype leaves no closed set among the
genotypes. -/
theorem latticeLoop_open :
    ∀ (fuel : Nat) (gs D : List (tAllele × tAllele)), gs.length ≤ fuel →
      (∀ x ∈ gs, IsMissing x.1 = false ∧ IsMissing x.2 = false) →
      ¬ HasClosedSet D →
      (∀ r ∈ gs, ∀ m ∈ D, m.1 ≠ r.1 ∧ m.2 ≠ r.2) →
      latticeLoop fuel gs = false → ¬ HasClosedSet (gs ++ D)
  | 0, gs, D, hlen, _, hD, _, _ => by
    have hR : gs = [] := List.length_eq_zero.1 (Nat.le_zero.1 hlen)
    subst hR
    simpa using hD
  | fuel + 1, gs, D, hlen, hm, hD, hsep, h => by
    unfold latticeLoop at h
    split at h
    · rename_i hlast
      rw [List.getLast?_eq_none_iff] at hlast
      subst hlast
      simpa using hD
    · rename_i seed hlast
      have hgs : gs.dropLast ++ [seed] = gs := List.dropLast_append_getLast? seed hlast
      have hseed : seed ∈ gs := by
        rw [← hgs]
        exact List.mem_append_right _ (List.mem_singleton_self _)
      have hdl : ∀ x ∈ gs.dropLast, x ∈ gs := fun x hx => (List.dropLast_sublist gs).subset hx
      by_cases hg : (growGraph gs.dropLast.length [seed] gs.dropLast).1 = true
      · rw [if_pos hg] at h
        exact absurd h (by simp)
      · rw [if_neg hg] at h
        have hg2 : (growGraph gs.dropLast.length [seed] gs.dropLast).1 = false := by
          simpa using hg
        have hseedD : ¬ HasClosedSet ([seed] ++ D) :=
          not_HasClosedSet_cons D seed hD (Or.inl (fun m hmD => (hsep seed hseed m hmD).1))
        obtain ⟨G2, a1, a2, a3⟩ := growGraph_open D gs.dropLast.length [seed] gs.dropLast
          (Nat.le_refl _)
          (fun x hx => by
            rcases List.mem_append.1 hx with hx1 | hx1
            · rw [List.mem_singleton.1 hx1]
              exact hm seed hseed
            · exact hm x (hdl x hx1))
          hseedD (fun r hr => hsep r (hdl r hr)) hg2
        have hsl := growGraph_sublist gs.dropLast.length [seed] gs.dropLast
        have hlen2 : (growGraph gs.dropLast.length [seed] gs.dropLast).2.length ≤ fuel := by
          have h1 := hsl.length_le
          have h2 : gs.dropLast.length + 1 = gs.length := by
            rw [← hgs, List.length_append, List.length_singleton]
            simp
          omega
        have ih := latticeLoop_open fuel _ (G2 ++ D) hlen2
          (fun x hx => hm x (hdl x (hsl.subset hx))) a1 a2 h
        intro hc
        refine ih (HasClosedSet_mono _ _ (fun x hx => ?_) hc)
        rcases List.mem_append.1 hx with hx1 | hx1
        · rw [← hgs] at hx1
          have hx2 : x ∈ [seed] ++ gs.dropLast := by
            rcases List.mem_append.1 hx1 with q | q
            · exact List.mem_append_right _ q
            · exact List.mem_append_left _ q
          rcases List.mem_append.1 (a3 x hx2) with q | q
          · exact List.mem_append_right _ (List.mem_append_left _ q)
          · exact List.mem_append_left _ q
        · exact List.mem_append_right _ (List.mem_append_right _ hx1)

theorem not_missing_pairGenotypes (s : MultiLocusModel) (i j : Nat) :
    ∀ x ∈ s.pairGenotypes i j, IsMissing x.1 = false ∧ IsMissing x.2 = false := by
  intro x hx
  obtain ⟨k, _, hk⟩ := (mem_pairGenotypes s i j x).1 hx
  exact not_missing_newGenotypes s i j k x hk

/-- C12 (amended): `CalcPorpCompat` counts a pair of loci as incompatible exactly when
some non-empty set of the observed two-locus genotypes has no member unique on an axis,
every member sharing its first allele with another member and its second allele with
another one: whenever such a set exists the growth of a component from a seed genotype by
the rule "unique on exactly one axis" meets a genotype unique on neither axis of the
component, and otherwise it never does. Genotypes unique on both axes are left over and
seed further components, so a pair whose observed genotypes pairwise share no allele on
either axis, such as (0,0) and (1,1), is counted as compatible. -/
theorem C12_incompat_iff_closed_set (s : MultiLocusModel) (i j : Nat) :
    (s.sitePairIncompat i j = true ↔
      ∃ S : List (tAllele × tAllele), S ≠ [] ∧ (∀ g ∈ S, g ∈ s.pairGenotypes i j) ∧
        ∀ g ∈ S, (∃ m ∈ S, m ≠ g ∧ m.1 = g.1) ∧ (∃ m ∈ S, m ≠ g ∧ m.2 = g.2)) ∧
    ((∀ g ∈ s.pairGenotypes i j, ∀ m ∈ s.pairGenotypes i j,
        g ≠ m → g.1 ≠ m.1 ∧ g.2 ≠ m.2) →
      s.sitePairIncompat i j = false) := by
  have hiff : s.sitePairIncompat i j = true ↔ HasClosedSet (s.pairGenotypes i j) := by
    constructor
    · intro h
      exact latticeLoop_closed _ _ (nodup_pairGenotypes s i j)
        (not_missing_pairGenotypes s i j) h
    · intro hc
      cases hb : s.sitePairIncompat i j
      · have hopen := latticeLoop_open _ (s.pairGenotypes i j) [] (Nat.le_refl _)
          (not_missing_pairGenotypes s i j)
          (by rintro ⟨S, hne, hS, _⟩
              cases S with
              | nil => exact hne rfl
              | cons x _ => exact absurd (hS x (List.mem_cons_self _ _)) (List.not_mem_nil _))
          (fun _ _ _ hmD => absurd hmD (List.not_mem_nil _)) hb
        rw [List.append_nil] at hopen
        exact absurd hc hopen
      · rfl
  refine ⟨hiff, fun hdis => ?_⟩
  cases hb : s.sitePairIncompat i j
  · rfl
  · obtain ⟨S, hne, hS, hcl⟩ := hiff.1 hb
    cases S with
    | nil => exact absurd rfl hne
    | cons g rest =>
      obtain ⟨⟨m1, hm1, a1, b1⟩, _⟩ := hcl g (List.mem_cons_self _ _)
      exact absurd b1.symm
        (hdis g (hS g (List.mem_cons_self _ _)) m1 (hS m1 hm1) (fun e => a1 e.symm)).1

/-- The four genotypes (0,0), (1,1), (0,1), (1,0) are a closed set and their pair of loci
is counted as incompatible; the three genotypes (0,0), (0,1), (1,0) hold no closed set,
and their pair of loci is counted as compatible although (0,0) shares its first allele
with (0,1) and its second allele with (1,0); so is the pair with the genotypes (0,0) and
(1,1). -/
theorem C12_incompat_iff_closed_set_witness :
    fourGametesModel.pairGenotypes 0 1 = [("0", "0"), ("1", "1"), ("0", "1"), ("1", "0")] ∧
    fourGametesModel.sitePairIncompat 0 1 = true ∧
    threeGametesModel.pairGenotypes 0 1 = [("0", "0"), ("0", "1"), ("1", "0")] ∧
    threeGametesModel.sitePairIncompat 0 1 = false ∧
    (¬ ∃ S : List (tAllele × tAllele), S ≠ [] ∧
      (∀ g ∈ S, g ∈ threeGametesModel.pairGenotypes 0 1) ∧
        ∀ g ∈ S, (∃ m ∈ S, m ≠ g ∧ m.1 = g.1) ∧ (∃ m ∈ S, m ≠ g ∧ m.2 = g.2)) ∧
    diagonalModel.sitePairIncompat 0 1 = false :=
  ⟨by decide,
    (C12_incompat_iff_closed_set fourGametesModel 0 1).1.2
      ⟨[("0", "0"), ("1", "1"), ("0", "1"), ("1", "0")], by decide, by decide, by decide⟩,
    by decide, by decide,
    fun h => absurd ((C12_incompat_iff_closed_set threeGametesModel 0 1).1.2 h) (by decide),
    (C12_incompat_iff_closed_set diagonalModel 0 1).2 (by decide)⟩

/-- `CalcNumDiff` returns when the greatest frequency and the diversity are above 0. -/
theorem CalcNumDiff_eq (s : MultiLocusModel) (q : ℚ)
    (hd : CalcDivFromDist (s.CalcIsoDistArray distance_t.kDistance_Relaxed) = some q)
    (hq : 0 < q)
    (hmax : 0 < (s.CountFreqsFromDist (s.CalcIsoDistArray distance_t.kDistance_Relaxed)).foldl
      (fun iMaxFreq x => if iMaxFreq < x then x else iMaxFreq) 0) :
    s.CalcNumDiff = some (some q,
      s.CountGtypesFromDist (s.CalcIsoDistArray distance_t.kDistance_Relaxed),
      (s.CountFreqsFromDist (s.CalcIsoDistArray distance_t.kDistance_Relaxed)).foldl
        (fun iMaxFreq x => if iMaxFreq < x then x else iMaxFreq) 0) := by
  unfold CalcNumDiff
  simp only [hd, hmax, not_true_eq_false, if_false, hq, if_true]

theorem CalcNumDiff_all_different (s : MultiLocusModel)
    (hdim : s.mNumPairsIsolates = s.GetNumRows * (s.GetNumRows - 1) / 2)
    (hnz : ∀ x ∈ s.CalcIsoDistArray distance_t.kDistance_Relaxed, x ≠ 0)
    (hn : 1 ≤ s.GetNumRows) :
    s.CountGtypesFromDist (s.CalcIsoDistArray distance_t.kDistance_Relaxed) = s.GetNumRows ∧
    (s.CountFreqsFromDist (s.CalcIsoDistArray distance_t.kDistance_Relaxed)).foldl
      (fun iMaxFreq x => if iMaxFreq < x then x else iMaxFreq) 0 = 1 ∧
    (2 ≤ s.GetNumRows →
      CalcDivFromDist (s.CalcIsoDistArray distance_t.kDistance_Relaxed) = some 1 ∧
      s.CalcNumDiff = some (some 1, (s.GetNumRows, 1))) := by
  have hlen := length_CalcIsoDistArray s distance_t.kDistance_Relaxed hdim
  obtain ⟨ht, hfirst, hsize⟩ := all_different s.GetNumRows _ hlen hnz
  have hfreq := CountFreqsFromDistN_eq s.GetNumRows _ ht
  have hnum : s.CountGtypesFromDist (s.CalcIsoDistArray distance_t.kDistance_Relaxed) =
      s.GetNumRows := by
    unfold CountGtypesFromDist CountFreqsFromDist
    rw [hfreq, numDiff_classes]
    have e1 : (List.range s.GetNumRows).filter
        (fun i => isFirstOfClass s.GetNumRows
          (s.CalcIsoDistArray distance_t.kDistance_Relaxed) i) = List.range s.GetNumRows := by
      rw [List.filter_eq_self]
      intro i hi
      exact hfirst i (List.mem_range.1 hi)
    rw [e1, List.length_range]
  have hmax : (s.CountFreqsFromDist (s.CalcIsoDistArray distance_t.kDistance_Relaxed)).foldl
      (fun iMaxFreq x => if iMaxFreq < x then x else iMaxFreq) 0 = 1 := by
    unfold CountFreqsFromDist
    rw [hfreq]
    obtain ⟨i, hi, hi2⟩ := (maxFreq_classes s.GetNumRows _ ht).2 hn
    rw [← hi2, hsize i hi]
    rfl
  refine ⟨hnum, hmax, fun h2 => ?_⟩
  have hdiv : CalcDivFromDist (s.CalcIsoDistArray distance_t.kDistance_Relaxed) = some 1 := by
    apply CalcDivFromDist_all_pos
    · rw [hlen]
      have h3 : 2 ≤ s.GetNumRows * (s.GetNumRows - 1) := by
        have : 1 ≤ s.GetNumRows - 1 := by omega
        calc 2 = 2 * 1 := rfl
          _ ≤ s.GetNumRows * (s.GetNumRows - 1) := Nat.mul_le_mul h2 this
      omega
    · intro x hx
      have h0 := mem_CalcIsoDistArray_nonneg s _ hdim x hx
      have h1 := hnz x hx
      omega
  refine ⟨hdiv, ?_⟩
  rw [CalcNumDiff_eq s 1 hdiv (by norm_num) (by rw [hmax]; decide), hnum, hmax]

/-- C9: whenever "summed distance 0" is a transitive relation on the isolates (it is for
every matrix without missing data), `CountFreqsFromDist` gives the first isolate of each
class of mutually identical isolates the size of the class and 0 to its other members, so
that NumDiff is the number of classes and MaxFreq the size of the largest class; if all
the pairwise distances are non-zero then NumDiff = N and MaxFreq = 1, and for N >= 2
`CalcDivFromDist` = 1 and `CalcNumDiff` returns these three values. For a single isolate
there is no pair: every pairwise distance is non-zero, NumDiff = 1 and MaxFreq = 1, but
`CalcDivFromDist` divides 0 by 0, its result is not a number and not 1, and `CalcNumDiff`
fails its assertion `0 < iDiversity`, as it does on two identical isolates, whose
diversity is 0. -/
theorem C9_CountFreqs_classes (s : MultiLocusModel) (d : List Int) :
    (distanceTransitive s.GetNumRows d →
      s.CountFreqsFromDist d = classFreqs s.GetNumRows d ∧
      s.CountGtypesFromDist d =
        ((List.range s.GetNumRows).filter (fun i => isFirstOfClass s.GetNumRows d i)).length ∧
      (∀ i, i < s.GetNumRows → (classSize s.GetNumRows d i : Int) ≤
        (s.CountFreqsFromDist d).foldl (fun iMaxFreq x => if iMaxFreq < x then x else iMaxFreq) 0) ∧
      (1 ≤ s.GetNumRows → ∃ i, i < s.GetNumRows ∧ (classSize s.GetNumRows d i : Int) =
        (s.CountFreqsFromDist d).foldl
          (fun iMaxFreq x => if iMaxFreq < x then x else iMaxFreq) 0)) ∧
    (noMissingData s →
      distanceTransitive s.GetNumRows
        (s.DetermineDimensions.CalcIsoDistArray distance_t.kDistance_Relaxed)) ∧
    ((∀ x ∈ s.DetermineDimensions.CalcIsoDistArray distance_t.kDistance_Relaxed, x ≠ 0) →
      1 ≤ s.GetNumRows →
      s.DetermineDimensions.CountGtypesFromDist
        (s.DetermineDimensions.CalcIsoDistArray distance_t.kDistance_Relaxed) =
          s.GetNumRows ∧
      (s.DetermineDimensions.CountFreqsFromDist
        (s.DetermineDimensions.CalcIsoDistArray distance_t.kDistance_Relaxed)).foldl
          (fun iMaxFreq x => if iMaxFreq < x then x else iMaxFreq) 0 = 1 ∧
      (2 ≤ s.GetNumRows →
        CalcDivFromDist
          (s.DetermineDimensions.CalcIsoDistArray distance_t.kDistance_Relaxed) = some 1 ∧
        s.DetermineDimensions.CalcNumDiff = some (some 1, (s.GetNumRows, 1)))) ∧
    (oneIsolateModel.GetNumRows = 1 ∧
      oneIsolateModel.DetermineDimensions.CalcIsoDistArray distance_t.kDistance_Relaxed = [] ∧
      oneIsolateModel.DetermineDimensions.CountGtypesFromDist [] = 1 ∧
      oneIsolateModel.DetermineDimensions.CountFreqsFromDist [] = [1] ∧
      CalcDivFromDist [] = none ∧
      oneIsolateModel.DetermineDimensions.CalcNumDiff = none ∧
      (({} : MultiLocusModel).ParseInput "A\n".data "f").toOption.map
        (fun m => (m.mHaploData, m.CalcNumDiff)) = some ([["A"]], none)) ∧
    (twoEqualModel.DetermineDimensions.CalcIsoDistArray distance_t.kDistance_Relaxed = [0] ∧
      twoEqualModel.DetermineDimensions.CountFreqsFromDist [0] = [2, 0] ∧
      CalcDivFromDist [0] = some 0 ∧
      twoEqualModel.DetermineDimensions.CalcNumDiff = none) := by
  refine ⟨fun ht => ?_, fun hm => ?_, fun hnz hn => ?_, ?_, ?_⟩
  · have hfreq : s.CountFreqsFromDist d = classFreqs s.GetNumRows d :=
      CountFreqsFromDistN_eq s.GetNumRows d ht
    refine ⟨hfreq, ?_, ?_, ?_⟩
    · unfold CountGtypesFromDist
      rw [hfreq, numDiff_classes]
    · rw [hfreq]
      exact (maxFreq_classes s.GetNumRows d ht).1
    · rw [hfreq]
      exact (maxFreq_classes s.GetNumRows d ht).2
  · exact distanceTransitive_of_noMissing s.DetermineDimensions rfl hm
  · exact CalcNumDiff_all_different s.DetermineDimensions rfl hnz hn
  · refine ⟨by decide, by decide, by decide, by decide, by decide, by decide, by decide⟩
  · have hdiv : CalcDivFromDist [0] = some 0 := by
      unfold CalcDivFromDist
      simp
    have harr : twoEqualModel.DetermineDimensions.CalcIsoDistArray
        distance_t.kDistance_Relaxed = [0] := by decide
    refine ⟨harr, by decide, hdiv, ?_⟩
    unfold CalcNumDiff
    simp only [harr, hdiv]
    simp

/-- The rows A B C / A A C / B B C: all the pairwise distances are non-zero, NumDiff = 3,
MaxFreq = 1 and the diversity is 1. -/
theorem C9_CountFreqs_classes_witness :
    (∀ x ∈ abcModel.DetermineDimensions.CalcIsoDistArray distance_t.kDistance_Relaxed, x ≠ 0) ∧
    1 ≤ abcModel.GetNumRows ∧ 2 ≤ abcModel.GetNumRows ∧
    abcModel.DetermineDimensions.CalcIsoDistArray distance_t.kDistance_Relaxed = [1, 1, 2] ∧
    abcModel.GetNumRows = 3 ∧
    CalcDivFromDist
      (abcModel.DetermineDimensions.CalcIsoDistArray distance_t.kDistance_Relaxed) = some 1 ∧
    abcModel.DetermineDimensions.CalcNumDiff = some (some 1, (abcModel.GetNumRows, 1)) :=
  ⟨by decide, by decide, by decide, by decide, by decide,
    (((C9_CountFreqs_classes abcModel []).2.2.1 (by decide) (by decide)).2.2 (by decide)).1,
    (((C9_CountFreqs_classes abcModel []).2.2.1 (by decide) (by decide)).2.2 (by decide)).2⟩

/-- C32: the rows "?", "A", "B" of one locus are a permutation of the rows "A", "B", "?"
and hold a missing allele; `CalcNumDiff` finds NumDiff = 1 on the first order and
NumDiff = 2 on the second; on the first order the three isolates are counted in the
cluster of the isolate 0 although the distance between the isolates 1 and 2 is 1. -/
theorem C32_CountFreqs_order_dependent :
    missingLastModel.mHaploData.Perm missingFirstModel.mHaploData ∧
    missingFirstModel.IsMissingAt 0 0 = true ∧
    missingFirstModel.DetermineDimensions.CalcNumDiff = some (some (1 / 3), 1, 3) ∧
    missingLastModel.DetermineDimensions.CalcNumDiff = some (some (1 / 3), 2, 2) ∧
    missingFirstModel.DetermineDimensions.CalcNumDiff.map (fun r => r.2.1) = some 1 ∧
    missingLastModel.DetermineDimensions.CalcNumDiff.map (fun r => r.2.1) = some 2 ∧
    missingFirstModel.DetermineDimensions.CalcIsoDistArray = [0, 0, 1] ∧
    missingFirstModel.DetermineDimensions.CountFreqsFromDist
      missingFirstModel.DetermineDimensions.CalcIsoDistArray = [3, 0, 0] ∧
    missingFirstModel.DetermineDimensions.siteDist distance_t.kDistance_Relaxed 1 2 0 = 1 ∧
    missingLastModel.DetermineDimensions.CountFreqsFromDist
      missingLastModel.DetermineDimensions.CalcIsoDistArray = [2, 1, 0] := by
  have d1 : missingFirstModel.DetermineDimensions.CalcIsoDistArray
      distance_t.kDistance_Relaxed = [0, 0, 1] := by decide
  have d2 : missingLastModel.DetermineDimensions.CalcIsoDistArray
      distance_t.kDistance_Relaxed = [1, 0, 0] := by decide
  have q1 : CalcDivFromDist [0, 0, 1] = some (1 / 3) := by
    unfold CalcDivFromDist
    simp
  have q2 : CalcDivFromDist [1, 0, 0] = some (1 / 3) := by
    unfold CalcDivFromDist
    simp
  have e1 : missingFirstModel.DetermineDimensions.CalcNumDiff = some (some (1 / 3), 1, 3) := by
    have n1 : missingFirstModel.DetermineDimensions.CountGtypesFromDist
        (missingFirstModel.DetermineDimensions.CalcIsoDistArray distance_t.kDistance_Relaxed) =
        1 := by decide
    have m1 : (missingFirstModel.DetermineDimensions.CountFreqsFromDist
        (missingFirstModel.DetermineDimensions.CalcIsoDistArray
          distance_t.kDistance_Relaxed)).foldl
        (fun iMaxFreq x => if iMaxFreq < x then x else iMaxFreq) 0 = 3 := by decide
    rw [CalcNumDiff_eq _ (1 / 3) (by rw [d1]; exact q1) (by norm_num) (by decide),
      n1, m1]
  have e2 : missingLastModel.DetermineDimensions.CalcNumDiff = some (some (1 / 3), 2, 2) := by
    have n1 : missingLastModel.DetermineDimensions.CountGtypesFromDist
        (missingLastModel.DetermineDimensions.CalcIsoDistArray distance_t.kDistance_Relaxed) =
        2 := by decide
    have m1 : (missingLastModel.DetermineDimensions.CountFreqsFromDist
        (missingLastModel.DetermineDimensions.CalcIsoDistArray
          distance_t.kDistance_Relaxed)).foldl
        (fun iMaxFreq x => if iMaxFreq < x then x else iMaxFreq) 0 = 2 := by decide
    rw [CalcNumDiff_eq _ (1 / 3) (by rw [d2]; exact q2) (by norm_num) (by decide),
      n1, m1]
  refine ⟨?_, by decide, e1, e2, ?_, ?_, by decide, by decide, by decide, by decide⟩
  · show List.Perm [["A"], ["B"], ["?"]] [["?"], ["A"], ["B"]]
    decide
  · rw [e1]
    rfl
  · rw [e2]
    rfl

theorem dropWhile_reverse_cons_nil {α : Type} (p : α → Bool) (a : α) (l : List α)
    (h : l.reverse.dropWhile p = []) :
    (a :: l).reverse.dropWhile p = if p a = true then [] else [a] := by
  rw [List.reverse_cons, List.dropWhile_append, h]
  by_cases hp : p a = true
  · simp [hp]
  · simp [hp]

theorem dropWhile_reverse_cons_ne {α : Type} (p : α → Bool) (a : α) (l : List α)
    (h : l.reverse.dropWhile p ≠ []) :
    (a :: l).reverse.dropWhile p = l.reverse.dropWhile p ++ [a] := by
  rw [List.reverse_cons, List.dropWhile_append]
  cases hd : l.reverse.dropWhile p with
  | nil => exact absurd hd h
  | cons x xs => simp

theorem String_mk_beq_empty (l : List Char) : (String.mk l == "") = decide (l = []) := by
  cases l with
  | nil => rfl
  | cons c cs =>
    have : String.mk (c :: cs) ≠ "" := by
      intro h
      have := congrArg String.data h
      simp at this
    simp [this]

theorem length_popEmptyColumns_splitLoop (d : Char) :
    ∀ (l acc : List Char),
      (popEmptyColumns (splitLoop d l acc)).length =
        if l.reverse.dropWhile (fun c => c == d) = [] then (if acc = [] then 0 else 1)
        else (l.reverse.dropWhile (fun c => c == d)).count d + 1 := by
  intro l
  induction l with
  | nil =>
    intro acc
    unfold splitLoop popEmptyColumns
    simp only [List.reverse_cons, List.reverse_nil, List.nil_append, List.dropWhile_cons,
      List.dropWhile_nil, if_true]
    rw [String_mk_beq_empty]
    by_cases h : acc = []
    · simp [h]
    · simp [h]
  | cons c rest ih =>
    intro acc
    unfold splitLoop
    by_cases hc : c = d
    · rw [if_pos hc]
      unfold popEmptyColumns
      have ih0 := ih []
      unfold popEmptyColumns at ih0
      by_cases hr : rest.reverse.dropWhile (fun c => c == d) = []
      · rw [if_pos hr] at ih0
        simp only [if_true, List.length_reverse] at ih0
        have hnil : (splitLoop d rest []).reverse.dropWhile (fun x => x == "") = [] :=
          List.length_eq_zero.1 ih0
        rw [dropWhile_reverse_cons_nil _ _ _ hnil, dropWhile_reverse_cons_nil _ _ _ hr,
          String_mk_beq_empty]
        subst hc
        by_cases h : acc = []
        · simp [h]
        · simp [h]
      · rw [if_neg hr] at ih0
        have hne : (splitLoop d rest []).reverse.dropWhile (fun x => x == "") ≠ [] := by
          intro h
          rw [h] at ih0
          simp at ih0
        rw [dropWhile_reverse_cons_ne _ _ _ hne, dropWhile_reverse_cons_ne _ _ _ hr]
        simp only [List.reverse_append, List.reverse_cons, List.reverse_nil, List.nil_append,
          List.singleton_append, List.length_cons, List.length_reverse] at ih0 ⊢
        rw [ih0, List.count_append, hc]
        simp
    · rw [if_neg hc]
      have ih1 := ih (acc ++ [c])
      rw [ih1]
      have hcount : List.count d [c] = 0 :=
        List.count_eq_zero.2 (fun h => hc (List.mem_singleton.1 h).symm)
      by_cases hr : rest.reverse.dropWhile (fun c => c == d) = []
      · rw [if_pos hr, dropWhile_reverse_cons_nil _ _ _ hr]
        simp [hc, hcount]
      · rw [if_neg hr, dropWhile_reverse_cons_ne _ _ _ hr]
        simp [List.count_append, hc, hcount]

/-- The number of columns that `ParseInput` finds in a line is the number of the
tab-separated columns of the line without the empty columns at its end. -/
theorem numColumns_eq_columnsOfLine (theInLine : String) :
    numColumns theInLine = columnsOfLine theInLine := by
  unfold numColumns columnsOfLine split
  rw [length_popEmptyColumns_splitLoop]
  simp

/-- C18: `ParseInput` reads the first line of the file and (1) hands the file to the
haploid parser when the line holds no '/', (2) so that data successfully parsed are
haploid exactly when the first line holds no '/'; when the line holds a '/', (3) the
ParseError "missing column delimiter" is raised exactly when the number of '/' differs
from the number of tab-separated columns of the line, trailing empty columns dropped,
(4) the error naming the data file, and (5) the file is handed to the diploid parser when
the two numbers are equal. The number of columns is counted on the characters of the
line: one more than the tabs of the line without the tabs at its end. -/
theorem C18_ParseInput_dispatch (s : MultiLocusModel) (ioInputFile : List Char)
    (iDataFileName : String) :
    firstLineOf ioInputFile = some (firstLine ioInputFile, { mSrc := ioInputFile }) ∧
    ((firstLine ioInputFile).data.count '/' = 0 →
      s.ParseInput ioInputFile iDataFileName =
        (s.ParseHaploidInput { mSrc := ioInputFile }
          (columnsOfLine (firstLine ioInputFile))).map
          (fun t => t.BackupOriginal.DetermineDimensions)) ∧
    (∀ m, s.ParseInput ioInputFile iDataFileName = Except.ok m →
      (m.GetPloidy = ploidy_t.kPloidy_Haploid ↔
        (firstLine ioInputFile).data.count '/' = 0)) ∧
    ((firstLine ioInputFile).data.count '/' ≠ 0 →
      ((∃ e, s.ParseInput ioInputFile iDataFileName = Except.error (ParseStop.thrown e) ∧
          e.mDesc = "missing column delimiter") ↔
        (firstLine ioInputFile).data.count '/' ≠ columnsOfLine (firstLine ioInputFile))) ∧
    ((firstLine ioInputFile).data.count '/' ≠ 0 →
      (firstLine ioInputFile).data.count '/' ≠ columnsOfLine (firstLine ioInputFile) →
      s.ParseInput ioInputFile iDataFileName =
        Except.error (ParseStop.thrown
          { mDesc := "missing column delimiter", mSource := iDataFileName })) ∧
    ((firstLine ioInputFile).data.count '/' ≠ 0 →
      (firstLine ioInputFile).data.count '/' = columnsOfLine (firstLine ioInputFile) →
      s.ParseInput ioInputFile iDataFileName =
        (s.ParseDiploidInput { mSrc := ioInputFile }
          (columnsOfLine (firstLine ioInputFile))).map
          (fun t => t.BackupOriginal.DetermineDimensions)) := by
  have h := ParseInput_dispatch s ioInputFile iDataFileName
  rw [numColumns_eq_columnsOfLine] at h
  exact h

/-- A first line with two '/' and two columns followed by two empty columns is handed to
the diploid parser, which finds two isolates at two loci; a first line with two '/' and
an empty column between its two columns raises "missing column delimiter"; a first line
without '/' with two columns followed by two empty columns is read as haploid. -/
theorem C18_ParseInput_dispatch_witness :
    (firstLine "A/B\tC/D\t\t\nE/F\tG/H\n".data = "A/B\tC/D\t\t" ∧
      "A/B\tC/D\t\t".data.count '/' = 2 ∧ columnsOfLine "A/B\tC/D\t\t" = 2 ∧
      columnsOfLine "A/B\t\tC/D" = 3 ∧ columnsOfLine "A\tB\t\t" = 2 ∧
      columnsOfLine "\t\t" = 0 ∧ columnsOfLine "" = 0) ∧
    ({} : MultiLocusModel).ParseInput "A/B\tC/D\t\t\nE/F\tG/H\n".data "f" =
      (({} : MultiLocusModel).ParseDiploidInput { mSrc := "A/B\tC/D\t\t\nE/F\tG/H\n".data }
        (columnsOfLine (firstLine "A/B\tC/D\t\t\nE/F\tG/H\n".data))).map
        (fun t => t.BackupOriginal.DetermineDimensions) ∧
    (({} : MultiLocusModel).ParseInput "A/B\tC/D\t\t\nE/F\tG/H\n".data "f").toOption.map
        (fun m => (m.GetPloidy, m.GetNumRows, m.GetNumCols)) =
      some (ploidy_t.kPloidy_Diploid, 2, 2) ∧
    (∃ e, ({} : MultiLocusModel).ParseInput "A/B\t\tC/D\n".data "f" =
        Except.error (ParseStop.thrown e) ∧ e.mDesc = "missing column delimiter") ∧
    (({} : MultiLocusModel).ParseInput "A\tB\t\t\nC\tD\n".data "f").toOption.map
        (fun m => (m.GetPloidy, m.GetNumRows, m.GetNumCols)) =
      some (ploidy_t.kPloidy_Haploid, 2, 2) :=
  ⟨by decide,
    (C18_ParseInput_dispatch {} "A/B\tC/D\t\t\nE/F\tG/H\n".data "f").2.2.2.2.2 (by decide)
      (by decide),
    by decide,
    ((C18_ParseInput_dispatch {} "A/B\t\tC/D\n".data "f").2.2.2.1 (by decide)).2 (by decide),
    by decide⟩

/-- A column of haploid data holds missing data when a row holds a missing allele in
it. -/
theorem IsColMissingAt_haploid (s : MultiLocusModel)
    (hp : s.mPloidy = ploidy_t.kPloidy_Haploid) (j : Nat) :
    s.IsColMissingAt j = s.mHaploData.any (fun row => IsMissing (row.getD j "")) := by
  rw [← any_range_getD (fun row => IsMissing (row.getD j "")) [] s.mHaploData]
  unfold IsColMissingAt IsMissingAt GetNumRows GetPloidy cellAt
  simp only [hp, if_true]
  congr 1
  funext i
  cases IsMissing ((s.mHaploData.getD i []).getD j default) <;> rfl

/-- A column of diploid data holds missing data when a row holds a cell missing an allele
in it. -/
theorem IsColMissingAt_diploid (s : MultiLocusModel)
    (hp : s.mPloidy = ploidy_t.kPloidy_Diploid) (j : Nat) :
    s.IsColMissingAt j =
      s.mDiploData.any (fun row => IsMissingPair (row.getD j default)) := by
  rw [← any_range_getD (fun row => IsMissingPair (row.getD j default)) [] s.mDiploData]
  unfold IsColMissingAt IsMissingAt GetNumRows GetPloidy cellAt IsMissingPair
  simp only [hp]
  rfl

theorem ExcludeMissingLoci_true_of_col (s : MultiLocusModel) (j : Nat)
    (hj : j < s.GetNumCols) (hcol : s.IsColMissingAt j = false) :
    s.ExcludeMissingLoci.1 = true := by
  cases h : s.ExcludeMissingLoci.1
  · have hall := (ExcludeMissingLoci_false_iff s).1 h
    unfold IsColMissing at hall
    rw [List.all_eq_true] at hall
    rw [hall j (List.mem_range.2 hj)] at hcol
    exact absurd hcol (by decide)
  · rfl

/-- C24: on a rectangular working matrix with a row free of missing cells,
`ExcludeMissingIso` returns true and leaves as working matrix the rows without a missing
cell (for diploid data: without a cell missing either allele), in their order, so that
the matrix has a row at least and no missing cell; and on a rectangular working matrix
with a column free of missing cells, `ExcludeMissingLoci` returns true and leaves in
every row the cells of the columns in which no row holds a missing cell, in their
order. -/
theorem C24_exclusion_keeps (s : MultiLocusModel) (R C : Nat) :
    (s.mPloidy = ploidy_t.kPloidy_Haploid → Rect s.mHaploData R C →
      (∃ row ∈ s.mHaploData, row.any IsMissing = false) →
      s.ExcludeMissingIso.1 = true ∧
      s.ExcludeMissingIso.2.mHaploData =
        s.mHaploData.filter (fun row => !row.any IsMissing) ∧
      1 ≤ s.ExcludeMissingIso.2.GetNumRows ∧
      ∀ i j, i < s.ExcludeMissingIso.2.GetNumRows → j < s.ExcludeMissingIso.2.GetNumCols →
        s.ExcludeMissingIso.2.IsMissingAt i j = false) ∧
    (s.mPloidy = ploidy_t.kPloidy_Diploid → Rect s.mDiploData R C →
      (∃ row ∈ s.mDiploData, row.any IsMissingPair = false) →
      s.ExcludeMissingIso.1 = true ∧
      s.ExcludeMissingIso.2.mDiploData =
        s.mDiploData.filter (fun row => !row.any IsMissingPair) ∧
      1 ≤ s.ExcludeMissingIso.2.GetNumRows ∧
      ∀ i j, i < s.ExcludeMissingIso.2.GetNumRows → j < s.ExcludeMissingIso.2.GetNumCols →
        s.ExcludeMissingIso.2.IsMissingAt i j = false) ∧
    (s.mPloidy = ploidy_t.kPloidy_Haploid → Rect s.mHaploData R C →
      (∃ j, j < s.GetNumCols ∧
        s.mHaploData.any (fun row => IsMissing (row.getD j "")) = false) →
      s.ExcludeMissingLoci.1 = true ∧
      s.ExcludeMissingLoci.2.mHaploData =
        s.mHaploData.map (keepCols
          (fun j => !s.mHaploData.any (fun row => IsMissing (row.getD j ""))))) ∧
    (s.mPloidy = ploidy_t.kPloidy_Diploid → Rect s.mDiploData R C →
      (∃ j, j < s.GetNumCols ∧
        s.mDiploData.any (fun row => IsMissingPair (row.getD j default)) = false) →
      s.ExcludeMissingLoci.1 = true ∧
      s.ExcludeMissingLoci.2.mDiploData =
        s.mDiploData.map (keepCols
          (fun j => !s.mDiploData.any (fun row => IsMissingPair (row.getD j default))))) := by
  refine ⟨fun hp hr hex => ?_, fun hp hr hex => ?_, fun hp hr hex => ?_, fun hp hr hex => ?_⟩
  · refine ⟨?_, ?_, no_missing_after_haploid s R C hp hr hex⟩
    · rw [ExcludeMissingIso_haploid s R C hp hr hex]
    · rw [ExcludeMissingIso_haploid s R C hp hr hex]
      rfl
  · refine ⟨?_, ?_, no_missing_after_diploid s R C hp hr hex⟩
    · rw [ExcludeMissingIso_diploid s R C hp hr hex]
    · rw [ExcludeMissingIso_diploid s R C hp hr hex]
      rfl
  · obtain ⟨j, hj, hcol⟩ := hex
    have hok : s.ExcludeMissingLoci.1 = true :=
      ExcludeMissingLoci_true_of_col s j hj (by rw [IsColMissingAt_haploid s hp]; exact hcol)
    refine ⟨hok, ?_⟩
    rw [ExcludeMissingLoci_haploid s R C hp hr hok]
    have hf : (fun j => !s.IsColMissingAt j) =
        (fun j => !s.mHaploData.any (fun row => IsMissing (row.getD j ""))) := by
      funext k
      rw [IsColMissingAt_haploid s hp]
    rw [hf]
    rfl
  · obtain ⟨j, hj, hcol⟩ := hex
    have hok : s.ExcludeMissingLoci.1 = true :=
      ExcludeMissingLoci_true_of_col s j hj (by rw [IsColMissingAt_diploid s hp]; exact hcol)
    refine ⟨hok, ?_⟩
    rw [ExcludeMissingLoci_diploid s R C hp hr hok]
    have hf : (fun j => !s.IsColMissingAt j) =
        (fun j => !s.mDiploData.any (fun row => IsMissingPair (row.getD j default))) := by
      funext k
      rw [IsColMissingAt_diploid s hp]
    rw [hf]
    rfl

/-- On the haploid table whose second row and second column hold the missing cell, the
exclusion of isolates keeps the rows 1 and 3 and the exclusion of loci keeps the columns
1 and 3; on the diploid table whose second row and second column hold the cell with a
missing allele, the exclusion of isolates keeps the first row and the exclusion of loci
the first column. -/
theorem C24_exclusion_keeps_witness :
    someMissingModel.mHaploData = [["A", "B", "C"], ["A", "?", "D"], ["E", "B", "C"]] ∧
    (someMissingModel.ExcludeMissingIso.1 = true ∧
      someMissingModel.ExcludeMissingIso.2.mHaploData =
        someMissingModel.mHaploData.filter (fun row => !row.any IsMissing) ∧
      1 ≤ someMissingModel.ExcludeMissingIso.2.GetNumRows ∧
      ∀ i j, i < someMissingModel.ExcludeMissingIso.2.GetNumRows →
        j < someMissingModel.ExcludeMissingIso.2.GetNumCols →
        someMissingModel.ExcludeMissingIso.2.IsMissingAt i j = false) ∧
    someMissingModel.ExcludeMissingIso.2.mHaploData = [["A", "B", "C"], ["E", "B", "C"]] ∧
    (someMissingModel.ExcludeMissingLoci.1 = true ∧
      someMissingModel.ExcludeMissingLoci.2.mHaploData =
        someMissingModel.mHaploData.map (keepCols
          (fun j => !someMissingModel.mHaploData.any (fun row => IsMissing (row.getD j ""))))) ∧
    someMissingModel.ExcludeMissingLoci.2.mHaploData = [["A", "C"], ["A", "D"], ["E", "C"]] ∧
    c3Model.mDiploData = [[⟨"A", "B", 0⟩, ⟨"A", "A", 0⟩], [⟨"B", "A", 0⟩, ⟨"?", "A", 0⟩]] ∧
    (c3Model.ExcludeMissingIso.1 = true ∧
      c3Model.ExcludeMissingIso.2.mDiploData =
        c3Model.mDiploData.filter (fun row => !row.any IsMissingPair)) ∧
    c3Model.ExcludeMissingIso.2.mDiploData = [[⟨"A", "B", 0⟩, ⟨"A", "A", 0⟩]] ∧
    (c3Model.ExcludeMissingLoci.1 = true ∧
      c3Model.ExcludeMissingLoci.2.mDiploData =
        c3Model.mDiploData.map (keepCols
          (fun j => !c3Model.mDiploData.any (fun row => IsMissingPair (row.getD j default))))) ∧
    c3Model.ExcludeMissingLoci.2.mDiploData = [[⟨"A", "B", 0⟩], [⟨"B", "A", 0⟩]] :=
  ⟨by decide,
    (C24_exclusion_keeps someMissingModel 3 3).1 (by decide) (by decide) (by decide),
    by decide,
    (C24_exclusion_keeps someMissingModel 3 3).2.2.1 (by decide) (by decide)
      ⟨0, by decide, by decide⟩,
    by decide, by decide,
    ⟨((C24_exclusion_keeps c3Model 2 2).2.1 (by decide) (by decide) (by decide)).1,
      ((C24_exclusion_keeps c3Model 2 2).2.1 (by decide) (by decide) (by decide)).2.1⟩,
    by decide,
    (C24_exclusion_keeps c3Model 2 2).2.2.2 (by decide) (by decide)
      ⟨0, by decide, by decide⟩,
    by decide⟩

theorem linesText_head_crlf (post : List (List Char)) (hne : ∀ l ∈ post, l ≠ [])
    (hpost : ∀ l ∈ post, ∀ c ∈ l, c ∉ ['\n', '\r']) :
    ∀ c r, linesText ['\r', '\n'] post = c :: r → c ≠ '\r' := by
  intro c r h
  cases post with
  | nil => simp [linesText] at h
  | cons l ls =>
    rw [linesText_cons] at h
    cases l with
    | nil => exact absurd rfl (hne [] (List.mem_cons_self _ _))
    | cons x xs =>
      simp at h
      have := hpost (x :: xs) (List.mem_cons_self _ _) x (List.mem_cons_self _ _)
      rw [← h.1]
      intro hx
      exact this (by simp [hx])

theorem readLines_succ_succ (sc sc1 sc2 : StreamScanner) (a b : String) (n : Nat)
    (h1 : sc.ReadLine = some (a, sc1)) (h2 : sc1.ReadLine = some (b, sc2)) :
    sc.readLines (n + 1 + 1) =
      match sc2.readLines n with
      | none => none
      | some (theLines, sc3) => some (a :: b :: theLines, sc3) := by
  rw [StreamScanner.readLines, h1]
  simp only
  rw [StreamScanner.readLines, h2]
  simp only
  cases sc2.readLines n with
  | none => rfl
  | some p => rfl

/-- Successive calls of `ReadLine`, the type of line ending unknown, on non-empty lines
that all end with a carriage return followed by a line feed: every line is returned, and
after it an empty line. -/
theorem readLines_crlf :
    ∀ (k : Nat) (lines : List (List Char)) (sc : StreamScanner), k ≤ lines.length →
      (∀ l ∈ lines, l ≠ []) →
      (∀ l ∈ lines, ∀ c ∈ l, c ∉ ['\n', '\r']) →
      sc.mGood = true → sc.mEolnType = eoln_t.kEoln_Unknown →
      sc.mSrc.drop sc.mPosn = linesText ['\r', '\n'] lines →
      ∃ sc2, sc.readLines (2 * k) =
          some ((lines.take k).flatMap (fun l => [String.mk l, ""]), sc2) := by
  intro k
  induction k with
  | zero =>
    intro lines sc _ _ _ _ _ _
    exact ⟨sc, rfl⟩
  | succ k ih =>
    intro lines sc hk hne hlines hg he h
    cases lines with
    | nil => simp at hk
    | cons line post =>
      have hk2 : k ≤ post.length := by simpa using hk
      have hpost : ∀ l ∈ post, ∀ c ∈ l, c ∉ ['\n', '\r'] :=
        fun l hl => hlines l (List.mem_cons_of_mem _ hl)
      have hpne : ∀ l ∈ post, l ≠ [] := fun l hl => hne l (List.mem_cons_of_mem _ hl)
      rw [linesText_cons] at h
      have h1 : sc.mSrc.drop sc.mPosn = line ++ '\r' :: ('\n' :: linesText ['\r', '\n'] post) := by
        rw [h]
        simp
      have r1 := ReadLine_cr_unknown sc line _ (hlines line (List.mem_cons_self _ _)) hg he h1
      have hd : sc.mSrc.drop (sc.mPosn + (line ++ ['\r']).length) =
          '\n' :: linesText ['\r', '\n'] post := by
        apply drop_add_of_append
        rw [h1]
        simp
      have hd2 : ({ sc with mPosn := sc.mPosn + line.length + 1 } : StreamScanner).mSrc.drop
          ({ sc with mPosn := sc.mPosn + line.length + 1 } : StreamScanner).mPosn =
          [] ++ '\n' :: linesText ['\r', '\n'] post := by
        simp only [List.nil_append]
        rw [← hd]
        simp [Nat.add_assoc]
      obtain ⟨sc2, e1, e2, e3, e4, _, e6⟩ := ReadLine_lf
        { sc with mPosn := sc.mPosn + line.length + 1 } [] _ (by simp) hg he hd2
        (linesText_head_crlf post hpne hpost)
      have e : 2 * (k + 1) = 2 * k + 1 + 1 := by omega
      rw [e, readLines_succ_succ sc _ sc2 _ _ _ r1 e1]
      cases k with
      | zero =>
        exact ⟨sc2, by simp [StreamScanner.readLines]⟩
      | succ k2 =>
        have hpn : post ≠ [] := by
          intro hp
          rw [hp] at hk2
          simp at hk2
        have hdrop : sc2.mSrc.drop sc2.mPosn = linesText ['\r', '\n'] post := by
          rw [e2, e4]
          simp only [List.length_nil, Nat.add_zero]
          have := (drop_eq_cons _ _ _ _ hd).2
          rw [← this]
          simp [Nat.add_assoc]
        obtain ⟨sc3, f1⟩ := ih post sc2 hk2 hpne hpost
          (e6 (linesText_ne_nil _ (by simp) post hpn)) (e3.trans he) hdrop
        rw [f1]
        exact ⟨sc3, by simp⟩

/-- C22 (amended): on a source whose lines all end with a carriage return, or all with a
line feed, or all with a line feed followed by a carriage return, read with the type of
line ending unknown or of that kind, the first `k` calls of `ReadLine` return the first
`k` lines, each without a terminator character, and when a line follows the scanner
stands at its first character; on a source whose lines are not empty and all end with a
carriage return followed by a line feed, read with the type unknown, `ReadLine` returns
every line and after it an empty line. -/
theorem C22_ReadLine_lines (term : List Char) (mode : eoln_t) (lines : List (List Char))
    (k : Nat) (hlines : ∀ l ∈ lines, ∀ c ∈ l, c ≠ '\n' ∧ c ≠ '\r') (hk : k ≤ lines.length) :
    (LineEnding term mode →
      ∃ sc, ({ mSrc := linesText term lines, mEolnType := mode } : StreamScanner).readLines k =
          some ((lines.take k).map String.mk, sc) ∧
        (k < lines.length →
          sc.mGood = true ∧ sc.mPosn = (linesText term (lines.take k)).length)) ∧
    ((∀ l ∈ lines, l ≠ []) →
      ∃ sc, ({ mSrc := linesText ['\r', '\n'] lines,
               mEolnType := eoln_t.kEoln_Unknown } : StreamScanner).readLines (2 * k) =
          some ((lines.take k).flatMap (fun l => [String.mk l, ""]), sc)) := by
  have hl : ∀ l ∈ lines, ∀ c ∈ l, c ∉ ['\n', '\r'] := by
    intro l hl c hc
    have := hlines l hl c hc
    simp [this.1, this.2]
  refine ⟨fun hle => ?_, fun hne => ?_⟩
  · obtain ⟨sc, e1, _, _, e4, e5⟩ := readLines_spec term mode hle k lines
      { mSrc := linesText term lines, mEolnType := mode } hk hl rfl rfl rfl
    refine ⟨sc, e1, fun h => ⟨e5 h, ?_⟩⟩
    rw [e4]
    simp
  · exact readLines_crlf k lines
      { mSrc := linesText ['\r', '\n'] lines, mEolnType := eoln_t.kEoln_Unknown } hk hne hl
      rfl rfl rfl

/-- Two calls of `ReadLine` on "ab", an empty line and "cd", each ended by a line feed
and a carriage return, return "ab" and the empty line and leave the scanner at "cd"; four
calls on "ab" and "cd", each ended by a carriage return and a line feed, return "ab", an
empty line, "cd" and an empty line. -/
theorem C22_ReadLine_lines_witness :
    (∃ sc, ({ mSrc := linesText ['\n', '\r'] ["ab".data, [], "cd".data],
              mEolnType := eoln_t.kEoln_Unknown } : StreamScanner).readLines 2 =
        some ((["ab".data, [], "cd".data].take 2).map String.mk, sc) ∧
      (2 < ["ab".data, [], "cd".data].length →
        sc.mGood = true ∧
        sc.mPosn = (linesText ['\n', '\r'] (["ab".data, [], "cd".data].take 2)).length)) ∧
    (["ab".data, [], "cd".data].take 2).map String.mk = ["ab", ""] ∧
    linesText ['\r', '\n'] ["ab".data, "cd".data] = "ab\r\ncd\r\n".data ∧
    (["ab".data, "cd".data].take 2).flatMap (fun l => [String.mk l, ""]) =
      ["ab", "", "cd", ""] ∧
    (∃ sc, ({ mSrc := linesText ['\r', '\n'] ["ab".data, "cd".data],
              mEolnType := eoln_t.kEoln_Unknown } : StreamScanner).readLines (2 * 2) =
        some ((["ab".data, "cd".data].take 2).flatMap (fun l => [String.mk l, ""]), sc)) :=
  ⟨(C22_ReadLine_lines ['\n', '\r'] eoln_t.kEoln_Unknown ["ab".data, [], "cd".data] 2
      (by decide) (by decide)).1 (by decide),
    by decide, by decide, by decide,
    (C22_ReadLine_lines ['\r', '\n'] eoln_t.kEoln_Unknown ["ab".data, "cd".data] 2
      (by decide) (by decide)).2 (by decide)⟩

/-- When the source runs out before a character of the stop set is met, `ReadUntil` ends
on the failed assertion of its last lines, and so does the loop of `ParseHaploidInput`
that calls it for a column. -/
theorem ReadUntil_exhausted (sc : StreamScanner) (iCharSet : List Char)
    (h : ∀ c ∈ sc.mSrc.drop sc.mPosn, c ∉ iCharSet) :
    sc.ReadUntil iCharSet = none ∧
    (iCharSet = ['\t'] → ∀ (n : Nat) (theDataRow : List tAllele),
      haploidCells (n + 1) sc theDataRow = Except.error ParseStop.assertion) := by
  have h1 : sc.ReadUntil iCharSet = none := by
    unfold StreamScanner.ReadUntil
    split
    · rw [readToken_all iCharSet _ h]
    · rfl
  refine ⟨h1, fun hc n theDataRow => ?_⟩
  subst hc
  unfold haploidCells
  rw [h1]

/-- C29: when the source runs out before a character of the stop set is met, `ReadUntil`
signals no error that its caller can catch: it ends on the failed assertion of its last
lines and returns no token, and the loop of `ParseHaploidInput` that calls it for a
column stops on that assertion. On the source "C", which holds no tab, `ReadUntil` up to
a tab ends so, and the load of the file whose second row lacks its tab stops on the
assertion, not on a ParseError. -/
theorem C29_ReadUntil_exhausted :
    (∀ (sc : StreamScanner) (iCharSet : List Char),
      (∀ c ∈ sc.mSrc.drop sc.mPosn, c ∉ iCharSet) →
      sc.ReadUntil iCharSet = none ∧
      (iCharSet = ['\t'] → ∀ (n : Nat) (theDataRow : List tAllele),
        haploidCells (n + 1) sc theDataRow = Except.error ParseStop.assertion)) ∧
    ({ mSrc := "C".data } : StreamScanner).ReadUntil ['\t'] = none ∧
    ({ mSrc := "A\tB\nC".data, mPosn := 4 } : StreamScanner).ReadUntil ['\t'] = none ∧
    ({} : MultiLocusModel).ParseInput "A\tB\nC".data "f" =
      Except.error ParseStop.assertion ∧
    (∀ e, ({} : MultiLocusModel).ParseInput "A\tB\nC".data "f" ≠
      Except.error (ParseStop.thrown e)) ∧
    (({} : MultiLocusModel).ParseInput "A\tB\nC\tD\n".data "f").toOption.map
      (fun m => m.mHaploData) = some [["A", "B"], ["C", "D"]] := by
  refine ⟨ReadUntil_exhausted, rfl, rfl, rfl, fun e h => ?_, by decide⟩
  have h2 : ({} : MultiLocusModel).ParseInput "A\tB\nC".data "f" =
      Except.error ParseStop.assertion := rfl
  rw [h2] at h
  injection h with h3
  exact absurd h3 (by simp)

end MultiLocus
